import Mathlib

/-!
# The p/h-multigrid engine of `gsXBraidMultigrid.h`

A shallow embedding of `gsXBraidMultigridBase` and `gsXBraidMultigrid`
(`src/extensions/gsXBraid/examples/gsXBraidMultigrid.h`).

* The entries of vectors and matrices (`real_t`) are idealised as rationals; a quotient
  by zero has no value.
* The residual norms of the outer iteration, whose comparison decides when the loop
  stops, are values of `Real_t`: a number, an infinity, or not-a-number.
* A `gsMatrix` used as a column vector is a list of scalars; a (sparse or dense)
  matrix carries its two dimensions and its rows.
* An Eigen expression whose dimensions do not fit, an index outside a
  `std::vector` or outside `hp`, and a division by zero yield `none`.
* The collaborators that are not part of the header (bases, assembler,
  expression assembler, coarse solver, external smoother) are the fields of `Env`.
-/

namespace gismo

/-! ## Vectors and matrices -/

/-- Column vector (`gsMatrix<T>` with one column). -/
abbrev Vec := List ℚ

/-- Matrix with explicit dimensions; `val` lists the rows. A default-constructed
matrix is `Mat.empty`. -/
structure Mat where
  rows : Nat
  cols : Nat
  val : List (List ℚ)
deriving DecidableEq

/-- Default-constructed `gsSparseMatrix` (0 x 0). -/
def Mat.empty : Mat := ⟨0, 0, []⟩

/-- Zero vector of the given size (`setZero(n,1)`). -/
def zeros (n : Nat) : Vec := List.replicate n 0

/-- Inner product of two coefficient lists. -/
def dot (a b : Vec) : ℚ := (List.zipWith (· * ·) a b).sum

/-- Entrywise negation. -/
def vneg (x : Vec) : Vec := x.map (fun a => -a)

/-- Vector sum `x + y`; the sizes must agree. -/
def vadd (x y : Vec) : Option Vec :=
  if x.length = y.length then some (List.zipWith (· + ·) x y) else none

/-- Vector difference `x - y`; the sizes must agree. -/
def vsub (x y : Vec) : Option Vec :=
  if x.length = y.length then some (List.zipWith (· - ·) x y) else none

/-- Column `j` of a matrix. -/
def Mat.col (A : Mat) (j : Nat) : Vec := A.val.map (fun r => r.getD j 0)

/-- Matrix transpose (`.transpose()`). -/
def Mat.transpose (A : Mat) : Mat :=
  ⟨A.cols, A.rows, (List.range A.cols).map A.col⟩

/-- Matrix-vector product `A * v`; needs `cols A = size v`. -/
def Mat.mulVec (A : Mat) (v : Vec) : Option Vec :=
  if A.cols = v.length then some (A.val.map (fun r => dot r v)) else none

/-- Matrix-matrix product `A * B`; needs `cols A = rows B`. -/
def Mat.mul (A B : Mat) : Option Mat :=
  if A.cols = B.rows then
    some ⟨A.rows, B.cols, A.val.map (fun r => (List.range B.cols).map (fun j => dot r (B.col j)))⟩
  else none

/-- The lumped-mass scaling `(M.array().inverse()).cwiseProduct(temp)`. -/
def lumpedScale (M temp : Vec) : Option Vec :=
  if M.length = temp.length ∧ (0 : ℚ) ∉ M then
    some (List.zipWith (fun m t => m⁻¹ * t) M temp)
  else none

/-- Application of an Eigen `PermutationMatrix` with index vector `p` to a vector:
entry `i` of `v` is moved to position `p[i]`. -/
def permApply (p : List Nat) (v : Vec) : Option Vec :=
  if p.length = v.length ∧ (∀ k ∈ p, k < v.length) then
    some ((List.zip p v).foldl (fun acc kv => acc.set kv.1 kv.2) (zeros v.length))
  else none

/-- Forward substitution with the strictly lower triangle of `M` and a unit diagonal
(`triangularView<UnitLower>().solve`): rows are consumed top-down, `acc` holds the
entries already computed. -/
def unitLowerRows : List (List ℚ) → Vec → Vec → Vec
  | row :: rows, b :: bs, acc => unitLowerRows rows bs (acc ++ [b - dot (row.take acc.length) acc])
  | _, _, acc => acc

/-- Solve `L y = b` with `L` the unit lower triangle of `M`. -/
def solveUnitLower (M : Mat) (b : Vec) : Option Vec :=
  if M.rows = M.cols ∧ M.cols = b.length ∧ M.val.length = b.length then
    some (unitLowerRows M.val b [])
  else none

/-- Back substitution with the upper triangle of `M` (`triangularView<Upper>().solve`):
rows are consumed bottom-up (the lists are given reversed), `acc` holds the entries
already computed, `i` is the index of the current row. -/
def upperRows : List (List ℚ) → Vec → Nat → Vec → Option Vec
  | row :: rows, b :: bs, i, acc =>
      if row.getD i 0 = 0 then none
      else upperRows rows bs (i - 1) (((b - dot (row.drop (i + 1)) acc) / row.getD i 0) :: acc)
  | _, _, _, acc => some acc

/-- Solve `U x = b` with `U` the upper triangle of `M`. -/
def solveUpper (M : Mat) (b : Vec) : Option Vec :=
  if M.rows = M.cols ∧ M.cols = b.length ∧ M.val.length = b.length then
    upperRows M.val.reverse b.reverse (b.length - 1) []
  else none

/-- Modelled from the spec: the body of `internal::gaussSeidelSweep` is not under src/.
One Gauss-Seidel update of unknown `i`, in residual form. -/
def gsUpdate (A : Mat) (rhs : Vec) (x : Vec) (i : Nat) : Option Vec :=
  match A.val[i]?, rhs[i]?, x[i]? with
  | some row, some bi, some xi =>
      if row.getD i 0 = 0 then none
      else some (x.set i (xi + (bi - dot row x) / row.getD i 0))
  | _, _, _ => none

/-- Modelled from the spec: `internal::gaussSeidelSweep` is not under src/. One forward
sweep of pointwise Gauss-Seidel relaxation on `A x = rhs`, unknowns visited in
increasing order, each using the newest values of the others. -/
def gaussSeidelSweep (A : Mat) (x rhs : Vec) : Option Vec :=
  if A.rows = A.cols ∧ A.cols = x.length ∧ x.length = rhs.length ∧ A.val.length = A.rows then
    (List.range A.rows).foldlM (gsUpdate A rhs) x
  else none

/-- Modelled from the spec: `internal::reverseGaussSeidelSweep` is not under src/. One
sweep of pointwise Gauss-Seidel relaxation with the unknowns visited in decreasing
order. -/
def reverseGaussSeidelSweep (A : Mat) (x rhs : Vec) : Option Vec :=
  if A.rows = A.cols ∧ A.cols = x.length ∧ x.length = rhs.length ∧ A.val.length = A.rows then
    (List.range A.rows).reverse.foldlM (gsUpdate A rhs) x
  else none

/-! ## The schedule matrix `hp` -/

/-- Read `hp(k,0)`; an index outside the rows of `hp` has no value. -/
def hpAt (hp : List ℚ) (k : Int) : Option ℚ :=
  if 0 ≤ k then hp[k.toNat]? else none

/-- The C++ conversion `(int) q`: truncation towards zero. -/
def truncInt (q : ℚ) : Int := Int.tdiv q.num q.den

/-- `std::vector::resize(n)` with default-constructed new elements. -/
def resize {α : Type} (l : List α) (n : Nat) (d : α) : List α :=
  l.take n ++ List.replicate (n - l.length) d

/-! ## Values of type `real_t` -/

/-- A value of the floating-point type `real_t` as far as the outer iteration tells values
apart: a finite number, an infinity, or not-a-number. Finite values are exact rationals:
rounding is not modelled. -/
inductive Real_t where
  | num (q : ℚ)
  | posInf
  | negInf
  | nan
deriving DecidableEq

/-- The quotient `a / b` of two `real_t` values; a zero divisor is taken as `+0`. -/
def Real_t.div : Real_t → Real_t → Real_t
  | Real_t.num a, Real_t.num b =>
      if b = 0 then
        (if 0 < a then Real_t.posInf else if a < 0 then Real_t.negInf else Real_t.nan)
      else Real_t.num (a / b)
  | Real_t.num _, Real_t.posInf => Real_t.num 0
  | Real_t.num _, Real_t.negInf => Real_t.num 0
  | Real_t.posInf, Real_t.num b => if 0 ≤ b then Real_t.posInf else Real_t.negInf
  | Real_t.negInf, Real_t.num b => if 0 ≤ b then Real_t.negInf else Real_t.posInf
  | _, _ => Real_t.nan

/-- The comparison `a < b` of two `real_t` values; it is false whenever one of them is
not-a-number. -/
def Real_t.lt : Real_t → Real_t → Bool
  | Real_t.num a, Real_t.num b => decide (a < b)
  | Real_t.num _, Real_t.posInf => true
  | Real_t.negInf, Real_t.num _ => true
  | Real_t.negInf, Real_t.posInf => true
  | _, _ => false

/-- The comparison `a > b` of two `real_t` values. -/
def Real_t.gt (a b : Real_t) : Bool := Real_t.lt b a

/-- A `real_t` value that a norm can take: not negative. -/
def Real_t.NonNeg : Real_t → Prop
  | Real_t.num q => 0 ≤ q
  | Real_t.negInf => False
  | _ => True

/-! ## Collaborators, options and solver state -/

/-- The collaborators the header calls but does not define. `B` is the type of a
multi-basis, `S` the type of an externally built smoother object. Geometry, boundary
conditions and the Dirichlet strategy are fixed inside the collaborators. -/
structure Env (B S : Type) where
  /-- The call `gsMultiBasis::degreeIncrease(k)`. -/
  degreeIncrease : B → Int → B
  /-- The call `gsMultiBasis::uniformRefine()`. -/
  uniformRefine : B → B
  /-- Transfer matrix written by `uniformCoarsen_withTransfer` on a copy of the basis. -/
  coarsenTransfer : B → Mat
  /-- Result of `Assembler(...).assemble()` followed by `.matrix()` for a basis. -/
  assemble : B → Mat
  /-- Expression-assembler matrix of `u_n * meas(G) * v_n.tr()` with test basis
  `basisL` (first argument) and trial basis `basisH` (second argument). -/
  exprMatrix : B → B → Mat
  /-- Expression-assembler right-hand side of `w_n * meas(G)` for a basis. -/
  exprRhs : B → Vec
  /-- Conjugate-gradient solve with the mass matrix of a basis (non-lumped transfer). -/
  massSolve : B → Vec → Option Vec
  /-- The template argument `CoarseSolver`: `analyzePattern`, `factorize`, `solve`. -/
  coarseSolver : Mat → Vec → Option Vec
  /-- The call `step(rhs, x)` of an external smoother object. -/
  scmsStep : S → Vec → Vec → Option Vec
  /-- The call `setupSubspaceCorrectedMassSmoother(A, basis, bcInfo, opt, typeBCHandling)`. -/
  setupSCMS : Mat → B → S
  /-- An `Eigen::IncompleteLUT` with fill factor 1 after `compute(A)`: its members `m_lu`,
  `m_P` and `m_Pinv` (the permutations as index vectors). -/
  ilut : Mat → Mat × List Nat × List Nat
  /-- The call `m_mp_ptr->nPatches()`. -/
  nPatches : Nat
  /-- The right-hand side `rhs()` of an assembler built on a basis. -/
  rhs : B → Vec
  /-- The vector produced by `gsMatrix<>::Random(n,1)`. -/
  random : Nat → Vec
  /-- The call `.norm()`, with a result of type `real_t`. The Euclidean norm is not a
  rational function of the entries, so its value is supplied; on vectors with one entry it
  is the absolute value. -/
  norm : Vec → Real_t

/-- The integer options passed to `setup` and `solve`. -/
structure Config where
  numSmoothing : Int
  typeSolver : Int
  typeCycle_p : Int
  typeCycle_h : Int
  numDegree : Int
  typeLumping : Int
  typeProjection : Int
  typeSmoother : Int
  typeCoarseOperator : Int

/-- The data members of `gsXBraidMultigrid` that the hierarchy and the cycle use.
`m_assembler` records the basis each assembler object was built on. -/
structure Solver (B S : Type) where
  m_basis : List B
  m_prolongation_P : List Mat
  m_restriction_P : List Mat
  m_prolongation_M : List Vec
  m_restriction_M : List Vec
  m_prolongation_H : List Mat
  m_restriction_H : List Mat
  m_ILUT : List (List Mat)
  m_P : List (List (List Nat))
  m_Pinv : List (List (List Nat))
  m_SCMS : List S
  m_operator : List Mat
  m_A_aprox : List Mat
  m_assembler : List B
  m_ddB : List (List Mat)
  m_ddC : List (List Mat)
  m_ddBtilde : List (List Mat)
  m_ddCtilde : List (List Mat)
  m_S : List Mat
  m_shift : List (List Int)
deriving DecidableEq

/-- The constructor `gsXBraidMultigrid(mp, basis, bcInfo)`: only the base basis is
stored. -/
def gsXBraidMultigrid {B S : Type} (basis : B) : Solver B S :=
  { m_basis := [basis], m_prolongation_P := [], m_restriction_P := [],
    m_prolongation_M := [], m_restriction_M := [], m_prolongation_H := [],
    m_restriction_H := [], m_ILUT := [], m_P := [], m_Pinv := [], m_SCMS := [],
    m_operator := [], m_A_aprox := [], m_assembler := [], m_ddB := [], m_ddC := [],
    m_ddBtilde := [], m_ddCtilde := [], m_S := [], m_shift := [] }

/-! ## `gsXBraidMultigrid::setup`, hierarchy construction (lines 452-570) -/

/-- The `switch((int) hp(i-1,0))` applied to the clone of the last basis: case 0 raises
the degree (by `numDegree-1` if `typeProjection == 1`, else by the default 1), case 1
refines uniformly, case 2 does both, any other value leaves the clone as it is. -/
def basisNext {B S : Type} (env : Env B S) (cfg : Config) (tag : ℚ) (b : B) : B :=
  if truncInt tag = 0 then
    (if cfg.typeProjection = 1 then env.degreeIncrease b (cfg.numDegree - 1)
     else env.degreeIncrease b 1)
  else if truncInt tag = 1 then env.uniformRefine b
  else if truncInt tag = 2 then env.degreeIncrease (env.uniformRefine b) 1
  else b

/-- Body of the loop `for (int i = 1; i < numLevels; i++)` that derives the bases:
clone the last basis, then modify the clone according to `(int) hp(i-1,0)`. -/
def basisStep {B S : Type} (env : Env B S) (cfg : Config) (hp : List ℚ)
    (bs : List B) (i : Nat) : Option (List B) :=
  match bs.getLast?, hpAt hp ((i : Int) - 1) with
  | some b, some tag => some (bs ++ [basisNext env cfg tag b])
  | _, _ => none

/-- Body of the loop over `i` that assembles operators (lines 497-516). -/
def assembleStep {B S : Type} (env : Env B S) (cfg : Config) (hp : List ℚ) (numLevels : Nat)
    (s : Solver B S) (i : Nat) : Option (Solver B S) :=
  if cfg.typeCoarseOperator = 1 then
    match s.m_assembler[i]? with
    | some b =>
        if i < s.m_operator.length then
          some { s with m_operator := s.m_operator.set i (env.assemble b) }
        else none
    | none => none
  else
    match hpAt hp (min (i : Int) ((hp.length : Int) - 1)) with
    | some tag =>
        if tag = 0 ∨ i = numLevels - 1 then
          match s.m_assembler[i]? with
          | some b =>
              if i < s.m_operator.length then
                some { s with m_operator := s.m_operator.set i (env.assemble b) }
              else none
          | none => none
        else some s
    | none => none

/-- The virtual `prolongation_P(numLevels, ...)`: the transposed expression matrix
between `m_basis[numLevels-2]` and `m_basis[numLevels-1]`. -/
def prolongation_P {B S : Type} (env : Env B S) (s : Solver B S) (numLevels : Nat) :
    Option Mat :=
  match s.m_basis[numLevels - 2]?, s.m_basis[numLevels - 1]? with
  | some basisL, some basisH => if 2 ≤ numLevels then some (env.exprMatrix basisL basisH).transpose else none
  | _, _ => none

/-- The virtual `prolongation_M(numLevels, ...)`: lumped mass of the high-order basis. -/
def prolongation_M {B S : Type} (env : Env B S) (s : Solver B S) (numLevels : Nat) :
    Option Vec :=
  match s.m_basis[numLevels - 2]?, s.m_basis[numLevels - 1]? with
  | some _, some basisH => if 2 ≤ numLevels then some (env.exprRhs basisH) else none
  | _, _ => none

/-- The virtual `restriction_M(numLevels, ...)`: lumped mass of the low-order basis. -/
def restriction_M {B S : Type} (env : Env B S) (s : Solver B S) (numLevels : Nat) :
    Option Vec :=
  match s.m_basis[numLevels - 2]?, s.m_basis[numLevels - 1]? with
  | some basisL, some _ => if 2 ≤ numLevels then some (env.exprRhs basisL) else none
  | _, _ => none

/-- Body of the loop that determines the transfer operators in p (lines 521-530). -/
def transferPStep {B S : Type} (env : Env B S) (hp : List ℚ)
    (s : Solver B S) (i : Nat) : Option (Solver B S) :=
  match hpAt hp ((i : Int) - 1) with
  | some tag =>
      if tag = 0 then
        match prolongation_P env s (i + 1), prolongation_M env s (i + 1),
              restriction_M env s (i + 1) with
        | some p, some pm, some rm =>
            if i - 1 < s.m_prolongation_P.length ∧ i - 1 < s.m_restriction_P.length ∧
               i - 1 < s.m_prolongation_M.length ∧ i - 1 < s.m_restriction_M.length then
              some { s with
                m_prolongation_P := s.m_prolongation_P.set (i - 1) p
                m_restriction_P := s.m_restriction_P.set (i - 1) p.transpose
                m_prolongation_M := s.m_prolongation_M.set (i - 1) pm
                m_restriction_M := s.m_restriction_M.set (i - 1) rm }
            else none
        | _, _, _ => none
      else some s
  | none => none

/-- Body of the loop that determines the transfer operators in h (lines 536-545). -/
def transferHStep {B S : Type} (env : Env B S) (hp : List ℚ)
    (s : Solver B S) (i : Nat) : Option (Solver B S) :=
  match hpAt hp ((i : Int) - 1) with
  | some tag =>
      if tag = 1 then
        match s.m_basis[i]? with
        | some b =>
            if i - 1 < s.m_prolongation_H.length ∧ i - 1 < s.m_restriction_H.length then
              some { s with
                m_prolongation_H := s.m_prolongation_H.set (i - 1) (env.coarsenTransfer b)
                m_restriction_H := s.m_restriction_H.set (i - 1) (env.coarsenTransfer b).transpose }
            else none
        | none => none
      else some s
  | none => none

/-- Index `k` of the Galerkin product `m_restriction_H[k]*m_operator[k+1]*m_prolongation_H[k]`
that iteration `i` of the loop at lines 552-568 assigns to `m_operator[k]`, if it
forms one. The outer `none` is an out-of-range read of `hp`. -/
def galerkinTarget (hp : List ℚ) (i : Nat) : Option (Option Nat) :=
  match hpAt hp ((hp.length : Int) - 1), hpAt hp (min (i : Int) ((hp.length : Int) - 1)) with
  | some lastTag, some tag =>
      if lastTag = 0 then
        (if tag = 1 then some (some i) else some none)
      else
        (if tag = 1 ∧ i > 0 then some (some (i - 1)) else some none)
  | _, _ => none

/-- The assignment `m_operator[k] = m_restriction_H[k]*m_operator[k+1]*m_prolongation_H[k]`. -/
def galerkinAssign {B S : Type} (s : Solver B S) (k : Nat) : Option (Solver B S) :=
  match s.m_restriction_H[k]?, s.m_operator[k + 1]?, s.m_prolongation_H[k]? with
  | some r, some a, some p =>
      match r.mul a with
      | some ra =>
          match ra.mul p with
          | some rap =>
              if k < s.m_operator.length then
                some { s with m_operator := s.m_operator.set k rap }
              else none
          | none => none
      | none => none
  | _, _, _ => none

/-- Body of the Galerkin loop `for (int i = numLevels-1; i > -1; i--)`. -/
def galerkinStep {B S : Type} (hp : List ℚ) (s : Solver B S) (i : Nat) :
    Option (Solver B S) :=
  match galerkinTarget hp i with
  | some (some k) => galerkinAssign s k
  | some none => some s
  | none => none

/-- The indices of the Galerkin products formed by `setup`, in execution order. -/
def galerkinPlan (hp : List ℚ) (numLevels : Nat) : Option (List Nat) :=
  ((List.range numLevels).reverse.mapM (galerkinTarget hp)).map (List.filterMap id)

/-- State after the basis loop, the creation of one assembler per basis and the seven
`resize` calls (lines 469-492). -/
def resizeMembers {B S : Type} (s : Solver B S) (numLevels : Nat) (bases : List B) :
    Solver B S :=
  { s with
    m_basis := bases
    m_assembler := s.m_assembler ++ bases
    m_operator := resize s.m_operator numLevels Mat.empty
    m_prolongation_P := resize s.m_prolongation_P (numLevels - 1) Mat.empty
    m_prolongation_M := resize s.m_prolongation_M (numLevels - 1) []
    m_prolongation_H := resize s.m_prolongation_H (numLevels - 1) Mat.empty
    m_restriction_P := resize s.m_restriction_P (numLevels - 1) Mat.empty
    m_restriction_M := resize s.m_restriction_M (numLevels - 1) []
    m_restriction_H := resize s.m_restriction_H (numLevels - 1) Mat.empty }

/-- The hierarchy construction of `gsXBraidMultigrid::setup` (lines 452-570): bases,
assembler objects, resizing, operator assembly, transfer operators in p and in h, and
the Galerkin projection. `numLevels <= 0` fails at `resize(numLevels-1)`. The
smoother-state phases that follow in the source (from line 573) write none of the
members set here. -/
def setup {B S : Type} (env : Env B S) (cfg : Config) (hp : List ℚ) (numLevels : Nat)
    (s : Solver B S) : Option (Solver B S) :=
  match (List.range' 1 (numLevels - 1)).foldlM (basisStep env cfg hp) s.m_basis with
  | some bases =>
      if numLevels = 0 then none
      else
        match (List.range numLevels).foldlM (assembleStep env cfg hp numLevels)
            (resizeMembers s numLevels bases) with
        | some s2 =>
            match (List.range' 1 (numLevels - 1)).foldlM (transferPStep env hp) s2 with
            | some s3 =>
                match (List.range' 1 (numLevels - 1)).foldlM (transferHStep env hp) s3 with
                | some s4 =>
                    if cfg.typeCoarseOperator = 2 then
                      (List.range numLevels).reverse.foldlM (galerkinStep hp) s4
                    else some s4
                | none => none
            | none => none
        | none => none
  | none => none

/-! ## The cycle: `gsXBraidMultigridBase::solve` and the methods it calls -/

/-- Read element `k` of a `std::vector`; an index outside the vector has no value. -/
def stdAt {α : Type} (l : List α) (k : Int) : Option α :=
  if 0 ≤ k then l[k.toNat]? else none

/-- Run a loop body `k` times (`for (int i = 0; i < k; i++)`). -/
def iterM {α : Type} (f : α → Option α) : Nat → α → Option α
  | 0, a => some a
  | k + 1, a => (f a).bind (iterM f k)

/-- The calls of the five virtual methods made during one cycle, in order, each with the
value of `numLevels` it was made at. -/
inductive Event where
  | presmoothing (numLevels : Nat)
  | restriction (numLevels : Nat)
  | solvecoarse
  | prolongation (numLevels : Nat)
  | postsmoothing (numLevels : Nat)
deriving DecidableEq

/-- The method `gsXBraidMultigrid::solvecoarse`: the coarse solver is set up for
`m_operator[0]` and its solution for `rhs` overwrites `x`. -/
def solvecoarse {B S : Type} (env : Env B S) (s : Solver B S) (rhs : Vec) : Option Vec :=
  (stdAt s.m_operator 0).bind (fun A => env.coarseSolver A rhs)

/-- One sweep of the global incomplete-factorization smoother (lines 1009-1015 and
1072-1078). -/
def ilutSweep {B S : Type} (s : Solver B S) (numLevels : Nat) (rhs x : Vec) : Option Vec := do
  let A ← stdAt s.m_operator ((numLevels : Int) - 1)
  let Ax ← A.mulVec x
  let d ← vsub rhs Ax
  let pinv ← (stdAt s.m_Pinv ((numLevels : Int) - 1)).bind (fun l => stdAt l 0)
  let e ← permApply pinv d
  let lu ← (stdAt s.m_ILUT ((numLevels : Int) - 1)).bind (fun l => stdAt l 0)
  let e ← solveUnitLower lu e
  let e ← solveUpper lu e
  let p ← (stdAt s.m_P ((numLevels : Int) - 1)).bind (fun l => stdAt l 0)
  let e ← permApply p e
  vadd x e

/-- One sweep of the block incomplete-factorization smoother (lines 1034-1038 and
1097-1101). -/
def blockSweep {B S : Type} (s : Solver B S) (numLevels : Nat) (rhs x : Vec) : Option Vec := do
  let A ← stdAt s.m_operator ((numLevels : Int) - 1)
  let Ax ← A.mulVec x
  let d ← vsub rhs Ax
  let lu ← stdAt s.m_A_aprox ((numLevels : Int) - 1)
  let e ← solveUnitLower lu d
  let e ← solveUpper lu e
  vadd x e

/-- The Gauss-Seidel call on `m_operator[numLevels-1]`; `reverse` selects
`reverseGaussSeidelSweep`. -/
def gsSweep {B S : Type} (s : Solver B S) (numLevels : Nat) (reverse : Bool) (rhs x : Vec) :
    Option Vec := do
  let A ← stdAt s.m_operator ((numLevels : Int) - 1)
  if reverse then reverseGaussSeidelSweep A x rhs else gaussSeidelSweep A x rhs

/-- The test `hp(numLevels-2,0) == 1 && hp(hp.rows()-1,0) == 0` with short-circuit
evaluation. -/
def gsInsteadOfFactor (hp : List ℚ) (numLevels : Nat) : Option Bool := do
  let t ← hpAt hp ((numLevels : Int) - 2)
  if t = 1 then
    let tl ← hpAt hp ((hp.length : Int) - 1)
    pure (decide (tl = 0))
  else pure false

/-- Body of the smoothing loops of `presmoothing` (`reverse = false`) and
`postsmoothing` (`reverse = (typeSolver == 3)`). The four `if (typeSmoother == ..)`
statements of the source exclude one another and are written as one chain. -/
def smoothSweep {B S : Type} (env : Env B S) (s : Solver B S) (cfg : Config) (hp : List ℚ)
    (numLevels : Nat) (reverse : Bool) (rhs x : Vec) : Option Vec :=
  if cfg.typeSmoother = 1 then do
    let g ← gsInsteadOfFactor hp numLevels
    if g then gsSweep s numLevels reverse rhs x else ilutSweep s numLevels rhs x
  else if cfg.typeSmoother = 2 then gsSweep s numLevels reverse rhs x
  else if cfg.typeSmoother = 3 then do
    let op ← stdAt s.m_SCMS ((numLevels : Int) - 1)
    env.scmsStep op rhs x
  else if cfg.typeSmoother = 5 then do
    let g ← gsInsteadOfFactor hp numLevels
    if g then gsSweep s numLevels reverse rhs x else blockSweep s numLevels rhs x
  else some x

/-- The method `gsXBraidMultigrid::presmoothing`; returns the new `x` and `fineRes`. -/
def presmoothing {B S : Type} (env : Env B S) (s : Solver B S) (cfg : Config) (hp : List ℚ)
    (numLevels : Nat) (rhs x : Vec) : Option (Vec × Vec) := do
  let A ← stdAt s.m_operator ((numLevels : Int) - 1)
  let Ax ← A.mulVec x
  let _ ← vsub rhs Ax
  let x ← iterM (smoothSweep env s cfg hp numLevels false rhs) cfg.numSmoothing.toNat x
  let Ax ← A.mulVec x
  let fineRes ← vsub Ax rhs
  pure (x, fineRes)

/-- Body of the loop of `postsmoothing`: one sweep, then `postRes = rhs - A*x`. -/
def postSweep {B S : Type} (env : Env B S) (s : Solver B S) (cfg : Config) (hp : List ℚ)
    (numLevels : Nat) (rhs x : Vec) : Option Vec := do
  let x ← smoothSweep env s cfg hp numLevels (decide (cfg.typeSolver = 3)) rhs x
  let A ← stdAt s.m_operator ((numLevels : Int) - 1)
  let Ax ← A.mulVec x
  let _ ← vsub rhs Ax
  pure x

/-- The method `gsXBraidMultigrid::postsmoothing`; returns the new `x`. -/
def postsmoothing {B S : Type} (env : Env B S) (s : Solver B S) (cfg : Config) (hp : List ℚ)
    (numLevels : Nat) (rhs x fineCorr : Vec) : Option Vec := do
  let x ← vsub x (fineCorr.map (fun c => 1 * c))
  let A ← stdAt s.m_operator ((numLevels : Int) - 1)
  let Ax ← A.mulVec x
  let _ ← vsub rhs Ax
  iterM (postSweep env s cfg hp numLevels rhs) cfg.numSmoothing.toNat x

/-- The method `gsXBraidMultigridBase::prolongation`. -/
def prolongation {B S : Type} (env : Env B S) (s : Solver B S) (cfg : Config) (hp : List ℚ)
    (numLevels : Nat) (Xcoarse : Vec) : Option Vec := do
  let t ← hpAt hp ((numLevels : Int) - 2)
  if t = 1 then
    let p ← stdAt s.m_prolongation_H ((numLevels : Int) - 2)
    p.mulVec Xcoarse
  else if cfg.typeLumping = 1 then
    let p ← stdAt s.m_prolongation_P ((numLevels : Int) - 2)
    let temp ← p.mulVec Xcoarse
    let m ← stdAt s.m_prolongation_M ((numLevels : Int) - 2)
    lumpedScale m temp
  else
    let _ ← stdAt s.m_basis ((numLevels : Int) - 2)
    let basisH ← stdAt s.m_basis ((numLevels : Int) - 1)
    let p ← stdAt s.m_prolongation_P ((numLevels : Int) - 2)
    let temp ← p.mulVec Xcoarse
    env.massSolve basisH temp

/-- The method `gsXBraidMultigridBase::restriction`. -/
def restriction {B S : Type} (env : Env B S) (s : Solver B S) (cfg : Config) (hp : List ℚ)
    (numLevels : Nat) (Xfine : Vec) : Option Vec := do
  let t ← hpAt hp ((numLevels : Int) - 2)
  if t = 1 then
    let r ← stdAt s.m_restriction_H ((numLevels : Int) - 2)
    r.mulVec Xfine
  else if cfg.typeLumping = 1 then
    let r ← stdAt s.m_restriction_P ((numLevels : Int) - 2)
    let temp ← r.mulVec Xfine
    let m ← stdAt s.m_restriction_M ((numLevels : Int) - 2)
    lumpedScale m temp
  else
    let basisL ← stdAt s.m_basis ((numLevels : Int) - 2)
    let _ ← stdAt s.m_basis ((numLevels : Int) - 1)
    let r ← stdAt s.m_restriction_P ((numLevels : Int) - 2)
    let temp ← r.mulVec Xfine
    env.massSolve basisL temp

/-- The loop `for (j = 0; j < mult; j++) solve(coarseRes, ..., coarseCorr, numLevels-1, ...)`
with `f` the recursive call on the fixed `coarseRes`: `coarseCorr` is threaded through
and the calls made are appended. -/
def repeatCycle (f : Vec → Option (Vec × List Event)) : Nat → Vec → Option (Vec × List Event)
  | 0, c => some (c, [])
  | k + 1, c => (f c).bind (fun r => (repeatCycle f k r.1).map (fun r2 => (r2.1, r.2 ++ r2.2)))

/-- The block guarded by `hp(std::max(numLevels-2,0),0) == 0` (`mult` from `typeCycle_p`)
and, with the same text, by `== 1` (`mult` from `typeCycle_h`); `rec` is the recursive
`solve` at `numLevels-1`. -/
def cycleBlock {B S : Type} (env : Env B S) (s : Solver B S) (cfg : Config) (hp : List ℚ)
    (numLevels : Nat) (mult : Nat) (rec : Vec → Vec → Option (Vec × List Event))
    (rhs x : Vec) : Option (Vec × List Event) := do
  let pre ← presmoothing env s cfg hp numLevels rhs x
  let coarseRes ← restriction env s cfg hp numLevels pre.2
  let r ← repeatCycle (rec coarseRes) mult (zeros coarseRes.length)
  let fineCorr ← prolongation env s cfg hp numLevels r.1
  let x ← postsmoothing env s cfg hp numLevels rhs pre.1 fineCorr
  pure (x, [Event.presmoothing numLevels, Event.restriction numLevels] ++ r.2 ++
            [Event.prolongation numLevels, Event.postsmoothing numLevels])

/-- The method `gsXBraidMultigridBase::solve`: returns the new `x` and the calls made.
For `numLevels = 0` the source reads `hp(0,0)`; a tag 0 or 1 then leads to
`m_operator[-1]`. -/
def gsXBraidMultigridBase.solve {B S : Type} (env : Env B S) (s : Solver B S) (cfg : Config)
    (hp : List ℚ) : Nat → Vec → Vec → Option (Vec × List Event)
  | 0, _, x => (hpAt hp 0).bind (fun tag => if tag = 0 ∨ tag = 1 then none else some (x, []))
  | 1, rhs, _ => (solvecoarse env s rhs).map (fun y => (y, [Event.solvecoarse]))
  | n + 2, rhs, x =>
      (hpAt hp (max (((n + 2 : Nat) : Int) - 2) 0)).bind (fun tag =>
        (if tag = 0 then
            cycleBlock env s cfg hp (n + 2) (if cfg.typeCycle_p = 2 then 2 else 1)
              (gsXBraidMultigridBase.solve env s cfg hp (n + 1)) rhs x
          else some (x, [])).bind (fun r1 =>
        (if tag = 1 then
            cycleBlock env s cfg hp (n + 2) (if cfg.typeCycle_h = 2 then 2 else 1)
              (gsXBraidMultigridBase.solve env s cfg hp (n + 1)) rhs r1.1
          else some (r1.1, [])).map (fun r2 => (r2.1, r1.2 ++ r2.2))))

/-! ## Quantities the statements below refer to -/

/-- Number of `solvecoarse` calls among the calls of a cycle. -/
def coarseCount (log : List Event) : Nat := log.count Event.solvecoarse

/-- The multiplicity `m(l)` of the level-`l` descent: 2 if the tag `hp(l-2)` is 0 and
`typeCycle_p` is 2, or the tag is 1 and `typeCycle_h` is 2, and 1 otherwise. -/
def cycleMult (cfg : Config) (hp : List ℚ) (l : Nat) : Nat :=
  if (hp[l - 2]? = some 0 ∧ cfg.typeCycle_p = 2) ∨ (hp[l - 2]? = some 1 ∧ cfg.typeCycle_h = 2)
  then 2 else 1

/-! ## Concrete data used to instantiate the statements -/

/-- The 1 x 1 identity matrix. -/
def unitMat : Mat := ⟨1, 1, [[1]]⟩

/-- Collaborators of a one-unknown model problem: every operator is the identity. -/
def unitEnv : Env Nat Unit :=
  { degreeIncrease := fun b k => b + k.toNat
    uniformRefine := fun b => b + 1
    coarsenTransfer := fun _ => unitMat
    assemble := fun _ => unitMat
    exprMatrix := fun _ _ => unitMat
    exprRhs := fun _ => [1]
    massSolve := fun _ v => some v
    coarseSolver := fun _ b => some b
    scmsStep := fun _ _ x => some x
    setupSCMS := fun _ _ => ()
    ilut := fun A => (A, List.range A.rows, List.range A.rows)
    nPatches := 1
    rhs := fun _ => [1]
    random := fun n => List.replicate n 1
    norm := fun v => Real_t.num (v.map (fun a => |a|)).sum }

/-- A three-level hierarchy of the one-unknown model problem. -/
def unitSolver : Solver Nat Unit :=
  { m_basis := [0, 1, 2], m_prolongation_P := [unitMat, unitMat],
    m_restriction_P := [unitMat, unitMat], m_prolongation_M := [[1], [1]],
    m_restriction_M := [[1], [1]], m_prolongation_H := [unitMat, unitMat],
    m_restriction_H := [unitMat, unitMat], m_ILUT := [], m_P := [], m_Pinv := [], m_SCMS := [],
    m_operator := [unitMat, unitMat, unitMat], m_A_aprox := [], m_assembler := [0, 1, 2],
    m_ddB := [], m_ddC := [], m_ddBtilde := [], m_ddCtilde := [], m_S := [], m_shift := [] }

/-- Gauss-Seidel smoothing, one sweep, W-cycle in p and V-cycle in h. -/
def unitConfig : Config :=
  { numSmoothing := 1, typeSolver := 1, typeCycle_p := 2, typeCycle_h := 1, numDegree := 2,
    typeLumping := 1, typeProjection := 2, typeSmoother := 2, typeCoarseOperator := 1 }

/-- Collaborators of a two-level model problem whose coarse operator is the 1 x 1 matrix
`(2)`: the coarse solver halves the right-hand side. -/
def twoLevelEnv : Env Nat Unit :=
  { degreeIncrease := fun b k => b + k.toNat
    uniformRefine := fun b => 2 * b
    coarsenTransfer := fun _ => ⟨2, 1, [[1], [1]]⟩
    assemble := fun _ => ⟨2, 2, [[2, -1], [-1, 2]]⟩
    exprMatrix := fun _ _ => ⟨1, 2, [[1 / 2, 1 / 2]]⟩
    exprRhs := fun b => List.replicate b (1 / 2)
    massSolve := fun _ v => some v
    coarseSolver := fun _ b => some (b.map (fun c => c / 2))
    scmsStep := fun _ _ x => some x
    setupSCMS := fun _ _ => ()
    ilut := fun A => (A, List.range A.rows, List.range A.rows)
    nPatches := 1
    rhs := fun _ => [1, 1]
    random := fun n => List.replicate n 1
    norm := fun v => Real_t.num (v.map (fun a => |a|)).sum }

/-- A two-level hierarchy with an H-COARSEN transition: fine operator `tridiag(-1,2,-1)` of
size 2, coarse operator `(2)`, prolongation `(1,1)^T` and its transpose as restriction. -/
def twoLevelSolver : Solver Nat Unit :=
  { m_basis := [1, 2], m_prolongation_P := [Mat.empty], m_restriction_P := [Mat.empty],
    m_prolongation_M := [[]], m_restriction_M := [[]],
    m_prolongation_H := [⟨2, 1, [[1], [1]]⟩], m_restriction_H := [⟨1, 2, [[1, 1]]⟩],
    m_ILUT := [], m_P := [], m_Pinv := [], m_SCMS := [],
    m_operator := [⟨1, 1, [[2]]⟩, ⟨2, 2, [[2, -1], [-1, 2]]⟩], m_A_aprox := [],
    m_assembler := [1, 2], m_ddB := [], m_ddC := [], m_ddBtilde := [], m_ddCtilde := [],
    m_S := [], m_shift := [] }

/-- No smoothing sweeps, Gauss-Seidel selected, V-cycles. -/
def noSmoothingConfig : Config :=
  { numSmoothing := 0, typeSolver := 1, typeCycle_p := 1, typeCycle_h := 1, numDegree := 2,
    typeLumping := 1, typeProjection := 2, typeSmoother := 2, typeCoarseOperator := 1 }

/-- Square matrix of size `n` with `n` stored rows. -/
def Mat.SquareOf (M : Mat) (n : Nat) : Prop :=
  M.rows = n ∧ M.cols = n ∧ M.val.length = n

/-- Every diagonal entry is nonzero, so that it can be divided by. -/
def Mat.DiagNonzero (M : Mat) : Prop :=
  ∀ (i : Nat) (h : i < M.val.length), (M.val[i]).getD i 0 ≠ 0

/-- Index vector of a permutation matrix of size `n`: `n` indices below `n`. -/
def PermOn (p : List Nat) (n : Nat) : Prop :=
  p.length = n ∧ ∀ k ∈ p, k < n

/-- The state the selected smoother reads at level `numLevels` is present and fits the
operator `A` of size `n`: Gauss-Seidel needs a nonzero diagonal of `A`; the
factorization smoothers need their factor (and permutations) of size `n` with nonzero
pivots, and a readable schedule for the choice between factor and Gauss-Seidel. -/
def SmootherReady {B S : Type} (s : Solver B S) (cfg : Config) (hp : List ℚ)
    (numLevels : Nat) (A : Mat) (n : Nat) : Prop :=
  A.SquareOf n ∧
  (cfg.typeSmoother = 2 → A.DiagNonzero) ∧
  (cfg.typeSmoother = 1 → ∃ g, gsInsteadOfFactor hp numLevels = some g ∧
      (g = true → A.DiagNonzero) ∧
      (g = false → ∃ lu p pinv,
        (stdAt s.m_ILUT ((numLevels : Int) - 1)).bind (fun l => stdAt l 0) = some lu ∧
        (stdAt s.m_P ((numLevels : Int) - 1)).bind (fun l => stdAt l 0) = some p ∧
        (stdAt s.m_Pinv ((numLevels : Int) - 1)).bind (fun l => stdAt l 0) = some pinv ∧
        lu.SquareOf n ∧ lu.DiagNonzero ∧ PermOn p n ∧ PermOn pinv n)) ∧
  (cfg.typeSmoother = 5 → ∃ g, gsInsteadOfFactor hp numLevels = some g ∧
      (g = true → A.DiagNonzero) ∧
      (g = false → ∃ lu, stdAt s.m_A_aprox ((numLevels : Int) - 1) = some lu ∧
        lu.SquareOf n ∧ lu.DiagNonzero))
/-- A two-level hierarchy with a P-COARSEN transition whose fine level carries the exact
LU factors of `tridiag(-1,2,-1)` (stored in one matrix, unit lower part below the
diagonal) with identity permutations. -/
def factorSolver : Solver Nat Unit :=
  { m_basis := [1, 2], m_prolongation_P := [⟨2, 1, [[1 / 2], [1 / 2]]⟩],
    m_restriction_P := [⟨1, 2, [[1 / 2, 1 / 2]]⟩],
    m_prolongation_M := [[1 / 2, 1 / 2]], m_restriction_M := [[1]],
    m_prolongation_H := [Mat.empty], m_restriction_H := [Mat.empty],
    m_ILUT := [[Mat.empty], [⟨2, 2, [[2, -1], [-1 / 2, 3 / 2]]⟩]],
    m_P := [[[]], [[0, 1]]], m_Pinv := [[[]], [[0, 1]]], m_SCMS := [],
    m_operator := [⟨1, 1, [[2]]⟩, ⟨2, 2, [[2, -1], [-1, 2]]⟩], m_A_aprox := [],
    m_assembler := [1, 2], m_ddB := [], m_ddC := [], m_ddBtilde := [], m_ddCtilde := [],
    m_S := [], m_shift := [] }

/-- Incomplete-factorization smoothing, two sweeps, V-cycles. -/
def factorConfig : Config :=
  { numSmoothing := 2, typeSolver := 1, typeCycle_p := 1, typeCycle_h := 1, numDegree := 2,
    typeLumping := 1, typeProjection := 2, typeSmoother := 1, typeCoarseOperator := 1 }

/-- Coefficient `(i, j)` of a matrix (`0` where nothing is stored). -/
def Mat.entry (A : Mat) (i j : Nat) : ℚ := (A.val.getD i []).getD j 0

/-- Level `k+1` carries the h-transfer pair of its basis: the prolongation is the transfer
matrix of the basis and the restriction is its transpose. -/
def HLevel {B S : Type} (env : Env B S) (s : Solver B S) (k : Nat) : Prop :=
  ∃ b, s.m_basis[k + 1]? = some b ∧
    s.m_prolongation_H[k]? = some (env.coarsenTransfer b) ∧
    s.m_restriction_H[k]? = some (env.coarsenTransfer b).transpose

/-- Level `k+1` carries the p-transfer data of the bases `k` and `k+1`. -/
def PLevel {B S : Type} (env : Env B S) (s : Solver B S) (k : Nat) : Prop :=
  ∃ bL bH, s.m_basis[k]? = some bL ∧ s.m_basis[k + 1]? = some bH ∧
    s.m_prolongation_P[k]? = some (env.exprMatrix bL bH).transpose ∧
    s.m_restriction_P[k]? = some (env.exprMatrix bL bH).transpose.transpose ∧
    s.m_prolongation_M[k]? = some (env.exprRhs bH) ∧
    s.m_restriction_M[k]? = some (env.exprRhs bL)

/-- The operator of level `i` is the matrix assembled on the basis of assembler `i`. -/
def Assembled {B S : Type} (env : Env B S) (s : Solver B S) (i : Nat) : Prop :=
  ∃ b, s.m_assembler[i]? = some b ∧ s.m_operator[i]? = some (env.assemble b)

/-- Number of unknowns of a model basis `(degree, refinements)`: a spline space of the
given degree on `2^refinements` elements. -/
def gridSize (b : Nat × Nat) : Nat := 2 ^ b.2 + b.1

/-- Collaborators of a model problem whose bases are pairs `(degree, refinements)`:
degree elevation and refinement act on their own component, every assembled or
transfer matrix has the dimensions of the bases involved, and the lumped masses of a
basis are equal and sum to one. -/
def gridEnv : Env (Nat × Nat) Unit :=
  { degreeIncrease := fun b k => (b.1 + k.toNat, b.2)
    uniformRefine := fun b => (b.1, b.2 + 1)
    coarsenTransfer := fun b =>
      ⟨gridSize b, gridSize (b.1, b.2 - 1),
        List.replicate (gridSize b) (List.replicate (gridSize (b.1, b.2 - 1)) 1)⟩
    assemble := fun b =>
      ⟨gridSize b, gridSize b,
        (List.range (gridSize b)).map (fun i =>
          (List.range (gridSize b)).map (fun j => if i = j then 2 else 0))⟩
    exprMatrix := fun bL bH =>
      ⟨gridSize bL, gridSize bH,
        List.replicate (gridSize bL) (List.replicate (gridSize bH)
          (1 / ((gridSize bL : ℚ) * (gridSize bH : ℚ))))⟩
    exprRhs := fun b => List.replicate (gridSize b) (1 / (gridSize b : ℚ))
    massSolve := fun _ v => some v
    coarseSolver := fun _ b => some (b.map (fun c => c / 2))
    scmsStep := fun _ _ x => some x
    setupSCMS := fun _ _ => ()
    ilut := fun A => (A, List.range A.rows, List.range A.rows)
    nPatches := 1
    rhs := fun b => List.replicate (gridSize b) 1
    random := fun n => List.replicate n 1
    norm := fun v => Real_t.num (v.map (fun a => |a|)).sum }

/-- Direct assembly at every level, lumped p-transfer, Gauss-Seidel smoothing. -/
def directConfig : Config :=
  { numSmoothing := 1, typeSolver := 1, typeCycle_p := 1, typeCycle_h := 1, numDegree := 2,
    typeLumping := 1, typeProjection := 2, typeSmoother := 2, typeCoarseOperator := 1 }

/-- Galerkin coarse operators, lumped p-transfer, Gauss-Seidel smoothing. -/
def galerkinConfig : Config :=
  { numSmoothing := 1, typeSolver := 1, typeCycle_p := 1, typeCycle_h := 1, numDegree := 2,
    typeLumping := 1, typeProjection := 2, typeSmoother := 2, typeCoarseOperator := 2 }

/-- Unit vector `e_j` of size `n`. -/
def unitVec (n j : Nat) : Vec := (List.range n).map (fun k => if k = j then 1 else 0)

/-- Coefficient `(i, j)` of the linear map `f` on vectors of size `n`: entry `i` of the
image of `e_j`. -/
def opEntry (f : Vec → Option Vec) (n i j : Nat) : Option ℚ :=
  (f (unitVec n j)).bind (fun v => v[i]?)

/-- The map `restr` from size `nFine` to size `nCoarse` is the exact transpose of the map
`prol` from size `nCoarse` to size `nFine`: coefficient `(i, j)` of the one is
coefficient `(j, i)` of the other. -/
def TransferTransposed (restr prol : Vec → Option Vec) (nFine nCoarse : Nat) : Prop :=
  ∀ i, i < nCoarse → ∀ j, j < nFine → opEntry restr nFine i j = opEntry prol nCoarse j i

/-- The operator of level `j` is square of the size of basis `j`. -/
def OperatorSized {B S : Type} (s : Solver B S) (size : B → Nat) (j : Nat) : Prop :=
  ∃ b A, s.m_basis[j]? = some b ∧ s.m_operator[j]? = some A ∧
    A.rows = size b ∧ A.cols = size b

/-- What the Galerkin loop relies on in a state `g` reached after the transfer loops, for
`numLevels = N` and a schedule of exactly `N - 1` tags 0 or 1: an H tag at `k` comes with
a populated h-transfer pair whose coarse dimension is the size of basis `k`, a P tag at
`k` leaves `m_restriction_H[k]` default-constructed, and every basis has an unknown. -/
def GalerkinReady {B S : Type} (hp : List ℚ) (size : B → Nat) (N : Nat) (g : Solver B S) :
    Prop :=
  2 ≤ N ∧ hp.length = N - 1 ∧
  (∀ k, k < N - 1 → hp[k]? = some 0 ∨ hp[k]? = some 1) ∧
  (∀ k, k < N - 1 → hp[k]? = some 1 → ∃ b T, g.m_basis[k]? = some b ∧
      g.m_prolongation_H[k]? = some T ∧ g.m_restriction_H[k]? = some T.transpose ∧
      T.cols = size b) ∧
  (∀ k, k < N - 1 → hp[k]? = some 0 → g.m_restriction_H[k]? = some Mat.empty) ∧
  (∀ (j : Nat) (b : B), g.m_basis[j]? = some b → 0 < size b)

/-! ## `gsXBraidMultigrid::setup`, smoother state (lines 573-744) -/

/-- The zero matrix `gsSparseMatrix<>(r, c)`. -/
def Mat.zero (r c : Nat) : Mat := ⟨r, c, List.replicate r (List.replicate c 0)⟩

/-- The expression `A.block(r, c, nr, nc)`: the block has to lie inside the matrix. -/
def Mat.block (A : Mat) (r c nr nc : Int) : Option Mat :=
  if 0 ≤ r ∧ 0 ≤ c ∧ 0 ≤ nr ∧ 0 ≤ nc ∧ r + nr ≤ A.rows ∧ c + nc ≤ A.cols then
    some ⟨nr.toNat, nc.toNat,
      (List.range nr.toNat).map (fun i =>
        (List.range nc.toNat).map (fun j => A.entry (r.toNat + i) (c.toNat + j)))⟩
  else none

/-- The assignment `M.block(r, c, nr, nc) = X`: the block has to lie inside `M` and `X`
has to have the dimensions of the block. -/
def Mat.setBlock (M : Mat) (r c nr nc : Int) (X : Mat) : Option Mat :=
  if 0 ≤ r ∧ 0 ≤ c ∧ 0 ≤ nr ∧ 0 ≤ nc ∧ r + nr ≤ M.rows ∧ c + nc ≤ M.cols ∧
      X.rows = nr.toNat ∧ X.cols = nc.toNat then
    some ⟨M.rows, M.cols,
      (List.range M.rows).map (fun i =>
        (List.range M.cols).map (fun j =>
          if r.toNat ≤ i ∧ i < r.toNat + nr.toNat ∧ c.toNat ≤ j ∧ j < c.toNat + nc.toNat then
            X.entry (i - r.toNat) (j - c.toNat)
          else M.entry i j))⟩
  else none

/-- The assignment `M.col(k) = v`. -/
def Mat.setCol (M : Mat) (k : Nat) (v : Vec) : Option Mat :=
  if k < M.cols ∧ v.length = M.rows then
    some ⟨M.rows, M.cols,
      (List.range M.rows).map (fun i =>
        (List.range M.cols).map (fun j => if j = k then v.getD i 0 else M.entry i j))⟩
  else none

/-- The column `M.col(k)` as a vector of `M.rows` entries. -/
def Mat.colAt (M : Mat) (k : Nat) : Option Vec :=
  if k < M.cols then some ((List.range M.rows).map (fun i => M.entry i k)) else none

/-- Matrix difference `A - B`; the dimensions must agree. -/
def Mat.sub (A B : Mat) : Option Mat :=
  if A.rows = B.rows ∧ A.cols = B.cols then
    some ⟨A.rows, A.cols,
      (List.range A.rows).map (fun i =>
        (List.range A.cols).map (fun j => A.entry i j - B.entry i j))⟩
  else none

/-- Forward substitution with a lower triangle whose diagonal is divided by: rows are
consumed top-down, `acc` holds the entries already computed. -/
def lowerRows : List (List ℚ) → Vec → Vec → Option Vec
  | row :: rows, b :: bs, acc =>
      if row.getD acc.length 0 = 0 then none
      else lowerRows rows bs
        (acc ++ [(b - dot (row.take acc.length) acc) / row.getD acc.length 0])
  | _, _, acc => some acc

/-- Solve `U^T y = b` with `U` the upper triangle of `M`
(`triangularView<Upper>().transpose().solve`). -/
def solveUpperTransposed (M : Mat) (b : Vec) : Option Vec :=
  if M.rows = M.cols ∧ M.cols = b.length ∧ M.val.length = b.length then
    lowerRows M.transpose.val b []
  else none

/-- The block at lines 575-585: with `typeSmoother == 3`, `m_SCMS` is resized to
`numLevels` and every entry is assigned the smoother object built from the operator
and the basis of its level. -/
def setupSCMSPhase {B S : Type} (env : Env B S) (cfg : Config) (numLevels : Nat)
    (s : Solver B S) : Option (Solver B S) :=
  if cfg.typeSmoother = 3 then
    ((List.range numLevels).mapM (fun i =>
      match s.m_operator[i]?, s.m_basis[i]? with
      | some A, some b => some (env.setupSCMS A b)
      | _, _ => none)).map (fun l => { s with m_SCMS := l })
  else some s

/-- The statements `ilu.compute(m_operator[i]); m_ILUT[i][0] = ilu.m_lu;
m_P[i][0] = ilu.m_P; m_Pinv[i][0] = ilu.m_Pinv` (lines 605-610 and 616-621). -/
def ilutCompute {B S : Type} (env : Env B S) (s : Solver B S) (i : Nat) :
    Option (Solver B S) :=
  match s.m_operator[i]?, s.m_ILUT[i]?, s.m_P[i]?, s.m_Pinv[i]? with
  | some A, some l, some p, some q =>
      if 0 < l.length ∧ 0 < p.length ∧ 0 < q.length then
        some { s with
          m_ILUT := s.m_ILUT.set i (l.set 0 (env.ilut A).1)
          m_P := s.m_P.set i (p.set 0 (env.ilut A).2.1)
          m_Pinv := s.m_Pinv.set i (q.set 0 (env.ilut A).2.2) }
      else none
  | _, _, _, _ => none

/-- Body of the loop at lines 598-624: the three inner vectors of level `i` are resized to
one entry; the factorization is computed if `typeProjection == 2`, and otherwise only if
`i == numLevels-1`. -/
def ilutStep {B S : Type} (env : Env B S) (cfg : Config) (numLevels : Nat)
    (s : Solver B S) (i : Nat) : Option (Solver B S) :=
  match s.m_ILUT[i]?, s.m_P[i]?, s.m_Pinv[i]? with
  | some l, some p, some q =>
      if cfg.typeProjection = 2 then
        ilutCompute env { s with
          m_ILUT := s.m_ILUT.set i (resize l 1 Mat.empty)
          m_P := s.m_P.set i (resize p 1 [])
          m_Pinv := s.m_Pinv.set i (resize q 1 []) } i
      else if (i : Int) = (numLevels : Int) - 1 then
        ilutCompute env { s with
          m_ILUT := s.m_ILUT.set i (resize l 1 Mat.empty)
          m_P := s.m_P.set i (resize p 1 [])
          m_Pinv := s.m_Pinv.set i (resize q 1 []) } i
      else
        some { s with
          m_ILUT := s.m_ILUT.set i (resize l 1 Mat.empty)
          m_P := s.m_P.set i (resize p 1 [])
          m_Pinv := s.m_Pinv.set i (resize q 1 []) }
  | _, _, _ => none

/-- The block at lines 592-625: with `typeSmoother == 1` the three outer vectors are
resized to `numLevels` and the loop over the levels runs. -/
def setupILUTPhase {B S : Type} (env : Env B S) (cfg : Config) (numLevels : Nat)
    (s : Solver B S) : Option (Solver B S) :=
  if cfg.typeSmoother = 1 then
    (List.range numLevels).foldlM (ilutStep env cfg numLevels)
      { s with
        m_ILUT := resize s.m_ILUT numLevels []
        m_P := resize s.m_P numLevels []
        m_Pinv := resize s.m_Pinv numLevels [] }
  else some s

/-- The extents `m_shift[i]` of level `i` (lines 644-660): entry `l < numPatch` is
`global_interior[l].rows()`, the last entry is what these leave of the rows of the
operator. `global_interior` lists the row counts of the matrices held by the local
vector of that name; a read outside of it has no value. -/
def blockShift (numPatch : Nat) (global_interior : List Nat) (rows : Nat) :
    Option (List Int) :=
  ((List.range numPatch).mapM (fun l => global_interior[l]?)).map
    (fun g => g.map (fun n => (n : Int)) ++ [(rows : Int) - (g.map (fun n => (n : Int))).sum])

/-- Value of the running offset `shift0` when the loop index is `j`: the sum of the
extents before `j`. -/
def shiftOffset (shift : List Int) (j : Nat) : Int := (shift.take j).sum

/-- The loop at lines 664-676: the incomplete factorization of the diagonal block of
each patch. -/
def patchFactors {B S : Type} (env : Env B S) (A : Mat) (shift : List Int) (numPatch : Nat) :
    Option (List (Mat × List Nat × List Nat)) :=
  (List.range numPatch).mapM (fun j =>
    match shift[j]? with
    | some sj => (A.block (shiftOffset shift j) (shiftOffset shift j) sj sj).map env.ilut
    | none => none)

/-- The blocks `m_ddB[i][j]` of the loop at lines 683-688: interface rows, columns of
patch `j`. -/
def couplingB (A : Mat) (shift : List Int) (numPatch : Nat) : Option (List Mat) :=
  (List.range (numPatch + 1)).mapM (fun j =>
    match shift[numPatch]?, shift[j]? with
    | some last, some sj => A.block ((A.rows : Int) - last) (shiftOffset shift j) last sj
    | _, _ => none)

/-- The blocks `m_ddC[i][j]` of the loop at lines 683-688: rows of patch `j`, interface
columns. -/
def couplingC (A : Mat) (shift : List Int) (numPatch : Nat) : Option (List Mat) :=
  (List.range (numPatch + 1)).mapM (fun j =>
    match shift[numPatch]?, shift[j]? with
    | some last, some sj => A.block (shiftOffset shift j) ((A.cols : Int) - last) sj last
    | _, _ => none)

/-- Body of the first loop over the levels for `typeSmoother == 5` (lines 642-690). -/
def blockStep1 {B S : Type} (env : Env B S) (global_interior : List Nat)
    (s : Solver B S) (i : Nat) : Option (Solver B S) :=
  match s.m_operator[i]?, s.m_shift[i]?, s.m_ILUT[i]?, s.m_P[i]?, s.m_Pinv[i]?,
        s.m_ddB[i]?, s.m_ddC[i]? with
  | some A, some _, some l, some p, some q, some _, some _ =>
      match blockShift env.nPatches global_interior A.rows with
      | some shift =>
          match patchFactors env A shift env.nPatches, couplingB A shift env.nPatches,
                couplingC A shift env.nPatches with
          | some fac, some ddB, some ddC =>
              some { s with
                m_shift := s.m_shift.set i shift
                m_ILUT := s.m_ILUT.set i
                  (fac.map (fun f => f.1) ++ (resize l (env.nPatches + 1) Mat.empty).drop env.nPatches)
                m_P := s.m_P.set i
                  (fac.map (fun f => f.2.1) ++ (resize p (env.nPatches + 1) []).drop env.nPatches)
                m_Pinv := s.m_Pinv.set i
                  (fac.map (fun f => f.2.2) ++ (resize q (env.nPatches + 1) []).drop env.nPatches)
                m_ddB := s.m_ddB.set i ddB
                m_ddC := s.m_ddC.set i ddC }
          | _, _, _ => none
      | none => none
  | _, _, _, _, _, _, _ => none

/-- The loop at lines 699-703: the factor of patch `k` is written to diagonal block `k`
of `m_A_aprox[i]`. -/
def placeFactors (shift : List Int) (lus : List Mat) (numPatch : Nat) (M : Mat) : Option Mat :=
  (List.range numPatch).foldlM (fun acc k =>
    match shift[k]?, lus[k]? with
    | some sk, some lu => acc.setBlock (shiftOffset shift k) (shiftOffset shift k) sk sk lu
    | _, _ => none) M

/-- The loop over `k` at lines 712-718 for the matrix `m_ddBtilde[i][j]`: column `k` is the
solution of `U^T y = Brhs` with `Brhs = m_ddC[i][j].col(k)`. -/
def tildeB (lu ddC : Mat) (sj last : Int) : Option Mat :=
  if 0 ≤ sj ∧ 0 ≤ last then
    (List.range last.toNat).foldlM (fun acc k =>
      match ddC.colAt k with
      | some Brhs => (solveUpperTransposed lu Brhs).bind (acc.setCol k)
      | none => none) (Mat.zero sj.toNat last.toNat)
  else none

/-- The loop over `k` at lines 712-718 for the matrix `m_ddCtilde[i][j]`: column `k` is the
solution of `L y = Crhs` with `Crhs = m_ddC[i][j].col(k)`. -/
def tildeC (lu ddC : Mat) (sj last : Int) : Option Mat :=
  if 0 ≤ sj ∧ 0 ≤ last then
    (List.range last.toNat).foldlM (fun acc k =>
      match ddC.colAt k with
      | some Crhs => (solveUnitLower lu Crhs).bind (acc.setCol k)
      | none => none) (Mat.zero sj.toNat last.toNat)
  else none

/-- The loop at lines 723-726: `m_S[i] = m_S[i] - m_ddBtilde[i][l].transpose()*m_ddCtilde[i][l]`
for every patch `l`. -/
def schurLoop (bt ct : List Mat) (numPatch : Nat) (S0 : Mat) : Option Mat :=
  (List.range numPatch).foldlM (fun acc l =>
    match bt[l]?, ct[l]? with
    | some b, some c => (b.transpose.mul c).bind acc.sub
    | _, _ => none) S0

/-- The loop at lines 729-734: the off-diagonal blocks of `m_A_aprox[i]`. -/
def placeCoupling (shift : List Int) (bt ct : List Mat) (numPatch : Nat) (last : Int)
    (M : Mat) : Option Mat :=
  (List.range numPatch).foldlM (fun acc m =>
    match shift[m]?, bt[m]?, ct[m]? with
    | some sm, some b, some c =>
        (acc.setBlock (shiftOffset shift m) ((acc.rows : Int) - last) sm last c).bind
          (fun acc2 =>
            acc2.setBlock ((acc2.rows : Int) - last) (shiftOffset shift m) last sm b.transpose)
    | _, _, _ => none) M

/-- What one iteration of the second loop over the levels computes (lines 696-742) from
the operator `A` of the level, its extents, the factors of its patches and its coupling
blocks: the matrices stored in `m_A_aprox[i]`, `m_ddBtilde[i]`, `m_ddCtilde[i]` and
`m_S[i]`. -/
def blockApprox {B S : Type} (env : Env B S) (A : Mat) (shift : List Int)
    (lus ddC : List Mat) : Option (Mat × List Mat × List Mat × Mat) :=
  match shift[env.nPatches]?, ddC[env.nPatches]? with
  | some last, some C =>
      match placeFactors shift lus env.nPatches (Mat.zero A.rows A.cols),
            (List.range env.nPatches).mapM (fun j =>
              match shift[j]?, lus[j]?, ddC[j]? with
              | some sj, some lu, some c => tildeB lu c sj last
              | _, _, _ => none),
            (List.range env.nPatches).mapM (fun j =>
              match shift[j]?, lus[j]?, ddC[j]? with
              | some sj, some lu, some c => tildeC lu c sj last
              | _, _, _ => none) with
      | some M1, some bt, some ct =>
          match schurLoop bt ct env.nPatches C with
          | some Smat =>
              match placeCoupling shift bt ct env.nPatches last M1 with
              | some M2 =>
                  (M2.setBlock ((M2.rows : Int) - last) ((M2.rows : Int) - last)
                    last last (env.ilut Smat).1).map (fun M3 => (M3, bt, ct, Smat))
              | none => none
          | none => none
      | _, _, _ => none
  | _, _ => none

/-- Body of the second loop over the levels for `typeSmoother == 5` (lines 693-743). -/
def blockStep2 {B S : Type} (env : Env B S) (s : Solver B S) (i : Nat) :
    Option (Solver B S) :=
  match s.m_operator[i]?, s.m_shift[i]?, s.m_ILUT[i]?, s.m_ddC[i]? with
  | some A, some shift, some lus, some ddC =>
      match blockApprox env A shift lus ddC with
      | some r =>
          if i < s.m_A_aprox.length ∧ i < s.m_ddBtilde.length ∧
              i < s.m_ddCtilde.length ∧ i < s.m_S.length then
            some { s with
              m_A_aprox := s.m_A_aprox.set i r.1
              m_ddBtilde := s.m_ddBtilde.set i r.2.1
              m_ddCtilde := s.m_ddCtilde.set i r.2.2.1
              m_S := s.m_S.set i r.2.2.2 }
          else none
      | none => none
  | _, _, _, _ => none

/-- The block at lines 628-744 for `typeSmoother == 5`; `global_interior i` is the content
of the local vector `global_interior` in iteration `i` of the first loop over the
levels. -/
def setupBlockPhase {B S : Type} (env : Env B S) (cfg : Config) (numLevels : Nat)
    (global_interior : Nat → List Nat) (s : Solver B S) : Option (Solver B S) :=
  if cfg.typeSmoother = 5 then
    match (List.range numLevels).foldlM (fun t i => blockStep1 env (global_interior i) t i)
        { s with
          m_ddB := resize s.m_ddB numLevels []
          m_ddC := resize s.m_ddC numLevels []
          m_ddBtilde := resize s.m_ddBtilde numLevels []
          m_ddCtilde := resize s.m_ddCtilde numLevels []
          m_ILUT := resize s.m_ILUT numLevels []
          m_P := resize s.m_P numLevels []
          m_Pinv := resize s.m_Pinv numLevels []
          m_shift := resize s.m_shift numLevels []
          m_S := resize s.m_S numLevels Mat.empty } with
    | some s1 =>
        (List.range numLevels).foldlM (blockStep2 env)
          { s1 with m_A_aprox := resize s1.m_A_aprox numLevels Mat.empty }
    | none => none
  else some s

/-- The method `gsXBraidMultigrid::setup`: the hierarchy construction followed by the
smoother state for the selected smoother. The local vector `global_interior` is never
filled (the call at line 654 is commented out), so it is empty in every iteration. -/
def gsXBraidMultigrid.setup {B S : Type} (env : Env B S) (cfg : Config) (hp : List ℚ)
    (numLevels : Nat) (s : Solver B S) : Option (Solver B S) :=
  (gismo.setup env cfg hp numLevels s).bind (fun s1 =>
    (setupSCMSPhase env cfg numLevels s1).bind (fun s2 =>
      (setupILUTPhase env cfg numLevels s2).bind (fun s3 =>
        setupBlockPhase env cfg numLevels (fun _ => []) s3)))

/-- Level `i` holds the incomplete factorization of its own operator: the single entries
of `m_ILUT[i]`, `m_P[i]` and `m_Pinv[i]` are the factor and the two permutations
computed from `m_operator[i]`. -/
def Factorized {B S : Type} (env : Env B S) (s : Solver B S) (i : Nat) : Prop :=
  ∃ A, s.m_operator[i]? = some A ∧ s.m_ILUT[i]? = some [(env.ilut A).1] ∧
    s.m_P[i]? = some [(env.ilut A).2.1] ∧ s.m_Pinv[i]? = some [(env.ilut A).2.2]

/-- Direct assembly at every level, incomplete-factorization smoothing, coarsening in p
straight to the lowest degree (`typeProjection = 1`). -/
def ilutDirectConfig : Config :=
  { numSmoothing := 1, typeSolver := 1, typeCycle_p := 1, typeCycle_h := 1, numDegree := 2,
    typeLumping := 1, typeProjection := 1, typeSmoother := 1, typeCoarseOperator := 1 }

/-- The matrix `U^{-1} L^{-1} C` for the factors stored in `lu`, column by column: the
action of a patch's incomplete factors on the columns of a coupling block. -/
def factorSolve (lu C : Mat) : Option Mat :=
  (List.range C.cols).foldlM (fun acc k =>
    match C.colAt k with
    | some c => ((solveUnitLower lu c).bind (solveUpper lu)).bind (acc.setCol k)
    | none => none) (Mat.zero C.rows C.cols)

/-- The interface matrix in the words of the specification,
`S = C - sum_k B_k^T A_k^{-1} C_k`: `B_k^T` is the block `m_ddB[i][k]` (interface rows,
columns of patch `k`), `C_k` the block `m_ddC[i][k]`, and `A_k^{-1}` the action of the
factors of patch `k`. -/
def schurComplement (C : Mat) (ddB ddC lus : List Mat) (numPatch : Nat) : Option Mat :=
  (List.range numPatch).foldlM (fun acc k =>
    match ddB[k]?, ddC[k]?, lus[k]? with
    | some b, some c, some lu => ((factorSolve lu c).bind b.mul).bind acc.sub
    | _, _, _ => none) C

/-- Collaborators of a one-level model problem with one patch whose operator
`(2 1; 3 4)` is not symmetric (as with a convection term). A 1 x 1 block is its own
factor. -/
def interfaceEnv : Env Nat Unit :=
  { degreeIncrease := fun b k => b + k.toNat
    uniformRefine := fun b => b + 1
    coarsenTransfer := fun _ => unitMat
    assemble := fun _ => ⟨2, 2, [[2, 1], [3, 4]]⟩
    exprMatrix := fun _ _ => unitMat
    exprRhs := fun _ => [1]
    massSolve := fun _ v => some v
    coarseSolver := fun _ b => some b
    scmsStep := fun _ _ x => some x
    setupSCMS := fun _ _ => ()
    ilut := fun A => (A, List.range A.rows, List.range A.rows)
    nPatches := 1
    rhs := fun _ => [1, 1]
    random := fun n => List.replicate n 1
    norm := fun v => Real_t.num (v.map (fun a => |a|)).sum }

/-- Direct assembly at every level, domain-decomposition smoothing. -/
def blockConfig : Config :=
  { numSmoothing := 1, typeSolver := 1, typeCycle_p := 1, typeCycle_h := 1, numDegree := 2,
    typeLumping := 1, typeProjection := 2, typeSmoother := 5, typeCoarseOperator := 1 }

/-- The matrix `(4 1 1; 1 4 0; 1 0 4)`: unknown 0 is coupled to both others. -/
def arrowMat : Mat := ⟨3, 3, [[4, 1, 1], [1, 4, 0], [1, 0, 4]]⟩

/-- Collaborators of a two-level, one-patch model problem whose operator is `arrowMat` at
both levels. Its incomplete factorization orders unknown 0 last, as a fill-reducing
ordering does: `m_Pinv` sends the unknowns 0, 1, 2 to the positions 2, 0, 1, and `m_lu`
holds the exact factors of the reordered matrix `(4 0 1; 0 4 1; 1 1 4)`. Any other
matrix is returned as its own factor with identity permutations. -/
def arrowEnv : Env Nat Unit :=
  { degreeIncrease := fun b k => b + k.toNat
    uniformRefine := fun b => b + 1
    coarsenTransfer := fun _ => ⟨3, 3, [[1, 0, 0], [0, 1, 0], [0, 0, 1]]⟩
    assemble := fun _ => arrowMat
    exprMatrix := fun _ _ => ⟨3, 3, [[1, 0, 0], [0, 1, 0], [0, 0, 1]]⟩
    exprRhs := fun _ => [1, 1, 1]
    massSolve := fun _ v => some v
    coarseSolver := fun _ b => some b
    scmsStep := fun _ _ x => some x
    setupSCMS := fun _ _ => ()
    ilut := fun A =>
      if A = arrowMat then
        (⟨3, 3, [[4, 0, 1], [0, 4, 1], [1 / 4, 1 / 4, 7 / 2]]⟩, [1, 2, 0], [2, 0, 1])
      else (A, List.range A.rows, List.range A.rows)
    nPatches := 1
    rhs := fun _ => [1, 1, 1]
    random := fun n => List.replicate n 1
    norm := fun v => Real_t.num (v.map (fun a => |a|)).sum }
/-- Every row of the matrix is stored in full: `val` has `rows` rows of `cols` entries. -/
def Mat.Full (M : Mat) : Prop :=
  M.val.length = M.rows ∧ ∀ r ∈ M.val, r.length = M.cols
/-- What the first loop over the levels for `typeSmoother == 5` has recorded for level `i`
in state `t`, for the content `gi` of `global_interior` at that level: the extents, the
patch factors (followed by the unused last entry of `m_ILUT[i]`) and the coupling
blocks `m_ddC[i]` of the level's operator. -/
def BlockLevelData {B S : Type} (env : Env B S) (gi : List Nat) (t : Solver B S) (i : Nat) :
    Prop :=
  ∃ A shift fac ddC tail, t.m_operator[i]? = some A ∧
    blockShift env.nPatches gi A.rows = some shift ∧
    patchFactors env A shift env.nPatches = some fac ∧
    couplingC A shift env.nPatches = some ddC ∧
    t.m_shift[i]? = some shift ∧
    t.m_ILUT[i]? = some (fac.map (fun f => f.1) ++ tail) ∧
    t.m_ddC[i]? = some ddC

/-- What both loops over the levels for `typeSmoother == 5` have recorded for level `i`: in
addition to `BlockLevelData`, `m_A_aprox[i]` and `m_S[i]` are the matrices computed by
`blockApprox` from that data. -/
def BlockLevelDone {B S : Type} (env : Env B S) (gi : List Nat) (t : Solver B S) (i : Nat) :
    Prop :=
  ∃ A shift fac ddC tail r, t.m_operator[i]? = some A ∧
    blockShift env.nPatches gi A.rows = some shift ∧
    patchFactors env A shift env.nPatches = some fac ∧
    couplingC A shift env.nPatches = some ddC ∧
    blockApprox env A shift (fac.map (fun f => f.1) ++ tail) ddC = some r ∧
    t.m_A_aprox[i]? = some r.1 ∧ t.m_S[i]? = some r.2.2.2

/-- Direct assembly at every level, two smoothing sweeps, and the smoother selection 4,
for which neither `setup` nor the smoothing loops have a branch. -/
def unsupportedConfig : Config :=
  { numSmoothing := 2, typeSolver := 1, typeCycle_p := 1, typeCycle_h := 1, numDegree := 2,
    typeLumping := 1, typeProjection := 2, typeSmoother := 4, typeCoarseOperator := 1 }

/-! ## The cycle with its effects spelled out -/

/-- What a call of the cycle could write besides `x` and its scratch vectors: the data
members of the solver, the schedule `hp` it is handed, and the matrices passed to
`factorize` on coarse-solver objects so far. -/
structure World (B S : Type) where
  members : Solver B S
  hp : List ℚ
  factorized : List Mat
deriving DecidableEq

/-- The method `solvecoarse` (lines 846-857) with its effects: a local `CoarseSolver` is
constructed, `analyzePattern` and `factorize` are called on it with `m_operator[0]`,
and its solution for `rhs` overwrites `x`. No data member is written. -/
def solvecoarseTraced {B S : Type} (env : Env B S) (w : World B S) (rhs : Vec) :
    Option (World B S × Vec) :=
  (stdAt w.members.m_operator 0).bind (fun A =>
    (env.coarseSolver A rhs).map (fun y => ({ w with factorized := w.factorized ++ [A] }, y)))

/-- The method `presmoothing` with its effects: only `x` and `fineRes` are written. -/
def presmoothingTraced {B S : Type} (env : Env B S) (cfg : Config) (w : World B S)
    (numLevels : Nat) (rhs x : Vec) : Option (World B S × Vec × Vec) :=
  (presmoothing env w.members cfg w.hp numLevels rhs x).map (fun r => (w, r.1, r.2))

/-- The method `restriction` with its effects: only `Xcoarse` is written. -/
def restrictionTraced {B S : Type} (env : Env B S) (cfg : Config) (w : World B S)
    (numLevels : Nat) (Xfine : Vec) : Option (World B S × Vec) :=
  (restriction env w.members cfg w.hp numLevels Xfine).map (fun r => (w, r))

/-- The method `prolongation` with its effects: only `Xfine` is written. -/
def prolongationTraced {B S : Type} (env : Env B S) (cfg : Config) (w : World B S)
    (numLevels : Nat) (Xcoarse : Vec) : Option (World B S × Vec) :=
  (prolongation env w.members cfg w.hp numLevels Xcoarse).map (fun r => (w, r))

/-- The method `postsmoothing` with its effects: only `x` and `postRes` are written. -/
def postsmoothingTraced {B S : Type} (env : Env B S) (cfg : Config) (w : World B S)
    (numLevels : Nat) (rhs x fineCorr : Vec) : Option (World B S × Vec) :=
  (postsmoothing env w.members cfg w.hp numLevels rhs x fineCorr).map (fun r => (w, r))

/-- The loop of recursive calls on the fixed `coarseRes`, threading the world and
`coarseCorr`. -/
def repeatCycleTraced {B S : Type}
    (f : World B S → Vec → Option (World B S × Vec × List Event)) :
    Nat → World B S → Vec → Option (World B S × Vec × List Event)
  | 0, w, c => some (w, c, [])
  | k + 1, w, c =>
      (f w c).bind (fun r =>
        (repeatCycleTraced f k r.1 r.2.1).map (fun r2 => (r2.1, r2.2.1, r.2.2 ++ r2.2.2)))

/-- One guarded block of `gsXBraidMultigridBase::solve`, every call made in the world left
by the call before it. -/
def cycleBlockTraced {B S : Type} (env : Env B S) (cfg : Config) (numLevels : Nat) (mult : Nat)
    (rec : World B S → Vec → Vec → Option (World B S × Vec × List Event))
    (w : World B S) (rhs x : Vec) : Option (World B S × Vec × List Event) := do
  let pre ← presmoothingTraced env cfg w numLevels rhs x
  let coarseRes ← restrictionTraced env cfg pre.1 numLevels pre.2.2
  let r ← repeatCycleTraced (fun v c => rec v coarseRes.2 c) mult coarseRes.1
    (zeros coarseRes.2.length)
  let fineCorr ← prolongationTraced env cfg r.1 numLevels r.2.1
  let post ← postsmoothingTraced env cfg fineCorr.1 numLevels rhs pre.2.1 fineCorr.2
  pure (post.1, post.2, [Event.presmoothing numLevels, Event.restriction numLevels] ++ r.2.2 ++
            [Event.prolongation numLevels, Event.postsmoothing numLevels])

/-- The method `gsXBraidMultigridBase::solve` with its effects: returns the world it
leaves, the new `x` and the calls made. Each of the two tests reads `hp` as it is when
the test is reached. -/
def gsXBraidMultigridBase.solveTraced {B S : Type} (env : Env B S) (cfg : Config) :
    Nat → World B S → Vec → Vec → Option (World B S × Vec × List Event)
  | 0, w, _, x =>
      (hpAt w.hp 0).bind (fun tag => if tag = 0 ∨ tag = 1 then none else some (w, x, []))
  | 1, w, rhs, _ => (solvecoarseTraced env w rhs).map (fun r => (r.1, r.2, [Event.solvecoarse]))
  | n + 2, w, rhs, x =>
      (hpAt w.hp (max (((n + 2 : Nat) : Int) - 2) 0)).bind (fun tag =>
        (if tag = 0 then
            cycleBlockTraced env cfg (n + 2) (if cfg.typeCycle_p = 2 then 2 else 1)
              (gsXBraidMultigridBase.solveTraced env cfg (n + 1)) w rhs x
          else some (w, x, [])).bind (fun r1 =>
        (hpAt r1.1.hp (max (((n + 2 : Nat) : Int) - 2) 0)).bind (fun tag2 =>
          (if tag2 = 1 then
              cycleBlockTraced env cfg (n + 2) (if cfg.typeCycle_h = 2 then 2 else 1)
                (gsXBraidMultigridBase.solveTraced env cfg (n + 1)) r1.1 rhs r1.2.1
            else some (r1.1, r1.2.1, [])).map (fun r2 => (r2.1, r2.2.1, r1.2.2 ++ r2.2.2)))))

/-- The world after a run of the cycle that made the calls `log`: every `solvecoarse` call
has passed `m_operator[0]` to `factorize` once more; nothing else differs. -/
def afterCycle {B S : Type} (w : World B S) (log : List Event) : World B S :=
  { w with
    factorized := w.factorized ++
      List.replicate (coarseCount log) ((w.members.m_operator[0]?).getD Mat.empty) }

/-! ## `gsXBraidMultigrid::solve`: the outer iteration (lines 756-841) -/

/-- The lines `solve` itself writes to `gsInfo`. The elapsed time of the second line is
not modelled; the lines written by the cycle are not part of this list. -/
inductive Report where
  /-- The line `Residual increased during solving!!! `. -/
  | residualIncreased
  /-- The line `|| Solver information || `. -/
  | solverInformation
  /-- The line `Solver converged in <Time_Solve> seconds!`. -/
  | convergedSeconds
  /-- The line `Solver converged in: <iter-1> iterations!`. -/
  | convergedIterations (n : Int)
deriving DecidableEq

/-- The variables of `solve` that the loop reads or writes, and the caller's `iterTot`. -/
structure OuterState where
  x : Vec
  r0 : Real_t
  r : Real_t
  r_old : Real_t
  iter : Int
  iterTot : Int
  out : List Report
deriving DecidableEq

/-- The constant `real_t tol = 1e-8`. -/
def tol : ℚ := 1 / 100000000

/-- A `while (cond) body` loop run with a bound on the number of tests of the condition;
`none` also when the bound is used up. -/
def whileLoop {σ : Type} (cond : σ → Bool) (body : σ → Option σ) : Nat → σ → Option σ
  | 0, _ => none
  | fuel + 1, st => if cond st then (body st).bind (whileLoop cond body fuel) else some st

/-- The loop condition at line 800,
`(typeSolver == 1 || typeSolver == 5) ? r/r0 > tol && iter < 100000 : iter < 2`, with
the quotient and the comparison of `real_t`: the comparison is false when `r/r0` is
not-a-number. -/
def outerCond (cfg : Config) (st : OuterState) : Bool :=
  if cfg.typeSolver = 1 ∨ cfg.typeSolver = 5 then
    decide (Real_t.gt (st.r.div st.r0) (Real_t.num tol) = true ∧ st.iter < 100000)
  else decide (st.iter < 2)

/-- The increment `iterTot++` of an `int`: it has no value at the largest `int`. -/
def incrInt (k : Int) : Option Int := if k < 2147483647 then some (k + 1) else none

/-- The loop body at lines 802-818: one cycle from the current `x`, the new residual norm,
the report of an increased residual, and the two counters. -/
def outerBody {B S : Type} (env : Env B S) (s : Solver B S) (cfg : Config) (hp : List ℚ)
    (numLevels : Nat) (b : Vec) (st : OuterState) : Option OuterState := do
  let res ← gsXBraidMultigridBase.solve env s cfg hp numLevels b st.x
  let A ← stdAt s.m_operator ((numLevels : Int) - 1)
  let Ax ← A.mulVec res.1
  let d ← vsub Ax b
  let iterTot ← incrInt st.iterTot
  pure { x := res.1, r0 := st.r0, r := env.norm d, r_old := env.norm d, iter := st.iter + 1,
         iterTot := iterTot,
         out := st.out ++
           (if Real_t.lt st.r_old (env.norm d) = true then [Report.residualIncreased] else []) }

/-- The state in which the loop is entered (lines 781-798): for `typeSolver == 1` the
start vector is random and the right-hand side is that of the last assembler, otherwise
they are the caller's `x` and `f`. -/
def outerInit {B S : Type} (env : Env B S) (s : Solver B S) (cfg : Config) (numLevels : Nat)
    (x f : Vec) (iterTot : Int) : Option (Vec × OuterState) :=
  (stdAt s.m_operator ((numLevels : Int) - 1)).bind (fun A =>
    (if cfg.typeSolver = 1 then s.m_assembler.getLast?.map env.rhs else some f).bind (fun b =>
      (A.mulVec (if cfg.typeSolver = 1 then env.random A.rows else x)).bind (fun Ax =>
        (vsub Ax b).map (fun d =>
          (b, { x := if cfg.typeSolver = 1 then env.random A.rows else x, r0 := env.norm d,
                r := env.norm d, r_old := env.norm d, iter := 1, iterTot := iterTot,
                out := [] })))))

/-- The method `gsXBraidMultigrid::solve`: returns the final `x`, the residual norms, the
counters `iter` and `iterTot`, and the lines reported. The loop is run with a bound of
100000 tests of its condition. -/
def gsXBraidMultigrid.solve {B S : Type} (env : Env B S) (s : Solver B S) (cfg : Config)
    (hp : List ℚ) (numLevels : Nat) (x f : Vec) (iterTot : Int) : Option OuterState := do
  let init ← outerInit env s cfg numLevels x f iterTot
  let st ← whileLoop (outerCond cfg) (outerBody env s cfg hp numLevels init.1) 100000 init.2
  pure { st with
    out := st.out ++ [Report.solverInformation, Report.convergedSeconds,
      Report.convergedIterations (st.iter - 1)] }
/-- The residual norm `(A*x - b).norm()`. -/
def residualNorm {B S : Type} (env : Env B S) (A : Mat) (b x : Vec) : Option Real_t :=
  (A.mulVec x).bind (fun Ax => (vsub Ax b).map env.norm)
/-- What holds of the loop variables whenever the loop condition is tested, for the
operator `A` of the finest level, the right-hand side `b`, the problem size `n`, the
initial residual norm `r0` and the caller's value `iterTot0` of `iterTot`: `x` has the
size of the problem, `r` is the residual norm of the current `x`, and `iterTot` has grown
by the number `iter - 1` of cycles performed. -/
def OuterInv {B S : Type} (env : Env B S) (A : Mat) (b : Vec) (n : Nat) (r0 : Real_t)
    (iterTot0 : Int) (st : OuterState) : Prop :=
  st.x.length = n ∧ st.r0 = r0 ∧ 1 ≤ st.iter ∧ st.iterTot = iterTot0 + (st.iter - 1) ∧
  residualNorm env A b st.x = some st.r
/-- The unit configuration in stand-alone mode with a caller-supplied start vector and
right-hand side (`typeSolver = 5`). -/
def standaloneConfig : Config :=
  { numSmoothing := 1, typeSolver := 5, typeCycle_p := 2, typeCycle_h := 1, numDegree := 2,
    typeLumping := 1, typeProjection := 2, typeSmoother := 2, typeCoarseOperator := 1 }

/-- The unit configuration in preconditioner mode (`typeSolver = 3`). -/
def preconditionerConfig : Config :=
  { numSmoothing := 1, typeSolver := 3, typeCycle_p := 2, typeCycle_h := 1, numDegree := 2,
    typeLumping := 1, typeProjection := 2, typeSmoother := 2, typeCoarseOperator := 1 }

/-- The loop body as it would be if the monotonicity check (lines 811-814) were absent:
the cycle, the new residual norm and the two counters, and nothing reported. -/
def outerBodyNoCheck {B S : Type} (env : Env B S) (s : Solver B S) (cfg : Config)
    (hp : List ℚ) (numLevels : Nat) (b : Vec) (st : OuterState) : Option OuterState := do
  let res ← gsXBraidMultigridBase.solve env s cfg hp numLevels b st.x
  let A ← stdAt s.m_operator ((numLevels : Int) - 1)
  let Ax ← A.mulVec res.1
  let d ← vsub Ax b
  let iterTot ← incrInt st.iterTot
  pure { x := res.1, r0 := st.r0, r := env.norm d, r_old := env.norm d, iter := st.iter + 1,
         iterTot := iterTot, out := st.out }

/-- The method `gsXBraidMultigrid::solve` as it would be if the monotonicity check were
absent. -/
def solveNoCheck {B S : Type} (env : Env B S) (s : Solver B S) (cfg : Config)
    (hp : List ℚ) (numLevels : Nat) (x f : Vec) (iterTot : Int) : Option OuterState := do
  let init ← outerInit env s cfg numLevels x f iterTot
  let st ← whileLoop (outerCond cfg) (outerBodyNoCheck env s cfg hp numLevels init.1) 100000
    init.2
  pure { st with
    out := st.out ++ [Report.solverInformation, Report.convergedSeconds,
      Report.convergedIterations (st.iter - 1)] }

/-- The loop variables of a state, without the lines reported. -/
def OuterState.vars (st : OuterState) : Vec × Real_t × Real_t × Real_t × Int × Int :=
  (st.x, st.r0, st.r, st.r_old, st.iter, st.iterTot)

/-- The lines reported, without the reports of an increased residual. -/
def otherReports (out : List Report) : List Report :=
  out.filter (fun l => decide (l ≠ Report.residualIncreased))

/-- Two states of the outer loop agree in every loop variable, and in the lines reported
up to reports of an increased residual. -/
def SameButReports (a b : OuterState) : Prop :=
  a.vars = b.vars ∧ otherReports a.out = b.out

/-- A one-unknown, two-level hierarchy whose prolongation `(3)` overshoots: every cycle
doubles the error. -/
def overshootSolver : Solver Nat Unit :=
  { m_basis := [0, 1], m_prolongation_P := [Mat.empty], m_restriction_P := [Mat.empty],
    m_prolongation_M := [[]], m_restriction_M := [[]],
    m_prolongation_H := [⟨1, 1, [[3]]⟩], m_restriction_H := [unitMat],
    m_ILUT := [], m_P := [], m_Pinv := [], m_SCMS := [],
    m_operator := [unitMat, unitMat], m_A_aprox := [], m_assembler := [0, 1],
    m_ddB := [], m_ddC := [], m_ddBtilde := [], m_ddCtilde := [], m_S := [], m_shift := [] }

/-- Preconditioner mode without smoothing sweeps. -/
def plainPreconditionerConfig : Config :=
  { numSmoothing := 0, typeSolver := 3, typeCycle_p := 1, typeCycle_h := 1, numDegree := 2,
    typeLumping := 1, typeProjection := 2, typeSmoother := 2, typeCoarseOperator := 1 }

/-- A one-unknown, two-level hierarchy whose prolongation `(10/54291)` is too short: every
cycle without smoothing multiplies the error by `54281/54291`. -/
def contractSolver : Solver Nat Unit :=
  { m_basis := [0, 1], m_prolongation_P := [Mat.empty], m_restriction_P := [Mat.empty],
    m_prolongation_M := [[]], m_restriction_M := [[]],
    m_prolongation_H := [⟨1, 1, [[10 / 54291]]⟩], m_restriction_H := [unitMat],
    m_ILUT := [], m_P := [], m_Pinv := [], m_SCMS := [],
    m_operator := [unitMat, unitMat], m_A_aprox := [], m_assembler := [0, 1],
    m_ddB := [], m_ddC := [], m_ddBtilde := [], m_ddCtilde := [], m_S := [], m_shift := [] }

/-- Stand-alone mode with a caller-supplied start vector, without smoothing sweeps. -/
def plainStandaloneConfig : Config :=
  { numSmoothing := 0, typeSolver := 5, typeCycle_p := 1, typeCycle_h := 1, numDegree := 2,
    typeLumping := 1, typeProjection := 2, typeSmoother := 2, typeCoarseOperator := 1 }

/-- The error reduction factor of a cycle of `contractSolver`. -/
def contractRate : ℚ := 54281 / 54291

/-- Loop variables after `k` cycles of `contractSolver` from `x = 0` for `f = 1`. -/
def contractState (k : Nat) : OuterState :=
  { x := [1 - contractRate ^ k], r0 := Real_t.num 1, r := Real_t.num (contractRate ^ k),
    r_old := Real_t.num (contractRate ^ k), iter := 1 + (k : Int), iterTot := (k : Int),
    out := [] }

/-- Loop variables after `k` cycles that leave `x = 0` as it is, for `f = 1`. -/
def stallState (k : Nat) : OuterState :=
  { x := [0], r0 := Real_t.num 1, r := Real_t.num 1, r_old := Real_t.num 1,
    iter := 1 + (k : Int), iterTot := (k : Int), out := [] }

/-- The loop of recursive calls of `repeatCycle`, for a recursive call that is run with a
bound on the depth of the recursion: `none` when the bound is used up, `some none` when a
call has no defined result. -/
def repeatCycleFuel (f : Vec → Option (Option (Vec × List Event))) :
    Nat → Vec → Option (Option (Vec × List Event))
  | 0, c => some (some (c, []))
  | k + 1, c =>
      match f c with
      | none => none
      | some none => some none
      | some (some r) =>
          match repeatCycleFuel f k r.1 with
          | none => none
          | some none => some none
          | some (some r2) => some (some (r2.1, r.2 ++ r2.2))

/-- The guarded block of `cycleBlock`, for a recursive call that is run with a bound on
the depth of the recursion. -/
def cycleBlockFuel {B S : Type} (env : Env B S) (s : Solver B S) (cfg : Config) (hp : List ℚ)
    (numLevels : Nat) (mult : Nat) (rec : Vec → Vec → Option (Option (Vec × List Event)))
    (rhs x : Vec) : Option (Option (Vec × List Event)) :=
  match presmoothing env s cfg hp numLevels rhs x with
  | none => some none
  | some pre =>
      match restriction env s cfg hp numLevels pre.2 with
      | none => some none
      | some coarseRes =>
          match repeatCycleFuel (rec coarseRes) mult (zeros coarseRes.length) with
          | none => none
          | some none => some none
          | some (some r) =>
              some ((prolongation env s cfg hp numLevels r.1).bind (fun fineCorr =>
                (postsmoothing env s cfg hp numLevels rhs pre.1 fineCorr).map (fun x =>
                  (x, [Event.presmoothing numLevels, Event.restriction numLevels] ++ r.2 ++
                    [Event.prolongation numLevels, Event.postsmoothing numLevels]))))

/-- The method `gsXBraidMultigridBase::solve` as the source writes it, a function that
calls itself with `numLevels-1`, run with a bound `fuel` on the depth of the recursion:
`none` when the bound is used up, `some none` when the call has no defined result. -/
def gsXBraidMultigridBase.solveFuel {B S : Type} (env : Env B S) (s : Solver B S)
    (cfg : Config) (hp : List ℚ) :
    Nat → Nat → Vec → Vec → Option (Option (Vec × List Event))
  | 0, _, _, _ => none
  | fuel + 1, numLevels, rhs, x =>
      if numLevels = 1 then
        some ((solvecoarse env s rhs).map (fun y => (y, [Event.solvecoarse])))
      else
        match hpAt hp (max ((numLevels : Int) - 2) 0) with
        | none => some none
        | some tag =>
            if numLevels = 0 then some (if tag = 0 ∨ tag = 1 then none else some (x, []))
            else
              match (if tag = 0 then
                  cycleBlockFuel env s cfg hp numLevels (if cfg.typeCycle_p = 2 then 2 else 1)
                    (fun cr c => gsXBraidMultigridBase.solveFuel env s cfg hp fuel
                      (numLevels - 1) cr c) rhs x
                else some (some (x, []))) with
              | none => none
              | some none => some none
              | some (some r1) =>
                  match (if tag = 1 then
                      cycleBlockFuel env s cfg hp numLevels
                        (if cfg.typeCycle_h = 2 then 2 else 1)
                        (fun cr c => gsXBraidMultigridBase.solveFuel env s cfg hp fuel
                          (numLevels - 1) cr c) rhs r1.1
                    else some (some (r1.1, []))) with
                  | none => none
                  | some none => some none
                  | some (some r2) => some (some (r2.1, r1.2 ++ r2.2))

/-- The options with the two cycle types replaced. -/
def withCycleTypes (cfg : Config) (typeCycle_p typeCycle_h : Int) : Config :=
  { cfg with typeCycle_p := typeCycle_p, typeCycle_h := typeCycle_h }

/-- The vector `y` solves `L y = b` for the unit lower triangle `L` of `M`: row `i` reads
`y_i + sum_{j<i} M_ij y_j = b_i`. -/
def LowerSolution (M : Mat) (b y : Vec) : Prop :=
  y.length = b.length ∧
  ∀ i, i < b.length →
    y.getD i 0 + ∑ j in Finset.range i, M.entry i j * y.getD j 0 = b.getD i 0

/-- The vector `z` solves `U z = b` for the upper triangle `U` of `M`: row `i` reads
`sum_{i<=j<n} M_ij z_j = b_i`. -/
def UpperSolution (M : Mat) (b z : Vec) : Prop :=
  z.length = b.length ∧
  ∀ i, i < b.length →
    ∑ j in Finset.Ico i b.length, M.entry i j * z.getD j 0 = b.getD i 0

/-- The transfer data the cycle reads at level `l` (tag `hp(l-2)` equal to 0 or 1) is
present and fits the sizes `nFine` of level `l` and `nCoarse` of level `l-1`: for tag 1
the h-transfer matrices; for tag 0 the p-transfer matrices and, in lumped mode, lumped
mass vectors without a zero entry, otherwise bases whose mass solve returns zero for a
zero right-hand side. -/
def TransferReady {B S : Type} (env : Env B S) (s : Solver B S) (cfg : Config) (hp : List ℚ)
    (l nFine nCoarse : Nat) : Prop :=
  ∃ t, hpAt hp ((l : Int) - 2) = some t ∧ (t = 0 ∨ t = 1) ∧
    (t = 1 → ∃ R P,
      stdAt s.m_restriction_H ((l : Int) - 2) = some R ∧ R.cols = nFine ∧
      R.val.length = nCoarse ∧
      stdAt s.m_prolongation_H ((l : Int) - 2) = some P ∧ P.cols = nCoarse ∧
      P.val.length = nFine) ∧
    (t = 0 → ∃ R P,
      stdAt s.m_restriction_P ((l : Int) - 2) = some R ∧ R.cols = nFine ∧
      R.val.length = nCoarse ∧
      stdAt s.m_prolongation_P ((l : Int) - 2) = some P ∧ P.cols = nCoarse ∧
      P.val.length = nFine ∧
      (cfg.typeLumping = 1 → ∃ MR MP,
        stdAt s.m_restriction_M ((l : Int) - 2) = some MR ∧ MR.length = nCoarse ∧
        (0 : ℚ) ∉ MR ∧
        stdAt s.m_prolongation_M ((l : Int) - 2) = some MP ∧ MP.length = nFine ∧
        (0 : ℚ) ∉ MP) ∧
      (cfg.typeLumping ≠ 1 → ∃ bL bH,
        stdAt s.m_basis ((l : Int) - 2) = some bL ∧ stdAt s.m_basis ((l : Int) - 1) = some bH ∧
        env.massSolve bL (zeros nCoarse) = some (zeros nCoarse) ∧
        env.massSolve bH (zeros nFine) = some (zeros nFine)))

/-- The hierarchy is fit for a cycle on `numLevels` levels with `sizes l` unknowns at level
`l`: the coarse operator has the size of level 1 and the coarse solver returns the
solution of every solvable system with it (so the operator is nonsingular); every level
`l >= 2` has its operator, smoother state and transfer data. -/
def CycleReady {B S : Type} (env : Env B S) (s : Solver B S) (cfg : Config) (hp : List ℚ)
    (sizes : Nat → Nat) (numLevels : Nat) : Prop :=
  (∃ A0, stdAt s.m_operator 0 = some A0 ∧ A0.cols = sizes 1 ∧ A0.val.length = sizes 1 ∧
    ∀ y b, A0.mulVec y = some b → env.coarseSolver A0 b = some y) ∧
  ∀ l, 2 ≤ l → l ≤ numLevels →
    (∃ A, stdAt s.m_operator ((l : Int) - 1) = some A ∧ SmootherReady s cfg hp l A (sizes l)) ∧
    TransferReady env s cfg hp l (sizes l) (sizes (l - 1))

/-- The bound of the finite values of an IEEE double: finite values are below `2^1024`
in absolute value. -/
def realMax : ℚ := 2 ^ 1024

/-- The collaborators of the one-unknown model problem with a norm that knows the range of
`real_t`. Vectors are exact here; an entry of absolute value `2^1024` or more stands for
an entry that `real_t` cannot hold as a number, and the norm of a vector with such an
entry is not-a-number. -/
def rangeEnv : Env Nat Unit :=
  { unitEnv with
    norm := fun v =>
      if v.all (fun a => decide (|a| < realMax)) then Real_t.num (v.map (fun a => |a|)).sum
      else Real_t.nan }

/-- A two-level hierarchy with two fine unknowns and one coarse unknown: the fine operator
is `(1 1; 0 1)`, the restriction `(m 0)` scales the first entry of the residual by `m`,
and the prolongation `(1; -1)` spreads the coarse correction with opposite signs. -/
def spreadSolver (m : ℚ) : Solver Nat Unit :=
  { m_basis := [0, 1], m_prolongation_P := [Mat.empty], m_restriction_P := [Mat.empty],
    m_prolongation_M := [[]], m_restriction_M := [[]],
    m_prolongation_H := [⟨2, 1, [[1], [-1]]⟩], m_restriction_H := [⟨1, 2, [[m, 0]]⟩],
    m_ILUT := [], m_P := [], m_Pinv := [], m_SCMS := [],
    m_operator := [unitMat, ⟨2, 2, [[1, 1], [0, 1]]⟩], m_A_aprox := [], m_assembler := [0, 1],
    m_ddB := [], m_ddC := [], m_ddBtilde := [], m_ddCtilde := [], m_S := [], m_shift := [] }

theorem stdAt_natCast {α : Type} (l : List α) (k : Nat) : stdAt l (k : Int) = l[k]? := by
  unfold stdAt
  rw [if_pos (Int.natCast_nonneg k), Int.toNat_natCast]

@[simp] theorem stdAt_zero {α : Type} (l : List α) : stdAt l 0 = l[0]? := by
  simp [stdAt]

@[simp] theorem stdAt_succ_sub_one {α : Type} (l : List α) (n : Nat) :
    stdAt l (((n + 1 : Nat) : Int) - 1) = l[n]? := by
  simp [stdAt]

@[simp] theorem stdAt_add_two_sub_two {α : Type} (l : List α) (n : Nat) :
    stdAt l (((n + 2 : Nat) : Int) - 2) = l[n]? := by
  simp [stdAt]

@[simp] theorem stdAt_add_two_sub_one {α : Type} (l : List α) (n : Nat) :
    stdAt l (((n + 2 : Nat) : Int) - 1) = l[n + 1]? := by
  have h : (((n + 2 : Nat) : Int) - 1) = ((n + 1 : Nat) : Int) := by push_cast; ring
  rw [h, stdAt_natCast]

@[simp] theorem hpAt_zero (hp : List ℚ) : hpAt hp 0 = hp[0]? := by
  simp [hpAt]

@[simp] theorem hpAt_succ_sub_one (hp : List ℚ) (n : Nat) :
    hpAt hp (((n + 1 : Nat) : Int) - 1) = hp[n]? := by
  simp [hpAt]

@[simp] theorem hpAt_add_two_sub_two (hp : List ℚ) (n : Nat) :
    hpAt hp (((n + 2 : Nat) : Int) - 2) = hp[n]? := by
  simp [hpAt]

@[simp] theorem hpAt_max_add_two (hp : List ℚ) (n : Nat) :
    hpAt hp (max (((n + 2 : Nat) : Int) - 2) 0) = hp[n]? := by
  have h : max (((n + 2 : Nat) : Int) - 2) 0 = (n : Int) := by
    push_cast; omega
  rw [h]; simp [hpAt]

theorem hpAt_natCast (hp : List ℚ) (n : Nat) : hpAt hp (n : Int) = hp[n]? := by
  simp [hpAt]

/-! ## The cycle at the coarsest level and the number of coarse solves -/

theorem repeatCycle_coarseCount (f : Vec → Option (Vec × List Event)) (N : Nat)
    (hf : ∀ c r, f c = some r → coarseCount r.2 = N) :
    ∀ (k : Nat) (c : Vec) (r : Vec × List Event),
      repeatCycle f k c = some r → coarseCount r.2 = k * N := by
  intro k
  induction k with
  | zero =>
      intro c r h
      simp only [repeatCycle, Option.some.injEq] at h
      subst h
      simp [coarseCount]
  | succ k ih =>
      intro c r h
      simp only [repeatCycle, Option.bind_eq_some, Option.map_eq_some'] at h
      obtain ⟨r1, h1, r2, h2, rfl⟩ := h
      have e1 := hf c r1 h1
      have e2 := ih r1.1 r2 h2
      simp only [coarseCount, List.count_append] at e1 e2 ⊢
      rw [e1, e2]; ring

theorem cycleBlock_coarseCount {B S : Type} (env : Env B S) (s : Solver B S) (cfg : Config)
    (hp : List ℚ) (numLevels mult : Nat) (rec : Vec → Vec → Option (Vec × List Event))
    (N : Nat) (hrec : ∀ cr c r, rec cr c = some r → coarseCount r.2 = N)
    (rhs x : Vec) (r : Vec × List Event)
    (h : cycleBlock env s cfg hp numLevels mult rec rhs x = some r) :
    coarseCount r.2 = mult * N := by
  simp only [cycleBlock, bind, Option.bind_eq_some, pure, Option.some.injEq] at h
  obtain ⟨pre, _, coarseRes, _, rc, hrc, fineCorr, _, y, _, rfl⟩ := h
  have e := repeatCycle_coarseCount (rec coarseRes) N (hrec coarseRes) mult _ rc hrc
  simp only [coarseCount, List.count_append] at e ⊢
  rw [e]
  simp [List.count_cons]

/-- C1: for `numLevels = 1` the cycle is exactly one call of `solvecoarse`: the calls made
are `[solvecoarse]` (no smoothing, restriction or prolongation), the returned `x` is
what the coarse solver returns for `m_operator[0]` and `rhs`, and neither depends on the
value of `x` on entry. -/
theorem solve_one_level_is_coarse_solve {B S : Type} (env : Env B S) (s : Solver B S)
    (cfg : Config) (hp : List ℚ) (rhs x : Vec) :
    gsXBraidMultigridBase.solve env s cfg hp 1 rhs x
        = (solvecoarse env s rhs).map (fun y => (y, [Event.solvecoarse]))
    ∧ (∀ x2 : Vec, gsXBraidMultigridBase.solve env s cfg hp 1 rhs x2
        = gsXBraidMultigridBase.solve env s cfg hp 1 rhs x)
    ∧ (∀ (y : Vec) (log : List Event),
        gsXBraidMultigridBase.solve env s cfg hp 1 rhs x = some (y, log) →
        log = [Event.solvecoarse] ∧
        ∃ A, s.m_operator[0]? = some A ∧ env.coarseSolver A rhs = some y) := by
  refine ⟨rfl, fun _ => rfl, ?_⟩
  intro y log h
  simp only [gsXBraidMultigridBase.solve, solvecoarse, stdAt_zero, Option.map_eq_some',
    Option.bind_eq_some, Prod.mk.injEq] at h
  obtain ⟨y2, ⟨A, hA, hs⟩, rfl, rfl⟩ := h
  exact ⟨rfl, A, hA, hs⟩

/-- The one-level cycle of C1 on the one-unknown model problem: whatever `x` holds on
entry (here 5), the result is the coarse solution and the only call is `solvecoarse`. -/
theorem solve_one_level_is_coarse_solve_witness :
    gsXBraidMultigridBase.solve unitEnv unitSolver unitConfig [0, 1] 1 [1] [5]
      = some ([1], [Event.solvecoarse]) :=
  (solve_one_level_is_coarse_solve unitEnv unitSolver unitConfig [0, 1] [1] [5]).1.trans
    (by decide!)

theorem solve_coarseCount {B S : Type} (env : Env B S) (s : Solver B S) (cfg : Config)
    (hp : List ℚ) :
    ∀ (L : Nat), 1 ≤ L → (∀ k, k < L - 1 → hp[k]? = some 0 ∨ hp[k]? = some 1) →
      ∀ (rhs x : Vec) (r : Vec × List Event),
        gsXBraidMultigridBase.solve env s cfg hp L rhs x = some r →
        coarseCount r.2 = ∏ l in Finset.Icc 2 L, cycleMult cfg hp l := by
  intro L
  induction L with
  | zero => intro h; omega
  | succ m ih =>
      intro _ htags rhs x r h
      cases m with
      | zero =>
          simp only [gsXBraidMultigridBase.solve, Option.map_eq_some'] at h
          obtain ⟨y, _, rfl⟩ := h
          simp [coarseCount]
      | succ n =>
          have ih2 : ∀ cr c r, gsXBraidMultigridBase.solve env s cfg hp (n + 1) cr c = some r →
              coarseCount r.2 = ∏ l in Finset.Icc 2 (n + 1), cycleMult cfg hp l :=
            fun cr c r hr => ih (by omega) (fun k hk => htags k (by omega)) cr c r hr
          rw [Finset.prod_Icc_succ_top (by omega)]
          simp only [gsXBraidMultigridBase.solve, hpAt_max_add_two, Option.bind_eq_some,
            Option.map_eq_some'] at h
          obtain ⟨tag, htag, r1, h1, r2, h2, rfl⟩ := h
          have hm : n + 1 + 1 - 2 = n := by omega
          rcases htags n (by omega) with h0 | h0
          · rw [htag] at h0
            have ht : tag = 0 := by simpa using h0
            subst ht
            have hne : ¬ ((0 : ℚ) = 1) := by norm_num
            rw [if_pos rfl] at h1
            rw [if_neg hne] at h2
            simp only [Option.some.injEq] at h2
            subst h2
            have e := cycleBlock_coarseCount env s cfg hp (n + 2) _ _ _ ih2 rhs x r1 h1
            simp only [coarseCount, List.count_append, List.count_nil, Nat.add_zero] at e ⊢
            rw [e, Nat.mul_comm]
            congr 1
            simp only [cycleMult, hm, htag]
            by_cases hp2 : cfg.typeCycle_p = 2 <;> simp [hp2]
          · rw [htag] at h0
            have ht : tag = 1 := by simpa using h0
            subst ht
            have hne : ¬ ((1 : ℚ) = 0) := by norm_num
            rw [if_neg hne] at h1
            rw [if_pos rfl] at h2
            simp only [Option.some.injEq] at h1
            subst h1
            have e := cycleBlock_coarseCount env s cfg hp (n + 2) _ _ _ ih2 rhs x r2 h2
            simp only [coarseCount, List.count_append, List.count_nil, Nat.zero_add] at e ⊢
            rw [e, Nat.mul_comm]
            congr 1
            simp only [cycleMult, hm, htag]
            by_cases hh2 : cfg.typeCycle_h = 2 <;> simp [hh2]


/-- C2: for every `numLevels = L >= 1` and every schedule whose first `L-1` tags are 0 or
1, a call of `gsXBraidMultigridBase::solve` that returns has made exactly
`prod_{l=2..L} m(l)` calls of `solvecoarse`, with `m(l) = cycleMult cfg hp l`; hence 1
call when neither cycle type is 2 and `2^(L-1)` calls when both are 2. -/
theorem solve_coarse_solve_count {B S : Type} (env : Env B S) (s : Solver B S) (cfg : Config)
    (hp : List ℚ) (L : Nat) (hL : 1 ≤ L)
    (htags : ∀ k, k < L - 1 → hp[k]? = some 0 ∨ hp[k]? = some 1)
    (rhs x y : Vec) (log : List Event)
    (h : gsXBraidMultigridBase.solve env s cfg hp L rhs x = some (y, log)) :
    coarseCount log = ∏ l in Finset.Icc 2 L, cycleMult cfg hp l
    ∧ (cfg.typeCycle_p ≠ 2 → cfg.typeCycle_h ≠ 2 → coarseCount log = 1)
    ∧ (cfg.typeCycle_p = 2 → cfg.typeCycle_h = 2 → coarseCount log = 2 ^ (L - 1)) := by
  have main := solve_coarseCount env s cfg hp L hL htags rhs x (y, log) h
  refine ⟨main, ?_, ?_⟩
  · intro hp2 hh2
    rw [main]
    apply Finset.prod_eq_one
    intro l _
    simp [cycleMult, hp2, hh2]
  · intro hp2 hh2
    rw [main]
    have hall : ∀ l ∈ Finset.Icc 2 L, cycleMult cfg hp l = 2 := by
      intro l hl
      rw [Finset.mem_Icc] at hl
      have := htags (l - 2) (by omega)
      simp only [cycleMult, hp2, hh2, and_true]
      rw [if_pos this]
    rw [Finset.prod_congr rfl hall, Finset.prod_const, Nat.card_Icc]
    rfl

/-- The count of C2 on a three-level run with a P-tag below an H-tag, W-cycle in p and
V-cycle in h: two coarse solves. -/
theorem solve_coarse_solve_count_witness :
    coarseCount [Event.presmoothing 3, Event.restriction 3, Event.presmoothing 2,
        Event.restriction 2, Event.solvecoarse, Event.solvecoarse, Event.prolongation 2,
        Event.postsmoothing 2, Event.prolongation 3, Event.postsmoothing 3]
      = ∏ l in Finset.Icc 2 3, cycleMult unitConfig [0, 1] l :=
  (solve_coarse_solve_count unitEnv unitSolver unitConfig [0, 1] 3 (by decide)
    (by decide) [1] [0] [1] _ (by decide!)).1

/-! ## Signs: the two-level cycle is the additive coarse-grid correction -/

theorem vneg_length (v : Vec) : (vneg v).length = v.length := by
  simp [vneg]

theorem dot_nil_left (b : Vec) : dot [] b = 0 := by
  simp [dot]

theorem dot_nil_right (a : Vec) : dot a [] = 0 := by
  simp [dot]

theorem dot_cons (a : ℚ) (as : Vec) (b : ℚ) (bs : Vec) :
    dot (a :: as) (b :: bs) = a * b + dot as bs := by
  simp [dot]

theorem dot_vneg (a b : Vec) : dot a (vneg b) = - dot a b := by
  induction a generalizing b with
  | nil => simp [dot_nil_left]
  | cons a as ih =>
      cases b with
      | nil => simp [vneg, dot_nil_right]
      | cons b bs =>
          have := ih bs
          simp only [vneg, List.map_cons, dot_cons] at this ⊢
          rw [this]; ring

theorem mulVec_length {A : Mat} {v w : Vec} (h : A.mulVec v = some w) :
    w.length = A.val.length := by
  unfold Mat.mulVec at h
  split at h
  · simp only [Option.some.injEq] at h
    subst h; simp
  · simp at h

theorem mulVec_cols {A : Mat} {v w : Vec} (h : A.mulVec v = some w) : A.cols = v.length := by
  unfold Mat.mulVec at h
  split at h
  · assumption
  · simp at h

theorem mulVec_vneg {A : Mat} {v w : Vec} (h : A.mulVec v = some w) :
    A.mulVec (vneg v) = some (vneg w) := by
  unfold Mat.mulVec at h ⊢
  split at h
  · rename_i hc
    simp only [Option.some.injEq] at h
    subst h
    rw [if_pos (by rw [vneg_length]; exact hc)]
    simp [vneg, dot_vneg, List.map_map, Function.comp_def]
    intro r _
    exact dot_vneg r v
  · simp at h

theorem vsub_length {a b d : Vec} (h : vsub a b = some d) :
    a.length = b.length ∧ d.length = a.length := by
  unfold vsub at h
  split at h
  · rename_i hl
    simp only [Option.some.injEq] at h
    subst h
    simp [hl]
  · simp at h

theorem vadd_length {a b d : Vec} (h : vadd a b = some d) :
    a.length = b.length ∧ d.length = a.length := by
  unfold vadd at h
  split at h
  · rename_i hl
    simp only [Option.some.injEq] at h
    subst h
    simp [hl]
  · simp at h

theorem zipWith_sub_swap (a b : Vec) :
    List.zipWith (· - ·) b a = vneg (List.zipWith (· - ·) a b) := by
  induction a generalizing b with
  | nil => simp [vneg]
  | cons x xs ih =>
      cases b with
      | nil => simp [vneg]
      | cons y ys =>
          have := ih ys
          simp only [vneg, List.zipWith_cons_cons, List.map_cons] at this ⊢
          rw [this]; simp

theorem vsub_swap {a b d : Vec} (h : vsub a b = some d) : vsub b a = some (vneg d) := by
  unfold vsub at h ⊢
  split at h
  · rename_i hl
    simp only [Option.some.injEq] at h
    subst h
    rw [if_pos hl.symm, zipWith_sub_swap]
  · simp at h

theorem zipWith_sub_one_mul_vneg (x pe : Vec) :
    List.zipWith (· - ·) x (List.map (fun c => 1 * c) (vneg pe)) = List.zipWith (· + ·) x pe := by
  induction x generalizing pe with
  | nil => simp
  | cons a as ih =>
      cases pe with
      | nil => simp [vneg]
      | cons b bs =>
          have := ih bs
          simp only [vneg, List.map_cons, List.zipWith_cons_cons, List.map_map] at this ⊢
          rw [this]; simp

theorem vsub_one_mul_vneg {x pe y : Vec} (h : vadd x pe = some y) :
    vsub x ((vneg pe).map (fun c => 1 * c)) = some y := by
  unfold vadd at h
  unfold vsub
  split at h
  · rename_i hl
    simp only [Option.some.injEq] at h
    subst h
    rw [if_pos (by simp [vneg, hl]), zipWith_sub_one_mul_vneg]
  · simp at h

theorem iterM_zero {α : Type} (f : α → Option α) (a : α) : iterM f 0 a = some a := rfl

theorem repeatCycle_const (f : Vec → Option (Vec × List Event)) (y : Vec) (l : List Event)
    (hf : ∀ c, f c = some (y, l)) :
    ∀ (k : Nat) (c : Vec), 0 < k → ∃ log, repeatCycle f k c = some (y, log) := by
  intro k
  induction k with
  | zero => intro c h; omega
  | succ k ih =>
      intro c _
      cases k with
      | zero => exact ⟨l ++ [], by simp [repeatCycle, hf]⟩
      | succ j =>
          obtain ⟨log, hlog⟩ := ih y (by omega)
          refine ⟨l ++ log, ?_⟩
          have hstep : repeatCycle f (j + 1 + 1) c = (f c).bind (fun r =>
              (repeatCycle f (j + 1) r.1).map (fun r2 => (r2.1, r.2 ++ r2.2))) := rfl
          rw [hstep, hf c, Option.some_bind, hlog]
          rfl

theorem solve_add_two {B S : Type} (env : Env B S) (s : Solver B S) (cfg : Config)
    (hp : List ℚ) (n : Nat) (rhs x : Vec) :
    gsXBraidMultigridBase.solve env s cfg hp (n + 2) rhs x
      = (hpAt hp (max (((n + 2 : Nat) : Int) - 2) 0)).bind (fun tag =>
        (if tag = 0 then
            cycleBlock env s cfg hp (n + 2) (if cfg.typeCycle_p = 2 then 2 else 1)
              (gsXBraidMultigridBase.solve env s cfg hp (n + 1)) rhs x
          else some (x, [])).bind (fun r1 =>
        (if tag = 1 then
            cycleBlock env s cfg hp (n + 2) (if cfg.typeCycle_h = 2 then 2 else 1)
              (gsXBraidMultigridBase.solve env s cfg hp (n + 1)) rhs r1.1
          else some (r1.1, [])).map (fun r2 => (r2.1, r1.2 ++ r2.2)))) := rfl

/-- C3: for a two-level hierarchy with an H-COARSEN tag, `numSmoothing = 0` and a coarse
solver that returns the solution of `A_0 e = r`, one call of `solve` maps `x` to
`x + P e` where `e` solves `A_0 e = R (rhs - A_1 x)`, that is to
`x + P A_0^{-1} R (rhs - A_1 x)`: the residual `A x - rhs` of presmoothing and the
subtraction in postsmoothing combine to the additive coarse-grid correction. -/
theorem two_level_cycle_is_additive_correction {B S : Type} (env : Env B S) (s : Solver B S)
    (cfg : Config) (hp : List ℚ) (A0 A1 R P : Mat) (rhs x Ax d r e pe xnew : Vec)
    (hA0 : s.m_operator[0]? = some A0) (hA1 : s.m_operator[1]? = some A1)
    (hR : s.m_restriction_H[0]? = some R) (hP : s.m_prolongation_H[0]? = some P)
    (htag : hp[0]? = some 1) (hns : cfg.numSmoothing = 0)
    (hexact : ∀ b y, A0.mulVec y = some b → env.coarseSolver A0 b = some y)
    (h1 : A1.mulVec x = some Ax) (h2 : vsub rhs Ax = some d) (h3 : R.mulVec d = some r)
    (h4 : A0.mulVec e = some r) (h5 : P.mulVec e = some pe) (h6 : vadd x pe = some xnew) :
    ∃ log, gsXBraidMultigridBase.solve env s cfg hp 2 rhs x = some (xnew, log) := by
  have hone : ((1 : Nat) : Int) - 1 = 0 := rfl
  have hop1 : stdAt s.m_operator (((0 + 2 : Nat) : Int) - 1) = some A1 := by
    rw [stdAt_add_two_sub_one]; exact hA1
  have hpre : presmoothing env s cfg hp (0 + 2) rhs x = some (x, vneg d) := by
    simp only [presmoothing, hop1, hns, Int.toNat_zero, iterM_zero, bind, Option.bind, h1, h2,
      vsub_swap h2, pure]
  have hres : restriction env s cfg hp (0 + 2) (vneg d) = some (vneg r) := by
    simp only [restriction, hpAt_add_two_sub_two, stdAt_add_two_sub_two, htag, hR, bind,
      Option.bind, if_true, mulVec_vneg h3]
  have hcoarse : ∀ c, gsXBraidMultigridBase.solve env s cfg hp (0 + 1) (vneg r) c
      = some (vneg e, [Event.solvecoarse]) := by
    intro c
    simp only [gsXBraidMultigridBase.solve, solvecoarse, stdAt_zero, hA0, Option.bind,
      hexact _ _ (mulVec_vneg h4), Option.map]
  have hpro : prolongation env s cfg hp (0 + 2) (vneg e) = some (vneg pe) := by
    simp only [prolongation, hpAt_add_two_sub_two, stdAt_add_two_sub_two, htag, hP, bind,
      Option.bind, if_true, mulVec_vneg h5]
  have hlen : xnew.length = x.length := (vadd_length h6).2
  have hAxnew : ∃ w, A1.mulVec xnew = some w ∧ w.length = Ax.length := by
    refine ⟨A1.val.map (fun r => dot r xnew), ?_, ?_⟩
    · unfold Mat.mulVec; rw [if_pos (by rw [hlen]; exact mulVec_cols h1)]
    · rw [mulVec_length h1]; simp
  obtain ⟨w, hw, hwl⟩ := hAxnew
  have hres2 : ∃ q, vsub rhs w = some q := by
    refine ⟨List.zipWith (· - ·) rhs w, ?_⟩
    unfold vsub
    rw [if_pos (by rw [hwl]; exact (vsub_length h2).1)]
  obtain ⟨q, hq⟩ := hres2
  have hpost : postsmoothing env s cfg hp (0 + 2) rhs x (vneg pe) = some xnew := by
    simp only [postsmoothing, vsub_one_mul_vneg h6, hop1, hns, Int.toNat_zero, iterM_zero, bind,
      Option.bind, hw, hq]
  have hblock : ∀ mult, 0 < mult → ∃ log, cycleBlock env s cfg hp (0 + 2) mult
      (gsXBraidMultigridBase.solve env s cfg hp (0 + 1)) rhs x = some (xnew, log) := by
    intro mult hm
    obtain ⟨lg, hlg⟩ := repeatCycle_const
      (gsXBraidMultigridBase.solve env s cfg hp (0 + 1) (vneg r)) (vneg e) [Event.solvecoarse]
      hcoarse mult (zeros (vneg r).length) hm
    refine ⟨[Event.presmoothing (0 + 2), Event.restriction (0 + 2)] ++ lg ++
      [Event.prolongation (0 + 2), Event.postsmoothing (0 + 2)], ?_⟩
    simp only [cycleBlock, hpre, hres, hlg, hpro, hpost, bind, Option.bind, pure]
  obtain ⟨log, hlog⟩ := hblock (if cfg.typeCycle_h = 2 then 2 else 1) (by split <;> decide)
  refine ⟨[] ++ log, ?_⟩
  have hne : ¬ ((1 : ℚ) = 0) := by norm_num
  show gsXBraidMultigridBase.solve env s cfg hp (0 + 2) rhs x = _
  rw [solve_add_two, hpAt_max_add_two, htag]
  simp only [Option.some_bind, if_neg hne, if_true]
  rw [hlog]
  rfl

/-- The two-level model problem: from `x = 0` with `rhs = (1,1)` the cycle returns
`x + P A_0^{-1} R (rhs - A_1 x) = (1,1)`. -/
theorem two_level_cycle_is_additive_correction_witness :
    ∃ log, gsXBraidMultigridBase.solve twoLevelEnv twoLevelSolver noSmoothingConfig [1] 2
      [1, 1] [0, 0] = some ([1, 1], log) :=
  two_level_cycle_is_additive_correction twoLevelEnv twoLevelSolver noSmoothingConfig [1]
    ⟨1, 1, [[2]]⟩ ⟨2, 2, [[2, -1], [-1, 2]]⟩ ⟨1, 2, [[1, 1]]⟩ ⟨2, 1, [[1], [1]]⟩
    [1, 1] [0, 0] [0, 0] [1, 1] [2] [1] [1, 1] [1, 1]
    rfl rfl rfl rfl rfl rfl
    (by
      intro b y h
      unfold Mat.mulVec at h
      split at h
      · rename_i hc
        simp only [Option.some.injEq] at h
        subst h
        match y, hc with
        | [y0], _ => simp [twoLevelEnv, dot]
      · simp at h)
    (by decide!) (by decide!) (by decide!) (by decide!) (by decide!) (by decide!)

/-! ## Zero residual: every smoother leaves an exact solution unchanged -/

theorem zeros_succ (n : Nat) : zeros (n + 1) = 0 :: zeros n := rfl

theorem zeros_length (n : Nat) : (zeros n).length = n := by
  simp [zeros]

theorem zeros_append_zero (n : Nat) : zeros n ++ [0] = zeros (n + 1) := by
  simp only [zeros]
  rw [← List.replicate_succ']

theorem dot_zeros_right (a : Vec) (n : Nat) : dot a (zeros n) = 0 := by
  induction a generalizing n with
  | nil => exact dot_nil_left _
  | cons a as ih =>
      cases n with
      | zero => exact dot_nil_right _
      | succ n => rw [zeros_succ, dot_cons, ih]; simp

theorem vsub_self (a : Vec) : vsub a a = some (zeros a.length) := by
  unfold vsub
  rw [if_pos rfl]
  congr 1
  induction a with
  | nil => rfl
  | cons x xs ih => simp only [List.zipWith_cons_cons, List.length_cons, zeros_succ, ih]; simp

theorem zipWith_add_zeros (x : Vec) : List.zipWith (· + ·) x (zeros x.length) = x := by
  induction x with
  | nil => rfl
  | cons a as ih => simp only [List.length_cons, zeros_succ, List.zipWith_cons_cons, ih]; simp

theorem vadd_zeros (x : Vec) (n : Nat) (h : x.length = n) : vadd x (zeros n) = some x := by
  subst h
  unfold vadd
  rw [if_pos (zeros_length _).symm, zipWith_add_zeros]

theorem zipWith_sub_one_mul_zeros (x : Vec) :
    List.zipWith (· - ·) x ((zeros x.length).map (fun c => 1 * c)) = x := by
  induction x with
  | nil => rfl
  | cons a as ih =>
      simp only [List.length_cons, zeros_succ, List.map_cons, List.zipWith_cons_cons, ih]; simp

theorem vsub_one_mul_zeros (x : Vec) :
    vsub x ((zeros x.length).map (fun c => 1 * c)) = some x := by
  unfold vsub
  rw [if_pos (by simp [zeros]), zipWith_sub_one_mul_zeros]

theorem zeros_set_zero (n k : Nat) : (zeros n).set k 0 = zeros n := by
  induction n generalizing k with
  | zero => rfl
  | succ n ih =>
      cases k with
      | zero => rfl
      | succ k => simp only [zeros_succ, List.set_cons_succ, ih]

theorem foldl_set_zeros (n : Nat) (l : List (Nat × ℚ)) (h : ∀ kv ∈ l, kv.2 = 0) :
    l.foldl (fun acc kv => acc.set kv.1 kv.2) (zeros n) = zeros n := by
  induction l with
  | nil => rfl
  | cons kv l ih =>
      rw [List.foldl_cons, h kv (List.mem_cons_self _ _), zeros_set_zero]
      exact ih (fun kv2 hkv2 => h kv2 (List.mem_cons_of_mem _ hkv2))

theorem permApply_zeros (p : List Nat) (n : Nat) (hp : PermOn p n) :
    permApply p (zeros n) = some (zeros n) := by
  unfold permApply
  rw [zeros_length, if_pos (show p.length = n ∧ ∀ k ∈ p, k < n from hp)]
  congr 1
  apply foldl_set_zeros
  intro kv hkv
  have := (List.of_mem_zip hkv).2
  exact List.eq_of_mem_replicate this

theorem unitLowerRows_zeros (rows : List (List ℚ)) :
    ∀ (k j : Nat), unitLowerRows rows (zeros k) (zeros j) = zeros (j + min rows.length k) := by
  induction rows with
  | nil => intro k j; simp [unitLowerRows]
  | cons r rs ih =>
      intro k j
      cases k with
      | zero => simp [unitLowerRows, zeros]
      | succ k =>
          rw [zeros_succ]
          simp only [unitLowerRows]
          rw [dot_zeros_right, sub_zero, zeros_append_zero, ih k (j + 1)]
          congr 1
          simp only [List.length_cons]
          omega

theorem solveUnitLower_zeros (M : Mat) (n : Nat) (h : M.SquareOf n) :
    solveUnitLower M (zeros n) = some (zeros n) := by
  obtain ⟨h1, h2, h3⟩ := h
  unfold solveUnitLower
  rw [zeros_length, if_pos ⟨by rw [h1, h2], h2, h3⟩]
  have := unitLowerRows_zeros M.val n 0
  rw [h3] at this
  simp only [Nat.min_self, Nat.zero_add] at this
  exact congrArg some this

theorem zero_cons_zeros (n : Nat) : (0 : ℚ) :: zeros n = zeros (n + 1) := rfl

theorem upperRows_zeros (rows : List (List ℚ)) :
    ∀ (i j : Nat), (∀ (m : Nat) (h : m < rows.length), (rows[m]).getD (i - m) 0 ≠ 0) →
      upperRows rows (zeros rows.length) i (zeros j) = some (zeros (j + rows.length)) := by
  induction rows with
  | nil => intro i j _; simp [upperRows]
  | cons r rs ih =>
      intro i j hd
      have h0 : r.getD i 0 ≠ 0 := by
        have := hd 0 (by simp)
        simpa using this
      simp only [List.length_cons, zeros_succ, upperRows]
      rw [if_neg h0, dot_zeros_right, sub_zero, zero_div, zero_cons_zeros]
      show upperRows rs (zeros rs.length) (i - 1) (zeros (j + 1)) = _
      rw [ih (i - 1) (j + 1)]
      · congr 2; omega
      · intro m hm
        have := hd (m + 1) (by simp; omega)
        simp only [List.getElem_cons_succ] at this
        rw [Nat.sub_sub, Nat.add_comm 1 m]
        exact this

theorem zeros_reverse (n : Nat) : (zeros n).reverse = zeros n := by
  simp [zeros]

theorem solveUpper_zeros (M : Mat) (n : Nat) (h : M.SquareOf n) (hd : M.DiagNonzero) :
    solveUpper M (zeros n) = some (zeros n) := by
  obtain ⟨h1, h2, h3⟩ := h
  unfold solveUpper
  rw [zeros_length, if_pos ⟨by rw [h1, h2], h2, h3⟩, zeros_reverse]
  have hl : M.val.reverse.length = n := by simp [h3]
  have := upperRows_zeros M.val.reverse (n - 1) 0 (by
    intro m hm
    rw [List.getElem_reverse]
    rw [hl] at hm
    have hidx : M.val.length - 1 - m = n - 1 - m := by rw [h3]
    have := hd (n - 1 - m) (by omega)
    simp only [hidx]
    exact this)
  rw [hl, Nat.zero_add] at this
  exact this

theorem mulVec_eq {A : Mat} {v w : Vec} (h : A.mulVec v = some w) :
    w = A.val.map (fun r => dot r v) := by
  unfold Mat.mulVec at h
  split at h
  · simp only [Option.some.injEq] at h
    exact h.symm
  · simp at h

theorem set_getElem_same {α : Type} (l : List α) (i : Nat) (h : i < l.length) :
    l.set i (l[i]) = l := by
  induction l generalizing i with
  | nil => rfl
  | cons a l ih =>
      cases i with
      | zero => rfl
      | succ i =>
          simp only [List.set_cons_succ, List.getElem_cons_succ]
          rw [ih i (by simpa using h)]

theorem gsUpdate_fixed (A : Mat) (rhs x : Vec) (i : Nat) (hi : i < A.val.length)
    (hx : i < x.length) (hsol : A.mulVec x = some rhs) (hd : A.DiagNonzero) :
    gsUpdate A rhs x i = some x := by
  have hr : rhs[i]? = some (dot (A.val[i]) x) := by
    rw [mulVec_eq hsol, List.getElem?_map, List.getElem?_eq_getElem hi]
    rfl
  unfold gsUpdate
  rw [List.getElem?_eq_getElem hi, hr, List.getElem?_eq_getElem hx]
  simp only
  rw [if_neg (hd i hi), sub_self, zero_div, add_zero, set_getElem_same]

theorem foldlM_gsUpdate_fixed (A : Mat) (rhs x : Vec) (hsol : A.mulVec x = some rhs)
    (hd : A.DiagNonzero) (l : List Nat)
    (hl : ∀ i ∈ l, i < A.val.length ∧ i < x.length) :
    l.foldlM (gsUpdate A rhs) x = some x := by
  induction l with
  | nil => rfl
  | cons i l ih =>
      rw [List.foldlM_cons, gsUpdate_fixed A rhs x i (hl i (List.mem_cons_self _ _)).1
        (hl i (List.mem_cons_self _ _)).2 hsol hd]
      exact ih (fun j hj => hl j (List.mem_cons_of_mem _ hj))

theorem gaussSeidelSweep_fixed (A : Mat) (rhs x : Vec) (n : Nat) (hsq : A.SquareOf n)
    (hsol : A.mulVec x = some rhs) (hd : A.DiagNonzero) :
    gaussSeidelSweep A x rhs = some x ∧ reverseGaussSeidelSweep A x rhs = some x := by
  obtain ⟨h1, h2, h3⟩ := hsq
  have hxl : x.length = n := by rw [← mulVec_cols hsol, h2]
  have hrl : rhs.length = n := by rw [mulVec_length hsol, h3]
  have hcond : A.rows = A.cols ∧ A.cols = x.length ∧ x.length = rhs.length ∧
      A.val.length = A.rows := ⟨by rw [h1, h2], by rw [h2, hxl], by rw [hxl, hrl], by rw [h3, h1]⟩
  unfold gaussSeidelSweep reverseGaussSeidelSweep
  rw [if_pos hcond, if_pos hcond]
  constructor
  · apply foldlM_gsUpdate_fixed A rhs x hsol hd
    intro i hi
    rw [List.mem_range] at hi
    omega
  · apply foldlM_gsUpdate_fixed A rhs x hsol hd
    intro i hi
    rw [List.mem_reverse, List.mem_range] at hi
    omega

theorem iterM_fixed {α : Type} (f : α → Option α) (a : α) (h : f a = some a) :
    ∀ k, iterM f k a = some a := by
  intro k
  induction k with
  | zero => rfl
  | succ k ih => simp only [iterM, h, Option.some_bind, ih]

theorem gsSweep_fixed {B S : Type} (s : Solver B S) (numLevels : Nat) (reverse : Bool)
    (A : Mat) (rhs x : Vec) (n : Nat)
    (hA : stdAt s.m_operator ((numLevels : Int) - 1) = some A) (hsq : A.SquareOf n)
    (hsol : A.mulVec x = some rhs) (hd : A.DiagNonzero) :
    gsSweep s numLevels reverse rhs x = some x := by
  have h := gaussSeidelSweep_fixed A rhs x n hsq hsol hd
  cases reverse <;> simp [gsSweep, hA, h.1, h.2]

theorem ilutSweep_fixed {B S : Type} (s : Solver B S) (numLevels : Nat)
    (A lu : Mat) (p pinv : List Nat) (rhs x : Vec) (n : Nat)
    (hA : stdAt s.m_operator ((numLevels : Int) - 1) = some A) (hsq : A.SquareOf n)
    (hsol : A.mulVec x = some rhs)
    (hlu : (stdAt s.m_ILUT ((numLevels : Int) - 1)).bind (fun l => stdAt l 0) = some lu)
    (hp : (stdAt s.m_P ((numLevels : Int) - 1)).bind (fun l => stdAt l 0) = some p)
    (hpinv : (stdAt s.m_Pinv ((numLevels : Int) - 1)).bind (fun l => stdAt l 0) = some pinv)
    (hlusq : lu.SquareOf n) (hlud : lu.DiagNonzero) (hpp : PermOn p n) (hpi : PermOn pinv n) :
    ilutSweep s numLevels rhs x = some x := by
  have hxl : x.length = n := by rw [← mulVec_cols hsol, hsq.2.1]
  have hrl : rhs.length = n := by rw [mulVec_length hsol, hsq.2.2]
  have hd : vsub rhs rhs = some (zeros n) := by rw [vsub_self, hrl]
  simp only [ilutSweep, hA, hsol, hd, hlu, hp, hpinv, Option.bind_eq_bind, Option.some_bind,
    permApply_zeros pinv n hpi, solveUnitLower_zeros lu n hlusq,
    solveUpper_zeros lu n hlusq hlud, permApply_zeros p n hpp, vadd_zeros x n hxl]

theorem blockSweep_fixed {B S : Type} (s : Solver B S) (numLevels : Nat)
    (A lu : Mat) (rhs x : Vec) (n : Nat)
    (hA : stdAt s.m_operator ((numLevels : Int) - 1) = some A) (hsq : A.SquareOf n)
    (hsol : A.mulVec x = some rhs)
    (hlu : stdAt s.m_A_aprox ((numLevels : Int) - 1) = some lu)
    (hlusq : lu.SquareOf n) (hlud : lu.DiagNonzero) :
    blockSweep s numLevels rhs x = some x := by
  have hxl : x.length = n := by rw [← mulVec_cols hsol, hsq.2.1]
  have hrl : rhs.length = n := by rw [mulVec_length hsol, hsq.2.2]
  have hd : vsub rhs rhs = some (zeros n) := by rw [vsub_self, hrl]
  simp only [blockSweep, hA, hsol, hd, hlu, Option.bind_eq_bind, Option.some_bind,
    solveUnitLower_zeros lu n hlusq, solveUpper_zeros lu n hlusq hlud, vadd_zeros x n hxl]

theorem smoothSweep_fixed {B S : Type} (env : Env B S) (s : Solver B S) (cfg : Config)
    (hp : List ℚ) (numLevels : Nat) (reverse : Bool) (A : Mat) (rhs x : Vec) (n : Nat)
    (hA : stdAt s.m_operator ((numLevels : Int) - 1) = some A)
    (hsol : A.mulVec x = some rhs)
    (hts : cfg.typeSmoother = 1 ∨ cfg.typeSmoother = 2 ∨ cfg.typeSmoother = 5)
    (hready : SmootherReady s cfg hp numLevels A n) :
    smoothSweep env s cfg hp numLevels reverse rhs x = some x := by
  obtain ⟨hsq, h2, h1, h5⟩ := hready
  unfold smoothSweep
  rcases hts with ht | ht | ht
  · obtain ⟨g, hg, hgt, hgf⟩ := h1 ht
    rw [if_pos ht]
    cases g with
    | true =>
        simp only [hg, Option.bind_eq_bind, Option.some_bind, if_true]
        exact gsSweep_fixed s numLevels reverse A rhs x n hA hsq hsol (hgt rfl)
    | false =>
        obtain ⟨lu, p, pinv, hlu, hpm, hpinv, hlusq, hlud, hpp, hpi⟩ := hgf rfl
        simp only [hg, Option.bind_eq_bind, Option.some_bind, Bool.false_eq_true, if_false]
        exact ilutSweep_fixed s numLevels A lu p pinv rhs x n hA hsq hsol hlu hpm hpinv
          hlusq hlud hpp hpi
  · have hne : ¬ cfg.typeSmoother = 1 := by rw [ht]; decide
    rw [if_neg hne, if_pos ht]
    exact gsSweep_fixed s numLevels reverse A rhs x n hA hsq hsol (h2 ht)
  · have hne1 : ¬ cfg.typeSmoother = 1 := by rw [ht]; decide
    have hne2 : ¬ cfg.typeSmoother = 2 := by rw [ht]; decide
    have hne3 : ¬ cfg.typeSmoother = 3 := by rw [ht]; decide
    obtain ⟨g, hg, hgt, hgf⟩ := h5 ht
    rw [if_neg hne1, if_neg hne2, if_neg hne3, if_pos ht]
    cases g with
    | true =>
        simp only [hg, Option.bind_eq_bind, Option.some_bind, if_true]
        exact gsSweep_fixed s numLevels reverse A rhs x n hA hsq hsol (hgt rfl)
    | false =>
        obtain ⟨lu, hlu, hlusq, hlud⟩ := hgf rfl
        simp only [hg, Option.bind_eq_bind, Option.some_bind, Bool.false_eq_true, if_false]
        exact blockSweep_fixed s numLevels A lu rhs x n hA hsq hsol hlu hlusq hlud

/-- C4: on an exact solution (`m_operator[numLevels-1] * x = rhs`) every built-in smoother
(`typeSmoother` 1, 2 or 5) whose state fits the operator leaves `x` unchanged, for every
`numSmoothing`: `presmoothing` returns `x` with `fineRes = 0`, and `postsmoothing` with a
zero correction returns `x`. -/
theorem smoothers_fix_exact_solution {B S : Type} (env : Env B S) (s : Solver B S)
    (cfg : Config) (hp : List ℚ) (numLevels : Nat) (A : Mat) (rhs x : Vec) (n : Nat)
    (hA : stdAt s.m_operator ((numLevels : Int) - 1) = some A)
    (hsol : A.mulVec x = some rhs)
    (hts : cfg.typeSmoother = 1 ∨ cfg.typeSmoother = 2 ∨ cfg.typeSmoother = 5)
    (hready : SmootherReady s cfg hp numLevels A n) :
    presmoothing env s cfg hp numLevels rhs x = some (x, zeros rhs.length)
    ∧ postsmoothing env s cfg hp numLevels rhs x (zeros x.length) = some x := by
  have hsw : ∀ reverse, smoothSweep env s cfg hp numLevels reverse rhs x = some x :=
    fun reverse => smoothSweep_fixed env s cfg hp numLevels reverse A rhs x n hA hsol hts hready
  have hpost : postSweep env s cfg hp numLevels rhs x = some x := by
    simp only [postSweep, hsw, hA, hsol, vsub_self, Option.bind_eq_bind, Option.some_bind, Option.pure_def]
  constructor
  · simp only [presmoothing, hA, hsol, vsub_self, Option.bind_eq_bind, Option.some_bind,
      iterM_fixed _ x (hsw false), Option.pure_def]
  · simp only [postsmoothing, vsub_one_mul_zeros, hA, hsol, vsub_self, Option.bind_eq_bind, Option.some_bind,
      iterM_fixed _ x hpost]

/-- The factorization smoother on the exact solution `(1,1)` of
`tridiag(-1,2,-1) x = (1,1)`: two sweeps leave `x` unchanged. -/
theorem smoothers_fix_exact_solution_witness :
    presmoothing twoLevelEnv factorSolver factorConfig [0] 2 [1, 1] [1, 1]
        = some ([1, 1], zeros 2)
    ∧ postsmoothing twoLevelEnv factorSolver factorConfig [0] 2 [1, 1] [1, 1] (zeros 2)
        = some [1, 1] :=
  smoothers_fix_exact_solution twoLevelEnv factorSolver factorConfig [0] 2
    ⟨2, 2, [[2, -1], [-1, 2]]⟩ [1, 1] [1, 1] 2 (by decide!) (by decide!) (Or.inl rfl)
    ⟨⟨rfl, rfl, rfl⟩, fun h => absurd h (by decide),
      fun _ => ⟨false, by decide!, fun h => absurd h (by decide),
        fun _ => ⟨⟨2, 2, [[2, -1], [-1 / 2, 3 / 2]]⟩, [0, 1], [0, 1], by decide!, by decide!,
          by decide!, ⟨rfl, rfl, rfl⟩, by unfold Mat.DiagNonzero; decide!,
          ⟨rfl, by decide⟩, ⟨rfl, by decide⟩⟩⟩,
      fun h => absurd h (by decide)⟩

/-! ## The hierarchy built by `setup` -/

theorem foldlM_cons_some {σ ι : Type} (f : σ → ι → Option σ) (i : ι) (l : List ι) (s s2 : σ) :
    (i :: l).foldlM f s = some s2 ↔ ∃ s1, f s i = some s1 ∧ l.foldlM f s1 = some s2 := by
  rw [List.foldlM_cons]
  simp only [Option.bind_eq_bind, Option.bind_eq_some]

theorem foldlM_preserves {σ ι : Type} (f : σ → ι → Option σ) (Q : σ → Prop) (l : List ι)
    (hstep : ∀ s i s2, i ∈ l → f s i = some s2 → Q s → Q s2) :
    ∀ (s s2 : σ), l.foldlM f s = some s2 → Q s → Q s2 := by
  induction l with
  | nil =>
      intro s s2 h hq
      simp only [List.foldlM_nil, Option.pure_def, Option.some.injEq] at h
      subst h; exact hq
  | cons i l ih =>
      intro s s2 h hq
      rw [foldlM_cons_some] at h
      obtain ⟨s1, h1, h2⟩ := h
      exact ih (fun s i s2 hi => hstep s i s2 (List.mem_cons_of_mem _ hi)) s1 s2 h2
        (hstep s i s1 (List.mem_cons_self _ _) h1 hq)

theorem foldlM_establishes {σ ι : Type} (f : σ → ι → Option σ) (Q : σ → Prop) (i : ι)
    (l : List ι) (hi : i ∈ l)
    (hpres : ∀ s j s2, j ∈ l → f s j = some s2 → Q s → Q s2)
    (hest : ∀ s s2, f s i = some s2 → Q s2) :
    ∀ (s s2 : σ), l.foldlM f s = some s2 → Q s2 := by
  induction l with
  | nil => simp at hi
  | cons j l ih =>
      intro s s2 h
      rw [foldlM_cons_some] at h
      obtain ⟨s1, h1, h2⟩ := h
      rcases List.mem_cons.mp hi with rfl | hmem
      · exact foldlM_preserves f Q l (fun s j s2 hj => hpres s j s2 (List.mem_cons_of_mem _ hj))
          s1 s2 h2 (hest s s1 h1)
      · exact ih hmem (fun s j s2 hj => hpres s j s2 (List.mem_cons_of_mem _ hj)) s1 s2 h2

theorem hpAt_some_pos {hp : List ℚ} {i : Nat} {tag : ℚ}
    (h : hpAt hp ((i : Int) - 1) = some tag) : 1 ≤ i ∧ hp[i - 1]? = some tag := by
  unfold hpAt at h
  split at h
  · rename_i hnn
    have h1 : 1 ≤ i := by omega
    refine ⟨h1, ?_⟩
    have : ((i : Int) - 1).toNat = i - 1 := by omega
    rw [this] at h
    exact h
  · simp at h

theorem hpAt_pred {hp : List ℚ} {i : Nat} (h1 : 1 ≤ i) :
    hpAt hp ((i : Int) - 1) = hp[i - 1]? := by
  unfold hpAt
  have hnn : (0 : Int) ≤ (i : Int) - 1 := by omega
  have : ((i : Int) - 1).toNat = i - 1 := by omega
  rw [if_pos hnn, this]

/-! ### The steps change only their own members -/

theorem transferHStep_cases {B S : Type} (env : Env B S) (hp : List ℚ)
    (s s2 : Solver B S) (i : Nat) (h : transferHStep env hp s i = some s2) :
    1 ≤ i ∧
    ((hp[i - 1]? ≠ some 1 ∧ s2 = s) ∨
     (hp[i - 1]? = some 1 ∧ ∃ b, s.m_basis[i]? = some b ∧
        i - 1 < s.m_prolongation_H.length ∧ i - 1 < s.m_restriction_H.length ∧
        s2 = { s with
          m_prolongation_H := s.m_prolongation_H.set (i - 1) (env.coarsenTransfer b)
          m_restriction_H := s.m_restriction_H.set (i - 1) (env.coarsenTransfer b).transpose })) := by
  unfold transferHStep at h
  split at h
  · rename_i tag htag
    obtain ⟨h1, ht⟩ := hpAt_some_pos htag
    refine ⟨h1, ?_⟩
    split at h
    · rename_i h1tag
      subst h1tag
      right
      refine ⟨ht, ?_⟩
      split at h
      · rename_i b hb
        split at h
        · rename_i hlen
          simp only [Option.some.injEq] at h
          exact ⟨b, hb, hlen.1, hlen.2, h.symm⟩
        · simp at h
      · simp at h
    · rename_i hne
      left
      simp only [Option.some.injEq] at h
      refine ⟨?_, h.symm⟩
      rw [ht]
      intro hc
      exact hne (Option.some.inj hc)
  · simp at h

theorem transferPStep_cases {B S : Type} (env : Env B S) (hp : List ℚ)
    (s s2 : Solver B S) (i : Nat) (h : transferPStep env hp s i = some s2) :
    1 ≤ i ∧
    ((hp[i - 1]? ≠ some 0 ∧ s2 = s) ∨
     (hp[i - 1]? = some 0 ∧ ∃ bL bH, s.m_basis[i - 1]? = some bL ∧ s.m_basis[i]? = some bH ∧
        i - 1 < s.m_prolongation_P.length ∧ i - 1 < s.m_restriction_P.length ∧
        i - 1 < s.m_prolongation_M.length ∧ i - 1 < s.m_restriction_M.length ∧
        s2 = { s with
          m_prolongation_P := s.m_prolongation_P.set (i - 1) (env.exprMatrix bL bH).transpose
          m_restriction_P :=
            s.m_restriction_P.set (i - 1) (env.exprMatrix bL bH).transpose.transpose
          m_prolongation_M := s.m_prolongation_M.set (i - 1) (env.exprRhs bH)
          m_restriction_M := s.m_restriction_M.set (i - 1) (env.exprRhs bL) })) := by
  unfold transferPStep at h
  split at h
  · rename_i tag htag
    obtain ⟨h1, ht⟩ := hpAt_some_pos htag
    refine ⟨h1, ?_⟩
    split at h
    · rename_i h0tag
      subst h0tag
      right
      refine ⟨ht, ?_⟩
      split at h
      · rename_i p pm rm hp1 hpm hrm
        split at h
        · rename_i hlen
          simp only [Option.some.injEq] at h
          unfold prolongation_P at hp1
          unfold prolongation_M at hpm
          unfold restriction_M at hrm
          have e1 : i + 1 - 2 = i - 1 := by omega
          have e2 : i + 1 - 1 = i := by omega
          rw [e1, e2] at hp1 hpm hrm
          split at hp1
          · rename_i bL bH hbL hbH
            rw [hbL, hbH] at hpm hrm
            simp only [show 2 ≤ i + 1 from by omega, if_true, Option.some.injEq] at hp1 hpm hrm
            subst hp1 hpm hrm
            exact ⟨bL, bH, hbL, hbH, hlen.1, hlen.2.1, hlen.2.2.1, hlen.2.2.2, h.symm⟩
          · simp at hp1
        · simp at h
      · simp at h
    · rename_i hne
      left
      simp only [Option.some.injEq] at h
      refine ⟨?_, h.symm⟩
      rw [ht]
      intro hc
      exact hne (Option.some.inj hc)
  · simp at h

theorem assembleStep_cases {B S : Type} (env : Env B S) (cfg : Config) (hp : List ℚ)
    (numLevels : Nat) (s s2 : Solver B S) (i : Nat)
    (h : assembleStep env cfg hp numLevels s i = some s2) :
    (cfg.typeCoarseOperator ≠ 1 ∧ s2 = s) ∨
    (∃ b, s.m_assembler[i]? = some b ∧ i < s.m_operator.length ∧
        s2 = { s with m_operator := s.m_operator.set i (env.assemble b) }) := by
  unfold assembleStep at h
  split at h
  · right
    split at h
    · rename_i b hb
      split at h
      · rename_i hlen
        simp only [Option.some.injEq] at h
        exact ⟨b, hb, hlen, h.symm⟩
      · simp at h
    · simp at h
  · rename_i hne
    split at h
    · split at h
      · right
        split at h
        · rename_i b hb
          split at h
          · rename_i hlen
            simp only [Option.some.injEq] at h
            exact ⟨b, hb, hlen, h.symm⟩
          · simp at h
        · simp at h
      · left
        simp only [Option.some.injEq] at h
        exact ⟨hne, h.symm⟩
    · simp at h

theorem galerkinAssign_cases {B S : Type} (s s2 : Solver B S) (k : Nat)
    (h : galerkinAssign s k = some s2) :
    ∃ r a p ra rap, s.m_restriction_H[k]? = some r ∧ s.m_operator[k + 1]? = some a ∧
      s.m_prolongation_H[k]? = some p ∧ r.mul a = some ra ∧ ra.mul p = some rap ∧
      k < s.m_operator.length ∧ s2 = { s with m_operator := s.m_operator.set k rap } := by
  unfold galerkinAssign at h
  split at h
  · rename_i r a p hr ha hp
    split at h
    · rename_i ra hra
      split at h
      · rename_i rap hrap
        split at h
        · rename_i hlen
          simp only [Option.some.injEq] at h
          exact ⟨r, a, p, ra, rap, hr, ha, hp, hra, hrap, hlen, h.symm⟩
        · simp at h
      · simp at h
    · simp at h
  · simp at h

theorem galerkinStep_frame {B S : Type} (hp : List ℚ) (s s2 : Solver B S) (i : Nat)
    (h : galerkinStep hp s i = some s2) :
    ∃ ops, s2 = { s with m_operator := ops } := by
  unfold galerkinStep at h
  split at h
  · obtain ⟨r, a, p, ra, rap, _, _, _, _, _, _, e⟩ := galerkinAssign_cases s s2 _ h
    exact ⟨_, e⟩
  · simp only [Option.some.injEq] at h
    exact ⟨s.m_operator, by rw [← h]⟩
  · simp at h

theorem foldlM_galerkinStep_frame {B S : Type} (hp : List ℚ) (l : List Nat)
    (s s2 : Solver B S) (h : l.foldlM (galerkinStep hp) s = some s2) :
    ∃ ops, s2 = { s with m_operator := ops } := by
  refine foldlM_preserves (galerkinStep hp) (fun t => ∃ ops, t = { s with m_operator := ops }) l
    ?_ s s2 h ⟨s.m_operator, rfl⟩
  intro t i t2 _ ht hq
  obtain ⟨ops, rfl⟩ := hq
  obtain ⟨ops2, rfl⟩ := galerkinStep_frame hp _ t2 i ht
  exact ⟨ops2, rfl⟩

theorem foldlM_assembleStep_frame {B S : Type} (env : Env B S) (cfg : Config) (hp : List ℚ)
    (numLevels : Nat) (l : List Nat) (s s2 : Solver B S)
    (h : l.foldlM (assembleStep env cfg hp numLevels) s = some s2) :
    ∃ ops, s2 = { s with m_operator := ops } ∧ ops.length = s.m_operator.length := by
  refine foldlM_preserves (assembleStep env cfg hp numLevels)
    (fun t => ∃ ops, t = { s with m_operator := ops } ∧ ops.length = s.m_operator.length) l
    ?_ s s2 h ⟨s.m_operator, rfl, rfl⟩
  intro t i t2 _ ht hq
  obtain ⟨ops, rfl, hlen⟩ := hq
  rcases assembleStep_cases env cfg hp numLevels _ t2 i ht with ⟨_, rfl⟩ | ⟨b, _, _, rfl⟩
  · exact ⟨ops, rfl, hlen⟩
  · exact ⟨_, rfl, by simp [hlen]⟩

theorem foldlM_transferPStep_frame {B S : Type} (env : Env B S) (hp : List ℚ)
    (l : List Nat) (s s2 : Solver B S)
    (h : l.foldlM (transferPStep env hp) s = some s2) :
    ∃ pp rp pm rm, s2 = { s with
        m_prolongation_P := pp
        m_restriction_P := rp
        m_prolongation_M := pm
        m_restriction_M := rm } ∧
      pp.length = s.m_prolongation_P.length ∧ rp.length = s.m_restriction_P.length ∧
      pm.length = s.m_prolongation_M.length ∧ rm.length = s.m_restriction_M.length := by
  refine foldlM_preserves (transferPStep env hp)
    (fun t => ∃ pp rp pm rm, t = { s with
        m_prolongation_P := pp
        m_restriction_P := rp
        m_prolongation_M := pm
        m_restriction_M := rm } ∧
      pp.length = s.m_prolongation_P.length ∧ rp.length = s.m_restriction_P.length ∧
      pm.length = s.m_prolongation_M.length ∧ rm.length = s.m_restriction_M.length) l
    ?_ s s2 h ⟨_, _, _, _, rfl, rfl, rfl, rfl, rfl⟩
  intro t i t2 _ ht hq
  obtain ⟨pp, rp, pm, rm, rfl, h1, h2, h3, h4⟩ := hq
  rcases (transferPStep_cases env hp _ t2 i ht).2 with ⟨_, rfl⟩ | ⟨_, bL, bH, _, _, _, _, _, _, rfl⟩
  · exact ⟨pp, rp, pm, rm, rfl, h1, h2, h3, h4⟩
  · exact ⟨_, _, _, _, rfl, by simp [h1], by simp [h2], by simp [h3], by simp [h4]⟩

theorem foldlM_transferHStep_frame {B S : Type} (env : Env B S) (hp : List ℚ)
    (l : List Nat) (s s2 : Solver B S)
    (h : l.foldlM (transferHStep env hp) s = some s2) :
    ∃ ph rh, s2 = { s with
        m_prolongation_H := ph
        m_restriction_H := rh } ∧
      ph.length = s.m_prolongation_H.length ∧ rh.length = s.m_restriction_H.length := by
  refine foldlM_preserves (transferHStep env hp)
    (fun t => ∃ ph rh, t = { s with
        m_prolongation_H := ph
        m_restriction_H := rh } ∧
      ph.length = s.m_prolongation_H.length ∧ rh.length = s.m_restriction_H.length) l
    ?_ s s2 h ⟨_, _, rfl, rfl, rfl⟩
  intro t i t2 _ ht hq
  obtain ⟨ph, rh, rfl, h1, h2⟩ := hq
  rcases (transferHStep_cases env hp _ t2 i ht).2 with ⟨_, rfl⟩ | ⟨_, b, _, _, _, rfl⟩
  · exact ⟨ph, rh, rfl, h1, h2⟩
  · exact ⟨_, _, rfl, by simp [h1], by simp [h2]⟩

/-! ### What each loop establishes -/

theorem transferHStep_HLevel_pres {B S : Type} (env : Env B S) (hp : List ℚ)
    (t t2 : Solver B S) (j k : Nat) (h : transferHStep env hp t j = some t2)
    (hq : HLevel env t k) : HLevel env t2 k := by
  obtain ⟨h1, hc⟩ := transferHStep_cases env hp t t2 j h
  rcases hc with ⟨_, rfl⟩ | ⟨_, b2, hb2, hl1, hl2, rfl⟩
  · exact hq
  · obtain ⟨b, hb, hp1, hr1⟩ := hq
    by_cases hjk : j - 1 = k
    · have hj : j = k + 1 := by omega
      subst hj
      have hbb : b2 = b := by
        rw [hb] at hb2
        exact (Option.some.inj hb2).symm
      subst hbb
      refine ⟨b2, hb, ?_, ?_⟩
      · simp only [Nat.add_sub_cancel] at hl1 ⊢
        rw [List.getElem?_set, if_pos rfl, if_pos hl1]
      · simp only [Nat.add_sub_cancel] at hl2 ⊢
        rw [List.getElem?_set, if_pos rfl, if_pos hl2]
    · refine ⟨b, hb, ?_, ?_⟩
      · show (t.m_prolongation_H.set (j - 1) _)[k]? = _
        rw [List.getElem?_set, if_neg hjk]; exact hp1
      · show (t.m_restriction_H.set (j - 1) _)[k]? = _
        rw [List.getElem?_set, if_neg hjk]; exact hr1

theorem transferHStep_HLevel_est {B S : Type} (env : Env B S) (hp : List ℚ)
    (t t2 : Solver B S) (i : Nat) (h : transferHStep env hp t i = some t2)
    (htag : hp[i - 1]? = some 1) : HLevel env t2 (i - 1) := by
  obtain ⟨h1, hc⟩ := transferHStep_cases env hp t t2 i h
  rcases hc with ⟨hne, _⟩ | ⟨_, b, hb, hl1, hl2, rfl⟩
  · exact absurd htag hne
  · refine ⟨b, ?_, ?_, ?_⟩
    · have : i - 1 + 1 = i := by omega
      rw [this]; exact hb
    · show (t.m_prolongation_H.set (i - 1) _)[i - 1]? = _
      rw [List.getElem?_set, if_pos rfl, if_pos hl1]
    · show (t.m_restriction_H.set (i - 1) _)[i - 1]? = _
      rw [List.getElem?_set, if_pos rfl, if_pos hl2]

theorem foldlM_transferHStep_HLevel {B S : Type} (env : Env B S) (hp : List ℚ)
    (l : List Nat) (s s2 : Solver B S) (h : l.foldlM (transferHStep env hp) s = some s2)
    (i : Nat) (hi : i ∈ l) (htag : hp[i - 1]? = some 1) : HLevel env s2 (i - 1) :=
  foldlM_establishes (transferHStep env hp) (fun t => HLevel env t (i - 1)) i l hi
    (fun t j t2 _ ht hq => transferHStep_HLevel_pres env hp t t2 j (i - 1) ht hq)
    (fun t t2 ht => transferHStep_HLevel_est env hp t t2 i ht htag) s s2 h

theorem transferPStep_PLevel_pres {B S : Type} (env : Env B S) (hp : List ℚ)
    (t t2 : Solver B S) (j k : Nat) (h : transferPStep env hp t j = some t2)
    (hq : PLevel env t k) : PLevel env t2 k := by
  obtain ⟨h1, hc⟩ := transferPStep_cases env hp t t2 j h
  rcases hc with ⟨_, rfl⟩ | ⟨_, cL, cH, hcL, hcH, hl1, hl2, hl3, hl4, rfl⟩
  · exact hq
  · obtain ⟨bL, bH, hbL, hbH, e1, e2, e3, e4⟩ := hq
    by_cases hjk : j - 1 = k
    · have hj : j = k + 1 := by omega
      subst hj
      simp only [Nat.add_sub_cancel] at hcL hl1 hl2 hl3 hl4
      have hL : cL = bL := by rw [hbL] at hcL; exact (Option.some.inj hcL).symm
      have hH : cH = bH := by rw [hbH] at hcH; exact (Option.some.inj hcH).symm
      subst hL hH
      refine ⟨cL, cH, hbL, hbH, ?_, ?_, ?_, ?_⟩
      · show (t.m_prolongation_P.set (k + 1 - 1) _)[k]? = _
        simp only [Nat.add_sub_cancel]
        rw [List.getElem?_set, if_pos rfl, if_pos hl1]
      · show (t.m_restriction_P.set (k + 1 - 1) _)[k]? = _
        simp only [Nat.add_sub_cancel]
        rw [List.getElem?_set, if_pos rfl, if_pos hl2]
      · show (t.m_prolongation_M.set (k + 1 - 1) _)[k]? = _
        simp only [Nat.add_sub_cancel]
        rw [List.getElem?_set, if_pos rfl, if_pos hl3]
      · show (t.m_restriction_M.set (k + 1 - 1) _)[k]? = _
        simp only [Nat.add_sub_cancel]
        rw [List.getElem?_set, if_pos rfl, if_pos hl4]
    · refine ⟨bL, bH, hbL, hbH, ?_, ?_, ?_, ?_⟩
      · show (t.m_prolongation_P.set (j - 1) _)[k]? = _
        rw [List.getElem?_set, if_neg hjk]; exact e1
      · show (t.m_restriction_P.set (j - 1) _)[k]? = _
        rw [List.getElem?_set, if_neg hjk]; exact e2
      · show (t.m_prolongation_M.set (j - 1) _)[k]? = _
        rw [List.getElem?_set, if_neg hjk]; exact e3
      · show (t.m_restriction_M.set (j - 1) _)[k]? = _
        rw [List.getElem?_set, if_neg hjk]; exact e4

theorem transferPStep_PLevel_est {B S : Type} (env : Env B S) (hp : List ℚ)
    (t t2 : Solver B S) (i : Nat) (h : transferPStep env hp t i = some t2)
    (htag : hp[i - 1]? = some 0) : PLevel env t2 (i - 1) := by
  obtain ⟨h1, hc⟩ := transferPStep_cases env hp t t2 i h
  rcases hc with ⟨hne, _⟩ | ⟨_, bL, bH, hbL, hbH, hl1, hl2, hl3, hl4, rfl⟩
  · exact absurd htag hne
  · refine ⟨bL, bH, hbL, ?_, ?_, ?_, ?_, ?_⟩
    · have : i - 1 + 1 = i := by omega
      rw [this]; exact hbH
    · show (t.m_prolongation_P.set (i - 1) _)[i - 1]? = _
      rw [List.getElem?_set, if_pos rfl, if_pos hl1]
    · show (t.m_restriction_P.set (i - 1) _)[i - 1]? = _
      rw [List.getElem?_set, if_pos rfl, if_pos hl2]
    · show (t.m_prolongation_M.set (i - 1) _)[i - 1]? = _
      rw [List.getElem?_set, if_pos rfl, if_pos hl3]
    · show (t.m_restriction_M.set (i - 1) _)[i - 1]? = _
      rw [List.getElem?_set, if_pos rfl, if_pos hl4]

theorem foldlM_transferPStep_PLevel {B S : Type} (env : Env B S) (hp : List ℚ)
    (l : List Nat) (s s2 : Solver B S) (h : l.foldlM (transferPStep env hp) s = some s2)
    (i : Nat) (hi : i ∈ l) (htag : hp[i - 1]? = some 0) : PLevel env s2 (i - 1) :=
  foldlM_establishes (transferPStep env hp) (fun t => PLevel env t (i - 1)) i l hi
    (fun t j t2 _ ht hq => transferPStep_PLevel_pres env hp t t2 j (i - 1) ht hq)
    (fun t t2 ht => transferPStep_PLevel_est env hp t t2 i ht htag) s s2 h

theorem assembleStep_Assembled_pres {B S : Type} (env : Env B S) (cfg : Config) (hp : List ℚ)
    (numLevels : Nat) (t t2 : Solver B S) (j k : Nat)
    (h : assembleStep env cfg hp numLevels t j = some t2)
    (hq : Assembled env t k) : Assembled env t2 k := by
  rcases assembleStep_cases env cfg hp numLevels t t2 j h with ⟨_, rfl⟩ | ⟨b2, hb2, hl, rfl⟩
  · exact hq
  · obtain ⟨b, hb, ho⟩ := hq
    by_cases hjk : j = k
    · subst hjk
      have hbb : b2 = b := by rw [hb] at hb2; exact (Option.some.inj hb2).symm
      subst hbb
      refine ⟨b2, hb, ?_⟩
      show (t.m_operator.set j _)[j]? = _
      rw [List.getElem?_set, if_pos rfl, if_pos hl]
    · refine ⟨b, hb, ?_⟩
      show (t.m_operator.set j _)[k]? = _
      rw [List.getElem?_set, if_neg hjk]; exact ho

theorem assembleStep_Assembled_est {B S : Type} (env : Env B S) (cfg : Config) (hp : List ℚ)
    (numLevels : Nat) (t t2 : Solver B S) (i : Nat)
    (h : assembleStep env cfg hp numLevels t i = some t2)
    (hco : cfg.typeCoarseOperator = 1) : Assembled env t2 i := by
  rcases assembleStep_cases env cfg hp numLevels t t2 i h with ⟨hne, _⟩ | ⟨b, hb, hl, rfl⟩
  · exact absurd hco hne
  · refine ⟨b, hb, ?_⟩
    show (t.m_operator.set i _)[i]? = _
    rw [List.getElem?_set, if_pos rfl, if_pos hl]

theorem foldlM_assembleStep_Assembled {B S : Type} (env : Env B S) (cfg : Config)
    (hp : List ℚ) (numLevels : Nat) (l : List Nat) (s s2 : Solver B S)
    (h : l.foldlM (assembleStep env cfg hp numLevels) s = some s2)
    (hco : cfg.typeCoarseOperator = 1) (i : Nat) (hi : i ∈ l) : Assembled env s2 i :=
  foldlM_establishes (assembleStep env cfg hp numLevels) (fun t => Assembled env t i) i l hi
    (fun t j t2 _ ht hq => assembleStep_Assembled_pres env cfg hp numLevels t t2 j i ht hq)
    (fun t t2 ht => assembleStep_Assembled_est env cfg hp numLevels t t2 i ht hco) s s2 h

theorem basisStep_cases {B S : Type} (env : Env B S) (cfg : Config) (hp : List ℚ)
    (bs bs1 : List B) (i : Nat) (h : basisStep env cfg hp bs i = some bs1) :
    ∃ tag b, hpAt hp ((i : Int) - 1) = some tag ∧ bs[bs.length - 1]? = some b ∧
      0 < bs.length ∧ bs1 = bs ++ [basisNext env cfg tag b] := by
  unfold basisStep at h
  split at h
  · rename_i b tag hb htag
    simp only [Option.some.injEq] at h
    rw [List.getLast?_eq_getElem?] at hb
    have hpos : 0 < bs.length := by
      cases bs with
      | nil => simp at hb
      | cons _ _ => simp
    exact ⟨tag, b, htag, hb, hpos, h.symm⟩
  · simp at h

theorem foldlM_basisStep {B S : Type} (env : Env B S) (cfg : Config) (hp : List ℚ) :
    ∀ (k a : Nat) (bs bases : List B),
      (List.range' a k).foldlM (basisStep env cfg hp) bs = some bases →
      bases.length = bs.length + k ∧
      (∀ j, j < bs.length → bases[j]? = bs[j]?) ∧
      (∀ j, j < k → ∃ tag b, hpAt hp (((a + j : Nat) : Int) - 1) = some tag ∧
          bases[bs.length + j - 1]? = some b ∧
          bases[bs.length + j]? = some (basisNext env cfg tag b)) := by
  intro k
  induction k with
  | zero =>
      intro a bs bases h
      simp only [List.range'_zero, List.foldlM_nil, Option.pure_def, Option.some.injEq] at h
      subst h
      exact ⟨rfl, fun _ _ => rfl, fun j hj => absurd hj (Nat.not_lt_zero j)⟩
  | succ k ih =>
      intro a bs bases h
      rw [List.range'_succ, foldlM_cons_some] at h
      obtain ⟨bs1, h1, h2⟩ := h
      obtain ⟨tag, b, htag, hb, hpos, rfl⟩ := basisStep_cases env cfg hp bs bs1 a h1
      obtain ⟨hlen, hpre, hder⟩ := ih (a + 1) _ bases h2
      have hl1 : (bs ++ [basisNext env cfg tag b]).length = bs.length + 1 := by simp
      rw [hl1] at hlen hpre hder
      refine ⟨by omega, ?_, ?_⟩
      · intro j hj
        rw [hpre j (by omega), List.getElem?_append_left hj]
      · intro j hj
        cases j with
        | zero =>
            refine ⟨tag, b, htag, ?_, ?_⟩
            · rw [Nat.add_zero, hpre (bs.length - 1) (by omega),
                List.getElem?_append_left (by omega)]
              exact hb
            · rw [Nat.add_zero, hpre bs.length (by omega)]
              simp
        | succ j =>
            obtain ⟨tag2, b2, ht2, hb2, hn2⟩ := hder j (by omega)
            refine ⟨tag2, b2, ?_, ?_, ?_⟩
            · have : a + (j + 1) = a + 1 + j := by omega
              rw [this]; exact ht2
            · have : bs.length + (j + 1) - 1 = bs.length + 1 + j - 1 := by omega
              rw [this]; exact hb2
            · have : bs.length + (j + 1) = bs.length + 1 + j := by omega
              rw [this]; exact hn2

theorem setup_some {B S : Type} (env : Env B S) (cfg : Config) (hp : List ℚ) (numLevels : Nat)
    (s s5 : Solver B S) (h : setup env cfg hp numLevels s = some s5) :
    ∃ bases s2 s3 s4,
      (List.range' 1 (numLevels - 1)).foldlM (basisStep env cfg hp) s.m_basis = some bases ∧
      numLevels ≠ 0 ∧
      (List.range numLevels).foldlM (assembleStep env cfg hp numLevels)
        (resizeMembers s numLevels bases) = some s2 ∧
      (List.range' 1 (numLevels - 1)).foldlM (transferPStep env hp) s2 = some s3 ∧
      (List.range' 1 (numLevels - 1)).foldlM (transferHStep env hp) s3 = some s4 ∧
      (if cfg.typeCoarseOperator = 2 then
          (List.range numLevels).reverse.foldlM (galerkinStep hp) s4
        else some s4) = some s5 := by
  unfold setup at h
  split at h
  · rename_i bases hb
    split at h
    · simp at h
    · rename_i hn
      split at h
      · rename_i s2 h2
        split at h
        · rename_i s3 h3
          split at h
          · rename_i s4 h4
            exact ⟨bases, s2, s3, s4, hb, hn, h2, h3, h4, h⟩
          · simp at h
        · simp at h
      · simp at h
  · simp at h

theorem mem_range'_one {i n : Nat} (h1 : 1 ≤ i) (h2 : i < n) : i ∈ List.range' 1 (n - 1) := by
  rw [List.mem_range'_1]
  omega

/-- After `setup` the members are those of the intermediate states: the bases come from
the basis loop, every H-tagged level carries its h-transfer pair, every P-tagged level
its p-transfer data, and under direct assembly every level its assembled operator. -/
theorem setup_result {B S : Type} (env : Env B S) (cfg : Config) (hp : List ℚ)
    (numLevels : Nat) (s s5 : Solver B S) (h : setup env cfg hp numLevels s = some s5) :
    (List.range' 1 (numLevels - 1)).foldlM (basisStep env cfg hp) s.m_basis = some s5.m_basis ∧
    numLevels ≠ 0 ∧
    s5.m_assembler = s.m_assembler ++ s5.m_basis ∧
    (∀ i, 1 ≤ i → i < numLevels → hp[i - 1]? = some 1 → HLevel env s5 (i - 1)) ∧
    (∀ i, 1 ≤ i → i < numLevels → hp[i - 1]? = some 0 → PLevel env s5 (i - 1)) ∧
    (cfg.typeCoarseOperator = 1 → ∀ i, i < numLevels → Assembled env s5 i) := by
  obtain ⟨bases, s2, s3, s4, hb, hn, h2, h3, h4, h5⟩ := setup_some env cfg hp numLevels s s5 h
  obtain ⟨ops, e2, _⟩ := foldlM_assembleStep_frame env cfg hp numLevels _ _ s2 h2
  obtain ⟨pp, rp, pm, rm, e3, _⟩ := foldlM_transferPStep_frame env hp _ s2 s3 h3
  obtain ⟨ph, rh, e4, _⟩ := foldlM_transferHStep_frame env hp _ s3 s4 h4
  have e5 : ∃ ops5, s5 = { s4 with m_operator := ops5 } := by
    split at h5
    · exact foldlM_galerkinStep_frame hp _ s4 s5 h5
    · simp only [Option.some.injEq] at h5
      exact ⟨s4.m_operator, by rw [← h5]⟩
  obtain ⟨ops5, e5⟩ := e5
  have hH : ∀ i, 1 ≤ i → i < numLevels → hp[i - 1]? = some 1 → HLevel env s4 (i - 1) :=
    fun i h1 hlt htag =>
      foldlM_transferHStep_HLevel env hp _ s3 s4 h4 i (mem_range'_one h1 hlt) htag
  have hP : ∀ i, 1 ≤ i → i < numLevels → hp[i - 1]? = some 0 → PLevel env s3 (i - 1) :=
    fun i h1 hlt htag =>
      foldlM_transferPStep_PLevel env hp _ s2 s3 h3 i (mem_range'_one h1 hlt) htag
  have hA : cfg.typeCoarseOperator = 1 → ∀ i, i < numLevels → Assembled env s2 i :=
    fun hco i hlt =>
      foldlM_assembleStep_Assembled env cfg hp numLevels _ _ s2 h2 hco i
        (List.mem_range.mpr hlt)
  have hbasis : s5.m_basis = bases := by
    rw [e5, e4, e3, e2]; rfl
  refine ⟨by rw [hbasis]; exact hb, hn, ?_, ?_, ?_, ?_⟩
  · rw [hbasis, e5, e4, e3, e2]; rfl
  · intro i h1 hlt htag
    obtain ⟨b, q1, q2, q3⟩ := hH i h1 hlt htag
    rw [e5]
    exact ⟨b, q1, q2, q3⟩
  · intro i h1 hlt htag
    obtain ⟨bL, bH, q1, q2, q3, q4, q5, q6⟩ := hP i h1 hlt htag
    rw [e5, e4]
    exact ⟨bL, bH, q1, q2, q3, q4, q5, q6⟩
  · intro hco i hlt
    obtain ⟨b, q1, q2⟩ := hA hco i hlt
    have hne : ¬ cfg.typeCoarseOperator = 2 := by rw [hco]; decide
    rw [if_neg hne] at h5
    simp only [Option.some.injEq] at h5
    rw [← h5, e4, e3]
    exact ⟨b, q1, q2⟩

/-! ## Transfer operators in h: restriction is the stored transpose -/

theorem transpose_entry (A : Mat) (j k : Nat) (hj : j < A.cols) :
    A.transpose.entry j k = A.entry k j := by
  unfold Mat.entry Mat.transpose Mat.col
  simp only [List.getD_eq_getElem?_getD, List.getElem?_map, List.getElem?_range hj,
    Option.map_some', Option.getD_some]
  cases h : A.val[k]? with
  | none => simp
  | some row => simp

/-- C5: after `setup`, at every level `i` in `1..numLevels-1` whose tag `hp(i-1)` is 1 the
stored `m_restriction_H[i-1]` is the transpose of the stored `m_prolongation_H[i-1]`:
the dimensions are swapped and coefficient `(j,k)` of the restriction is coefficient
`(k,j)` of the prolongation. -/
theorem restriction_H_is_transpose_of_prolongation_H {B S : Type} (env : Env B S)
    (cfg : Config) (hp : List ℚ) (numLevels : Nat) (s s5 : Solver B S)
    (h : setup env cfg hp numLevels s = some s5)
    (i : Nat) (h1 : 1 ≤ i) (hlt : i < numLevels) (htag : hp[i - 1]? = some 1) :
    ∃ P R, s5.m_prolongation_H[i - 1]? = some P ∧ s5.m_restriction_H[i - 1]? = some R ∧
      R = P.transpose ∧ R.rows = P.cols ∧ R.cols = P.rows ∧
      ∀ j k, j < P.cols → R.entry j k = P.entry k j := by
  obtain ⟨b, _, hP, hR⟩ := (setup_result env cfg hp numLevels s s5 h).2.2.2.1 i h1 hlt htag
  exact ⟨_, _, hP, hR, rfl, rfl, rfl, fun j k hj => transpose_entry _ j k hj⟩

/-- The transpose relation of C5 on the two-level model hierarchy with one H-COARSEN
transition built by `setup`. -/
theorem restriction_H_is_transpose_of_prolongation_H_witness :
    ∃ P R,
      ((setup gridEnv directConfig [1] 2 (gsXBraidMultigrid (1, 0))).get
          (by decide!)).m_prolongation_H[1 - 1]? = some P ∧
      ((setup gridEnv directConfig [1] 2 (gsXBraidMultigrid (1, 0))).get
          (by decide!)).m_restriction_H[1 - 1]? = some R ∧
      R = P.transpose ∧ R.rows = P.cols ∧ R.cols = P.rows ∧
      ∀ j k, j < P.cols → R.entry j k = P.entry k j :=
  restriction_H_is_transpose_of_prolongation_H gridEnv directConfig [1] 2
    (gsXBraidMultigrid (1, 0)) _ (Option.some_get _).symm 1 (by decide) (by decide) (by decide)

/-! ## The bases derived by `setup` -/

theorem truncInt_zero : truncInt 0 = 0 := by decide!

theorem truncInt_one : truncInt 1 = 1 := by decide!

theorem basisNext_zero {B S : Type} (env : Env B S) (cfg : Config) (b : B) :
    basisNext env cfg 0 b =
      if cfg.typeProjection = 1 then env.degreeIncrease b (cfg.numDegree - 1)
      else env.degreeIncrease b 1 := by
  unfold basisNext
  rw [if_pos truncInt_zero]

theorem basisNext_one {B S : Type} (env : Env B S) (cfg : Config) (b : B) :
    basisNext env cfg 1 b = env.uniformRefine b := by
  unfold basisNext
  rw [truncInt_one, if_neg (by decide), if_pos rfl]

theorem setup_fresh_bases {B S : Type} (env : Env B S) (cfg : Config) (hp : List ℚ)
    (numLevels : Nat) (b0 : B) (s5 : Solver B S)
    (h : setup env cfg hp numLevels (gsXBraidMultigrid b0) = some s5) :
    s5.m_basis.length = numLevels ∧ s5.m_basis[0]? = some b0 ∧
    ∀ i, 1 ≤ i → i < numLevels → ∃ tag prev,
      hp[i - 1]? = some tag ∧ s5.m_basis[i - 1]? = some prev ∧
      s5.m_basis[i]? = some (basisNext env cfg tag prev) := by
  obtain ⟨hb, hn, _⟩ := setup_result env cfg hp numLevels _ s5 h
  obtain ⟨hlen, hpre, hder⟩ := foldlM_basisStep env cfg hp (numLevels - 1) 1 _ _ hb
  have hl0 : (gsXBraidMultigrid b0 : Solver B S).m_basis.length = 1 := rfl
  rw [hl0] at hlen hpre hder
  refine ⟨by omega, ?_, ?_⟩
  · rw [hpre 0 (by omega)]; rfl
  · intro i h1 hlt
    obtain ⟨tag, prev, ht, hprev, hcur⟩ := hder (i - 1) (by omega)
    have e1 : 1 + (i - 1) = i := by omega
    rw [e1] at ht hcur
    have e2 : i - 1 = 1 + (i - 1) - 1 := by omega
    rw [← e2] at hprev
    rw [hpAt_pred h1] at ht
    exact ⟨tag, prev, ht, hprev, hcur⟩

/-- C9: on a freshly constructed solver `setup` produces exactly `numLevels` bases, the
first being the constructor's basis, and basis `i` (`1 <= i < numLevels`) is derived
from basis `i-1` per the schedule: for `hp(i-1) = 0` by `degreeIncrease` alone (by
`numDegree-1` if `typeProjection = 1`, else by 1), for `hp(i-1) = 1` by one
`uniformRefine` alone. -/
theorem setup_bases_follow_schedule {B S : Type} (env : Env B S) (cfg : Config)
    (hp : List ℚ) (numLevels : Nat) (b0 : B) (s5 : Solver B S)
    (h : setup env cfg hp numLevels (gsXBraidMultigrid b0) = some s5) :
    s5.m_basis.length = numLevels ∧ s5.m_basis[0]? = some b0 ∧
    ∀ i, 1 ≤ i → i < numLevels → ∃ prev cur,
      s5.m_basis[i - 1]? = some prev ∧ s5.m_basis[i]? = some cur ∧
      (hp[i - 1]? = some 0 →
        cur = if cfg.typeProjection = 1 then env.degreeIncrease prev (cfg.numDegree - 1)
              else env.degreeIncrease prev 1) ∧
      (hp[i - 1]? = some 1 → cur = env.uniformRefine prev) := by
  obtain ⟨hlen, h0, hder⟩ := setup_fresh_bases env cfg hp numLevels b0 s5 h
  refine ⟨hlen, h0, ?_⟩
  intro i h1 hlt
  obtain ⟨tag, prev, ht, hprev, hcur⟩ := hder i h1 hlt
  refine ⟨prev, _, hprev, hcur, ?_, ?_⟩
  · intro h0tag
    rw [ht] at h0tag
    rw [Option.some.inj h0tag, basisNext_zero]
  · intro h1tag
    rw [ht] at h1tag
    rw [Option.some.inj h1tag, basisNext_one]

/-- The bases of C9 for the schedule (P-COARSEN, H-COARSEN) on the model problem: three
bases, starting at degree 1 on one element. -/
theorem setup_bases_follow_schedule_witness :
    ((setup gridEnv directConfig [0, 1] 3 (gsXBraidMultigrid (1, 0))).get
        (by decide!)).m_basis.length = 3 ∧
    ((setup gridEnv directConfig [0, 1] 3 (gsXBraidMultigrid (1, 0))).get
        (by decide!)).m_basis[0]? = some (1, 0) ∧
    ∀ i, 1 ≤ i → i < 3 → ∃ prev cur,
      ((setup gridEnv directConfig [0, 1] 3 (gsXBraidMultigrid (1, 0))).get
          (by decide!)).m_basis[i - 1]? = some prev ∧
      ((setup gridEnv directConfig [0, 1] 3 (gsXBraidMultigrid (1, 0))).get
          (by decide!)).m_basis[i]? = some cur ∧
      (([0, 1] : List ℚ)[i - 1]? = some 0 →
        cur = if directConfig.typeProjection = 1
              then gridEnv.degreeIncrease prev (directConfig.numDegree - 1)
              else gridEnv.degreeIncrease prev 1) ∧
      (([0, 1] : List ℚ)[i - 1]? = some 1 → cur = gridEnv.uniformRefine prev) :=
  setup_bases_follow_schedule gridEnv directConfig [0, 1] 3 (1, 0) _ (Option.some_get _).symm

/-! ## Transfer operators in p, lumped mode -/

/-- C6 fails as stated: on the model problem with one P-COARSEN transition from degree 0
to degree 1 (one element), in lumped mode, the operator applied by `restriction` is
`(1/2, 1/2)` while the transpose of the operator applied by `prolongation` is `(1, 1)`. -/
theorem lumped_restriction_not_transpose_of_prolongation :
    ¬ TransferTransposed
        (restriction gridEnv
          ((setup gridEnv directConfig [0] 2 (gsXBraidMultigrid (0, 0))).get (by decide!))
          directConfig [0] 2)
        (prolongation gridEnv
          ((setup gridEnv directConfig [0] 2 (gsXBraidMultigrid (0, 0))).get (by decide!))
          directConfig [0] 2)
        2 1 := by
  intro h
  have h00 := h 0 (by decide) 0 (by decide)
  revert h00
  decide!

/-- C6 as amended: in lumped mode, at every level `i` with tag `hp(i-1) = 0` the stored
`m_restriction_P[i-1]` is the transpose of the stored `m_prolongation_P[i-1]`;
`restriction` applies it and then divides entrywise by `m_restriction_M[i-1]`, and
`prolongation` applies `m_prolongation_P[i-1]` and then divides entrywise by
`m_prolongation_M[i-1]`. -/
theorem lumped_transfer_is_scaled_stored_transpose {B S : Type} (env : Env B S)
    (cfg : Config) (hp : List ℚ) (numLevels : Nat) (s s5 : Solver B S)
    (h : setup env cfg hp numLevels s = some s5) (hl : cfg.typeLumping = 1)
    (i : Nat) (h1 : 1 ≤ i) (hlt : i < numLevels) (htag : hp[i - 1]? = some 0) :
    ∃ P mH mL, s5.m_prolongation_P[i - 1]? = some P ∧
      s5.m_restriction_P[i - 1]? = some P.transpose ∧
      s5.m_prolongation_M[i - 1]? = some mH ∧ s5.m_restriction_M[i - 1]? = some mL ∧
      (∀ v, restriction env s5 cfg hp (i + 1) v = (P.transpose.mulVec v).bind (lumpedScale mL)) ∧
      (∀ w, prolongation env s5 cfg hp (i + 1) w = (P.mulVec w).bind (lumpedScale mH)) := by
  obtain ⟨bL, bH, _, _, hP, hR, hmH, hmL⟩ :=
    (setup_result env cfg hp numLevels s s5 h).2.2.2.2.1 i h1 hlt htag
  obtain ⟨k, rfl⟩ : ∃ k, i = k + 1 := ⟨i - 1, by omega⟩
  simp only [Nat.add_sub_cancel] at hP hR hmH hmL htag ⊢
  have hne : ¬ ((0 : ℚ) = 1) := by norm_num
  refine ⟨_, _, _, hP, hR, hmH, hmL, ?_, ?_⟩
  · intro v
    simp only [restriction, hpAt_add_two_sub_two, stdAt_add_two_sub_two, htag, hR, hmL, hl,
      Option.bind_eq_bind, Option.some_bind, if_neg hne, if_true]
  · intro w
    simp only [prolongation, hpAt_add_two_sub_two, stdAt_add_two_sub_two, htag, hP, hmH, hl,
      Option.bind_eq_bind, Option.some_bind, if_neg hne, if_true]

/-- The amended C6 on the model problem with one P-COARSEN transition. -/
theorem lumped_transfer_is_scaled_stored_transpose_witness :
    ∃ P mH mL,
      ((setup gridEnv directConfig [0] 2 (gsXBraidMultigrid (0, 0))).get
          (by decide!)).m_prolongation_P[1 - 1]? = some P ∧
      ((setup gridEnv directConfig [0] 2 (gsXBraidMultigrid (0, 0))).get
          (by decide!)).m_restriction_P[1 - 1]? = some P.transpose ∧
      ((setup gridEnv directConfig [0] 2 (gsXBraidMultigrid (0, 0))).get
          (by decide!)).m_prolongation_M[1 - 1]? = some mH ∧
      ((setup gridEnv directConfig [0] 2 (gsXBraidMultigrid (0, 0))).get
          (by decide!)).m_restriction_M[1 - 1]? = some mL ∧
      (∀ v, restriction gridEnv
          ((setup gridEnv directConfig [0] 2 (gsXBraidMultigrid (0, 0))).get (by decide!))
          directConfig [0] (1 + 1) v = (P.transpose.mulVec v).bind (lumpedScale mL)) ∧
      (∀ w, prolongation gridEnv
          ((setup gridEnv directConfig [0] 2 (gsXBraidMultigrid (0, 0))).get (by decide!))
          directConfig [0] (1 + 1) w = (P.mulVec w).bind (lumpedScale mH)) :=
  lumped_transfer_is_scaled_stored_transpose gridEnv directConfig [0] 2
    (gsXBraidMultigrid (0, 0)) _ (Option.some_get _).symm rfl 1 (by decide) (by decide)
    (by decide)

/-! ## Dimensions of the prolongation matrices -/

/-- C7 fails as stated: in Galerkin mode with the schedule `(0, 2)` on three levels,
`setup` builds a hierarchy in which level 1 has a P tag, `m_prolongation_P[0]` has 3
rows, and `m_operator[1]` was never assigned and has 0 rows. -/
theorem prolongation_rows_differ_from_operator_rows :
    ([0, 2] : List ℚ)[1 - 1]? = some 0 ∧
    (((setup gridEnv galerkinConfig [0, 2] 3 (gsXBraidMultigrid (1, 0))).get
        (by decide!)).m_prolongation_P[1 - 1]?).map Mat.rows = some 3 ∧
    (((setup gridEnv galerkinConfig [0, 2] 3 (gsXBraidMultigrid (1, 0))).get
        (by decide!)).m_operator[1]?).map Mat.rows = some 0 := by
  decide!

/-! ## The length of the schedule is not checked -/

theorem foldlM_progress {σ ι : Type} (f : σ → ι → Option σ) (Q : σ → Prop) (l : List ι)
    (hstep : ∀ s i, i ∈ l → Q s → ∃ s2, f s i = some s2 ∧ Q s2) :
    ∀ s, Q s → ∃ s2, l.foldlM f s = some s2 ∧ Q s2 := by
  induction l with
  | nil => intro s hq; exact ⟨s, rfl, hq⟩
  | cons i l ih =>
      intro s hq
      obtain ⟨s1, h1, hq1⟩ := hstep s i (List.mem_cons_self _ _) hq
      obtain ⟨s2, h2, hq2⟩ := ih (fun s j hj => hstep s j (List.mem_cons_of_mem _ hj)) s1 hq1
      exact ⟨s2, (foldlM_cons_some f i l s s2).mpr ⟨s1, h1, h2⟩, hq2⟩

theorem resize_length {α : Type} (l : List α) (n : Nat) (d : α) : (resize l n d).length = n := by
  unfold resize
  rw [List.length_append, List.length_take, List.length_replicate]
  omega

theorem getElem?_of_lt {α : Type} (l : List α) (i : Nat) (h : i < l.length) :
    ∃ a, l[i]? = some a :=
  ⟨l[i], List.getElem?_eq_getElem h⟩

theorem basisStep_progress {B S : Type} (env : Env B S) (cfg : Config) (hp : List ℚ)
    (bs : List B) (i : Nat) (hbs : 0 < bs.length) (h1 : 1 ≤ i) (hi : i - 1 < hp.length) :
    ∃ bs1, basisStep env cfg hp bs i = some bs1 ∧ 0 < bs1.length := by
  obtain ⟨b, hb⟩ := getElem?_of_lt bs (bs.length - 1) (by omega)
  obtain ⟨tag, htag⟩ := getElem?_of_lt hp (i - 1) hi
  refine ⟨bs ++ [basisNext env cfg tag b], ?_, by simp⟩
  unfold basisStep
  rw [List.getLast?_eq_getElem?, hb, hpAt_pred h1, htag]

theorem assembleStep_progress {B S : Type} (env : Env B S) (cfg : Config) (hp : List ℚ)
    (numLevels : Nat) (t : Solver B S) (i : Nat) (hco : cfg.typeCoarseOperator = 1)
    (ha : i < t.m_assembler.length) (ho : i < t.m_operator.length) :
    ∃ t2, assembleStep env cfg hp numLevels t i = some t2 ∧
      t2.m_assembler = t.m_assembler ∧ t2.m_operator.length = t.m_operator.length := by
  obtain ⟨b, hb⟩ := getElem?_of_lt t.m_assembler i ha
  refine ⟨{ t with m_operator := t.m_operator.set i (env.assemble b) }, ?_, rfl, by simp⟩
  unfold assembleStep
  rw [if_pos hco, hb]
  simp only
  rw [if_pos ho]

theorem transferPStep_progress {B S : Type} (env : Env B S) (hp : List ℚ)
    (t : Solver B S) (i : Nat) (h1 : 1 ≤ i) (hi : i - 1 < hp.length)
    (hb : i < t.m_basis.length)
    (hl : i - 1 < t.m_prolongation_P.length ∧ i - 1 < t.m_restriction_P.length ∧
      i - 1 < t.m_prolongation_M.length ∧ i - 1 < t.m_restriction_M.length) :
    ∃ t2, transferPStep env hp t i = some t2 := by
  obtain ⟨tag, htag⟩ := getElem?_of_lt hp (i - 1) hi
  obtain ⟨bL, hbL⟩ := getElem?_of_lt t.m_basis (i - 1) (by omega)
  obtain ⟨bH, hbH⟩ := getElem?_of_lt t.m_basis i hb
  have e1 : i + 1 - 2 = i - 1 := by omega
  have e2 : i + 1 - 1 = i := by omega
  have h2 : 2 ≤ i + 1 := by omega
  unfold transferPStep
  rw [hpAt_pred h1, htag]
  simp only
  by_cases h0 : tag = 0
  · rw [if_pos h0]
    unfold prolongation_P prolongation_M restriction_M
    rw [e1, e2, hbL, hbH]
    simp only [h2, if_true]
    rw [if_pos hl]
    exact ⟨_, rfl⟩
  · rw [if_neg h0]
    exact ⟨_, rfl⟩

theorem transferHStep_progress {B S : Type} (env : Env B S) (hp : List ℚ)
    (t : Solver B S) (i : Nat) (h1 : 1 ≤ i) (hi : i - 1 < hp.length)
    (hb : i < t.m_basis.length)
    (hl : i - 1 < t.m_prolongation_H.length ∧ i - 1 < t.m_restriction_H.length) :
    ∃ t2, transferHStep env hp t i = some t2 := by
  obtain ⟨tag, htag⟩ := getElem?_of_lt hp (i - 1) hi
  obtain ⟨b, hbb⟩ := getElem?_of_lt t.m_basis i hb
  unfold transferHStep
  rw [hpAt_pred h1, htag]
  simp only
  by_cases h0 : tag = 1
  · rw [if_pos h0, hbb]
    simp only
    rw [if_pos hl]
    exact ⟨_, rfl⟩
  · rw [if_neg h0]
    exact ⟨_, rfl⟩

theorem foldlM_basisStep_progress {B S : Type} (env : Env B S) (cfg : Config) (hp : List ℚ) :
    ∀ (k a : Nat) (bs : List B), 0 < bs.length →
      (∀ j, j < k → 1 ≤ a + j ∧ a + j - 1 < hp.length) →
      ∃ bases, (List.range' a k).foldlM (basisStep env cfg hp) bs = some bases := by
  intro k
  induction k with
  | zero => intro a bs _ _; exact ⟨bs, rfl⟩
  | succ k ih =>
      intro a bs hbs hj
      obtain ⟨bs1, h1, hpos⟩ := basisStep_progress env cfg hp bs a hbs
        (by simpa using (hj 0 (by omega)).1) (by simpa using (hj 0 (by omega)).2)
      obtain ⟨bases, h2⟩ := ih (a + 1) bs1 hpos (fun j hjk => by
        have := hj (j + 1) (by omega)
        have e : a + 1 + j = a + (j + 1) := by omega
        rw [e]; exact this)
      refine ⟨bases, ?_⟩
      rw [List.range'_succ]
      exact (foldlM_cons_some _ a _ bs bases).mpr ⟨bs1, h1, h2⟩

theorem setup_none_of_short_schedule {B S : Type} (env : Env B S) (cfg : Config)
    (hp : List ℚ) (numLevels : Nat) (s : Solver B S) (hshort : hp.length < numLevels - 1) :
    setup env cfg hp numLevels s = none := by
  cases h : setup env cfg hp numLevels s with
  | none => rfl
  | some s5 =>
      exfalso
      obtain ⟨bases, _, _, _, hb, _⟩ := setup_some env cfg hp numLevels s s5 h
      obtain ⟨_, _, hder⟩ := foldlM_basisStep env cfg hp (numLevels - 1) 1 _ _ hb
      obtain ⟨tag, _, ht, _⟩ := hder hp.length hshort
      rw [hpAt_pred (by omega)] at ht
      have e : 1 + hp.length - 1 = hp.length := by omega
      rw [e, List.getElem?_eq_none (Nat.le_refl _)] at ht
      simp at ht

theorem setup_some_of_long_schedule {B S : Type} (env : Env B S) (cfg : Config)
    (hp : List ℚ) (numLevels : Nat) (s : Solver B S) (hn : 1 ≤ numLevels)
    (hlong : numLevels - 1 ≤ hp.length) (hco : cfg.typeCoarseOperator = 1)
    (hbasis : s.m_basis ≠ []) :
    ∃ s5, setup env cfg hp numLevels s = some s5 := by
  have hpos : 0 < s.m_basis.length := List.length_pos.mpr hbasis
  obtain ⟨bases, hb⟩ := foldlM_basisStep_progress env cfg hp (numLevels - 1) 1 s.m_basis hpos
    (fun j hj => ⟨by omega, by omega⟩)
  obtain ⟨hblen, _, _⟩ := foldlM_basisStep env cfg hp (numLevels - 1) 1 _ _ hb
  obtain ⟨s2, h2, _⟩ := foldlM_progress (assembleStep env cfg hp numLevels)
    (fun t => t.m_assembler = s.m_assembler ++ bases ∧ t.m_operator.length = numLevels)
    (List.range numLevels)
    (fun t i hi hq => by
      rw [List.mem_range] at hi
      obtain ⟨t2, ht2, ha, ho⟩ := assembleStep_progress env cfg hp numLevels t i hco
        (by rw [hq.1, List.length_append]; omega) (by rw [hq.2]; exact hi)
      exact ⟨t2, ht2, by rw [ha, hq.1], by rw [ho, hq.2]⟩)
    (resizeMembers s numLevels bases) ⟨rfl, resize_length _ _ _⟩
  obtain ⟨ops, e2, _⟩ := foldlM_assembleStep_frame env cfg hp numLevels _ _ s2 h2
  obtain ⟨s3, h3, _⟩ := foldlM_progress (transferPStep env hp)
    (fun t => t.m_basis = bases ∧ t.m_prolongation_P.length = numLevels - 1 ∧
      t.m_restriction_P.length = numLevels - 1 ∧ t.m_prolongation_M.length = numLevels - 1 ∧
      t.m_restriction_M.length = numLevels - 1)
    (List.range' 1 (numLevels - 1))
    (fun t i hi hq => by
      rw [List.mem_range'_1] at hi
      obtain ⟨q0, q1, q2, q3, q4⟩ := hq
      obtain ⟨t2, ht2⟩ := transferPStep_progress env hp t i hi.1 (by omega)
        (by rw [q0, hblen]; omega) ⟨by omega, by omega, by omega, by omega⟩
      obtain ⟨pp, rp, pm, rm, e, l1, l2, l3, l4⟩ :=
        foldlM_transferPStep_frame env hp [i] t t2 (by
          rw [foldlM_cons_some]; exact ⟨t2, ht2, rfl⟩)
      refine ⟨t2, ht2, ?_⟩
      rw [e]
      exact ⟨q0, by rw [← q1]; exact l1, by rw [← q2]; exact l2, by rw [← q3]; exact l3,
        by rw [← q4]; exact l4⟩)
    s2 (by
      rw [e2]
      exact ⟨rfl, resize_length _ _ _, resize_length _ _ _, resize_length _ _ _,
        resize_length _ _ _⟩)
  obtain ⟨pp, rp, pm, rm, e3, _⟩ := foldlM_transferPStep_frame env hp _ s2 s3 h3
  obtain ⟨s4, h4, _⟩ := foldlM_progress (transferHStep env hp)
    (fun t => t.m_basis = bases ∧ t.m_prolongation_H.length = numLevels - 1 ∧
      t.m_restriction_H.length = numLevels - 1)
    (List.range' 1 (numLevels - 1))
    (fun t i hi hq => by
      rw [List.mem_range'_1] at hi
      obtain ⟨q0, q1, q2⟩ := hq
      obtain ⟨t2, ht2⟩ := transferHStep_progress env hp t i hi.1 (by omega)
        (by rw [q0, hblen]; omega) ⟨by omega, by omega⟩
      obtain ⟨ph, rh, e, l1, l2⟩ :=
        foldlM_transferHStep_frame env hp [i] t t2 (by
          rw [foldlM_cons_some]; exact ⟨t2, ht2, rfl⟩)
      refine ⟨t2, ht2, ?_⟩
      rw [e]
      exact ⟨q0, by rw [← q1]; exact l1, by rw [← q2]; exact l2⟩)
    s3 (by
      rw [e3, e2]
      exact ⟨rfl, resize_length _ _ _, resize_length _ _ _⟩)
  refine ⟨s4, ?_⟩
  have hn0 : ¬ numLevels = 0 := by omega
  have hne : ¬ cfg.typeCoarseOperator = 2 := by rw [hco]; decide
  unfold setup
  rw [hb]
  simp only
  rw [if_neg hn0, h2]
  simp only
  rw [h3]
  simp only
  rw [h4]
  simp only
  rw [if_neg hne]


/-- C8 fails as stated: with `numLevels = 2` and a schedule of two rows (one more than
`numLevels - 1`) `setup` builds a hierarchy. -/
theorem setup_accepts_too_long_schedule :
    ([1, 1] : List ℚ).length ≠ 2 - 1 ∧
    (setup gridEnv directConfig [1, 1] 2 (gsXBraidMultigrid (1, 0))).isSome = true := by
  decide!

/-- C8 as amended: `setup` does not compare the number of rows of `hp` with
`numLevels - 1`. With fewer rows the basis loop reads `hp(i-1,0)` outside `hp` and no
hierarchy is built; with at least `numLevels - 1` rows (in particular with more) and
direct assembly, `setup` on a solver holding a basis builds a hierarchy. -/
theorem setup_fails_only_on_short_schedule {B S : Type} (env : Env B S) (cfg : Config)
    (hp : List ℚ) (numLevels : Nat) (s : Solver B S) :
    (hp.length < numLevels - 1 → setup env cfg hp numLevels s = none) ∧
    (1 ≤ numLevels → numLevels - 1 ≤ hp.length → cfg.typeCoarseOperator = 1 →
      s.m_basis ≠ [] → ∃ s5, setup env cfg hp numLevels s = some s5) :=
  ⟨setup_none_of_short_schedule env cfg hp numLevels s,
    setup_some_of_long_schedule env cfg hp numLevels s⟩

/-- The amended C8 on the model problem: an empty schedule for three levels builds
nothing, a schedule of two rows for two levels builds a hierarchy. -/
theorem setup_fails_only_on_short_schedule_witness :
    setup gridEnv directConfig [] 3 (gsXBraidMultigrid (1, 0)) = none ∧
    ∃ s5, setup gridEnv directConfig [1, 1] 2 (gsXBraidMultigrid (1, 0)) = some s5 :=
  ⟨(setup_fails_only_on_short_schedule gridEnv directConfig [] 3
      (gsXBraidMultigrid (1, 0))).1 (by decide),
    (setup_fails_only_on_short_schedule gridEnv directConfig [1, 1] 2
      (gsXBraidMultigrid (1, 0))).2 (by decide) (by decide) rfl (List.cons_ne_nil _ _)⟩

/-! ## Galerkin projection for a mixed schedule that ends with an H-COARSEN tag -/

/-- C10, the code at the failing input `numLevels = 4`, `hp = (1, 0, 1)`,
`typeCoarseOperator = 2`: the last tag is 1, so the second branch of the Galerkin loop
runs; it forms the products with index 2 and with index 1 only. Level 0, whose
transition `hp(0)` is H-COARSEN, is never assigned, and the product with index 1 uses the
h-transfer matrices of a P-COARSEN transition (`hp(1) = 0`), which were never populated;
their sizes do not fit and no hierarchy results. -/
theorem galerkin_loop_at_mixed_schedule :
    galerkinTarget [1, 0, 1] 3 = some (some 2) ∧
    galerkinTarget [1, 0, 1] 2 = some (some 1) ∧
    galerkinTarget [1, 0, 1] 1 = some none ∧
    galerkinTarget [1, 0, 1] 0 = some none ∧
    galerkinPlan [1, 0, 1] 4 = some [2, 1] ∧
    ([1, 0, 1] : List ℚ)[0]? = some 1 ∧ ([1, 0, 1] : List ℚ)[1]? = some 0 ∧
    (setup gridEnv galerkinConfig [1, 0, 1] 4 (gsXBraidMultigrid (1, 0))).isNone = true ∧
    (setup gridEnv directConfig [1, 0, 1] 4 (gsXBraidMultigrid (1, 0))).isSome = true := by
  decide!

/-! ## Galerkin projection: operator sizes -/

theorem mul_dims {A C M : Mat} (h : A.mul C = some M) :
    A.cols = C.rows ∧ M.rows = A.rows ∧ M.cols = C.cols := by
  unfold Mat.mul at h
  split at h
  · rename_i hc
    simp only [Option.some.injEq] at h
    subst h
    exact ⟨hc, rfl, rfl⟩
  · simp at h

theorem galerkinStep_cases {B S : Type} (hp : List ℚ) (t t2 : Solver B S) (i : Nat)
    (h : galerkinStep hp t i = some t2) :
    (galerkinTarget hp i = some none ∧ t2 = t) ∨
    (∃ k, galerkinTarget hp i = some (some k) ∧ galerkinAssign t k = some t2) := by
  unfold galerkinStep at h
  split at h
  · rename_i k hk
    exact Or.inr ⟨k, hk, h⟩
  · rename_i hk
    simp only [Option.some.injEq] at h
    exact Or.inl ⟨hk, h.symm⟩
  · simp at h

theorem galerkinAssign_sized {B S : Type} (hp : List ℚ) (size : B → Nat) (N : Nat)
    (g t t2 : Solver B S) (k : Nat) (hg : GalerkinReady hp size N g)
    (hfr : ∃ ops, t = { g with m_operator := ops })
    (h : galerkinAssign t k = some t2) (hk : k < N - 1) (htag : hp[k]? = some 1) :
    (∃ ops, t2 = { g with m_operator := ops }) ∧ OperatorSized t2 size k ∧
    ∀ j, OperatorSized t size j → OperatorSized t2 size j := by
  obtain ⟨ops, rfl⟩ := hfr
  obtain ⟨r, a, p, ra, rap, hr, _, hp1, hra, hrap, hlen, rfl⟩ := galerkinAssign_cases _ t2 k h
  unfold GalerkinReady at hg
  obtain ⟨b, T, hb, hT, hTt, hsz⟩ := hg.2.2.2.1 k hk htag
  have er : r = T.transpose := by
    have : g.m_restriction_H[k]? = some r := hr
    rw [hTt] at this
    exact (Option.some.inj this).symm
  have ep : p = T := by
    have : g.m_prolongation_H[k]? = some p := hp1
    rw [hT] at this
    exact (Option.some.inj this).symm
  have d1 := mul_dims hra
  have d2 := mul_dims hrap
  have hrows : rap.rows = size b := by
    rw [d2.2.1, d1.2.1, er]; exact hsz
  have hcols : rap.cols = size b := by
    rw [d2.2.2, ep]; exact hsz
  have hsized : OperatorSized
      ({ g with m_operator := ops.set k rap } : Solver B S) size k := by
    refine ⟨b, rap, hb, ?_, hrows, hcols⟩
    show (ops.set k rap)[k]? = some rap
    rw [List.getElem?_set, if_pos rfl, if_pos hlen]
  refine ⟨⟨_, rfl⟩, hsized, ?_⟩
  intro j hj
  by_cases hjk : k = j
  · subst hjk; exact hsized
  · obtain ⟨bj, A, hbj, hA, h1, h2⟩ := hj
    refine ⟨bj, A, hbj, ?_, h1, h2⟩
    show (ops.set k rap)[j]? = some A
    rw [List.getElem?_set, if_neg hjk]
    exact hA

theorem hpAt_min {hp : List ℚ} (i : Nat) (hlen : 1 ≤ hp.length) :
    hpAt hp (min (i : Int) ((hp.length : Int) - 1)) = hp[min i (hp.length - 1)]? := by
  have h : min (i : Int) ((hp.length : Int) - 1) = ((min i (hp.length - 1) : Nat) : Int) := by
    omega
  rw [h, hpAt_natCast]

theorem galerkinTarget_eq {hp : List ℚ} (i : Nat) (hlen : 1 ≤ hp.length) (lastTag tag : ℚ)
    (h1 : hp[hp.length - 1]? = some lastTag) (h2 : hp[min i (hp.length - 1)]? = some tag) :
    galerkinTarget hp i =
      if lastTag = 0 then (if tag = 1 then some (some i) else some none)
      else (if tag = 1 ∧ i > 0 then some (some (i - 1)) else some none) := by
  unfold galerkinTarget
  rw [hpAt_pred hlen, hpAt_min i hlen, h1, h2]

theorem galerkin_first_branch_targets {hp : List ℚ} (N i k : Nat) (hN : 2 ≤ N)
    (hlen : hp.length = N - 1) (hlast : hp[N - 2]? = some 0)
    (h : galerkinTarget hp i = some (some k)) :
    k = i ∧ k < N - 1 ∧ hp[k]? = some 1 := by
  have hl1 : 1 ≤ hp.length := by omega
  have e : hp.length - 1 = N - 2 := by omega
  obtain ⟨tag, htag⟩ := getElem?_of_lt hp (min i (hp.length - 1)) (by omega)
  rw [galerkinTarget_eq i hl1 0 tag (by rw [e]; exact hlast) htag, if_pos rfl] at h
  by_cases ht : tag = 1
  · rw [if_pos ht] at h
    have hk : i = k := Option.some.inj (Option.some.inj h)
    subst hk ht
    by_cases hi : i < N - 1
    · have : min i (hp.length - 1) = i := by omega
      rw [this] at htag
      exact ⟨rfl, hi, htag⟩
    · have : min i (hp.length - 1) = N - 2 := by omega
      rw [this, hlast] at htag
      have := Option.some.inj htag
      norm_num at this
  · rw [if_neg ht] at h
    simp at h

theorem galerkin_first_branch_covers {hp : List ℚ} (N j : Nat) (hN : 2 ≤ N)
    (hlen : hp.length = N - 1) (hlast : hp[N - 2]? = some 0) (hj : j < N - 1)
    (htag : hp[j]? = some 1) : galerkinTarget hp j = some (some j) := by
  have hl1 : 1 ≤ hp.length := by omega
  have e : hp.length - 1 = N - 2 := by omega
  have hm : min j (hp.length - 1) = j := by omega
  rw [galerkinTarget_eq j hl1 0 1 (by rw [e]; exact hlast) (by rw [hm]; exact htag),
    if_pos rfl, if_pos rfl]

theorem galerkin_second_branch_target {hp : List ℚ} (N i : Nat) (hN : 2 ≤ N)
    (hlen : hp.length = N - 1) (hlast : hp[N - 2]? = some 1)
    (hones : ∀ k, i ≤ k → k < N - 1 → hp[k]? = some 1) :
    galerkinTarget hp i = if 0 < i then some (some (i - 1)) else some none := by
  have hl1 : 1 ≤ hp.length := by omega
  have e : hp.length - 1 = N - 2 := by omega
  have htag : hp[min i (hp.length - 1)]? = some 1 := by
    by_cases hlt : i < N - 1
    · have : min i (hp.length - 1) = i := by omega
      rw [this]; exact hones i (Nat.le_refl _) hlt
    · have : min i (hp.length - 1) = N - 2 := by omega
      rw [this]; exact hlast
  have hne : ¬ ((1 : ℚ) = 0) := by norm_num
  rw [galerkinTarget_eq i hl1 1 1 (by rw [e]; exact hlast) htag, if_neg hne]
  by_cases h0 : 0 < i
  · rw [if_pos ⟨rfl, h0⟩, if_pos h0]
  · rw [if_neg (fun h => h0 h.2), if_neg h0]

theorem foldlM_galerkin_sized {B S : Type} (hp : List ℚ) (size : B → Nat) (N : Nat)
    (g : Solver B S) (hg : GalerkinReady hp size N g) (l : List Nat)
    (hsafe : ∀ i, i ∈ l → ∀ k, galerkinTarget hp i = some (some k) →
      k < N - 1 ∧ hp[k]? = some 1) :
    ∀ (t t2 : Solver B S), (∃ ops, t = { g with m_operator := ops }) →
      l.foldlM (galerkinStep hp) t = some t2 →
      (∃ ops, t2 = { g with m_operator := ops }) ∧
      (∀ j, OperatorSized t size j → OperatorSized t2 size j) ∧
      (∀ i, i ∈ l → ∀ k, galerkinTarget hp i = some (some k) → OperatorSized t2 size k) := by
  induction l with
  | nil =>
      intro t t2 hfr h
      simp only [List.foldlM_nil, Option.pure_def, Option.some.injEq] at h
      subst h
      exact ⟨hfr, fun _ hj => hj, fun i hi => absurd hi (List.not_mem_nil i)⟩
  | cons i l ih =>
      intro t t2 hfr h
      rw [foldlM_cons_some] at h
      obtain ⟨t1, h1, h2⟩ := h
      have hsafe2 : ∀ i2, i2 ∈ l → ∀ k, galerkinTarget hp i2 = some (some k) →
          k < N - 1 ∧ hp[k]? = some 1 :=
        fun i2 hi2 => hsafe i2 (List.mem_cons_of_mem _ hi2)
      rcases galerkinStep_cases hp t t1 i h1 with ⟨hnone, rfl⟩ | ⟨k, hk, hassign⟩
      · obtain ⟨f2, p2, c2⟩ := ih hsafe2 t1 t2 hfr h2
        refine ⟨f2, p2, ?_⟩
        intro i2 hi2 k2 hk2
        rcases List.mem_cons.mp hi2 with rfl | hmem
        · rw [hnone] at hk2; simp at hk2
        · exact c2 i2 hmem k2 hk2
      · obtain ⟨hkl, hktag⟩ := hsafe i (List.mem_cons_self _ _) k hk
        obtain ⟨f1, s1, p1⟩ := galerkinAssign_sized hp size N g t t1 k hg hfr hassign hkl hktag
        obtain ⟨f2, p2, c2⟩ := ih hsafe2 t1 t2 f1 h2
        refine ⟨f2, fun j hj => p2 j (p1 j hj), ?_⟩
        intro i2 hi2 k2 hk2
        rcases List.mem_cons.mp hi2 with rfl | hmem
        · rw [hk] at hk2
          have := Option.some.inj (Option.some.inj hk2)
          subst this
          exact p2 k s1
        · exact c2 i2 hmem k2 hk2

theorem galerkin_second_branch_all_h {B S : Type} (hp : List ℚ) (size : B → Nat) (N : Nat)
    (g : Solver B S) (hg : GalerkinReady hp size N g) (hlast : hp[N - 2]? = some 1) :
    ∀ (n : Nat), n < N → ∀ (t t2 : Solver B S), (∃ ops, t = { g with m_operator := ops }) →
      (List.range (n + 1)).reverse.foldlM (galerkinStep hp) t = some t2 →
      OperatorSized t size n → (∀ k, n ≤ k → k < N - 1 → hp[k]? = some 1) →
      ∀ k, k < N - 1 → hp[k]? = some 1 := by
  have hg2 := hg
  unfold GalerkinReady at hg2
  obtain ⟨hN, hlen, htags, _, hempty, hpos⟩ := hg2
  intro n
  induction n with
  | zero => intro _ t t2 _ _ _ hones k hk; exact hones k (Nat.zero_le _) hk
  | succ n ih =>
      intro hn t t2 hfr h hsz hones
      rw [List.range_succ, List.reverse_append, List.reverse_singleton, List.singleton_append,
        foldlM_cons_some] at h
      obtain ⟨t1, h1, h2⟩ := h
      have htgt := galerkin_second_branch_target N (n + 1) hN hlen hlast hones
      rw [if_pos (Nat.succ_pos n), Nat.add_sub_cancel] at htgt
      rcases galerkinStep_cases hp t t1 (n + 1) h1 with ⟨hnone, _⟩ | ⟨k, hk, hassign⟩
      · rw [htgt] at hnone; simp at hnone
      · rw [htgt] at hk
        have ek := Option.some.inj (Option.some.inj hk)
        subst ek
        have hn1 : n < N - 1 := by omega
        have htag1 : hp[n]? = some 1 := by
          rcases htags n hn1 with h0 | h1'
          · exfalso
            obtain ⟨ops, rfl⟩ := hfr
            obtain ⟨r, a, p, ra, rap, hr, ha, _, hra, _, _, _⟩ := galerkinAssign_cases _ t1 n hassign
            have hre : g.m_restriction_H[n]? = some r := hr
            rw [hempty n hn1 h0] at hre
            have er := Option.some.inj hre
            obtain ⟨b, A, hb, hA, hrows, _⟩ := hsz
            rw [hA] at ha
            have ea := Option.some.inj ha
            subst ea er
            have hd := (mul_dims hra).1
            have hb2 : g.m_basis[n + 1]? = some b := hb
            have := hpos (n + 1) b hb2
            rw [hrows] at hd
            have h00 : Mat.empty.cols = 0 := rfl
            omega
          · exact h1'
        obtain ⟨f1, s1, _⟩ :=
          galerkinAssign_sized hp size N g t t1 n hg hfr hassign hn1 htag1
        refine ih (by omega) t1 t2 f1 h2 s1 ?_
        intro k hk1 hk2
        by_cases hkn : k = n
        · subst hkn; exact htag1
        · exact hones k (by omega) hk2

theorem assembleStep_Assembled_tagged {B S : Type} (env : Env B S) (cfg : Config)
    (hp : List ℚ) (numLevels : Nat) (t t2 : Solver B S) (i : Nat)
    (h : assembleStep env cfg hp numLevels t i = some t2)
    (hcond : hpAt hp (min (i : Int) ((hp.length : Int) - 1)) = some 0 ∨ i = numLevels - 1) :
    Assembled env t2 i := by
  rcases assembleStep_cases env cfg hp numLevels t t2 i h with ⟨hne, rfl⟩ | ⟨b, hb, hl, rfl⟩
  · unfold assembleStep at h
    rw [if_neg hne] at h
    split at h
    · rename_i tag htag
      have hc : tag = 0 ∨ i = numLevels - 1 := by
        rcases hcond with h0 | h1
        · rw [htag] at h0
          exact Or.inl (Option.some.inj h0)
        · exact Or.inr h1
      rw [if_pos hc] at h
      split at h
      · rename_i b hb
        split at h
        · rename_i hl
          simp only [Option.some.injEq] at h
          refine ⟨b, hb, ?_⟩
          rw [← h]
          show (t2.m_operator.set i _)[i]? = _
          rw [List.getElem?_set, if_pos rfl, if_pos hl]
        · simp at h
      · simp at h
    · simp at h
  · refine ⟨b, hb, ?_⟩
    show (t.m_operator.set i _)[i]? = _
    rw [List.getElem?_set, if_pos rfl, if_pos hl]

theorem foldlM_assembleStep_tagged {B S : Type} (env : Env B S) (cfg : Config)
    (hp : List ℚ) (numLevels : Nat) (l : List Nat) (s s2 : Solver B S)
    (h : l.foldlM (assembleStep env cfg hp numLevels) s = some s2) (i : Nat) (hi : i ∈ l)
    (hcond : hpAt hp (min (i : Int) ((hp.length : Int) - 1)) = some 0 ∨ i = numLevels - 1) :
    Assembled env s2 i :=
  foldlM_establishes (assembleStep env cfg hp numLevels) (fun t => Assembled env t i) i l hi
    (fun t j t2 _ ht hq => assembleStep_Assembled_pres env cfg hp numLevels t t2 j i ht hq)
    (fun t t2 ht => assembleStep_Assembled_tagged env cfg hp numLevels t t2 i ht hcond) s s2 h

theorem foldlM_transferHStep_untouched {B S : Type} (env : Env B S) (hp : List ℚ)
    (l : List Nat) (s s2 : Solver B S) (h : l.foldlM (transferHStep env hp) s = some s2)
    (k : Nat) (hk : hp[k]? ≠ some 1) :
    s2.m_restriction_H[k]? = s.m_restriction_H[k]? := by
  refine foldlM_preserves (transferHStep env hp)
    (fun t => t.m_restriction_H[k]? = s.m_restriction_H[k]?) l ?_ s s2 h rfl
  intro t j t2 _ ht hq
  obtain ⟨h1, hc⟩ := transferHStep_cases env hp t t2 j ht
  rcases hc with ⟨_, rfl⟩ | ⟨htag, b, _, _, _, rfl⟩
  · exact hq
  · have hjk : ¬ j - 1 = k := by
      intro e
      rw [e] at htag
      exact hk htag
    show (t.m_restriction_H.set (j - 1) _)[k]? = _
    rw [List.getElem?_set, if_neg hjk]
    exact hq

theorem resize_nil_getElem? {α : Type} (n k : Nat) (d : α) (hk : k < n) :
    (resize ([] : List α) n d)[k]? = some d := by
  unfold resize
  simp [hk]

theorem Assembled_sized {B S : Type} (env : Env B S) (s : Solver B S) (size : B → Nat) (j : Nat)
    (hA : ∀ b, (env.assemble b).rows = size b ∧ (env.assemble b).cols = size b)
    (hasm : s.m_assembler = s.m_basis) (h : Assembled env s j) : OperatorSized s size j := by
  obtain ⟨b, hb, ho⟩ := h
  rw [hasm] at hb
  exact ⟨b, _, hb, ho, (hA b).1, (hA b).2⟩

/-- Sizes of the operators of a hierarchy built by `setup` on a fresh solver, where the
collaborators' matrices have the sizes of their bases: with direct assembly, or in
Galerkin mode with exactly `numLevels - 1` tags 0 or 1 and bases that have unknowns,
every operator is square of the size of its basis. -/
theorem setup_operator_sized {B S : Type} (env : Env B S) (cfg : Config) (hp : List ℚ)
    (numLevels : Nat) (b0 : B) (s5 : Solver B S) (size : B → Nat)
    (hA : ∀ b, (env.assemble b).rows = size b ∧ (env.assemble b).cols = size b)
    (hT : ∀ b, (env.coarsenTransfer (env.uniformRefine b)).rows = size (env.uniformRefine b) ∧
      (env.coarsenTransfer (env.uniformRefine b)).cols = size b)
    (hmode : cfg.typeCoarseOperator = 1 ∨
      (cfg.typeCoarseOperator = 2 ∧ 2 ≤ numLevels ∧ hp.length = numLevels - 1 ∧
        (∀ k, k < numLevels - 1 → hp[k]? = some 0 ∨ hp[k]? = some 1) ∧ ∀ b, 0 < size b))
    (h : setup env cfg hp numLevels (gsXBraidMultigrid b0) = some s5) :
    ∀ j, j < numLevels → OperatorSized s5 size j := by
  obtain ⟨_, _, hasm, hH, _, hAs⟩ := setup_result env cfg hp numLevels _ s5 h
  obtain ⟨_, _, hder⟩ := setup_fresh_bases env cfg hp numLevels b0 s5 h
  have hasm2 : s5.m_assembler = s5.m_basis := by rw [hasm]; rfl
  rcases hmode with hco | ⟨hco, hN, hlen, htags, hpos⟩
  · intro j hj
    exact Assembled_sized env s5 size j hA hasm2 (hAs hco j hj)
  · obtain ⟨bases, s2, s3, s4, hb, hn, h2, h3, h4, h5⟩ :=
      setup_some env cfg hp numLevels _ s5 h
    rw [if_pos hco] at h5
    obtain ⟨ops2, e2, _⟩ := foldlM_assembleStep_frame env cfg hp numLevels _ _ s2 h2
    obtain ⟨pp, rp, pm, rm, e3, _⟩ := foldlM_transferPStep_frame env hp _ s2 s3 h3
    obtain ⟨ph, rh, e4, _⟩ := foldlM_transferHStep_frame env hp _ s3 s4 h4
    obtain ⟨ops5, e5⟩ := foldlM_galerkinStep_frame hp _ s4 s5 h5
    have hl1 : 1 ≤ hp.length := by omega
    -- facts about the state before the Galerkin loop
    have hbasis4 : s4.m_basis = s5.m_basis := by rw [e5]
    have hasm4 : s4.m_assembler = s4.m_basis := by
      rw [hbasis4, ← hasm2, e5]
    have hinit : ∀ j, j < numLevels → (hp[j]? = some 0 ∨ j = numLevels - 1) →
        OperatorSized s4 size j := by
      intro j hj hc
      have hcond : hpAt hp (min (j : Int) ((hp.length : Int) - 1)) = some 0 ∨
          j = numLevels - 1 := by
        rcases hc with h0 | h1
        · by_cases hjl : j < numLevels - 1
          · left
            rw [hpAt_min j hl1]
            have : min j (hp.length - 1) = j := by omega
            rw [this]; exact h0
          · right; omega
        · exact Or.inr h1
      have ha2 := foldlM_assembleStep_tagged env cfg hp numLevels _ _ s2 h2 j
        (List.mem_range.mpr hj) hcond
      have ha4 : Assembled env s4 j := by
        obtain ⟨b, q1, q2⟩ := ha2
        rw [e4, e3]
        exact ⟨b, q1, q2⟩
      exact Assembled_sized env s4 size j hA hasm4 ha4
    have hready : GalerkinReady hp size numLevels s4 := by
      refine ⟨hN, hlen, htags, ?_, ?_, fun _ b _ => hpos b⟩
      · intro k hk htag
        obtain ⟨b, hb1, hP1, hR1⟩ := hH (k + 1) (by omega) (by omega) htag
        obtain ⟨tag, prev, ht, hprev, hcur⟩ := hder (k + 1) (by omega) (by omega)
        simp only [Nat.add_sub_cancel] at ht hprev hb1 hP1 hR1
        rw [ht] at htag
        rw [Option.some.inj htag, basisNext_one] at hcur
        rw [hcur] at hb1
        have eb := Option.some.inj hb1
        subst eb
        refine ⟨prev, _, ?_, ?_, ?_, (hT prev).2⟩
        · rw [hbasis4]; exact hprev
        · rw [e5] at hP1; exact hP1
        · rw [e5] at hR1; exact hR1
      · intro k hk htag
        have hne : hp[k]? ≠ some 1 := by
          rw [htag]; intro hc
          have := Option.some.inj hc
          norm_num at this
        rw [foldlM_transferHStep_untouched env hp _ s3 s4 h4 k hne, e3, e2]
        exact resize_nil_getElem? _ k Mat.empty hk
    have hfr4 : ∃ ops, s4 = { s4 with m_operator := ops } := ⟨s4.m_operator, rfl⟩
    have hlast : hp[numLevels - 2]? = some 0 ∨ hp[numLevels - 2]? = some 1 :=
      htags (numLevels - 2) (by omega)
    have hrange : numLevels - 1 + 1 = numLevels := by omega
    rcases hlast with hl0 | hl1'
    · obtain ⟨_, p2, c2⟩ := foldlM_galerkin_sized hp size numLevels s4 hready _
        (fun i _ k hk => (galerkin_first_branch_targets numLevels i k hN hlen hl0 hk).2)
        s4 s5 hfr4 h5
      intro j hj
      by_cases hc : hp[j]? = some 0 ∨ j = numLevels - 1
      · exact p2 j (hinit j hj hc)
      · have hjl : j < numLevels - 1 := by
          by_contra hcon
          exact hc (Or.inr (by omega))
        have htag1 : hp[j]? = some 1 := by
          rcases htags j hjl with h0 | h1'
          · exact absurd (Or.inl h0) hc
          · exact h1'
        exact c2 j (List.mem_reverse.mpr (List.mem_range.mpr hj)) j
          (galerkin_first_branch_covers numLevels j hN hlen hl0 hjl htag1)
    · have hall : ∀ k, k < numLevels - 1 → hp[k]? = some 1 := by
        have h5' := h5
        rw [← hrange] at h5'
        exact galerkin_second_branch_all_h hp size numLevels s4 hready hl1' (numLevels - 1)
          (by omega) s4 s5 hfr4 h5' (hinit (numLevels - 1) (by omega) (Or.inr rfl))
          (fun k hk1 hk2 => absurd hk1 (by omega))
      have htgt : ∀ i, galerkinTarget hp i = if 0 < i then some (some (i - 1)) else some none :=
        fun i => galerkin_second_branch_target numLevels i hN hlen hl1'
          (fun k _ hk => hall k hk)
      obtain ⟨_, p2, c2⟩ := foldlM_galerkin_sized hp size numLevels s4 hready _
        (fun i hi k hk => by
          rw [List.mem_reverse, List.mem_range] at hi
          rw [htgt i] at hk
          by_cases h0 : 0 < i
          · rw [if_pos h0] at hk
            have := Option.some.inj (Option.some.inj hk)
            subst this
            exact ⟨by omega, hall _ (by omega)⟩
          · rw [if_neg h0] at hk; simp at hk)
        s4 s5 hfr4 h5
      intro j hj
      by_cases hjl : j < numLevels - 1
      · refine c2 (j + 1) (List.mem_reverse.mpr (List.mem_range.mpr (by omega))) j ?_
        rw [htgt (j + 1), if_pos (Nat.succ_pos j), Nat.add_sub_cancel]
      · exact p2 j (hinit j hj (Or.inr (by omega)))

/-- C7 as amended: for a hierarchy built by `setup` on a fresh solver, either with direct
assembly (`typeCoarseOperator = 1`) or in Galerkin mode (`typeCoarseOperator = 2`) with
exactly `numLevels - 1` tags that are all 0 or 1 and bases that have unknowns, where the
assembled and the transfer matrices of the collaborators have the sizes of their bases,
at every level `i > 0` the prolongation matrix of the level's tag
(`m_prolongation_H[i-1]` for tag 1, `m_prolongation_P[i-1]` for tag 0) has as many rows
as `m_operator[i]` and as many columns as `m_operator[i-1]` has rows. -/
theorem prolongation_dimensions_match_operators {B S : Type} (env : Env B S) (cfg : Config)
    (hp : List ℚ) (numLevels : Nat) (b0 : B) (s5 : Solver B S) (size : B → Nat)
    (hA : ∀ b, (env.assemble b).rows = size b ∧ (env.assemble b).cols = size b)
    (hT : ∀ b, (env.coarsenTransfer (env.uniformRefine b)).rows = size (env.uniformRefine b) ∧
      (env.coarsenTransfer (env.uniformRefine b)).cols = size b)
    (hE : ∀ bL bH, (env.exprMatrix bL bH).rows = size bL ∧ (env.exprMatrix bL bH).cols = size bH)
    (hmode : cfg.typeCoarseOperator = 1 ∨
      (cfg.typeCoarseOperator = 2 ∧ 2 ≤ numLevels ∧ hp.length = numLevels - 1 ∧
        (∀ k, k < numLevels - 1 → hp[k]? = some 0 ∨ hp[k]? = some 1) ∧ ∀ b, 0 < size b))
    (h : setup env cfg hp numLevels (gsXBraidMultigrid b0) = some s5)
    (i : Nat) (h1 : 1 ≤ i) (hlt : i < numLevels) :
    (hp[i - 1]? = some 1 → ∃ P A Ac, s5.m_prolongation_H[i - 1]? = some P ∧
        s5.m_operator[i]? = some A ∧ s5.m_operator[i - 1]? = some Ac ∧
        P.rows = A.rows ∧ P.cols = Ac.rows) ∧
    (hp[i - 1]? = some 0 → ∃ P A Ac, s5.m_prolongation_P[i - 1]? = some P ∧
        s5.m_operator[i]? = some A ∧ s5.m_operator[i - 1]? = some Ac ∧
        P.rows = A.rows ∧ P.cols = Ac.rows) := by
  obtain ⟨_, _, _, hH, hP, _⟩ := setup_result env cfg hp numLevels _ s5 h
  obtain ⟨_, _, hder⟩ := setup_fresh_bases env cfg hp numLevels b0 s5 h
  have hsized := setup_operator_sized env cfg hp numLevels b0 s5 size hA hT hmode h
  obtain ⟨tag, prev, ht, hprev, hcur⟩ := hder i h1 hlt
  obtain ⟨bi, A, hbi, hopi, hri, _⟩ := hsized i hlt
  obtain ⟨bp, Ac, hbp, hopp, hrp, _⟩ := hsized (i - 1) (by omega)
  rw [hcur] at hbi
  rw [hprev] at hbp
  have ebi := Option.some.inj hbi
  have ebp := Option.some.inj hbp
  subst ebi ebp
  have ei : i - 1 + 1 = i := by omega
  constructor
  · intro htag
    obtain ⟨b, hb, hPH, _⟩ := hH i h1 hlt htag
    rw [ei, hcur] at hb
    have eb := Option.some.inj hb
    rw [ht] at htag
    rw [Option.some.inj htag, basisNext_one] at eb hri
    subst eb
    refine ⟨_, A, Ac, hPH, hopi, hopp, ?_, ?_⟩
    · rw [(hT prev).1, hri]
    · rw [(hT prev).2, hrp]
  · intro htag
    obtain ⟨bL, bH, hbL, hbH, hPP, _⟩ := hP i h1 hlt htag
    rw [ei, hcur] at hbH
    rw [hprev] at hbL
    have eL := Option.some.inj hbL
    have eH := Option.some.inj hbH
    subst eL eH
    refine ⟨_, A, Ac, hPP, hopi, hopp, ?_, ?_⟩
    · show (env.exprMatrix _ _).cols = _
      rw [(hE _ _).2, hri]
    · show (env.exprMatrix _ _).rows = _
      rw [(hE _ _).1, hrp]

theorem gridSize_pos (b : Nat × Nat) : 0 < gridSize b := by
  unfold gridSize
  positivity

/-- The amended C7 on the model problem in Galerkin mode: level 1 of the hierarchy for
the schedule (H, P), whose coarsest operator is a Galerkin projection. -/
theorem prolongation_dimensions_match_operators_witness :
    (([1, 0] : List ℚ)[1 - 1]? = some 1 → ∃ P A Ac,
        ((setup gridEnv galerkinConfig [1, 0] 3 (gsXBraidMultigrid (1, 0))).get
            (by decide!)).m_prolongation_H[1 - 1]? = some P ∧
        ((setup gridEnv galerkinConfig [1, 0] 3 (gsXBraidMultigrid (1, 0))).get
            (by decide!)).m_operator[1]? = some A ∧
        ((setup gridEnv galerkinConfig [1, 0] 3 (gsXBraidMultigrid (1, 0))).get
            (by decide!)).m_operator[1 - 1]? = some Ac ∧
        P.rows = A.rows ∧ P.cols = Ac.rows) ∧
    (([1, 0] : List ℚ)[1 - 1]? = some 0 → ∃ P A Ac,
        ((setup gridEnv galerkinConfig [1, 0] 3 (gsXBraidMultigrid (1, 0))).get
            (by decide!)).m_prolongation_P[1 - 1]? = some P ∧
        ((setup gridEnv galerkinConfig [1, 0] 3 (gsXBraidMultigrid (1, 0))).get
            (by decide!)).m_operator[1]? = some A ∧
        ((setup gridEnv galerkinConfig [1, 0] 3 (gsXBraidMultigrid (1, 0))).get
            (by decide!)).m_operator[1 - 1]? = some Ac ∧
        P.rows = A.rows ∧ P.cols = Ac.rows) :=
  prolongation_dimensions_match_operators gridEnv galerkinConfig [1, 0] 3 (1, 0) _ gridSize
    (fun _ => ⟨rfl, rfl⟩) (fun b => ⟨rfl, by simp [gridEnv]⟩) (fun _ _ => ⟨rfl, rfl⟩)
    (Or.inr ⟨rfl, by decide, rfl, by decide, gridSize_pos⟩)
    (Option.some_get _).symm 1 (by decide) (by decide)

/-! ## Incomplete factorizations computed by `setup` -/

theorem setup_operator_length {B S : Type} (env : Env B S) (cfg : Config) (hp : List ℚ)
    (numLevels : Nat) (s s5 : Solver B S) (h : setup env cfg hp numLevels s = some s5) :
    s5.m_operator.length = numLevels := by
  obtain ⟨bases, s2, s3, s4, _, _, h2, h3, h4, h5⟩ := setup_some env cfg hp numLevels s s5 h
  obtain ⟨ops, e2, hl2⟩ := foldlM_assembleStep_frame env cfg hp numLevels _ _ s2 h2
  obtain ⟨pp, rp, pm, rm, e3, _⟩ := foldlM_transferPStep_frame env hp _ s2 s3 h3
  obtain ⟨ph, rh, e4, _⟩ := foldlM_transferHStep_frame env hp _ s3 s4 h4
  have l4 : s4.m_operator.length = numLevels := by
    rw [e4, e3, e2]
    show ops.length = numLevels
    rw [hl2]
    exact resize_length _ _ _
  split at h5
  · refine foldlM_preserves (galerkinStep hp) (fun t => t.m_operator.length = numLevels) _ ?_
      s4 s5 h5 l4
    intro t i t2 _ ht hq
    rcases galerkinStep_cases hp t t2 i ht with ⟨_, rfl⟩ | ⟨k, _, hk⟩
    · exact hq
    · obtain ⟨r, a, p, ra, rap, _, _, _, _, _, _, rfl⟩ := galerkinAssign_cases t t2 k hk
      simpa using hq
  · simp only [Option.some.injEq] at h5
    rw [← h5]; exact l4

theorem resize_one_set {α : Type} (l : List α) (d x : α) : (resize l 1 d).set 0 x = [x] := by
  have h := resize_length l 1 d
  match hr : resize l 1 d, h with
  | [a], _ => rfl

theorem ilutCompute_cases {B S : Type} (env : Env B S) (s s2 : Solver B S) (i : Nat)
    (h : ilutCompute env s i = some s2) :
    ∃ A l p q, s.m_operator[i]? = some A ∧ s.m_ILUT[i]? = some l ∧ s.m_P[i]? = some p ∧
      s.m_Pinv[i]? = some q ∧
      s2 = { s with
        m_ILUT := s.m_ILUT.set i (l.set 0 (env.ilut A).1)
        m_P := s.m_P.set i (p.set 0 (env.ilut A).2.1)
        m_Pinv := s.m_Pinv.set i (q.set 0 (env.ilut A).2.2) } := by
  unfold ilutCompute at h
  split at h
  · rename_i A l p q hA hl hp hq
    split at h
    · simp only [Option.some.injEq] at h
      exact ⟨A, l, p, q, hA, hl, hp, hq, h.symm⟩
    · simp at h
  · simp at h
theorem ilutCompute_resized {B S : Type} (env : Env B S) (s s2 : Solver B S) (i : Nat)
    (l : List Mat) (p q : List (List Nat))
    (hl : s.m_ILUT[i]? = some l) (hp : s.m_P[i]? = some p) (hq : s.m_Pinv[i]? = some q)
    (h : ilutCompute env { s with
          m_ILUT := s.m_ILUT.set i (resize l 1 Mat.empty)
          m_P := s.m_P.set i (resize p 1 [])
          m_Pinv := s.m_Pinv.set i (resize q 1 []) } i = some s2) :
    ∃ A, s.m_operator[i]? = some A ∧
      s2 = { s with
        m_ILUT := s.m_ILUT.set i [(env.ilut A).1]
        m_P := s.m_P.set i [(env.ilut A).2.1]
        m_Pinv := s.m_Pinv.set i [(env.ilut A).2.2] } := by
  obtain ⟨A, l2, p2, q2, hA, hl2, hp2, hq2, rfl⟩ := ilutCompute_cases env _ s2 i h
  have il : i < s.m_ILUT.length := (List.getElem?_eq_some.mp hl).1
  have ip : i < s.m_P.length := (List.getElem?_eq_some.mp hp).1
  have iq : i < s.m_Pinv.length := (List.getElem?_eq_some.mp hq).1
  simp only [List.getElem?_set_self il, List.getElem?_set_self ip, List.getElem?_set_self iq,
    Option.some.injEq] at hl2 hp2 hq2
  subst hl2 hp2 hq2
  refine ⟨A, hA, ?_⟩
  simp only [List.set_set, resize_one_set]

theorem ilutStep_cases {B S : Type} (env : Env B S) (cfg : Config) (numLevels : Nat)
    (s s2 : Solver B S) (i : Nat) (h : ilutStep env cfg numLevels s i = some s2) :
    ((cfg.typeProjection = 2 ∨ i + 1 = numLevels) ∧ ∃ A, s.m_operator[i]? = some A ∧
      s2 = { s with
        m_ILUT := s.m_ILUT.set i [(env.ilut A).1]
        m_P := s.m_P.set i [(env.ilut A).2.1]
        m_Pinv := s.m_Pinv.set i [(env.ilut A).2.2] }) ∨
    (cfg.typeProjection ≠ 2 ∧ i + 1 ≠ numLevels ∧ ∃ l p q, s.m_ILUT[i]? = some l ∧
      s.m_P[i]? = some p ∧ s.m_Pinv[i]? = some q ∧
      s2 = { s with
        m_ILUT := s.m_ILUT.set i (resize l 1 Mat.empty)
        m_P := s.m_P.set i (resize p 1 [])
        m_Pinv := s.m_Pinv.set i (resize q 1 []) }) := by
  unfold ilutStep at h
  split at h
  · rename_i l p q hl hp hq
    split at h
    · rename_i h2
      exact Or.inl ⟨Or.inl h2, ilutCompute_resized env s s2 i l p q hl hp hq h⟩
    · rename_i h2
      split at h
      · rename_i hi
        exact Or.inl ⟨Or.inr (by omega), ilutCompute_resized env s s2 i l p q hl hp hq h⟩
      · rename_i hi
        simp only [Option.some.injEq] at h
        exact Or.inr ⟨h2, by omega, l, p, q, hl, hp, hq, h.symm⟩
  · simp at h
theorem foldlM_establishes_of {σ ι : Type} (f : σ → ι → Option σ) (I Q : σ → Prop) (i : ι)
    (l : List ι) (hi : i ∈ l)
    (hinv : ∀ s j s2, j ∈ l → f s j = some s2 → I s → I s2)
    (hpres : ∀ s j s2, j ∈ l → f s j = some s2 → Q s → Q s2)
    (hest : ∀ s s2, f s i = some s2 → I s → Q s2) :
    ∀ (s s2 : σ), l.foldlM f s = some s2 → I s → Q s2 := by
  induction l with
  | nil => simp at hi
  | cons j l ih =>
      intro s s2 h hI
      rw [foldlM_cons_some] at h
      obtain ⟨s1, h1, h2⟩ := h
      have hI1 : I s1 := hinv s j s1 (List.mem_cons_self _ _) h1 hI
      rcases List.mem_cons.mp hi with rfl | hmem
      · exact foldlM_preserves f Q l (fun s j s2 hj => hpres s j s2 (List.mem_cons_of_mem _ hj))
          s1 s2 h2 (hest s s1 h1 hI)
      · exact ih hmem (fun s j s2 hj => hinv s j s2 (List.mem_cons_of_mem _ hj))
          (fun s j s2 hj => hpres s j s2 (List.mem_cons_of_mem _ hj)) s1 s2 h2 hI1

theorem ilutStep_operator {B S : Type} (env : Env B S) (cfg : Config) (numLevels : Nat)
    (s s2 : Solver B S) (i : Nat) (h : ilutStep env cfg numLevels s i = some s2) :
    s2.m_operator = s.m_operator := by
  rcases ilutStep_cases env cfg numLevels s s2 i h with ⟨_, A, _, rfl⟩ | ⟨_, _, l, p, q, _, _, _, rfl⟩
  · rfl
  · rfl

theorem ilutStep_other {B S : Type} (env : Env B S) (cfg : Config) (numLevels : Nat)
    (s s2 : Solver B S) (i j : Nat) (hij : j ≠ i) (h : ilutStep env cfg numLevels s j = some s2) :
    s2.m_ILUT[i]? = s.m_ILUT[i]? ∧ s2.m_P[i]? = s.m_P[i]? ∧ s2.m_Pinv[i]? = s.m_Pinv[i]? := by
  rcases ilutStep_cases env cfg numLevels s s2 j h with ⟨_, A, _, rfl⟩ | ⟨_, _, l, p, q, _, _, _, rfl⟩
  · exact ⟨List.getElem?_set_ne hij, List.getElem?_set_ne hij, List.getElem?_set_ne hij⟩
  · exact ⟨List.getElem?_set_ne hij, List.getElem?_set_ne hij, List.getElem?_set_ne hij⟩

theorem ilutStep_Factorized_est {B S : Type} (env : Env B S) (cfg : Config) (numLevels : Nat)
    (s s2 : Solver B S) (i : Nat) (hc : cfg.typeProjection = 2 ∨ i + 1 = numLevels)
    (h : ilutStep env cfg numLevels s i = some s2) : Factorized env s2 i := by
  have hlen : i < s.m_ILUT.length ∧ i < s.m_P.length ∧ i < s.m_Pinv.length := by
    unfold ilutStep at h
    split at h
    · rename_i l p q hl hp hq
      exact ⟨(List.getElem?_eq_some.mp hl).1, (List.getElem?_eq_some.mp hp).1,
        (List.getElem?_eq_some.mp hq).1⟩
    · simp at h
  rcases ilutStep_cases env cfg numLevels s s2 i h with ⟨_, A, hA, rfl⟩ | ⟨h1, h2, _⟩
  · exact ⟨A, hA, List.getElem?_set_self hlen.1, List.getElem?_set_self hlen.2.1,
      List.getElem?_set_self hlen.2.2⟩
  · rcases hc with hc | hc
    · exact absurd hc h1
    · exact absurd hc h2

theorem ilutStep_Factorized_pres {B S : Type} (env : Env B S) (cfg : Config) (numLevels : Nat)
    (s s2 : Solver B S) (i j : Nat) (hc : cfg.typeProjection = 2 ∨ i + 1 = numLevels)
    (h : ilutStep env cfg numLevels s j = some s2) (hq : Factorized env s i) :
    Factorized env s2 i := by
  by_cases hij : j = i
  · subst hij
    exact ilutStep_Factorized_est env cfg numLevels s s2 j hc h
  · obtain ⟨A, hA, hI, hP, hPi⟩ := hq
    obtain ⟨e1, e2, e3⟩ := ilutStep_other env cfg numLevels s s2 i j hij h
    exact ⟨A, by rw [ilutStep_operator env cfg numLevels s s2 j h]; exact hA,
      by rw [e1]; exact hI, by rw [e2]; exact hP, by rw [e3]; exact hPi⟩

theorem foldlM_ilutStep_Factorized {B S : Type} (env : Env B S) (cfg : Config)
    (numLevels : Nat) (s s2 : Solver B S) (i : Nat) (hi : i < numLevels)
    (hc : cfg.typeProjection = 2 ∨ i + 1 = numLevels)
    (h : (List.range numLevels).foldlM (ilutStep env cfg numLevels) s = some s2) :
    Factorized env s2 i :=
  foldlM_establishes (ilutStep env cfg numLevels) (fun t => Factorized env t i) i
    (List.range numLevels) (List.mem_range.mpr hi)
    (fun t j t2 _ ht hq => ilutStep_Factorized_pres env cfg numLevels t t2 i j hc ht hq)
    (fun t t2 ht => ilutStep_Factorized_est env cfg numLevels t t2 i hc ht) s s2 h

theorem foldlM_ilutStep_operator {B S : Type} (env : Env B S) (cfg : Config)
    (numLevels : Nat) (l : List Nat) (s s2 : Solver B S)
    (h : l.foldlM (ilutStep env cfg numLevels) s = some s2) :
    s2.m_operator = s.m_operator :=
  foldlM_preserves (ilutStep env cfg numLevels) (fun t => t.m_operator = s.m_operator) l
    (fun t j t2 _ ht hq => (ilutStep_operator env cfg numLevels t t2 j ht).trans hq)
    s s2 h rfl
theorem ilutStep_default_inv {B S : Type} (env : Env B S) (cfg : Config) (numLevels : Nat)
    (s s2 : Solver B S) (i j : Nat) (hc : cfg.typeProjection ≠ 2 ∧ i + 1 ≠ numLevels)
    (h : ilutStep env cfg numLevels s j = some s2)
    (hq : (s.m_ILUT[i]? = some [] ∨ s.m_ILUT[i]? = some [Mat.empty]) ∧
      (s.m_P[i]? = some [] ∨ s.m_P[i]? = some [[]]) ∧
      (s.m_Pinv[i]? = some [] ∨ s.m_Pinv[i]? = some [[]])) :
    (j = i → s2.m_ILUT[i]? = some [Mat.empty] ∧ s2.m_P[i]? = some [[]] ∧
      s2.m_Pinv[i]? = some [[]]) ∧
    (j ≠ i → s2.m_ILUT[i]? = s.m_ILUT[i]? ∧ s2.m_P[i]? = s.m_P[i]? ∧
      s2.m_Pinv[i]? = s.m_Pinv[i]?) := by
  refine ⟨?_, fun hij => ilutStep_other env cfg numLevels s s2 i j hij h⟩
  rintro rfl
  rcases ilutStep_cases env cfg numLevels s s2 j h with ⟨h1, _⟩ | ⟨_, _, l, p, q, hl, hp, hq2, rfl⟩
  · rcases h1 with h1 | h1
    · exact absurd h1 hc.1
    · exact absurd h1 hc.2
  · have il : j < s.m_ILUT.length := (List.getElem?_eq_some.mp hl).1
    have ip : j < s.m_P.length := (List.getElem?_eq_some.mp hp).1
    have iq : j < s.m_Pinv.length := (List.getElem?_eq_some.mp hq2).1
    obtain ⟨q1, q2, q3⟩ := hq
    rw [hl] at q1
    rw [hp] at q2
    rw [hq2] at q3
    simp only [Option.some.injEq] at q1 q2 q3
    refine ⟨?_, ?_, ?_⟩
    · show (s.m_ILUT.set j (resize l 1 Mat.empty))[j]? = _
      rw [List.getElem?_set_self il]
      rcases q1 with rfl | rfl <;> rfl
    · show (s.m_P.set j (resize p 1 []))[j]? = _
      rw [List.getElem?_set_self ip]
      rcases q2 with rfl | rfl <;> rfl
    · show (s.m_Pinv.set j (resize q 1 []))[j]? = _
      rw [List.getElem?_set_self iq]
      rcases q3 with rfl | rfl <;> rfl

theorem foldlM_ilutStep_default {B S : Type} (env : Env B S) (cfg : Config)
    (numLevels : Nat) (s s2 : Solver B S) (i : Nat) (hi : i < numLevels)
    (hc : cfg.typeProjection ≠ 2 ∧ i + 1 ≠ numLevels)
    (h : (List.range numLevels).foldlM (ilutStep env cfg numLevels) s = some s2)
    (h0 : s.m_ILUT[i]? = some [] ∧ s.m_P[i]? = some [] ∧ s.m_Pinv[i]? = some []) :
    s2.m_ILUT[i]? = some [Mat.empty] ∧ s2.m_P[i]? = some [[]] ∧ s2.m_Pinv[i]? = some [[]] := by
  refine foldlM_establishes_of (ilutStep env cfg numLevels)
    (fun t => (t.m_ILUT[i]? = some [] ∨ t.m_ILUT[i]? = some [Mat.empty]) ∧
      (t.m_P[i]? = some [] ∨ t.m_P[i]? = some [[]]) ∧
      (t.m_Pinv[i]? = some [] ∨ t.m_Pinv[i]? = some [[]]))
    (fun t => t.m_ILUT[i]? = some [Mat.empty] ∧ t.m_P[i]? = some [[]] ∧
      t.m_Pinv[i]? = some [[]])
    i (List.range numLevels) (List.mem_range.mpr hi) ?_ ?_ ?_ s s2 h
    ⟨Or.inl h0.1, Or.inl h0.2.1, Or.inl h0.2.2⟩
  · intro t j t2 _ ht hq
    obtain ⟨a, b⟩ := ilutStep_default_inv env cfg numLevels t t2 i j hc ht hq
    by_cases hij : j = i
    · obtain ⟨e1, e2, e3⟩ := a hij
      exact ⟨Or.inr e1, Or.inr e2, Or.inr e3⟩
    · obtain ⟨e1, e2, e3⟩ := b hij
      rw [e1, e2, e3]; exact hq
  · intro t j t2 _ ht hq
    obtain ⟨a, b⟩ := ilutStep_default_inv env cfg numLevels t t2 i j hc ht
      ⟨Or.inr hq.1, Or.inr hq.2.1, Or.inr hq.2.2⟩
    by_cases hij : j = i
    · exact a hij
    · obtain ⟨e1, e2, e3⟩ := b hij
      rw [e1, e2, e3]; exact hq
  · intro t t2 ht hq
    exact (ilutStep_default_inv env cfg numLevels t t2 i i hc ht hq).1 rfl
theorem setup_smoother_frame {B S : Type} (env : Env B S) (cfg : Config) (hp : List ℚ)
    (numLevels : Nat) (s s5 : Solver B S) (h : setup env cfg hp numLevels s = some s5) :
    s5.m_ILUT = s.m_ILUT ∧ s5.m_P = s.m_P ∧ s5.m_Pinv = s.m_Pinv ∧ s5.m_SCMS = s.m_SCMS ∧
    s5.m_A_aprox = s.m_A_aprox := by
  obtain ⟨bases, s2, s3, s4, _, _, h2, h3, h4, h5⟩ := setup_some env cfg hp numLevels s s5 h
  obtain ⟨ops, e2, _⟩ := foldlM_assembleStep_frame env cfg hp numLevels _ _ s2 h2
  obtain ⟨pp, rp, pm, rm, e3, _⟩ := foldlM_transferPStep_frame env hp _ s2 s3 h3
  obtain ⟨ph, rh, e4, _⟩ := foldlM_transferHStep_frame env hp _ s3 s4 h4
  have e5 : ∃ ops5, s5 = { s4 with m_operator := ops5 } := by
    split at h5
    · exact foldlM_galerkinStep_frame hp _ s4 s5 h5
    · simp only [Option.some.injEq] at h5
      exact ⟨s4.m_operator, by rw [← h5]⟩
  obtain ⟨ops5, e5⟩ := e5
  rw [e5, e4, e3, e2]
  exact ⟨rfl, rfl, rfl, rfl, rfl⟩

theorem full_setup_ilut {B S : Type} (env : Env B S) (cfg : Config) (hp : List ℚ)
    (numLevels : Nat) (s0 s : Solver B S) (hsm : cfg.typeSmoother = 1)
    (h : gsXBraidMultigrid.setup env cfg hp numLevels s0 = some s) :
    ∃ s1, setup env cfg hp numLevels s0 = some s1 ∧
      (List.range numLevels).foldlM (ilutStep env cfg numLevels)
        { s1 with
          m_ILUT := resize s1.m_ILUT numLevels []
          m_P := resize s1.m_P numLevels []
          m_Pinv := resize s1.m_Pinv numLevels [] } = some s := by
  unfold gsXBraidMultigrid.setup at h
  simp only [Option.bind_eq_some] at h
  obtain ⟨s1, h1, s2, h2, s3, h3, h4⟩ := h
  have e2 : s2 = s1 := by
    unfold setupSCMSPhase at h2
    rw [hsm] at h2
    simpa using h2.symm
  have e4 : s = s3 := by
    unfold setupBlockPhase at h4
    rw [hsm] at h4
    simpa using h4.symm
  subst e2 e4
  unfold setupILUTPhase at h3
  rw [if_pos hsm] at h3
  exact ⟨s2, h1, h3⟩

/-- C11, as amended: with the incomplete-factorization smoother (`typeSmoother = 1`), the
state returned by `setup` holds at the finest level the factorization of that level's own
operator, and at every level when `typeProjection = 2`. For any other `typeProjection`
the levels below the finest are only resized: in a solver that held no factorization
before, their entries are default-constructed. -/
theorem ilut_factorization_levels {B S : Type} (env : Env B S) (cfg : Config) (hp : List ℚ)
    (numLevels : Nat) (s0 s : Solver B S) (hsm : cfg.typeSmoother = 1)
    (h : gsXBraidMultigrid.setup env cfg hp numLevels s0 = some s) :
    Factorized env s (numLevels - 1) ∧
    (cfg.typeProjection = 2 → ∀ i, i < numLevels → Factorized env s i) ∧
    (cfg.typeProjection ≠ 2 → s0.m_ILUT = [] → s0.m_P = [] → s0.m_Pinv = [] →
      ∀ i, i + 1 < numLevels →
        s.m_ILUT[i]? = some [Mat.empty] ∧ s.m_P[i]? = some [[]] ∧ s.m_Pinv[i]? = some [[]]) := by
  obtain ⟨s1, h1, hf⟩ := full_setup_ilut env cfg hp numLevels s0 s hsm h
  obtain ⟨_, _, _, s4, _, hn, _⟩ := setup_some env cfg hp numLevels s0 s1 h1
  refine ⟨?_, ?_, ?_⟩
  · exact foldlM_ilutStep_Factorized env cfg numLevels _ s (numLevels - 1) (by omega)
      (Or.inr (by omega)) hf
  · intro hp2 i hi
    exact foldlM_ilutStep_Factorized env cfg numLevels _ s i hi (Or.inl hp2) hf
  · intro hp2 e1 e2 e3 i hi
    obtain ⟨f1, f2, f3, _⟩ := setup_smoother_frame env cfg hp numLevels s0 s1 h1
    refine foldlM_ilutStep_default env cfg numLevels _ s i (by omega) ⟨hp2, by omega⟩ hf ?_
    refine ⟨?_, ?_, ?_⟩
    · show (resize s1.m_ILUT numLevels [])[i]? = some []
      rw [f1, e1]; exact resize_nil_getElem? numLevels i [] (by omega)
    · show (resize s1.m_P numLevels [])[i]? = some []
      rw [f2, e2]; exact resize_nil_getElem? numLevels i [] (by omega)
    · show (resize s1.m_Pinv numLevels [])[i]? = some []
      rw [f3, e3]; exact resize_nil_getElem? numLevels i [] (by omega)

theorem ilut_factorization_levels_witness :
    Factorized gridEnv
      ((gsXBraidMultigrid.setup gridEnv ilutDirectConfig [0, 1] 3
        (gsXBraidMultigrid (1, 0))).get (by decide!)) (3 - 1) :=
  (ilut_factorization_levels gridEnv ilutDirectConfig [0, 1] 3 (gsXBraidMultigrid (1, 0)) _
    (by decide) (Option.some_get _).symm).1

/-- C11 fails as stated: with `typeProjection = 1` and three levels, `setup` returns a
state whose coarsest level holds no factorization of its operator. -/
theorem ilut_missing_below_finest_level :
    ∃ s, gsXBraidMultigrid.setup gridEnv ilutDirectConfig [0, 1] 3 (gsXBraidMultigrid (1, 0))
        = some s ∧ ¬ Factorized gridEnv s 0 := by
  refine ⟨(gsXBraidMultigrid.setup gridEnv ilutDirectConfig [0, 1] 3
    (gsXBraidMultigrid (1, 0))).get (by decide!), (Option.some_get _).symm, ?_⟩
  rintro ⟨A, hA, hI, _⟩
  have h1 : ((gsXBraidMultigrid.setup gridEnv ilutDirectConfig [0, 1] 3
      (gsXBraidMultigrid (1, 0))).get (by decide!)).m_ILUT[0]? = some [Mat.empty] := by decide!
  have h2 : ((gsXBraidMultigrid.setup gridEnv ilutDirectConfig [0, 1] 3
      (gsXBraidMultigrid (1, 0))).get (by decide!)).m_operator[0]? =
      some (gridEnv.assemble (1, 0)) := by decide!
  rw [h2] at hA
  rw [h1] at hI
  simp only [Option.some.injEq] at hA
  subst hA
  revert hI
  decide!

/-! ## The block phase on given extents: the interface matrix -/

/-- The level loops of the block phase on extents that no run of `setup` records (its
`global_interior` is empty): handed the extents `[1, 1]` for the operator `(2 1; 3 4)`
with one patch, they would store `m_S[0] = (7/2)`, which is `C - C_0^T A_0^{-1} C_0`
(line 714 takes `Brhs` from `m_ddC`), whereas `C - B_0^T A_0^{-1} C_0` with the block
`m_ddB[0][0] = (3)` is `(5/2)`. -/
theorem schur_complement_at_nonsymmetric_operator :
    ∃ s1 s2 ddB ddC lus C,
      setup interfaceEnv blockConfig [] 1 (gsXBraidMultigrid 0) = some s1 ∧
      setupBlockPhase interfaceEnv blockConfig 1 (fun _ => [1]) s1 = some s2 ∧
      s2.m_shift[0]? = some [1, 1] ∧
      s2.m_ddB[0]? = some ddB ∧ s2.m_ddC[0]? = some ddC ∧ s2.m_ILUT[0]? = some lus ∧
      ddC[1]? = some C ∧
      s2.m_S[0]? = some ⟨1, 1, [[7 / 2]]⟩ ∧
      schurComplement C ddB ddC lus 1 = some ⟨1, 1, [[5 / 2]]⟩ := by
  refine ⟨(setup interfaceEnv blockConfig [] 1 (gsXBraidMultigrid 0)).get (by decide!),
    (setupBlockPhase interfaceEnv blockConfig 1 (fun _ => [1])
      ((setup interfaceEnv blockConfig [] 1 (gsXBraidMultigrid 0)).get (by decide!))).get
      (by decide!),
    [⟨1, 1, [[3]]⟩, ⟨1, 1, [[4]]⟩], [⟨1, 1, [[1]]⟩, ⟨1, 1, [[4]]⟩],
    [⟨1, 1, [[2]]⟩, Mat.empty], ⟨1, 1, [[4]]⟩,
    (Option.some_get _).symm, (Option.some_get _).symm, ?_, ?_, ?_, ?_, ?_, ?_, ?_⟩ <;> decide!

/-! ## The block phase on given extents: one subdomain without interface -/

theorem entry_of_full (M : Mat) (i j : Nat) (hi : i < M.val.length)
    (hj : j < (M.val[i]).length) : M.entry i j = (M.val[i])[j] := by
  unfold Mat.entry
  rw [List.getD_eq_getElem _ _ hi, List.getD_eq_getElem _ _ hj]

theorem entries_of_full (M : Mat) (h : M.Full) :
    (List.range M.rows).map (fun i => (List.range M.cols).map (fun j => M.entry i j)) = M.val := by
  obtain ⟨h1, h2⟩ := h
  apply List.ext_getElem
  · simp [h1]
  · intro i hi1 hi2
    have hrow : (M.val[i]).length = M.cols := h2 _ (List.getElem_mem hi2)
    simp only [List.getElem_map, List.getElem_range]
    apply List.ext_getElem
    · simp [hrow]
    · intro j hj1 hj2
      simp only [List.getElem_map, List.getElem_range]
      exact entry_of_full M i j hi2 hj2

theorem setBlock_zero_full (lu : Mat) (n : Nat) (hF : lu.Full) (hr : lu.rows = n)
    (hc : lu.cols = n) :
    (Mat.zero n n).setBlock 0 0 (n : Int) (n : Int) lu = some lu := by
  unfold Mat.setBlock
  have hcond : (0 : Int) ≤ 0 ∧ (0 : Int) ≤ 0 ∧ (0 : Int) ≤ (n : Int) ∧ (0 : Int) ≤ (n : Int) ∧
      (0 : Int) + (n : Int) ≤ ((Mat.zero n n).rows : Int) ∧
      (0 : Int) + (n : Int) ≤ ((Mat.zero n n).cols : Int) ∧
      lu.rows = (n : Int).toNat ∧ lu.cols = (n : Int).toNat := by
    simp [Mat.zero, hr, hc]
  rw [if_pos hcond]
  have hv : (List.range (Mat.zero n n).rows).map (fun i =>
      (List.range (Mat.zero n n).cols).map (fun j =>
      if (0 : Int).toNat ≤ i ∧ i < (0 : Int).toNat + (n : Int).toNat ∧ (0 : Int).toNat ≤ j ∧
          j < (0 : Int).toNat + (n : Int).toNat then
        lu.entry (i - (0 : Int).toNat) (j - (0 : Int).toNat)
      else (Mat.zero n n).entry i j)) = lu.val := by
    have e1 : (Mat.zero n n).rows = n := rfl
    have e2 : (Mat.zero n n).cols = n := rfl
    rw [e1, e2, ← entries_of_full lu hF, hr, hc]
    apply List.map_congr_left
    intro i hi
    apply List.map_congr_left
    intro j hj
    rw [List.mem_range] at hi hj
    simp [hi, hj]
  rw [hv]
  show some (Mat.mk n n lu.val) = some lu
  cases lu
  simp only [Mat.mk.injEq, Option.some.injEq] at *
  exact ⟨hr.symm, hc.symm, trivial⟩

theorem setBlock_noop (M X M2 : Mat) (r c nr nc : Int) (hF : M.Full) (h0 : nr = 0 ∨ nc = 0)
    (h : M.setBlock r c nr nc X = some M2) : M2 = M := by
  unfold Mat.setBlock at h
  split at h
  · simp only [Option.some.injEq] at h
    rw [← h]
    have hv : (List.range M.rows).map (fun i => (List.range M.cols).map (fun j =>
        if r.toNat ≤ i ∧ i < r.toNat + nr.toNat ∧ c.toNat ≤ j ∧ j < c.toNat + nc.toNat then
          X.entry (i - r.toNat) (j - c.toNat)
        else M.entry i j)) = M.val := by
      rw [← entries_of_full M hF]
      apply List.map_congr_left
      intro i _
      apply List.map_congr_left
      intro j _
      rw [if_neg]
      rcases h0 with rfl | rfl
      · simp only [Int.toNat_zero, Nat.add_zero]; omega
      · simp only [Int.toNat_zero, Nat.add_zero]; omega
    rw [hv]
  · simp at h
theorem placeFactors_single (lu : Mat) (tail : List Mat) (n : Nat) (hF : lu.Full)
    (hr : lu.rows = n) (hc : lu.cols = n) :
    placeFactors [(n : Int), 0] (lu :: tail) 1 (Mat.zero n n) = some lu := by
  unfold placeFactors
  have h1 : List.range 1 = [0] := rfl
  rw [h1, foldlM_cons_some]
  have h2 : shiftOffset [(n : Int), 0] 0 = 0 := rfl
  refine ⟨lu, ?_, rfl⟩
  simp only [List.getElem?_cons_zero, h2, setBlock_zero_full lu n hF hr hc]

theorem placeCoupling_single (lu M2 : Mat) (bt ct : List Mat) (n : Nat) (hF : lu.Full)
    (h : placeCoupling [(n : Int), 0] bt ct 1 0 lu = some M2) : M2 = lu := by
  unfold placeCoupling at h
  have h1 : List.range 1 = [0] := rfl
  rw [h1, foldlM_cons_some] at h
  obtain ⟨M, hM, hnil⟩ := h
  simp only [List.foldlM_nil, Option.pure_def, Option.some.injEq] at hnil
  subst hnil
  split at hM
  · rename_i sm b c _ _ _
    simp only [Option.bind_eq_some] at hM
    obtain ⟨acc2, ha, hb⟩ := hM
    have e1 : acc2 = lu := setBlock_noop lu c acc2 _ _ _ _ hF (Or.inr rfl) ha
    subst e1
    exact setBlock_noop acc2 _ M _ _ _ _ hF (Or.inl rfl) hb
  · simp at hM

theorem blockApprox_single {B S : Type} (env : Env B S) (A lu : Mat) (tail ddC : List Mat)
    (n : Nat) (r : Mat × List Mat × List Mat × Mat)
    (hnp : env.nPatches = 1) (hAr : A.rows = n) (hAc : A.cols = n)
    (hF : lu.Full) (hr : lu.rows = n) (hc : lu.cols = n)
    (h : blockApprox env A [(n : Int), 0] (lu :: tail) ddC = some r) : r.1 = lu := by
  unfold blockApprox at h
  rw [hnp, hAr, hAc, placeFactors_single lu tail n hF hr hc] at h
  split at h
  · rename_i last C hlast hC
    have hl : last = 0 := by simpa using hlast.symm
    subst hl
    split at h
    · rename_i M1 bt ct e1 _ _
      simp only [Option.some.injEq] at e1
      subst e1
      split at h
      · split at h
        · rename_i M2 hM2
          have e2 : M2 = lu := placeCoupling_single lu M2 bt ct n hF hM2
          subst e2
          simp only [Option.map_eq_some'] at h
          obtain ⟨M3, h3, rfl⟩ := h
          exact setBlock_noop M2 _ M3 _ _ _ _ hF (Or.inl rfl) h3
        · simp at h
      · simp at h
    · simp at h
  · simp at h
theorem blockStep1_cases {B S : Type} (env : Env B S) (gi : List Nat) (s s2 : Solver B S)
    (i : Nat) (h : blockStep1 env gi s i = some s2) :
    ∃ A shift fac ddB ddC l p q, s.m_operator[i]? = some A ∧
      i < s.m_shift.length ∧ s.m_ILUT[i]? = some l ∧ s.m_P[i]? = some p ∧
      s.m_Pinv[i]? = some q ∧ i < s.m_ddB.length ∧ i < s.m_ddC.length ∧
      blockShift env.nPatches gi A.rows = some shift ∧
      patchFactors env A shift env.nPatches = some fac ∧
      couplingB A shift env.nPatches = some ddB ∧
      couplingC A shift env.nPatches = some ddC ∧
      s2 = { s with
        m_shift := s.m_shift.set i shift
        m_ILUT := s.m_ILUT.set i
          (fac.map (fun f => f.1) ++ (resize l (env.nPatches + 1) Mat.empty).drop env.nPatches)
        m_P := s.m_P.set i
          (fac.map (fun f => f.2.1) ++ (resize p (env.nPatches + 1) []).drop env.nPatches)
        m_Pinv := s.m_Pinv.set i
          (fac.map (fun f => f.2.2) ++ (resize q (env.nPatches + 1) []).drop env.nPatches)
        m_ddB := s.m_ddB.set i ddB
        m_ddC := s.m_ddC.set i ddC } := by
  unfold blockStep1 at h
  split at h
  · rename_i A sh l p q b c hA hsh hl hp hq hb hc
    split at h
    · rename_i shift hshift
      split at h
      · rename_i fac ddB ddC hfac hddB hddC
        simp only [Option.some.injEq] at h
        exact ⟨A, shift, fac, ddB, ddC, l, p, q, hA, (List.getElem?_eq_some.mp hsh).1, hl, hp,
          hq, (List.getElem?_eq_some.mp hb).1, (List.getElem?_eq_some.mp hc).1, hshift, hfac,
          hddB, hddC, h.symm⟩
      · simp at h
    · simp at h
  · simp at h

theorem blockStep2_cases {B S : Type} (env : Env B S) (s s2 : Solver B S) (i : Nat)
    (h : blockStep2 env s i = some s2) :
    ∃ A shift lus ddC r, s.m_operator[i]? = some A ∧ s.m_shift[i]? = some shift ∧
      s.m_ILUT[i]? = some lus ∧ s.m_ddC[i]? = some ddC ∧
      blockApprox env A shift lus ddC = some r ∧
      i < s.m_A_aprox.length ∧ i < s.m_ddBtilde.length ∧ i < s.m_ddCtilde.length ∧
      i < s.m_S.length ∧
      s2 = { s with
        m_A_aprox := s.m_A_aprox.set i r.1
        m_ddBtilde := s.m_ddBtilde.set i r.2.1
        m_ddCtilde := s.m_ddCtilde.set i r.2.2.1
        m_S := s.m_S.set i r.2.2.2 } := by
  unfold blockStep2 at h
  split at h
  · rename_i A shift lus ddC hA hsh hl hc
    split at h
    · rename_i r hr
      split at h
      · rename_i hlen
        simp only [Option.some.injEq] at h
        exact ⟨A, shift, lus, ddC, r, hA, hsh, hl, hc, hr, hlen.1, hlen.2.1, hlen.2.2.1,
          hlen.2.2.2, h.symm⟩
      · simp at h
    · simp at h
  · simp at h

theorem blockStep1_level_est {B S : Type} (env : Env B S) (gi : List Nat)
    (s s2 : Solver B S) (i : Nat) (h : blockStep1 env gi s i = some s2) :
    BlockLevelData env gi s2 i := by
  obtain ⟨A, shift, fac, ddB, ddC, l, p, q, hA, hsh, hl, _, _, _, hc, h1, h2, _, h4, rfl⟩ :=
    blockStep1_cases env gi s s2 i h
  exact ⟨A, shift, fac, ddC, _, hA, h1, h2, h4, List.getElem?_set_self hsh,
    List.getElem?_set_self (List.getElem?_eq_some.mp hl).1, List.getElem?_set_self hc⟩

theorem blockStep1_level_pres {B S : Type} (env : Env B S) (gi gj : List Nat)
    (s s2 : Solver B S) (i j : Nat) (hij : j ≠ i) (h : blockStep1 env gj s j = some s2)
    (hq : BlockLevelData env gi s i) : BlockLevelData env gi s2 i := by
  obtain ⟨A, shift, fac, ddB, ddC, l, p, q, _, _, _, _, _, _, _, _, _, _, _, rfl⟩ :=
    blockStep1_cases env gj s s2 j h
  obtain ⟨A1, shift1, fac1, ddC1, tail, a1, a2, a3, a4, a5, a6, a7⟩ := hq
  refine ⟨A1, shift1, fac1, ddC1, tail, a1, a2, a3, a4, ?_, ?_, ?_⟩
  · show (s.m_shift.set j shift)[i]? = _
    rw [List.getElem?_set_ne hij]; exact a5
  · show (s.m_ILUT.set j _)[i]? = _
    rw [List.getElem?_set_ne hij]; exact a6
  · show (s.m_ddC.set j ddC)[i]? = _
    rw [List.getElem?_set_ne hij]; exact a7

theorem foldlM_blockStep1_level {B S : Type} (env : Env B S) (G : Nat → List Nat)
    (numLevels : Nat) (s t : Solver B S) (i : Nat) (hi : i < numLevels)
    (h : (List.range numLevels).foldlM (fun t j => blockStep1 env (G j) t j) s = some t) :
    BlockLevelData env (G i) t i := by
  refine foldlM_establishes (fun t j => blockStep1 env (G j) t j)
    (fun t => BlockLevelData env (G i) t i) i (List.range numLevels) (List.mem_range.mpr hi)
    ?_ ?_ s t h
  · intro t j t2 _ ht hq
    by_cases hij : j = i
    · subst hij; exact blockStep1_level_est env (G j) t t2 j ht
    · exact blockStep1_level_pres env (G i) (G j) t t2 i j hij ht hq
  · intro t t2 ht
    exact blockStep1_level_est env (G i) t t2 i ht

theorem blockStep2_data_pres {B S : Type} (env : Env B S) (gi : List Nat)
    (s s2 : Solver B S) (i j : Nat) (h : blockStep2 env s j = some s2)
    (hq : BlockLevelData env gi s i) : BlockLevelData env gi s2 i := by
  obtain ⟨A, shift, lus, ddC, r, _, _, _, _, _, _, _, _, _, rfl⟩ := blockStep2_cases env s s2 j h
  exact hq

theorem blockStep2_done_est {B S : Type} (env : Env B S) (gi : List Nat)
    (s s2 : Solver B S) (i : Nat) (h : blockStep2 env s i = some s2)
    (hq : BlockLevelData env gi s i) : BlockLevelDone env gi s2 i := by
  obtain ⟨A, shift, lus, ddC, r, hA, hsh, hl, hc, hr, l1, _, _, l4, rfl⟩ :=
    blockStep2_cases env s s2 i h
  obtain ⟨A1, shift1, fac1, ddC1, tail, a1, a2, a3, a4, a5, a6, a7⟩ := hq
  rw [hA] at a1
  rw [hsh] at a5
  rw [hl] at a6
  rw [hc] at a7
  simp only [Option.some.injEq] at a1 a5 a6 a7
  subst a1 a5 a6 a7
  exact ⟨A, shift, fac1, ddC, tail, r, hA, a2, a3, a4, hr, List.getElem?_set_self l1,
    List.getElem?_set_self l4⟩

theorem blockStep2_done_pres {B S : Type} (env : Env B S) (gi : List Nat)
    (s s2 : Solver B S) (i j : Nat) (hij : j ≠ i) (h : blockStep2 env s j = some s2)
    (hq : BlockLevelDone env gi s i) : BlockLevelDone env gi s2 i := by
  obtain ⟨A, shift, lus, ddC, r, _, _, _, _, _, _, _, _, _, rfl⟩ := blockStep2_cases env s s2 j h
  obtain ⟨A1, shift1, fac1, ddC1, tail, r1, a1, a2, a3, a4, a5, a6, a7⟩ := hq
  refine ⟨A1, shift1, fac1, ddC1, tail, r1, a1, a2, a3, a4, a5, ?_, ?_⟩
  · show (s.m_A_aprox.set j r.1)[i]? = _
    rw [List.getElem?_set_ne hij]; exact a6
  · show (s.m_S.set j r.2.2.2)[i]? = _
    rw [List.getElem?_set_ne hij]; exact a7

theorem foldlM_blockStep2_level {B S : Type} (env : Env B S) (gi : List Nat)
    (numLevels : Nat) (s t : Solver B S) (i : Nat) (hi : i < numLevels)
    (h : (List.range numLevels).foldlM (blockStep2 env) s = some t)
    (h0 : BlockLevelData env gi s i) : BlockLevelDone env gi t i := by
  refine (foldlM_establishes_of (blockStep2 env) (fun t => BlockLevelData env gi t i)
    (fun t => BlockLevelData env gi t i ∧ BlockLevelDone env gi t i) i (List.range numLevels)
    (List.mem_range.mpr hi) ?_ ?_ ?_ s t h h0).2
  · intro t j t2 _ ht hq
    exact blockStep2_data_pres env gi t t2 i j ht hq
  · intro t j t2 _ ht hq
    refine ⟨blockStep2_data_pres env gi t t2 i j ht hq.1, ?_⟩
    by_cases hij : j = i
    · subst hij
      exact blockStep2_done_est env gi t t2 j ht hq.1
    · exact blockStep2_done_pres env gi t t2 i j hij ht hq.2
  · intro t t2 ht hq
    exact ⟨blockStep2_data_pres env gi t t2 i i ht hq, blockStep2_done_est env gi t t2 i ht hq⟩

theorem foldlM_blockStep1_operator {B S : Type} (env : Env B S) (G : Nat → List Nat)
    (l : List Nat) (s t : Solver B S)
    (h : l.foldlM (fun t j => blockStep1 env (G j) t j) s = some t) :
    t.m_operator = s.m_operator :=
  foldlM_preserves (fun t j => blockStep1 env (G j) t j) (fun t => t.m_operator = s.m_operator) l
    (fun t j t2 _ ht hq => by
      obtain ⟨A, shift, fac, ddB, ddC, l, p, q, _, _, _, _, _, _, _, _, _, _, _, rfl⟩ :=
        blockStep1_cases env (G j) t t2 j ht
      exact hq)
    s t h rfl

theorem foldlM_blockStep2_operator {B S : Type} (env : Env B S)
    (l : List Nat) (s t : Solver B S) (h : l.foldlM (blockStep2 env) s = some t) :
    t.m_operator = s.m_operator :=
  foldlM_preserves (blockStep2 env) (fun t => t.m_operator = s.m_operator) l
    (fun t j t2 _ ht hq => by
      obtain ⟨A, shift, lus, ddC, r, _, _, _, _, _, _, _, _, _, rfl⟩ :=
        blockStep2_cases env t t2 j ht
      exact hq)
    s t h rfl

/-- After the block of `setup` for `typeSmoother == 5` the operators are those it started
from, and every level holds the matrices computed from its own operator. -/
theorem setupBlockPhase_level {B S : Type} (env : Env B S) (cfg : Config) (numLevels : Nat)
    (G : Nat → List Nat) (s t : Solver B S) (hsm : cfg.typeSmoother = 5)
    (h : setupBlockPhase env cfg numLevels G s = some t) :
    t.m_operator = s.m_operator ∧ ∀ i, i < numLevels → BlockLevelDone env (G i) t i := by
  unfold setupBlockPhase at h
  rw [if_pos hsm] at h
  split at h
  · rename_i s1 h1
    have o1 := foldlM_blockStep1_operator env G _ _ s1 h1
    have o2 := foldlM_blockStep2_operator env _ _ t h
    refine ⟨o2.trans o1, ?_⟩
    intro i hi
    have d1 := foldlM_blockStep1_level env G numLevels _ s1 i hi h1
    exact foldlM_blockStep2_level env (G i) numLevels _ t i hi h d1
  · simp at h
theorem block_full (A : Mat) (n : Nat) (hF : A.Full) (hr : A.rows = n) (hc : A.cols = n) :
    A.block 0 0 (n : Int) (n : Int) = some A := by
  unfold Mat.block
  have hcond : (0 : Int) ≤ 0 ∧ (0 : Int) ≤ 0 ∧ (0 : Int) ≤ (n : Int) ∧ (0 : Int) ≤ (n : Int) ∧
      (0 : Int) + (n : Int) ≤ (A.rows : Int) ∧ (0 : Int) + (n : Int) ≤ (A.cols : Int) := by
    simp [hr, hc]
  rw [if_pos hcond]
  have hv : (List.range (n : Int).toNat).map (fun i => (List.range (n : Int).toNat).map
      (fun j => A.entry ((0 : Int).toNat + i) ((0 : Int).toNat + j))) = A.val := by
    rw [← entries_of_full A hF, hr, hc]
    simp
  rw [hv]
  cases A
  simp only [Mat.mk.injEq, Option.some.injEq, Int.toNat_ofNat] at *
  exact ⟨hr.symm, hc.symm, trivial⟩

theorem mapM_singleton {α β : Type} (f : α → Option β) (a : α) :
    [a].mapM f = (f a).map (fun b => [b]) := by
  rw [← List.mapM'_eq_mapM]
  simp only [List.mapM'_cons, List.mapM'_nil]
  cases f a <;> rfl

theorem blockShift_single (n rows : Nat) (shift : List Int)
    (h : blockShift 1 [n] rows = some shift) : shift = [(n : Int), (rows : Int) - n] := by
  unfold blockShift at h
  have h1 : List.range 1 = [0] := rfl
  rw [h1, mapM_singleton] at h
  simp at h
  exact h.symm

theorem patchFactors_single {B S : Type} (env : Env B S) (A : Mat) (n : Nat)
    (fac : List (Mat × List Nat × List Nat)) (hF : A.Full) (hr : A.rows = n) (hc : A.cols = n)
    (h : patchFactors env A [(n : Int), 0] 1 = some fac) : fac = [env.ilut A] := by
  unfold patchFactors at h
  have h1 : List.range 1 = [0] := rfl
  have h2 : shiftOffset [(n : Int), 0] 0 = 0 := rfl
  rw [h1, mapM_singleton] at h
  simp [h2, block_full A n hF hr hc] at h
  exact h.symm

/-- On a level with a single patch that covers all `n` unknowns (interface extent 0), the
matrix `m_A_aprox[i]` built by `setup` is the factor of the level's operator. -/
theorem block_factor_single {B S : Type} (env : Env B S) (t : Solver B S) (i n : Nat)
    (A : Mat) (hnp : env.nPatches = 1) (hA : t.m_operator[i]? = some A) (hF : A.Full)
    (hr : A.rows = n) (hc : A.cols = n) (hlF : (env.ilut A).1.Full)
    (hlr : (env.ilut A).1.rows = n) (hlc : (env.ilut A).1.cols = n)
    (h : BlockLevelDone env [n] t i) : t.m_A_aprox[i]? = some (env.ilut A).1 := by
  obtain ⟨A1, shift, fac, ddC, tail, r, a1, a2, a3, a4, a5, a6, _⟩ := h
  rw [hA] at a1
  simp only [Option.some.injEq] at a1
  subst a1
  rw [hnp] at a2 a3
  have e1 := blockShift_single n A.rows shift a2
  rw [hr] at e1
  simp only [sub_self] at e1
  subst e1
  have e2 := patchFactors_single env A n fac hF hr hc a3
  subst e2
  rw [a6]
  congr 1
  exact blockApprox_single env A (env.ilut A).1 tail ddC n r hnp hr hc hlF hlr hlc a5
theorem stdAt_pred {α : Type} (l : List α) {i : Nat} (h1 : 1 ≤ i) :
    stdAt l ((i : Int) - 1) = l[i - 1]? := by
  unfold stdAt
  have hnn : (0 : Int) ≤ (i : Int) - 1 := by omega
  have : ((i : Int) - 1).toNat = i - 1 := by omega
  rw [if_pos hnn, this]

theorem foldl_set_range' (w pre rest : Vec) (hlen : rest.length = w.length) :
    (List.zip (List.range' pre.length w.length) w).foldl
      (fun acc kv => acc.set kv.1 kv.2) (pre ++ rest) = pre ++ w := by
  induction w generalizing pre rest with
  | nil =>
      have : rest = [] := List.length_eq_zero.mp hlen
      subst this; rfl
  | cons a w ih =>
      match rest, hlen with
      | r :: rest, hlen =>
          simp only [List.length_cons, List.range'_succ, List.zip_cons_cons, List.foldl_cons]
          have hset : (pre ++ r :: rest).set pre.length a = (pre ++ [a]) ++ rest := by
            rw [List.set_append_right _ _ (Nat.le_refl _)]
            simp
          rw [hset]
          have := ih (pre ++ [a]) rest (by simpa using hlen)
          simp only [List.length_append, List.length_singleton] at this
          rw [this]
          simp

theorem permApply_range (v : Vec) (n : Nat) (h : v.length = n) :
    permApply (List.range n) v = some v := by
  unfold permApply
  have hc : (List.range n).length = v.length ∧ ∀ k ∈ List.range n, k < v.length := by
    refine ⟨by simp [h], ?_⟩
    intro k hk
    rw [List.mem_range] at hk
    omega
  rw [if_pos hc]
  have := foldl_set_range' v [] (zeros v.length) (by simp [zeros])
  simp only [List.length_nil, List.nil_append] at this
  rw [List.range_eq_range', ← h, this]

theorem upperRows_length (rows : List (List ℚ)) (bs : Vec) (i : Nat) (acc e : Vec)
    (h : upperRows rows bs i acc = some e) :
    e.length = acc.length + min rows.length bs.length := by
  induction rows generalizing bs i acc with
  | nil =>
      unfold upperRows at h
      simp only [Option.some.injEq] at h
      subst h; simp
  | cons row rows ih =>
      cases bs with
      | nil =>
          unfold upperRows at h
          simp only [Option.some.injEq] at h
          subst h; simp
      | cons b bs =>
          unfold upperRows at h
          split at h
          · simp at h
          · have := ih bs (i - 1) _ h
            simp only [List.length_cons] at this ⊢
            omega

theorem solveUpper_length (M : Mat) (b e : Vec) (h : solveUpper M b = some e) :
    e.length = M.val.length := by
  unfold solveUpper at h
  split at h
  · rename_i hc
    have := upperRows_length _ _ _ _ _ h
    simp only [List.length_nil, List.length_reverse, Nat.zero_add] at this
    omega
  · simp at h
theorem ilutSweep_eq_blockSweep {B S : Type} (sI sD : Solver B S) (l n : Nat) (A lu : Mat)
    (rhs x : Vec)
    (hopI : stdAt sI.m_operator ((l : Int) - 1) = some A)
    (hopD : stdAt sD.m_operator ((l : Int) - 1) = some A)
    (hF : A.Full) (hr : A.rows = n) (hlF : lu.Full) (hlr : lu.rows = n)
    (hIl : (stdAt sI.m_ILUT ((l : Int) - 1)).bind (fun k => stdAt k 0) = some lu)
    (hIp : (stdAt sI.m_P ((l : Int) - 1)).bind (fun k => stdAt k 0) = some (List.range n))
    (hIq : (stdAt sI.m_Pinv ((l : Int) - 1)).bind (fun k => stdAt k 0) = some (List.range n))
    (hD : stdAt sD.m_A_aprox ((l : Int) - 1) = some lu) :
    ilutSweep sI l rhs x = blockSweep sD l rhs x := by
  unfold ilutSweep blockSweep
  simp only [hopI, hopD, hIl, hIp, hIq, hD, Option.bind_eq_bind, Option.some_bind]
  cases hAx : A.mulVec x with
  | none => rfl
  | some Ax =>
      simp only [Option.some_bind]
      cases hd : vsub rhs Ax with
      | none => rfl
      | some d =>
          simp only [Option.some_bind]
          have hdl : d.length = n := by
            have h1 := mulVec_length hAx
            have h2 := vsub_length hd
            rw [h2.2, h2.1, h1, hF.1, hr]
          rw [permApply_range d n hdl]
          simp only [Option.some_bind]
          cases he1 : solveUnitLower lu d with
          | none => rfl
          | some e1 =>
              simp only [Option.some_bind]
              cases he2 : solveUpper lu e1 with
              | none => rfl
              | some e2 =>
                  simp only [Option.some_bind]
                  have hel : e2.length = n := by
                    rw [solveUpper_length lu e1 e2 he2, hlF.1, hlr]
                  rw [permApply_range e2 n hel]
                  simp only [Option.some_bind]

theorem gsSweep_congr {B S : Type} (s1 s2 : Solver B S) (l : Nat) (reverse : Bool)
    (rhs x : Vec)
    (h : stdAt s1.m_operator ((l : Int) - 1) = stdAt s2.m_operator ((l : Int) - 1)) :
    gsSweep s1 l reverse rhs x = gsSweep s2 l reverse rhs x := by
  unfold gsSweep
  rw [h]

/-- The sweeps on a smoother state that no run of `setup` builds (its `global_interior` is
empty): if the block phase were handed a content `G` of `global_interior` with one
subdomain that covers all `n` unknowns of a level, and the incomplete factorization had
identity permutations, one sweep of the domain-decomposition smoother
(`typeSmoother = 5`) would give the same iterate as one sweep of the global
incomplete-factorization smoother (`typeSmoother = 1`) on the same hierarchy `s1`,
right-hand side and `x`. -/
theorem block_sweep_single_subdomain {B S : Type} (env : Env B S) (cfg1 cfg5 : Config)
    (hp : List ℚ) (numLevels : Nat) (G : Nat → List Nat) (s1 sI sD : Solver B S)
    (l n : Nat) (A : Mat)
    (h1 : cfg1.typeSmoother = 1) (h5 : cfg5.typeSmoother = 5) (hnp : env.nPatches = 1)
    (hI : setupILUTPhase env cfg1 numLevels s1 = some sI)
    (hD : setupBlockPhase env cfg5 numLevels G s1 = some sD)
    (hl1 : 2 ≤ l) (hl2 : l ≤ numLevels) (hfin : cfg1.typeProjection = 2 ∨ l = numLevels)
    (hA : s1.m_operator[l - 1]? = some A) (hF : A.Full) (hr : A.rows = n) (hc : A.cols = n)
    (hG : G (l - 1) = [n])
    (hlF : (env.ilut A).1.Full) (hlr : (env.ilut A).1.rows = n) (hlc : (env.ilut A).1.cols = n)
    (hperm : (env.ilut A).2.1 = List.range n ∧ (env.ilut A).2.2 = List.range n)
    (reverse : Bool) (rhs x : Vec) :
    smoothSweep env sI cfg1 hp l reverse rhs x = smoothSweep env sD cfg5 hp l reverse rhs x := by
  unfold setupILUTPhase at hI
  rw [if_pos h1] at hI
  have oI0 := foldlM_ilutStep_operator env cfg1 numLevels _ _ sI hI
  have oI : sI.m_operator = s1.m_operator := oI0
  obtain ⟨A1, a1, a2, a3, a4⟩ := foldlM_ilutStep_Factorized env cfg1 numLevels _ sI (l - 1)
    (by omega) (by rcases hfin with h | h; exact Or.inl h; exact Or.inr (by omega)) hI
  rw [oI, hA] at a1
  simp only [Option.some.injEq] at a1
  subst a1
  obtain ⟨oD, hdone⟩ := setupBlockPhase_level env cfg5 numLevels G s1 sD h5 hD
  have hDA : sD.m_operator[l - 1]? = some A := by rw [oD]; exact hA
  have hM := block_factor_single env sD (l - 1) n A hnp hDA hF hr hc hlF hlr hlc
    (by rw [← hG]; exact hdone (l - 1) (by omega))
  have hopI : stdAt sI.m_operator ((l : Int) - 1) = some A := by
    rw [stdAt_pred _ (by omega), oI]; exact hA
  have hopD : stdAt sD.m_operator ((l : Int) - 1) = some A := by
    rw [stdAt_pred _ (by omega)]; exact hDA
  have e : ilutSweep sI l rhs x = blockSweep sD l rhs x := by
    refine ilutSweep_eq_blockSweep sI sD l n A (env.ilut A).1 rhs x hopI hopD hF hr hlF hlr
      ?_ ?_ ?_ ?_
    · rw [stdAt_pred _ (by omega), a2]; rfl
    · rw [stdAt_pred _ (by omega), a3, ← hperm.1]; rfl
    · rw [stdAt_pred _ (by omega), a4, ← hperm.2]; rfl
    · rw [stdAt_pred _ (by omega)]; exact hM
  have g : gsSweep sI l reverse rhs x = gsSweep sD l reverse rhs x :=
    gsSweep_congr sI sD l reverse rhs x (by rw [hopI, hopD])
  unfold smoothSweep
  rw [h1, h5, e, g]
  simp
theorem block_sweep_single_subdomain_witness :
    smoothSweep gridEnv
        ((setupILUTPhase gridEnv ilutDirectConfig 2
          ((setup gridEnv directConfig [0] 2 (gsXBraidMultigrid (1, 0))).get (by decide!))).get
          (by decide!))
        ilutDirectConfig [0] 2 false [1, 1, 1] [0, 0, 0] =
      smoothSweep gridEnv
        ((setupBlockPhase gridEnv blockConfig 2 (fun i => [i + 2])
          ((setup gridEnv directConfig [0] 2 (gsXBraidMultigrid (1, 0))).get (by decide!))).get
          (by decide!))
        blockConfig [0] 2 false [1, 1, 1] [0, 0, 0] :=
  block_sweep_single_subdomain gridEnv ilutDirectConfig blockConfig [0] 2 (fun i => [i + 2])
    ((setup gridEnv directConfig [0] 2 (gsXBraidMultigrid (1, 0))).get (by decide!)) _ _ 2 3
    (gridEnv.assemble (2, 0)) (by decide) (by decide) (by decide)
    (Option.some_get _).symm (Option.some_get _).symm (by decide) (by decide) (by decide)
    (by decide!) (by unfold Mat.Full; decide!) (by decide!) (by decide!) (by decide!)
    (by unfold Mat.Full; decide!) (by decide!) (by decide!) (by decide!) false [1, 1, 1] [0, 0, 0]

/-- With the content `[3]` of `global_interior`, which no run of `setup` has, and the
operator `arrowMat` on one patch, whose incomplete factorization reorders the unknowns:
one sweep of the global smoother from `x = 0` returns the exact solution of
`A x = (1,0,0)` while one sweep of the domain-decomposition smoother, which applies the
same factor without the permutations, would return a different vector. -/
theorem block_sweep_differs_from_ilut_sweep :
    ∃ sI sD,
      gsXBraidMultigrid.setup arrowEnv ilutDirectConfig [0] 2 (gsXBraidMultigrid 0) = some sI ∧
      (setup arrowEnv blockConfig [0] 2 (gsXBraidMultigrid 0)).bind
        (setupBlockPhase arrowEnv blockConfig 2 (fun _ => [3])) = some sD ∧
      sI.m_operator = sD.m_operator ∧ sD.m_shift[1]? = some [3, 0] ∧
      smoothSweep arrowEnv sI ilutDirectConfig [0] 2 false [1, 0, 0] [0, 0, 0]
        = some [2 / 7, -1 / 14, -1 / 14] ∧
      smoothSweep arrowEnv sD blockConfig [0] 2 false [1, 0, 0] [0, 0, 0]
        = some [15 / 56, 1 / 56, -1 / 14] ∧
      smoothSweep arrowEnv sI ilutDirectConfig [0] 2 false [1, 0, 0] [0, 0, 0] ≠
        smoothSweep arrowEnv sD blockConfig [0] 2 false [1, 0, 0] [0, 0, 0] := by
  refine ⟨(gsXBraidMultigrid.setup arrowEnv ilutDirectConfig [0] 2 (gsXBraidMultigrid 0)).get
      (by decide!),
    ((setup arrowEnv blockConfig [0] 2 (gsXBraidMultigrid 0)).bind
      (setupBlockPhase arrowEnv blockConfig 2 (fun _ => [3]))).get (by decide!),
    (Option.some_get _).symm, (Option.some_get _).symm, ?_, ?_, ?_, ?_, ?_⟩ <;> decide!

/-! ## A smoother selection without a branch -/

theorem full_setup_no_smoother {B S : Type} (env : Env B S) (cfg : Config) (hp : List ℚ)
    (numLevels : Nat) (s0 : Solver B S)
    (h : cfg.typeSmoother ≠ 1 ∧ cfg.typeSmoother ≠ 3 ∧ cfg.typeSmoother ≠ 5) :
    gsXBraidMultigrid.setup env cfg hp numLevels s0 = setup env cfg hp numLevels s0 := by
  have e1 : ∀ s : Solver B S, setupSCMSPhase env cfg numLevels s = some s := by
    intro s; unfold setupSCMSPhase; rw [if_neg h.2.1]
  have e2 : ∀ s : Solver B S, setupILUTPhase env cfg numLevels s = some s := by
    intro s; unfold setupILUTPhase; rw [if_neg h.1]
  have e3 : ∀ s : Solver B S, setupBlockPhase env cfg numLevels (fun _ => []) s = some s := by
    intro s; unfold setupBlockPhase; rw [if_neg h.2.2]
  unfold gsXBraidMultigrid.setup
  simp only [e1, e2, e3, Option.some_bind]
  cases setup env cfg hp numLevels s0 <;> rfl

/-- C19, as amended: a smoother selection outside {1,2,3,5} is not rejected. `setup` then
returns exactly the hierarchy, with no smoother state added, whenever the hierarchy
construction succeeds (which does not depend on the selection), and in the cycle every
smoothing sweep leaves `x` unchanged. -/
theorem unsupported_smoother_is_accepted {B S : Type} (env : Env B S) (cfg : Config)
    (hp : List ℚ) (numLevels : Nat) (s0 : Solver B S)
    (h : cfg.typeSmoother ≠ 1 ∧ cfg.typeSmoother ≠ 2 ∧ cfg.typeSmoother ≠ 3 ∧
      cfg.typeSmoother ≠ 5) :
    gsXBraidMultigrid.setup env cfg hp numLevels s0 = setup env cfg hp numLevels s0 ∧
    setup env cfg hp numLevels s0 = setup env { cfg with typeSmoother := 2 } hp numLevels s0 ∧
    ∀ (s : Solver B S) (l : Nat) (reverse : Bool) (rhs x : Vec),
      smoothSweep env s cfg hp l reverse rhs x = some x := by
  refine ⟨full_setup_no_smoother env cfg hp numLevels s0 ⟨h.1, h.2.2.1, h.2.2.2⟩, rfl, ?_⟩
  intro s l reverse rhs x
  unfold smoothSweep
  rw [if_neg h.1, if_neg h.2.1, if_neg h.2.2.1, if_neg h.2.2.2]

theorem unsupported_smoother_is_accepted_witness :
    gsXBraidMultigrid.setup gridEnv unsupportedConfig [0, 1] 3 (gsXBraidMultigrid (1, 0)) =
      setup gridEnv unsupportedConfig [0, 1] 3 (gsXBraidMultigrid (1, 0)) :=
  (unsupported_smoother_is_accepted gridEnv unsupportedConfig [0, 1] 3 (gsXBraidMultigrid (1, 0))
    (by decide)).1

/-- C19 fails as stated: with `typeSmoother = 4`, `setup` returns a hierarchy, and
`presmoothing` with two sweeps on its finest level returns `x` as it was, together with
the residual `A x - rhs` of that `x`. -/
theorem unsupported_smoother_runs_without_smoothing :
    ∃ s, gsXBraidMultigrid.setup gridEnv unsupportedConfig [0, 1] 3 (gsXBraidMultigrid (1, 0))
        = some s ∧
      presmoothing gridEnv s unsupportedConfig [0, 1] 3 [1, 1, 1, 1] [0, 0, 0, 0] =
        some ([0, 0, 0, 0], [-1, -1, -1, -1]) := by
  refine ⟨(gsXBraidMultigrid.setup gridEnv unsupportedConfig [0, 1] 3
    (gsXBraidMultigrid (1, 0))).get (by decide!), (Option.some_get _).symm, ?_⟩
  decide!

/-! ## The cycle writes nothing but `x`; every coarse solve factorizes -/

theorem afterCycle_nil {B S : Type} (w : World B S) : afterCycle w [] = w := by
  cases w with
  | mk m h f =>
      show World.mk m h (f ++ []) = World.mk m h f
      rw [List.append_nil]

theorem afterCycle_members {B S : Type} (w : World B S) (log : List Event) :
    (afterCycle w log).members = w.members ∧ (afterCycle w log).hp = w.hp := ⟨rfl, rfl⟩

theorem afterCycle_append {B S : Type} (w : World B S) (l1 l2 : List Event) :
    afterCycle (afterCycle w l1) l2 = afterCycle w (l1 ++ l2) := by
  cases w with
  | mk m h f =>
      show World.mk m h ((f ++ List.replicate (coarseCount l1) _) ++
          List.replicate (coarseCount l2) _) =
        World.mk m h (f ++ List.replicate (coarseCount (l1 ++ l2)) _)
      have e : coarseCount (l1 ++ l2) = coarseCount l1 + coarseCount l2 := by
        unfold coarseCount
        exact List.count_append _ _ _
      rw [e, List.replicate_add, List.append_assoc]
      rfl

theorem afterCycle_frame {B S : Type} (w : World B S) (pre post log : List Event)
    (hpre : coarseCount pre = 0) (hpost : coarseCount post = 0) :
    afterCycle w (pre ++ log ++ post) = afterCycle w log := by
  have e : coarseCount (pre ++ log ++ post) = coarseCount log := by
    unfold coarseCount at *
    rw [List.count_append, List.count_append, hpre, hpost]
    omega
  unfold afterCycle
  rw [e]

theorem repeatCycleTraced_eq {B S : Type} (s : Solver B S) (hp : List ℚ)
    (f : Vec → Option (Vec × List Event))
    (fT : World B S → Vec → Option (World B S × Vec × List Event))
    (hf : ∀ w c, w.members = s → w.hp = hp →
      fT w c = (f c).map (fun r => (afterCycle w r.2, r.1, r.2))) :
    ∀ (k : Nat) (w : World B S) (c : Vec), w.members = s → w.hp = hp →
      repeatCycleTraced fT k w c = (repeatCycle f k c).map (fun r => (afterCycle w r.2, r.1, r.2)) := by
  intro k
  induction k with
  | zero =>
      intro w c _ _
      simp only [repeatCycleTraced, repeatCycle, Option.map_some', afterCycle_nil]
  | succ k ih =>
      intro w c hs hh
      simp only [repeatCycleTraced, repeatCycle]
      rw [hf w c hs hh]
      cases hfc : f c with
      | none => rfl
      | some r =>
          simp only [Option.map_some', Option.some_bind]
          rw [ih (afterCycle w r.2) r.1 hs hh]
          cases repeatCycle f k r.1 with
          | none => rfl
          | some r2 =>
              simp only [Option.map_some', afterCycle_append]
theorem cycleBlockTraced_eq {B S : Type} (env : Env B S) (cfg : Config) (numLevels mult : Nat)
    (rec : Vec → Vec → Option (Vec × List Event))
    (recT : World B S → Vec → Vec → Option (World B S × Vec × List Event))
    (w : World B S)
    (hrec : ∀ (v : World B S) (cr c : Vec), v.members = w.members → v.hp = w.hp →
      recT v cr c = (rec cr c).map (fun r => (afterCycle v r.2, r.1, r.2)))
    (rhs x : Vec) :
    cycleBlockTraced env cfg numLevels mult recT w rhs x =
      (cycleBlock env w.members cfg w.hp numLevels mult rec rhs x).map
        (fun r => (afterCycle w r.2, r.1, r.2)) := by
  have am : ∀ l, (afterCycle w l).members = w.members := fun _ => rfl
  have ah : ∀ l, (afterCycle w l).hp = w.hp := fun _ => rfl
  simp only [cycleBlockTraced, cycleBlock, presmoothingTraced, restrictionTraced,
    prolongationTraced, postsmoothingTraced, bind, pure]
  cases presmoothing env w.members cfg w.hp numLevels rhs x with
  | none => simp only [Option.map_none', Option.none_bind]
  | some pre =>
      simp only [Option.map_some', Option.some_bind]
      cases restriction env w.members cfg w.hp numLevels pre.2 with
      | none => simp only [Option.map_none', Option.none_bind]
      | some coarseRes =>
          simp only [Option.map_some', Option.some_bind]
          rw [repeatCycleTraced_eq w.members w.hp (rec coarseRes)
            (fun v c => recT v coarseRes c) (fun v c hs hh => hrec v coarseRes c hs hh)
            mult w (zeros coarseRes.length) rfl rfl]
          cases repeatCycle (rec coarseRes) mult (zeros coarseRes.length) with
          | none => simp only [Option.map_none', Option.none_bind]
          | some r =>
              simp only [Option.map_some', Option.some_bind, am, ah]
              cases prolongation env w.members cfg w.hp numLevels r.1 with
              | none => simp only [Option.map_none', Option.none_bind]
              | some fineCorr =>
                  simp only [Option.map_some', Option.some_bind, am, ah]
                  cases postsmoothing env w.members cfg w.hp numLevels rhs pre.1 fineCorr with
                  | none => simp only [Option.map_none', Option.none_bind]
                  | some y =>
                      simp only [Option.map_some', Option.some_bind, Option.some.injEq,
                        Prod.mk.injEq, and_true]
                      exact (afterCycle_frame w
                        [Event.presmoothing numLevels, Event.restriction numLevels]
                        [Event.prolongation numLevels, Event.postsmoothing numLevels] r.2
                        (by simp [coarseCount]) (by simp [coarseCount])).symm

theorem solveTraced_eq {B S : Type} (env : Env B S) (cfg : Config) :
    ∀ (n : Nat) (w : World B S) (rhs x : Vec),
      gsXBraidMultigridBase.solveTraced env cfg n w rhs x =
        (gsXBraidMultigridBase.solve env w.members cfg w.hp n rhs x).map
          (fun r => (afterCycle w r.2, r.1, r.2)) := by
  intro n
  induction n using Nat.strong_induction_on with
  | _ n ih =>
      intro w rhs x
      match n, ih with
      | 0, _ =>
          simp only [gsXBraidMultigridBase.solveTraced, gsXBraidMultigridBase.solve]
          cases hpAt w.hp 0 with
          | none => rfl
          | some tag =>
              simp only [Option.some_bind]
              split
              · rfl
              · simp only [Option.map_some', afterCycle_nil]
      | 1, _ =>
          simp only [gsXBraidMultigridBase.solveTraced, gsXBraidMultigridBase.solve,
            solvecoarseTraced, solvecoarse]
          cases hA : stdAt w.members.m_operator 0 with
          | none => rfl
          | some A =>
              simp only [Option.some_bind]
              cases env.coarseSolver A rhs with
              | none => rfl
              | some y =>
                  simp only [Option.map_some', Option.some.injEq, Prod.mk.injEq, and_true]
                  have h0 : w.members.m_operator[0]? = some A := by
                    rw [← stdAt_natCast]; exact hA
                  unfold afterCycle
                  rw [h0]
                  rfl
      | n + 2, ih =>
          have hrec : ∀ (v : World B S) (cr c : Vec),
              gsXBraidMultigridBase.solveTraced env cfg (n + 1) v cr c =
                (gsXBraidMultigridBase.solve env v.members cfg v.hp (n + 1) cr c).map
                  (fun r => (afterCycle v r.2, r.1, r.2)) :=
            fun v cr c => ih (n + 1) (by omega) v cr c
          rw [solve_add_two]
          simp only [gsXBraidMultigridBase.solveTraced]
          have hblock : ∀ (mult : Nat) (v : World B S) (y : Vec), v.members = w.members →
              v.hp = w.hp →
              cycleBlockTraced env cfg (n + 2) mult
                  (gsXBraidMultigridBase.solveTraced env cfg (n + 1)) v rhs y =
                (cycleBlock env w.members cfg w.hp (n + 2) mult
                  (gsXBraidMultigridBase.solve env w.members cfg w.hp (n + 1)) rhs y).map
                  (fun r => (afterCycle v r.2, r.1, r.2)) := by
            intro mult v y hm hh
            rw [← hm, ← hh]
            exact cycleBlockTraced_eq env cfg (n + 2) mult _ _ v
              (fun u cr c hu1 hu2 => by rw [hrec u cr c, hu1, hu2]) rhs y
          cases htag : hpAt w.hp (max (((n + 2 : Nat) : Int) - 2) 0) with
          | none => rfl
          | some tag =>
              simp only [Option.some_bind]
              by_cases h0 : tag = 0
              · have h1 : ¬ tag = 1 := by rw [h0]; decide
                simp only [if_pos h0, if_neg h1]
                rw [hblock _ w x rfl rfl]
                cases cycleBlock env w.members cfg w.hp (n + 2)
                    (if cfg.typeCycle_p = 2 then 2 else 1)
                    (gsXBraidMultigridBase.solve env w.members cfg w.hp (n + 1)) rhs x with
                | none => rfl
                | some r1 =>
                    have hh : (afterCycle w r1.2).hp = w.hp := rfl
                    simp only [Option.map_some', Option.some_bind, hh, htag, if_neg h1,
                      List.append_nil]
              · simp only [if_neg h0, Option.some_bind, htag]
                by_cases h1 : tag = 1
                · simp only [if_pos h1]
                  rw [hblock _ w x rfl rfl]
                  cases cycleBlock env w.members cfg w.hp (n + 2)
                      (if cfg.typeCycle_h = 2 then 2 else 1)
                      (gsXBraidMultigridBase.solve env w.members cfg w.hp (n + 1)) rhs x with
                  | none => rfl
                  | some r2 =>
                      simp only [Option.map_some', List.nil_append]
                · simp only [if_neg h1, Option.map_some', List.append_nil, afterCycle_nil]
/-- C20: one call of `gsXBraidMultigridBase::solve`, at any depth and for any cycle type
and smoother selection, leaves the data members (among them `m_operator`, the six
transfer arrays `m_prolongation_P/M/H` and `m_restriction_P/M/H`, and the factorization
state `m_ILUT`, `m_P`, `m_Pinv`, `m_A_aprox`) and `hp` as they were; what it returns in
`x`, and the calls it makes, are those of the cycle run on the unchanged hierarchy. An
external smoother is only called through `step`; the member `m_SCMS` is not assigned. -/
theorem solve_leaves_hierarchy_unchanged {B S : Type} (env : Env B S) (cfg : Config)
    (n : Nat) (w w2 : World B S) (rhs x x2 : Vec) (log : List Event)
    (h : gsXBraidMultigridBase.solveTraced env cfg n w rhs x = some (w2, x2, log)) :
    w2.members = w.members ∧ w2.hp = w.hp ∧
    gsXBraidMultigridBase.solve env w.members cfg w.hp n rhs x = some (x2, log) := by
  rw [solveTraced_eq, Option.map_eq_some'] at h
  obtain ⟨r, hr, e⟩ := h
  simp only [Prod.mk.injEq] at e
  obtain ⟨e1, e2, e3⟩ := e
  subst e1 e2 e3
  exact ⟨rfl, rfl, hr⟩

theorem solve_leaves_hierarchy_unchanged_witness :
    (⟨unitSolver, [0, 1], [unitMat, unitMat]⟩ : World Nat Unit).members = unitSolver ∧
    (⟨unitSolver, [0, 1], [unitMat, unitMat]⟩ : World Nat Unit).hp = [0, 1] ∧
    gsXBraidMultigridBase.solve unitEnv unitSolver unitConfig [0, 1] 2 [1] [0] =
      some ([1], [Event.presmoothing 2, Event.restriction 2, Event.solvecoarse,
        Event.solvecoarse, Event.prolongation 2, Event.postsmoothing 2]) :=
  solve_leaves_hierarchy_unchanged unitEnv unitConfig 2 ⟨unitSolver, [0, 1], []⟩
    ⟨unitSolver, [0, 1], [unitMat, unitMat]⟩ [1] [0] [1]
    [Event.presmoothing 2, Event.restriction 2, Event.solvecoarse, Event.solvecoarse,
      Event.prolongation 2, Event.postsmoothing 2] (by decide!)

/-- C14, as amended: every call of `solvecoarse` constructs a coarse solver and factorizes
`m_operator[0]` anew, nothing is kept between calls: a run of the cycle passes
`m_operator[0]` to `factorize` once for each of its `solvecoarse` calls. -/
theorem coarse_factorization_per_coarse_solve {B S : Type} (env : Env B S) (cfg : Config)
    (n : Nat) (w w2 : World B S) (rhs x x2 : Vec) (log : List Event) (A0 : Mat)
    (hA : w.members.m_operator[0]? = some A0)
    (h : gsXBraidMultigridBase.solveTraced env cfg n w rhs x = some (w2, x2, log)) :
    w2.factorized = w.factorized ++ List.replicate (coarseCount log) A0 := by
  rw [solveTraced_eq, Option.map_eq_some'] at h
  obtain ⟨r, _, e⟩ := h
  simp only [Prod.mk.injEq] at e
  obtain ⟨e1, _, e3⟩ := e
  subst e1 e3
  unfold afterCycle
  rw [hA]
  rfl

theorem coarse_factorization_per_coarse_solve_witness :
    (⟨unitSolver, [0, 1], [unitMat, unitMat]⟩ : World Nat Unit).factorized =
      [] ++ List.replicate (coarseCount [Event.presmoothing 2, Event.restriction 2,
        Event.solvecoarse, Event.solvecoarse, Event.prolongation 2, Event.postsmoothing 2])
        unitMat :=
  coarse_factorization_per_coarse_solve unitEnv unitConfig 2 ⟨unitSolver, [0, 1], []⟩
    ⟨unitSolver, [0, 1], [unitMat, unitMat]⟩ [1] [0] [1]
    [Event.presmoothing 2, Event.restriction 2, Event.solvecoarse, Event.solvecoarse,
      Event.prolongation 2, Event.postsmoothing 2] unitMat (by decide) (by decide!)

/-- C14 fails as stated: on a two-level hierarchy one V-cycle factorizes `m_operator[0]`
once and one W-cycle factorizes it twice, once per `solvecoarse` call. -/
theorem coarse_factorization_repeated_in_w_cycle :
    gsXBraidMultigridBase.solveTraced unitEnv noSmoothingConfig 2
        ⟨unitSolver, [0, 1], []⟩ [1] [0] =
      some (⟨unitSolver, [0, 1], [unitMat]⟩, [1],
        [Event.presmoothing 2, Event.restriction 2, Event.solvecoarse,
          Event.prolongation 2, Event.postsmoothing 2]) ∧
    gsXBraidMultigridBase.solveTraced unitEnv unitConfig 2
        ⟨unitSolver, [0, 1], []⟩ [1] [0] =
      some (⟨unitSolver, [0, 1], [unitMat, unitMat]⟩, [1],
        [Event.presmoothing 2, Event.restriction 2, Event.solvecoarse, Event.solvecoarse,
          Event.prolongation 2, Event.postsmoothing 2]) := by
  constructor <;> decide!

/-! ## The outer iteration: termination and stopping rule -/

/-- A loop that returns has performed some number `m` of passes of its body: the
condition held before each of them and fails in the state returned. -/
theorem whileLoop_sound {σ : Type} (cond : σ → Bool) (body : σ → Option σ) :
    ∀ (fuel : Nat) (st st2 : σ), whileLoop cond body fuel st = some st2 →
      ∃ m, m < fuel ∧ iterM body m st = some st2 ∧
        (∀ k, k < m → ∃ stk, iterM body k st = some stk ∧ cond stk = true) ∧
        cond st2 = false := by
  intro fuel
  induction fuel with
  | zero => intro st st2 h; simp [whileLoop] at h
  | succ fuel ih =>
      intro st st2 h
      simp only [whileLoop] at h
      split at h
      · rename_i hc
        simp only [Option.bind_eq_some] at h
        obtain ⟨st1, h1, h2⟩ := h
        obtain ⟨m, hm, hit, hk, hf⟩ := ih st1 st2 h2
        refine ⟨m + 1, by omega, ?_, ?_, hf⟩
        · simp only [iterM, h1, Option.some_bind]; exact hit
        · intro k hk2
          cases k with
          | zero => exact ⟨st, rfl, hc⟩
          | succ k =>
              obtain ⟨stk, e1, e2⟩ := hk k (by omega)
              exact ⟨stk, by simp only [iterM, h1, Option.some_bind]; exact e1, e2⟩
      · rename_i hc
        simp only [Option.some.injEq] at h
        subst h
        exact ⟨0, by omega, rfl, fun k hk => by omega, by simpa using hc⟩

/-- A loop whose body succeeds on every state of an invariant and lowers a measure that is
below the bound returns. -/
theorem whileLoop_returns {σ : Type} (cond : σ → Bool) (body : σ → Option σ)
    (I : σ → Prop) (μ : σ → Nat)
    (hbody : ∀ st, I st → cond st = true → ∃ st2, body st = some st2 ∧ I st2 ∧ μ st2 < μ st) :
    ∀ (fuel : Nat) (st : σ), I st → μ st < fuel →
      ∃ st2, whileLoop cond body fuel st = some st2 ∧ I st2 := by
  intro fuel
  induction fuel with
  | zero => intro st _ h; omega
  | succ fuel ih =>
      intro st hI hμ
      simp only [whileLoop]
      by_cases hc : cond st = true
      · obtain ⟨st1, h1, hI1, hlt⟩ := hbody st hI hc
        obtain ⟨st2, h2, hI2⟩ := ih st1 hI1 (by omega)
        exact ⟨st2, by rw [if_pos hc, h1]; exact h2, hI2⟩
      · exact ⟨st, by rw [if_neg hc], hI⟩
theorem iterM_inv {α : Type} (f : α → Option α) (J : Nat → α → Prop)
    (hstep : ∀ k a b, J k a → f a = some b → J (k + 1) b) :
    ∀ (k j : Nat) (a b : α), J j a → iterM f k a = some b → J (j + k) b := by
  intro k
  induction k with
  | zero =>
      intro j a b hJ h
      simp only [iterM, Option.some.injEq] at h
      subst h; exact hJ
  | succ k ih =>
      intro j a b hJ h
      simp only [iterM, Option.bind_eq_some] at h
      obtain ⟨a1, h1, h2⟩ := h
      have := ih (j + 1) a1 b (hstep j a a1 hJ h1) h2
      rw [show j + (k + 1) = j + 1 + k by omega]
      exact this

theorem outerBody_cases {B S : Type} (env : Env B S) (s : Solver B S) (cfg : Config)
    (hp : List ℚ) (numLevels : Nat) (b : Vec) (st st2 : OuterState)
    (h : outerBody env s cfg hp numLevels b st = some st2) :
    ∃ y log A Ax d, gsXBraidMultigridBase.solve env s cfg hp numLevels b st.x = some (y, log) ∧
      stdAt s.m_operator ((numLevels : Int) - 1) = some A ∧ A.mulVec y = some Ax ∧
      vsub Ax b = some d ∧ st.iterTot < 2147483647 ∧
      st2 = { x := y, r0 := st.r0, r := env.norm d, r_old := env.norm d, iter := st.iter + 1,
              iterTot := st.iterTot + 1,
              out := st.out ++ (if Real_t.lt st.r_old (env.norm d) = true then [Report.residualIncreased] else []) } := by
  simp only [outerBody, bind, Option.bind_eq_some, pure, Option.some.injEq] at h
  obtain ⟨res, h1, A, h2, Ax, h3, d, h4, it, h5, h6⟩ := h
  unfold incrInt at h5
  split at h5
  · rename_i hlt
    simp only [Option.some.injEq] at h5
    subst h5
    exact ⟨res.1, res.2, A, Ax, d, h1, h2, h3, h4, hlt, h6.symm⟩
  · simp at h5

theorem outerBody_some {B S : Type} (env : Env B S) (s : Solver B S) (cfg : Config)
    (hp : List ℚ) (numLevels : Nat) (b : Vec) (st : OuterState) (A : Mat) (y : Vec)
    (log : List Event)
    (hcyc : gsXBraidMultigridBase.solve env s cfg hp numLevels b st.x = some (y, log))
    (hA : stdAt s.m_operator ((numLevels : Int) - 1) = some A)
    (hAc : A.cols = y.length) (hAr : A.val.length = b.length)
    (hit : st.iterTot < 2147483647) :
    ∃ d, vsub (A.val.map (fun r => dot r y)) b = some d ∧
      outerBody env s cfg hp numLevels b st =
        some { x := y, r0 := st.r0, r := env.norm d, r_old := env.norm d, iter := st.iter + 1,
               iterTot := st.iterTot + 1,
               out := st.out ++
                 (if Real_t.lt st.r_old (env.norm d) = true then [Report.residualIncreased] else []) } := by
  have hAx : A.mulVec y = some (A.val.map (fun r => dot r y)) := by
    unfold Mat.mulVec; rw [if_pos hAc]
  have hd : ∃ d, vsub (A.val.map (fun r => dot r y)) b = some d := by
    unfold vsub
    rw [if_pos (by simp [hAr])]
    exact ⟨_, rfl⟩
  obtain ⟨d, hd⟩ := hd
  refine ⟨d, hd, ?_⟩
  simp only [outerBody, bind, pure, hcyc, hA, hAx, hd, incrInt, if_pos hit, Option.some_bind]
theorem outerCond_iter (cfg : Config) (st : OuterState) (h : outerCond cfg st = true) :
    st.iter < 100000 := by
  unfold outerCond at h
  split at h
  · simp only [decide_eq_true_eq] at h
    exact h.2
  · simp only [decide_eq_true_eq] at h
    omega

theorem outerBody_inv {B S : Type} (env : Env B S) (s : Solver B S) (cfg : Config)
    (hp : List ℚ) (numLevels : Nat) (A : Mat) (b : Vec) (n : Nat) (r0 : Real_t) (iterTot0 : Int)
    (hA : stdAt s.m_operator ((numLevels : Int) - 1) = some A)
    (hAc : A.cols = n) (hAr : A.val.length = n) (hb : b.length = n)
    (hcycle : ∀ y, y.length = n → ∃ z log,
      gsXBraidMultigridBase.solve env s cfg hp numLevels b y = some (z, log) ∧ z.length = n)
    (hit : iterTot0 + 99999 ≤ 2147483647)
    (st : OuterState) (hI : OuterInv env A b n r0 iterTot0 st) (hlt : st.iter < 100000) :
    ∃ st2, outerBody env s cfg hp numLevels b st = some st2 ∧
      OuterInv env A b n r0 iterTot0 st2 ∧ st2.iter = st.iter + 1 := by
  obtain ⟨hx, hr0, h1, htot, _⟩ := hI
  obtain ⟨z, log, hz, hzl⟩ := hcycle st.x hx
  obtain ⟨d, hd, hbody⟩ := outerBody_some env s cfg hp numLevels b st A z log hz hA
    (by rw [hAc, hzl]) (by rw [hAr, hb]) (by omega)
  refine ⟨_, hbody, ⟨hzl, hr0, by show 1 ≤ st.iter + 1; omega, ?_, ?_⟩, rfl⟩
  · show st.iterTot + 1 = iterTot0 + (st.iter + 1 - 1)
    omega
  · show residualNorm env A b z = some (env.norm d)
    unfold residualNorm Mat.mulVec
    rw [if_pos (by rw [hAc, hzl])]
    simp only [Option.some_bind, hd, Option.map_some']

theorem outerBody_inv_of_some {B S : Type} (env : Env B S) (s : Solver B S) (cfg : Config)
    (hp : List ℚ) (numLevels : Nat) (A : Mat) (b : Vec) (n : Nat) (r0 : Real_t) (iterTot0 : Int)
    (hA : stdAt s.m_operator ((numLevels : Int) - 1) = some A)
    (hcycle : ∀ y, y.length = n → ∃ z log,
      gsXBraidMultigridBase.solve env s cfg hp numLevels b y = some (z, log) ∧ z.length = n)
    (st st2 : OuterState) (hI : OuterInv env A b n r0 iterTot0 st)
    (h : outerBody env s cfg hp numLevels b st = some st2) :
    OuterInv env A b n r0 iterTot0 st2 ∧ st2.iter = st.iter + 1 := by
  obtain ⟨hx, hr0, h1, htot, _⟩ := hI
  obtain ⟨y, log, A1, Ax, d, hy, hA1, hAx, hd, hlt, rfl⟩ :=
    outerBody_cases env s cfg hp numLevels b st st2 h
  obtain ⟨z, log2, hz, hzl⟩ := hcycle st.x hx
  rw [hy] at hz
  simp only [Option.some.injEq, Prod.mk.injEq] at hz
  obtain ⟨rfl, _⟩ := hz
  rw [hA] at hA1
  simp only [Option.some.injEq] at hA1
  subst hA1
  refine ⟨⟨hzl, hr0, by show 1 ≤ st.iter + 1; omega, ?_, ?_⟩, rfl⟩
  · show st.iterTot + 1 = iterTot0 + (st.iter + 1 - 1)
    omega
  · show residualNorm env A b y = some (env.norm d)
    unfold residualNorm
    rw [hAx]
    simp only [Option.some_bind, hd, Option.map_some']

/-- The outer iteration returns, after some number `m` of cycles: the loop condition held
before each cycle, fails in the final state, and the invariant holds throughout. -/
theorem outer_solve_spec {B S : Type} (env : Env B S) (s : Solver B S) (cfg : Config)
    (hp : List ℚ) (numLevels : Nat) (x f : Vec) (iterTot : Int) (A : Mat) (b : Vec)
    (st0 : OuterState) (n : Nat)
    (hA : stdAt s.m_operator ((numLevels : Int) - 1) = some A)
    (hAc : A.cols = n) (hAr : A.val.length = n)
    (hinit : outerInit env s cfg numLevels x f iterTot = some (b, st0))
    (hx0 : st0.x.length = n) (hb : b.length = n)
    (hcycle : ∀ y, y.length = n → ∃ z log,
      gsXBraidMultigridBase.solve env s cfg hp numLevels b y = some (z, log) ∧ z.length = n)
    (hit : iterTot + 99999 ≤ 2147483647) :
    ∃ st2 m, gsXBraidMultigrid.solve env s cfg hp numLevels x f iterTot =
        some { st2 with
          out := st2.out ++ [Report.solverInformation, Report.convergedSeconds,
            Report.convergedIterations (st2.iter - 1)] } ∧
      iterM (outerBody env s cfg hp numLevels b) m st0 = some st2 ∧
      (∀ k, k < m → ∃ stk, iterM (outerBody env s cfg hp numLevels b) k st0 = some stk ∧
        outerCond cfg stk = true ∧ OuterInv env A b n st0.r0 iterTot stk ∧
        stk.iter = (k : Int) + 1) ∧
      outerCond cfg st2 = false ∧ OuterInv env A b n st0.r0 iterTot st2 ∧
      st2.iter = (m : Int) + 1 := by
  have hI0 : OuterInv env A b n st0.r0 iterTot st0 ∧ st0.iter = 1 := by
    simp only [outerInit, hA, Option.some_bind, Option.bind_eq_some, Option.map_eq_some',
      Prod.mk.injEq] at hinit
    obtain ⟨b1, _, Ax, hAx, d, hd, rfl, rfl⟩ := hinit
    refine ⟨⟨hx0, rfl, by show (1 : Int) ≤ 1; omega, by show iterTot = iterTot + (1 - 1); omega,
      ?_⟩, rfl⟩
    show residualNorm env A b1 _ = some (env.norm d)
    unfold residualNorm
    rw [hAx]
    simp only [Option.some_bind, hd, Option.map_some']
  obtain ⟨st2, hloop, _⟩ := whileLoop_returns (outerCond cfg)
    (outerBody env s cfg hp numLevels b) (OuterInv env A b n st0.r0 iterTot)
    (fun st => (100000 - st.iter).toNat)
    (fun st hI hc => by
      have hlt := outerCond_iter cfg st hc
      obtain ⟨st3, h3, hI3, hiter⟩ := outerBody_inv env s cfg hp numLevels A b n st0.r0 iterTot
        hA hAc hAr hb hcycle hit st hI hlt
      refine ⟨st3, h3, hI3, ?_⟩
      show (100000 - st3.iter).toNat < (100000 - st.iter).toNat
      rw [hiter]
      omega)
    100000 st0 hI0.1 (by show (100000 - st0.iter).toNat < 100000; rw [hI0.2]; decide)
  obtain ⟨m, _, hm, hk, hf⟩ := whileLoop_sound _ _ 100000 st0 st2 hloop
  have hJ : ∀ (k : Nat) (stk : OuterState),
      iterM (outerBody env s cfg hp numLevels b) k st0 = some stk →
      OuterInv env A b n st0.r0 iterTot stk ∧ stk.iter = (k : Int) + 1 := by
    intro k stk hk1
    have := iterM_inv (outerBody env s cfg hp numLevels b)
      (fun j st => OuterInv env A b n st0.r0 iterTot st ∧ st.iter = (j : Int) + 1)
      (fun j a c hJa hac => by
        obtain ⟨i1, i2⟩ := outerBody_inv_of_some env s cfg hp numLevels A b n st0.r0 iterTot
          hA hcycle a c hJa.1 hac
        refine ⟨i1, ?_⟩
        rw [i2, hJa.2]
        push_cast
        ring)
      k 0 st0 stk ⟨hI0.1, by rw [hI0.2]; rfl⟩ hk1
    simpa using this
  refine ⟨st2, m, ?_, hm, ?_, hf, (hJ m st2 hm).1, (hJ m st2 hm).2⟩
  · simp only [gsXBraidMultigrid.solve, bind, pure, hinit, Option.some_bind, hloop]
  · intro k hkm
    obtain ⟨stk, e1, e2⟩ := hk k hkm
    exact ⟨stk, e1, e2, (hJ k stk e1).1, (hJ k stk e1).2⟩
theorem outerInit_cases {B S : Type} (env : Env B S) (s : Solver B S) (cfg : Config)
    (numLevels : Nat) (x f : Vec) (iterTot : Int) (b : Vec) (st0 : OuterState)
    (h : outerInit env s cfg numLevels x f iterTot = some (b, st0)) :
    ∃ A Ax d, stdAt s.m_operator ((numLevels : Int) - 1) = some A ∧
      (if cfg.typeSolver = 1 then s.m_assembler.getLast?.map env.rhs else some f) = some b ∧
      A.mulVec (if cfg.typeSolver = 1 then env.random A.rows else x) = some Ax ∧
      vsub Ax b = some d ∧
      st0 = { x := if cfg.typeSolver = 1 then env.random A.rows else x, r0 := env.norm d,
              r := env.norm d, r_old := env.norm d, iter := 1, iterTot := iterTot, out := [] } := by
  simp only [outerInit, Option.bind_eq_some, Option.map_eq_some', Prod.mk.injEq] at h
  obtain ⟨A, hA, b1, hb1, Ax, hAx, d, hd, rfl, rfl⟩ := h
  exact ⟨A, Ax, d, hA, hb1, hAx, hd, rfl⟩

/-- When the comparison `r/r0 > tol` of two norm values is false, either both are numbers
with `r <= tol * r0`, or `r` is not-a-number, or `r0` is not-a-number or an infinity. -/
theorem gt_tol_false_cases (r r0 : Real_t) (hr : r.NonNeg) (hr0 : r0.NonNeg)
    (h : ¬ Real_t.gt (r.div r0) (Real_t.num tol) = true) :
    (∃ a b, r = Real_t.num a ∧ r0 = Real_t.num b ∧ a ≤ tol * b) ∨
      r = Real_t.nan ∨ r0 = Real_t.nan ∨ r0 = Real_t.posInf := by
  cases r with
  | num a =>
      cases r0 with
      | num b =>
          left
          refine ⟨a, b, rfl, rfl, ?_⟩
          have ha : 0 ≤ a := hr
          have hb : 0 ≤ b := hr0
          by_cases hb0 : b = 0
          · subst hb0
            by_cases ha0 : 0 < a
            · exfalso
              apply h
              simp [Real_t.div, Real_t.gt, Real_t.lt, ha0]
            · have : a = 0 := le_antisymm (not_lt.mp ha0) ha
              rw [this]; simp
          · have hbpos : 0 < b := lt_of_le_of_ne hb (Ne.symm hb0)
            have h2 : ¬ tol < a / b := by
              intro hlt
              apply h
              simp [Real_t.div, Real_t.gt, Real_t.lt, hb0, hlt]
            have := not_lt.mp h2
            rwa [div_le_iff₀ hbpos] at this
      | posInf => right; right; right; rfl
      | negInf => exact absurd hr0 (by simp [Real_t.NonNeg])
      | nan => right; right; left; rfl
  | posInf =>
      cases r0 with
      | num b =>
          exfalso
          have hb : 0 ≤ b := hr0
          apply h
          simp [Real_t.div, Real_t.gt, Real_t.lt, hb]
      | posInf => right; right; right; rfl
      | negInf => exact absurd hr0 (by simp [Real_t.NonNeg])
      | nan => right; right; left; rfl
  | negInf => exact absurd hr (by simp [Real_t.NonNeg])
  | nan => right; left; rfl

theorem residualNorm_nonNeg {B S : Type} (env : Env B S) (A : Mat) (b x : Vec) (r : Real_t)
    (hnorm : ∀ v, (env.norm v).NonNeg) (h : residualNorm env A b x = some r) : r.NonNeg := by
  unfold residualNorm at h
  simp only [Option.bind_eq_some, Option.map_eq_some'] at h
  obtain ⟨_, _, d, _, e⟩ := h
  rw [← e]; exact hnorm d

/-- C15, the stopping rule as it is: in stand-alone mode (`typeSolver` 1 or 5), on a
hierarchy whose cycle returns on every vector of the problem size, the outer loop returns
after some number `m <= 99999` of cycles. Before each of them the residual norm `r` of
the current `x` satisfied the `real_t` comparison `r/r0 > 1e-8` and fewer than 99999
cycles had been run; in the state returned `r` is the residual norm of the returned `x`
and this condition fails. Hence on return either `r <= 1e-8 * r0` for two numbers, or
exactly 99999 cycles were performed, or the comparison is false for a value that is not
a number: `r` is not-a-number, or `r0` is not-a-number or an infinity. The counter
`iterTot` has grown by `m`. -/
theorem standalone_solve_stops_when_comparison_fails {B S : Type} (env : Env B S)
    (s : Solver B S) (cfg : Config) (hp : List ℚ) (numLevels : Nat) (x f : Vec)
    (iterTot : Int) (A : Mat) (b : Vec) (st0 : OuterState) (n : Nat)
    (hts : cfg.typeSolver = 1 ∨ cfg.typeSolver = 5)
    (hA : stdAt s.m_operator ((numLevels : Int) - 1) = some A)
    (hAc : A.cols = n) (hAr : A.val.length = n)
    (hinit : outerInit env s cfg numLevels x f iterTot = some (b, st0))
    (hx0 : st0.x.length = n) (hb : b.length = n)
    (hcycle : ∀ y, y.length = n → ∃ z log,
      gsXBraidMultigridBase.solve env s cfg hp numLevels b y = some (z, log) ∧ z.length = n)
    (hnorm : ∀ v, (env.norm v).NonNeg)
    (hit : iterTot + 99999 ≤ 2147483647) :
    ∃ (res : OuterState) (m : Nat),
      gsXBraidMultigrid.solve env s cfg hp numLevels x f iterTot = some res ∧
      m ≤ 99999 ∧ res.iter - 1 = (m : Int) ∧ res.iterTot = iterTot + (m : Int) ∧
      res.r0 = st0.r0 ∧ residualNorm env A b st0.x = some st0.r0 ∧
      (∃ st2, iterM (outerBody env s cfg hp numLevels b) m st0 = some st2 ∧ res.x = st2.x) ∧
      (∀ k, k < m → ∃ stk, iterM (outerBody env s cfg hp numLevels b) k st0 = some stk ∧
        residualNorm env A b stk.x = some stk.r ∧
        Real_t.gt (stk.r.div st0.r0) (Real_t.num tol) = true ∧ k < 99999) ∧
      residualNorm env A b res.x = some res.r ∧
      ¬ (Real_t.gt (res.r.div res.r0) (Real_t.num tol) = true ∧ m < 99999) ∧
      ((∃ a c, res.r = Real_t.num a ∧ res.r0 = Real_t.num c ∧ a ≤ tol * c) ∨ m = 99999 ∨
        res.r = Real_t.nan ∨ res.r0 = Real_t.nan ∨ res.r0 = Real_t.posInf) := by
  obtain ⟨st2, m, hsolve, hm, hk, hf, hI, hiter⟩ := outer_solve_spec env s cfg hp numLevels x f
    iterTot A b st0 n hA hAc hAr hinit hx0 hb hcycle hit
  obtain ⟨A1, Ax0, d0, _, _, _, _, e0⟩ := outerInit_cases env s cfg numLevels x f iterTot b st0 hinit
  have hr00 : st0.r = st0.r0 := by rw [e0]
  have hcond : ∀ st : OuterState, outerCond cfg st =
      decide (Real_t.gt (st.r.div st.r0) (Real_t.num tol) = true ∧ st.iter < 100000) := by
    intro st; unfold outerCond; rw [if_pos hts]
  obtain ⟨hx2, hr2, _, htot2, hres2⟩ := hI
  have hnot : ¬ (Real_t.gt (st2.r.div st2.r0) (Real_t.num tol) = true ∧ m < 99999) := by
    rw [hcond] at hf
    simp only [decide_eq_false_iff_not] at hf
    intro hc
    exact hf ⟨hc.1, by rw [hiter]; omega⟩
  have hkk : ∀ k, k < m → ∃ stk, iterM (outerBody env s cfg hp numLevels b) k st0 = some stk ∧
      residualNorm env A b stk.x = some stk.r ∧
      Real_t.gt (stk.r.div st0.r0) (Real_t.num tol) = true ∧ k < 99999 := by
    intro k hkm
    obtain ⟨stk, e1, e2, e3, e4⟩ := hk k hkm
    rw [hcond] at e2
    simp only [decide_eq_true_eq] at e2
    obtain ⟨_, er0, _, _, eres⟩ := e3
    refine ⟨stk, e1, eres, by rw [← er0]; exact e2.1, ?_⟩
    have := e2.2
    rw [e4] at this
    omega
  have hm9 : m ≤ 99999 := by
    cases m with
    | zero => omega
    | succ j =>
        obtain ⟨_, _, _, _, h4⟩ := hkk j (by omega)
        omega
  have hres0 : residualNorm env A b st0.x = some st0.r0 := by
    cases m with
    | zero =>
        simp only [iterM, Option.some.injEq] at hm
        subst hm
        rw [← hr00]; exact hres2
    | succ j =>
        obtain ⟨st00, e1, e2, _, _⟩ := hkk 0 (by omega)
        simp only [iterM, Option.some.injEq] at e1
        subst e1
        rw [← hr00]; exact e2
  have hr0nn : st2.r0.NonNeg := by
    rw [hr2]; exact residualNorm_nonNeg env A b st0.x st0.r0 hnorm hres0
  have hrnn : st2.r.NonNeg := residualNorm_nonNeg env A b st2.x st2.r hnorm hres2
  refine ⟨_, m, hsolve, hm9, ?_, ?_, hr2, hres0, ⟨st2, hm, rfl⟩, hkk, hres2, hnot, ?_⟩
  · show st2.iter - 1 = (m : Int)
    rw [hiter]; ring
  · show st2.iterTot = iterTot + (m : Int)
    rw [htot2, hiter]; ring
  · show (∃ a c, st2.r = Real_t.num a ∧ st2.r0 = Real_t.num c ∧ a ≤ tol * c) ∨ m = 99999 ∨
      st2.r = Real_t.nan ∨ st2.r0 = Real_t.nan ∨ st2.r0 = Real_t.posInf
    by_cases hm2 : m = 99999
    · exact Or.inr (Or.inl hm2)
    · have hle : ¬ Real_t.gt (st2.r.div st2.r0) (Real_t.num tol) = true :=
        fun hc => hnot ⟨hc, by omega⟩
      rcases gt_tol_false_cases st2.r st2.r0 hrnn hr0nn hle with h1 | h1 | h1 | h1
      · exact Or.inl h1
      · exact Or.inr (Or.inr (Or.inl h1))
      · exact Or.inr (Or.inr (Or.inr (Or.inl h1)))
      · exact Or.inr (Or.inr (Or.inr (Or.inr h1)))

/-- C15 on the one-level one-unknown model problem: from `x = 0` for `f = 1` the loop
returns after cycles whose number `m` and whose final state satisfy the stopping rule. -/
theorem standalone_solve_stops_when_comparison_fails_witness :
    ∃ (res : OuterState) (m : Nat),
      gsXBraidMultigrid.solve unitEnv unitSolver standaloneConfig [0, 1] 1 [0] [1] 0 = some res ∧
      m ≤ 99999 ∧ res.iter - 1 = (m : Int) ∧ res.iterTot = 0 + (m : Int) ∧
      res.r0 = Real_t.num 1 ∧ residualNorm unitEnv unitMat [1] [0] = some (Real_t.num 1) ∧
      (∃ st2, iterM (outerBody unitEnv unitSolver standaloneConfig [0, 1] 1 [1]) m
          ⟨[0], Real_t.num 1, Real_t.num 1, Real_t.num 1, 1, 0, []⟩ = some st2 ∧
        res.x = st2.x) ∧
      (∀ k, k < m → ∃ stk, iterM (outerBody unitEnv unitSolver standaloneConfig [0, 1] 1 [1]) k
          ⟨[0], Real_t.num 1, Real_t.num 1, Real_t.num 1, 1, 0, []⟩ = some stk ∧
        residualNorm unitEnv unitMat [1] stk.x = some stk.r ∧
        Real_t.gt (stk.r.div (Real_t.num 1)) (Real_t.num tol) = true ∧ k < 99999) ∧
      residualNorm unitEnv unitMat [1] res.x = some res.r ∧
      ¬ (Real_t.gt (res.r.div res.r0) (Real_t.num tol) = true ∧ m < 99999) ∧
      ((∃ a c, res.r = Real_t.num a ∧ res.r0 = Real_t.num c ∧ a ≤ tol * c) ∨ m = 99999 ∨
        res.r = Real_t.nan ∨ res.r0 = Real_t.nan ∨ res.r0 = Real_t.posInf) :=
  standalone_solve_stops_when_comparison_fails unitEnv unitSolver standaloneConfig [0, 1] 1 [0]
    [1] 0 unitMat [1] ⟨[0], Real_t.num 1, Real_t.num 1, Real_t.num 1, 1, 0, []⟩ 1 (by decide)
    (by decide!) rfl rfl (by decide!) rfl rfl
    (fun y _ => ⟨[1], [Event.solvecoarse], rfl, rfl⟩)
    (fun v => List.sum_nonneg (fun a ha => by
      obtain ⟨c, _, rfl⟩ := List.mem_map.mp ha
      exact abs_nonneg c))
    (by decide)

theorem whileLoop_succ {σ : Type} (cond : σ → Bool) (body : σ → Option σ) (fuel : Nat)
    (st : σ) :
    whileLoop cond body (fuel + 1) st =
      if cond st then (body st).bind (whileLoop cond body fuel) else some st := rfl

theorem realMax_pos : 0 < realMax := by unfold realMax; positivity

theorem four_le_realMax : 4 ≤ realMax := by
  unfold realMax
  calc (4 : ℚ) = 2 ^ 2 := by norm_num
    _ ≤ 2 ^ 1024 := pow_le_pow_right₀ (by norm_num) (by norm_num)

/-- The norm of `rangeEnv` on a vector with two entries. -/
theorem rangeEnv_norm_two (a b : ℚ) :
    rangeEnv.norm [a, b] =
      if |a| < realMax ∧ |b| < realMax then Real_t.num (|a| + |b|) else Real_t.nan := by
  show (if [a, b].all (fun a => decide (|a| < realMax)) then
    Real_t.num ([a, b].map (fun a => |a|)).sum else Real_t.nan) = _
  by_cases h1 : |a| < realMax <;> by_cases h2 : |b| < realMax <;> simp [h1, h2]

/-- One cycle of `spreadSolver m` without smoothing, from `x = (a, b)` for `f = (f1, f2)`:
the coarse correction `m * (a + b - f1)` is subtracted from the first entry and added to
the second. -/
theorem spread_cycle (m a b f1 f2 : ℚ) :
    gsXBraidMultigridBase.solve rangeEnv (spreadSolver m) plainStandaloneConfig [1] 2 [f1, f2]
        [a, b] =
      some ([a - m * (a + b - f1), b + m * (a + b - f1)],
        [Event.presmoothing 2, Event.restriction 2, Event.solvecoarse, Event.prolongation 2,
          Event.postsmoothing 2]) := by
  simp [gsXBraidMultigridBase.solve, cycleBlock, presmoothing, restriction, prolongation,
    postsmoothing, repeatCycle, solvecoarse, hpAt, stdAt, iterM, spreadSolver,
    plainStandaloneConfig, rangeEnv, unitEnv, unitMat, Mat.mulVec, dot, vsub, vadd, zeros]

/-- C15, counterexample: a stand-alone run (`typeSolver = 5`) on the two-level hierarchy
`spreadSolver (2^1023)` from `x = (0, 3)` for `f = (1, 3)`. The initial residual is
`(2, 0)` with norm 2. In the one cycle the restricted residual `2^1023 * 2` leaves the
range of `real_t`, the prolongation spreads it with opposite signs over both entries of
`x`, and the norm of the new residual is not-a-number (in `real_t` its first entry is the
sum of two opposite infinities). The comparison `r/r0 > 1e-8` is then false: the loop
stops after 1 cycle, not 99999, with `r` not-a-number, and the residual `(2, 2^1024)` of
the returned `x` is not below `1e-8 * r0`. -/
theorem standalone_solve_stops_at_not_a_number :
    gsXBraidMultigrid.solve rangeEnv (spreadSolver (realMax / 2)) plainStandaloneConfig [1] 2
        [0, 3] [1, 3] 0 =
      some ⟨[-realMax, 3 + realMax], Real_t.num 2, Real_t.nan, Real_t.nan, 2, 1,
        [Report.solverInformation, Report.convergedSeconds, Report.convergedIterations 1]⟩ ∧
    (Mat.mk 2 2 [[1, 1], [0, 1]]).mulVec [-realMax, 3 + realMax] = some [3, 3 + realMax] ∧
    vsub [3, 3 + realMax] [1, 3] = some [2, realMax] ∧
    ¬ (|(2 : ℚ)| + |realMax| ≤ tol * 2) ∧
    ((2 : Int) - 1 ≠ 99999) := by
  have hpos := realMax_pos
  have hA : stdAt (spreadSolver (realMax / 2)).m_operator (((2 : Nat) : Int) - 1) =
      some ⟨2, 2, [[1, 1], [0, 1]]⟩ := by
    simp [stdAt, spreadSolver]
  -- the state in which the loop is entered
  have h4 := four_le_realMax
  have hn0 : rangeEnv.norm [2, 0] = Real_t.num 2 := by
    rw [rangeEnv_norm_two, if_pos ⟨by rw [abs_of_pos (by norm_num)]; linarith,
      by rw [abs_zero]; exact hpos⟩]
    norm_num
  have hinit : outerInit rangeEnv (spreadSolver (realMax / 2)) plainStandaloneConfig 2
      [0, 3] [1, 3] 0
      = some ([1, 3], ⟨[0, 3], Real_t.num 2, Real_t.num 2, Real_t.num 2, 1, 0, []⟩) := by
    have hd : vsub [dot [1, 1] [0, 3], dot [0, 1] [0, 3]] [1, 3] = some [2, 0] := by
      simp [vsub, dot]
      norm_num
    have hne : ¬ plainStandaloneConfig.typeSolver = 1 := by decide
    simp only [outerInit, hA, Option.some_bind, if_neg hne, Mat.mulVec,
      List.length_cons, List.length_nil, if_true, List.map_cons, List.map_nil, hd,
      Option.map_some', hn0]
  -- the one cycle
  have hcyc := spread_cycle (realMax / 2) 0 3 1 3
  have hx1 : [0 - realMax / 2 * (0 + 3 - 1), 3 + realMax / 2 * (0 + 3 - 1)] =
      [-realMax, 3 + realMax] := by
    have e1 : 0 - realMax / 2 * (0 + 3 - 1) = -realMax := by ring
    have e2 : 3 + realMax / 2 * (0 + 3 - 1) = 3 + realMax := by ring
    rw [e1, e2]
  rw [hx1] at hcyc
  obtain ⟨d, hd, hbody⟩ := outerBody_some rangeEnv (spreadSolver (realMax / 2))
    plainStandaloneConfig [1] 2 [1, 3]
    ⟨[0, 3], Real_t.num 2, Real_t.num 2, Real_t.num 2, 1, 0, []⟩ ⟨2, 2, [[1, 1], [0, 1]]⟩ _ _
    hcyc hA rfl rfl (by decide)
  have hmul : (Mat.mk 2 2 [[1, 1], [0, 1]]).mulVec [-realMax, 3 + realMax] =
      some [3, 3 + realMax] := by
    simp [Mat.mulVec, dot]
  have hsub : vsub [3, 3 + realMax] [1, 3] = some [2, realMax] := by
    simp [vsub]
    norm_num
  have hd2 : d = [2, realMax] := by
    have e : (Mat.mk 2 2 [[1, 1], [0, 1]]).val.map (fun r => dot r [-realMax, 3 + realMax]) =
        [3, 3 + realMax] := by
      simp [dot]
    rw [e, hsub] at hd
    exact (Option.some.inj hd).symm
  have hn1 : rangeEnv.norm d = Real_t.nan := by
    rw [hd2, rangeEnv_norm_two, if_neg]
    rintro ⟨_, h2⟩
    rw [abs_of_pos hpos] at h2
    exact lt_irrefl _ h2
  rw [hn1] at hbody
  have hts : plainStandaloneConfig.typeSolver = 1 ∨ plainStandaloneConfig.typeSolver = 5 :=
    Or.inr rfl
  have hc0 : outerCond plainStandaloneConfig
      ⟨[0, 3], Real_t.num 2, Real_t.num 2, Real_t.num 2, 1, 0, []⟩ = true := by
    unfold outerCond
    rw [if_pos hts, decide_eq_true_eq]
    refine ⟨?_, by decide⟩
    show Real_t.gt ((Real_t.num 2).div (Real_t.num 2)) (Real_t.num tol) = true
    simp [Real_t.div, Real_t.gt, Real_t.lt, tol]
    norm_num
  have hloop : whileLoop (outerCond plainStandaloneConfig)
      (outerBody rangeEnv (spreadSolver (realMax / 2)) plainStandaloneConfig [1] 2 [1, 3]) 100000
      ⟨[0, 3], Real_t.num 2, Real_t.num 2, Real_t.num 2, 1, 0, []⟩ =
      some ⟨[-realMax, 3 + realMax], Real_t.num 2, Real_t.nan, Real_t.nan, 1 + 1, 0 + 1,
        [] ++ (if Real_t.lt (Real_t.num 2) Real_t.nan = true then
          [Report.residualIncreased] else [])⟩ := by
    have e : (100000 : Nat) = 99998 + 1 + 1 := rfl
    rw [e, whileLoop_succ, hc0, if_pos rfl, hbody, Option.some_bind, whileLoop_succ]
    have hc1 : outerCond plainStandaloneConfig
        ⟨[-realMax, 3 + realMax], Real_t.num 2, Real_t.nan, Real_t.nan, 1 + 1, 0 + 1,
          [] ++ (if Real_t.lt (Real_t.num 2) Real_t.nan = true then
            [Report.residualIncreased] else [])⟩ = false := by
      unfold outerCond
      rw [if_pos hts, decide_eq_false_iff_not]
      intro h
      have h1 : Real_t.gt (Real_t.nan.div (Real_t.num 2)) (Real_t.num tol) = true := h.1
      simp [Real_t.div, Real_t.gt, Real_t.lt] at h1
    rw [hc1]
    rfl
  refine ⟨?_, hmul, hsub, ?_, by decide⟩
  · simp only [gsXBraidMultigrid.solve, bind, pure, hinit, Option.some_bind, hloop]
    rfl
  · rw [abs_of_pos hpos, abs_of_pos (by norm_num)]
    unfold tol
    intro h
    linarith

/-- C18: in preconditioner mode (`typeSolver` neither 1 nor 5) the outer loop performs
exactly one cycle, whatever the residual norms before and after it are: the cycle is
run from the caller's `x` with right-hand side `f`, its result is returned in `x`,
`iter - 1` is 1 and `iterTot` has grown by exactly 1. -/
theorem preconditioner_solve_is_one_cycle {B S : Type} (env : Env B S) (s : Solver B S)
    (cfg : Config) (hp : List ℚ) (numLevels : Nat) (x f y : Vec) (log : List Event)
    (iterTot : Int) (A : Mat) (n : Nat)
    (hts : cfg.typeSolver ≠ 1 ∧ cfg.typeSolver ≠ 5)
    (hA : stdAt s.m_operator ((numLevels : Int) - 1) = some A)
    (hAc : A.cols = n) (hAr : A.val.length = n) (hx : x.length = n) (hf : f.length = n)
    (hcyc : gsXBraidMultigridBase.solve env s cfg hp numLevels f x = some (y, log))
    (hy : y.length = n) (hit : iterTot < 2147483647) :
    ∃ res, gsXBraidMultigrid.solve env s cfg hp numLevels x f iterTot = some res ∧
      res.x = y ∧ res.iter - 1 = 1 ∧ res.iterTot = iterTot + 1 ∧
      residualNorm env A f x = some res.r0 ∧ residualNorm env A f y = some res.r := by
  have hAx : A.mulVec x = some (A.val.map (fun r => dot r x)) := by
    unfold Mat.mulVec; rw [if_pos (by rw [hAc, hx])]
  obtain ⟨d0, hd0⟩ : ∃ d, vsub (A.val.map (fun r => dot r x)) f = some d := by
    unfold vsub
    rw [if_pos (by simp [hAr, hf])]
    exact ⟨_, rfl⟩
  have hinit : outerInit env s cfg numLevels x f iterTot =
      some (f, { x := x, r0 := env.norm d0, r := env.norm d0, r_old := env.norm d0, iter := 1,
                 iterTot := iterTot, out := [] }) := by
    simp only [outerInit, hA, Option.some_bind, if_neg hts.1, hAx, hd0, Option.map_some']
  have hcond : ∀ st : OuterState, outerCond cfg st = decide (st.iter < 2) := by
    intro st; unfold outerCond
    rw [if_neg (by rintro (h | h); exact hts.1 h; exact hts.2 h)]
  obtain ⟨d, hd, hbody⟩ := outerBody_some env s cfg hp numLevels f
    { x := x, r0 := env.norm d0, r := env.norm d0, r_old := env.norm d0, iter := 1,
      iterTot := iterTot, out := [] } A y log hcyc hA (by rw [hAc, hy]) (by rw [hAr, hf]) hit
  have hloop : whileLoop (outerCond cfg) (outerBody env s cfg hp numLevels f) 100000
      { x := x, r0 := env.norm d0, r := env.norm d0, r_old := env.norm d0, iter := 1,
        iterTot := iterTot, out := [] } =
      some { x := y, r0 := env.norm d0, r := env.norm d, r_old := env.norm d, iter := 1 + 1,
             iterTot := iterTot + 1,
             out := [] ++ (if Real_t.lt (env.norm d0) (env.norm d) = true then [Report.residualIncreased] else []) } := by
    have e : (100000 : Nat) = 99998 + 1 + 1 := rfl
    rw [e, whileLoop_succ, hcond, if_pos (by show decide ((1 : Int) < 2) = true; decide), hbody,
      Option.some_bind, whileLoop_succ, hcond,
      if_neg (by show ¬ decide ((1 : Int) + 1 < 2) = true; decide)]
  have hres : gsXBraidMultigrid.solve env s cfg hp numLevels x f iterTot =
      some { x := y, r0 := env.norm d0, r := env.norm d, r_old := env.norm d, iter := 1 + 1,
             iterTot := iterTot + 1,
             out := ([] ++ (if Real_t.lt (env.norm d0) (env.norm d) = true then [Report.residualIncreased] else [])) ++
               [Report.solverInformation, Report.convergedSeconds,
                 Report.convergedIterations (1 + 1 - 1)] } := by
    simp only [gsXBraidMultigrid.solve, bind, pure, hinit, Option.some_bind, hloop]
  refine ⟨_, hres, rfl, (by show (1 : Int) + 1 - 1 = 1; norm_num), rfl, ?_, ?_⟩
  · unfold residualNorm
    rw [hAx]
    simp only [Option.some_bind, hd0, Option.map_some']
  · unfold residualNorm Mat.mulVec
    rw [if_pos (by rw [hAc, hy])]
    simp only [Option.some_bind, hd, Option.map_some']

theorem preconditioner_solve_is_one_cycle_witness :
    ∃ res, gsXBraidMultigrid.solve unitEnv unitSolver preconditionerConfig [0, 1] 3 [0] [1] 7
        = some res ∧
      res.x = [1] ∧ res.iter - 1 = 1 ∧ res.iterTot = 7 + 1 ∧
      residualNorm unitEnv unitMat [1] [0] = some res.r0 ∧
      residualNorm unitEnv unitMat [1] [1] = some res.r :=
  preconditioner_solve_is_one_cycle unitEnv unitSolver preconditionerConfig [0, 1] 3 [0] [1] [1]
    [Event.presmoothing 3, Event.restriction 3, Event.presmoothing 2, Event.restriction 2,
      Event.solvecoarse, Event.solvecoarse, Event.prolongation 2, Event.postsmoothing 2,
      Event.prolongation 3, Event.postsmoothing 3]
    7 unitMat 1 (by decide) (by decide!) rfl rfl rfl rfl (by decide!) rfl (by decide)

/-! ## The monotonicity check of the outer iteration -/

theorem otherReports_append_increase (out : List Report) (c : Prop) [Decidable c] :
    otherReports (out ++ (if c then [Report.residualIncreased] else [])) = otherReports out := by
  unfold otherReports
  split <;> simp

theorem outerBody_rel {B S : Type} (env : Env B S) (s : Solver B S) (cfg : Config)
    (hp : List ℚ) (numLevels : Nat) (b : Vec) (a c : OuterState) (h : SameButReports a c) :
    (outerBody env s cfg hp numLevels b a = none ∧
      outerBodyNoCheck env s cfg hp numLevels b c = none) ∨
    ∃ a2 c2, outerBody env s cfg hp numLevels b a = some a2 ∧
      outerBodyNoCheck env s cfg hp numLevels b c = some c2 ∧ SameButReports a2 c2 := by
  obtain ⟨hv, ho⟩ := h
  simp only [OuterState.vars, Prod.mk.injEq] at hv
  obtain ⟨hx, hr0, _, _, hiter, htot⟩ := hv
  simp only [outerBody, outerBodyNoCheck, bind, pure, ← hx, ← hr0, ← hiter, ← htot]
  cases gsXBraidMultigridBase.solve env s cfg hp numLevels b a.x with
  | none => exact Or.inl ⟨rfl, rfl⟩
  | some res =>
      simp only [Option.some_bind]
      cases stdAt s.m_operator ((numLevels : Int) - 1) with
      | none => exact Or.inl ⟨rfl, rfl⟩
      | some A =>
          simp only [Option.some_bind]
          cases A.mulVec res.1 with
          | none => exact Or.inl ⟨rfl, rfl⟩
          | some Ax =>
              simp only [Option.some_bind]
              cases vsub Ax b with
              | none => exact Or.inl ⟨rfl, rfl⟩
              | some d =>
                  simp only [Option.some_bind]
                  cases incrInt a.iterTot with
                  | none => exact Or.inl ⟨rfl, rfl⟩
                  | some t =>
                      simp only [Option.some_bind]
                      refine Or.inr ⟨_, _, rfl, rfl, rfl, ?_⟩
                      show otherReports (a.out ++ _) = c.out
                      rw [otherReports_append_increase]
                      exact ho

theorem outerCond_rel (cfg : Config) (a c : OuterState) (h : SameButReports a c) :
    outerCond cfg a = outerCond cfg c := by
  obtain ⟨hv, _⟩ := h
  simp only [OuterState.vars, Prod.mk.injEq] at hv
  obtain ⟨_, hr0, hr, _, hiter, _⟩ := hv
  unfold outerCond
  rw [hr0, hr, hiter]

theorem whileLoop_rel {B S : Type} (env : Env B S) (s : Solver B S) (cfg : Config)
    (hp : List ℚ) (numLevels : Nat) (b : Vec) :
    ∀ (fuel : Nat) (a c : OuterState), SameButReports a c →
      (whileLoop (outerCond cfg) (outerBody env s cfg hp numLevels b) fuel a = none ∧
        whileLoop (outerCond cfg) (outerBodyNoCheck env s cfg hp numLevels b) fuel c = none) ∨
      ∃ a2 c2, whileLoop (outerCond cfg) (outerBody env s cfg hp numLevels b) fuel a = some a2 ∧
        whileLoop (outerCond cfg) (outerBodyNoCheck env s cfg hp numLevels b) fuel c = some c2 ∧
        SameButReports a2 c2 := by
  intro fuel
  induction fuel with
  | zero => intro a c _; exact Or.inl ⟨rfl, rfl⟩
  | succ fuel ih =>
      intro a c h
      rw [whileLoop_succ, whileLoop_succ, ← outerCond_rel cfg a c h]
      by_cases hc : outerCond cfg a = true
      · rw [if_pos hc, if_pos hc]
        rcases outerBody_rel env s cfg hp numLevels b a c h with ⟨e1, e2⟩ | ⟨a2, c2, e1, e2, h2⟩
        · rw [e1, e2]; exact Or.inl ⟨rfl, rfl⟩
        · rw [e1, e2]; exact ih a2 c2 h2
      · rw [if_neg hc, if_neg hc]
        exact Or.inr ⟨a, c, rfl, rfl, h⟩

theorem iterM_rel {B S : Type} (env : Env B S) (s : Solver B S) (cfg : Config)
    (hp : List ℚ) (numLevels : Nat) (b : Vec) :
    ∀ (k : Nat) (a c : OuterState), SameButReports a c →
      (iterM (outerBody env s cfg hp numLevels b) k a).map OuterState.vars =
        (iterM (outerBodyNoCheck env s cfg hp numLevels b) k c).map OuterState.vars := by
  intro k
  induction k with
  | zero => intro a c h; simp only [iterM, Option.map_some', h.1]
  | succ k ih =>
      intro a c h
      simp only [iterM]
      rcases outerBody_rel env s cfg hp numLevels b a c h with ⟨e1, e2⟩ | ⟨a2, c2, e1, e2, h2⟩
      · rw [e1, e2]; rfl
      · rw [e1, e2]; exact ih a2 c2 h2

/-- C17: an outer iteration in which the residual norm increased is only reported. With
and without the check at lines 811-814 the solve returns for the same inputs, with the
same `x`, residual norms, `iter` and `iterTot`; the lines reported differ only by the
reports of an increased residual; and after any number `k` of cycles from any loop state
the loop variables, among them the iterate, are the same. -/
theorem residual_increase_is_only_reported {B S : Type} (env : Env B S) (s : Solver B S)
    (cfg : Config) (hp : List ℚ) (numLevels : Nat) (x f : Vec) (iterTot : Int) :
    (gsXBraidMultigrid.solve env s cfg hp numLevels x f iterTot).map OuterState.vars =
      (solveNoCheck env s cfg hp numLevels x f iterTot).map OuterState.vars ∧
    (gsXBraidMultigrid.solve env s cfg hp numLevels x f iterTot).map
        (fun res => otherReports res.out) =
      (solveNoCheck env s cfg hp numLevels x f iterTot).map (fun res => res.out) ∧
    ∀ (b x0 : Vec) (r0 r r_old : Real_t) (iter0 iterTot0 : Int) (k : Nat),
      (iterM (outerBody env s cfg hp numLevels b) k
          ⟨x0, r0, r, r_old, iter0, iterTot0, []⟩).map OuterState.vars =
        (iterM (outerBodyNoCheck env s cfg hp numLevels b) k
          ⟨x0, r0, r, r_old, iter0, iterTot0, []⟩).map OuterState.vars := by
  have hloop : ∀ init : Vec × OuterState,
      outerInit env s cfg numLevels x f iterTot = some init →
      (whileLoop (outerCond cfg) (outerBody env s cfg hp numLevels init.1) 100000 init.2 = none ∧
        whileLoop (outerCond cfg) (outerBodyNoCheck env s cfg hp numLevels init.1) 100000 init.2
          = none) ∨
      ∃ a2 c2,
        whileLoop (outerCond cfg) (outerBody env s cfg hp numLevels init.1) 100000 init.2
          = some a2 ∧
        whileLoop (outerCond cfg) (outerBodyNoCheck env s cfg hp numLevels init.1) 100000 init.2
          = some c2 ∧ SameButReports a2 c2 := by
    intro init hinit
    have h0 : init.2.out = [] := by
      obtain ⟨A, Ax, d, _, _, _, _, e⟩ :=
        outerInit_cases env s cfg numLevels x f iterTot init.1 init.2 hinit
      rw [e]
    exact whileLoop_rel env s cfg hp numLevels init.1 100000 init.2 init.2
      ⟨rfl, by rw [h0]; rfl⟩
  refine ⟨?_, ?_, fun b x0 r0 r r_old iter0 iterTot0 k =>
    iterM_rel env s cfg hp numLevels b k _ _ ⟨rfl, rfl⟩⟩
  · simp only [gsXBraidMultigrid.solve, solveNoCheck, bind, pure]
    cases hinit : outerInit env s cfg numLevels x f iterTot with
    | none => simp only [Option.none_bind, Option.map_none']
    | some init =>
        simp only [Option.some_bind]
        rcases hloop init hinit with ⟨e1, e2⟩ | ⟨a2, c2, e1, e2, hv, _⟩
        · rw [e1, e2]
        · rw [e1, e2]
          simp only [Option.some_bind, Option.map_some', Option.some.injEq]
          simp only [OuterState.vars, Prod.mk.injEq] at hv ⊢
          exact hv
  · simp only [gsXBraidMultigrid.solve, solveNoCheck, bind, pure]
    cases hinit : outerInit env s cfg numLevels x f iterTot with
    | none => simp only [Option.none_bind, Option.map_none']
    | some init =>
        simp only [Option.some_bind]
        rcases hloop init hinit with ⟨e1, e2⟩ | ⟨a2, c2, e1, e2, hv, ho⟩
        · rw [e1, e2]; rfl
        · rw [e1, e2]
          simp only [Option.some_bind, Option.map_some', Option.some.injEq]
          simp only [OuterState.vars, Prod.mk.injEq] at hv
          have hi : a2.iter = c2.iter := hv.2.2.2.2.1
          rw [← ho, hi]
          simp [otherReports]

/-- A run in which the residual norm increases: in preconditioner mode the cycle of
`overshootSolver` takes `x = 0` to `x = 3` for `f = 1`, the residual norm grows from 1 to
2, and the solve returns that `x` with one report of an increased residual. -/
theorem residual_increase_example :
    gsXBraidMultigrid.solve unitEnv overshootSolver plainPreconditionerConfig [1] 2 [0] [1] 0 =
      some ⟨[3], Real_t.num 1, Real_t.num 2, Real_t.num 2, 2, 1,
        [Report.residualIncreased, Report.solverInformation,
        Report.convergedSeconds, Report.convergedIterations 1]⟩ := by
  unfold gsXBraidMultigrid.solve
  have e : (100000 : Nat) = 99998 + 1 + 1 := rfl
  rw [e]
  decide!

/-! ## The report of a run that ends at the iteration cap -/

/-- One cycle of `contractSolver` without smoothing, from `x = (q)` for `f = (1)`. -/
theorem contract_cycle (q : ℚ) :
    gsXBraidMultigridBase.solve unitEnv contractSolver plainStandaloneConfig [1] 2 [1] [q] =
      some ([q - 1 * (10 / 54291 * (q - 1))],
        [Event.presmoothing 2, Event.restriction 2, Event.solvecoarse, Event.prolongation 2,
          Event.postsmoothing 2]) := by
  simp [gsXBraidMultigridBase.solve, cycleBlock, presmoothing, restriction, prolongation,
    postsmoothing, repeatCycle, solvecoarse, hpAt, stdAt, iterM, contractSolver,
    plainStandaloneConfig, unitEnv, unitMat, Mat.mulVec, dot, vsub, vadd, zeros]

theorem contractRate_pos : 0 < contractRate := by unfold contractRate; norm_num

theorem contractRate_le_one : contractRate ≤ 1 := by unfold contractRate; norm_num

/-- The loop body of the stand-alone solve takes the state after `k` cycles of
`contractSolver` to the state after `k + 1` cycles. -/
theorem contract_body (k : Nat) (hk : k < 100000) :
    outerBody unitEnv contractSolver plainStandaloneConfig [1] 2 [1] (contractState k) =
      some (contractState (k + 1)) := by
  have hpos : (0 : ℚ) ≤ contractRate ^ (k + 1) := le_of_lt (pow_pos contractRate_pos _)
  have hle : contractRate ^ (k + 1) ≤ contractRate ^ k :=
    pow_le_pow_of_le_one (le_of_lt contractRate_pos) contractRate_le_one (Nat.le_succ k)
  have hx : (1 - contractRate ^ k) - 1 * (10 / 54291 * ((1 - contractRate ^ k) - 1)) =
      1 - contractRate ^ (k + 1) := by
    rw [pow_succ]; unfold contractRate; ring
  have hcyc := contract_cycle (1 - contractRate ^ k)
  rw [hx] at hcyc
  obtain ⟨d, hd, hbody⟩ := outerBody_some unitEnv contractSolver plainStandaloneConfig [1] 2 [1]
    (contractState k) unitMat _ _ hcyc (by decide!) rfl rfl
    (by show ((k : Nat) : Int) < 2147483647; omega)
  have hd2 : d = [- contractRate ^ (k + 1)] := by
    simp only [unitMat, List.map_cons, List.map_nil, dot, vsub, List.zipWith_cons_cons,
      List.zipWith_nil_left, List.sum_cons, List.sum_nil, List.length_cons, List.length_nil,
      if_true, Option.some.injEq] at hd
    rw [← hd]
    simp only [List.cons.injEq, and_true]
    ring
  have hs : ([- contractRate ^ (k + 1)].map (fun a => |a|)).sum = contractRate ^ (k + 1) := by
    simp only [List.map_cons, List.map_nil, List.sum_cons, List.sum_nil, abs_neg, add_zero]
    exact abs_of_nonneg hpos
  have hn : unitEnv.norm d = Real_t.num (contractRate ^ (k + 1)) := by
    rw [hd2]
    show Real_t.num ([- contractRate ^ (k + 1)].map (fun a => |a|)).sum = _
    rw [hs]
  have hlt : ¬ Real_t.lt (contractState k).r_old (Real_t.num (contractRate ^ (k + 1))) = true := by
    show ¬ decide (contractRate ^ k < contractRate ^ (k + 1)) = true
    rw [decide_eq_true_eq]
    exact not_lt.mpr hle
  rw [hbody, hn, if_neg hlt, Option.some.injEq]
  unfold contractState
  simp only [OuterState.mk.injEq, true_and, List.append_nil, and_true]
  exact ⟨by push_cast; ring, by push_cast; ring⟩

/-- The loop body of the stand-alone solve on a schedule tag 2, under which the cycle
leaves `x` as it is: the state after `k` passes becomes the state after `k + 1`. -/
theorem stall_body (k : Nat) (hk : k < 100000) :
    outerBody unitEnv contractSolver plainStandaloneConfig [2] 2 [1] (stallState k) =
      some (stallState (k + 1)) := by
  obtain ⟨d, hd, hbody⟩ := outerBody_some unitEnv contractSolver plainStandaloneConfig [2] 2 [1]
    (stallState k) unitMat [0] []
    (show gsXBraidMultigridBase.solve unitEnv contractSolver plainStandaloneConfig [2] 2 [1] [0] =
      some ([0], []) by decide!) (by decide!) rfl rfl
    (by show ((k : Nat) : Int) < 2147483647; omega)
  have hd2 : d = [-1] := by
    have e : vsub (unitMat.val.map (fun r => dot r [0])) [1] = some [-1] := by decide!
    rw [e] at hd
    exact (Option.some.inj hd).symm
  have hn : unitEnv.norm d = Real_t.num 1 := by rw [hd2]; decide!
  have hlt : ¬ Real_t.lt (stallState k).r_old (Real_t.num 1) = true := by
    show ¬ decide ((1 : ℚ) < 1) = true
    rw [decide_eq_true_eq]
    exact lt_irrefl _
  rw [hbody, hn, if_neg hlt, Option.some.injEq]
  unfold stallState
  simp only [OuterState.mk.injEq, true_and, List.append_nil, and_true]
  exact ⟨by push_cast; ring, by push_cast; ring⟩

/-- Comparison of a power of a quotient of natural numbers with the reciprocal of a
natural number, reduced to natural numbers. -/
theorem one_div_lt_div_pow (a b c n : Nat) (hb : 0 < b) (hc : 0 < c)
    (h : b ^ n < a ^ n * c) : (1 : ℚ) / (c : ℚ) < ((a : ℚ) / (b : ℚ)) ^ n := by
  have hb2 : (0 : ℚ) < (b : ℚ) ^ n := pow_pos (by exact_mod_cast hb) n
  have hc2 : (0 : ℚ) < (c : ℚ) := by exact_mod_cast hc
  rw [div_pow, div_lt_div_iff₀ hc2 hb2, one_mul]
  exact_mod_cast h

theorem div_pow_le_one_div (a b c n : Nat) (hb : 0 < b) (hc : 0 < c)
    (h : a ^ n * c ≤ b ^ n) : ((a : ℚ) / (b : ℚ)) ^ n ≤ (1 : ℚ) / (c : ℚ) := by
  have hb2 : (0 : ℚ) < (b : ℚ) ^ n := pow_pos (by exact_mod_cast hb) n
  have hc2 : (0 : ℚ) < (c : ℚ) := by exact_mod_cast hc
  rw [div_pow, div_le_div_iff₀ hb2 hc2, one_mul]
  exact_mod_cast h

/-- After 99998 cycles of `contractSolver` the relative residual is above the tolerance. -/
theorem contractRate_above : tol < contractRate ^ 99998 :=
  one_div_lt_div_pow 54281 54291 100000000 99998 (by decide) (by decide) (by decide!)

/-- After 99999 cycles of `contractSolver` the relative residual is within the tolerance. -/
theorem contractRate_below : contractRate ^ 99999 ≤ tol :=
  div_pow_le_one_div 54281 54291 100000000 99999 (by decide) (by decide) (by decide!)

/-- A loop over a chain of states `f 0, f 1, ..`: if the condition holds and the body
steps along the chain below `N`, and the condition fails at `f N`, the loop started at
`f k` with `N - k + 1` tests of its condition returns `f N`. -/
theorem whileLoop_chain {σ : Type} (cond : σ → Bool) (body : σ → Option σ) (f : Nat → σ)
    (N : Nat) (hc : ∀ k, k < N → cond (f k) = true)
    (hb : ∀ k, k < N → body (f k) = some (f (k + 1))) (hN : cond (f N) = false) :
    ∀ (j k : Nat), k + j = N → whileLoop cond body (j + 1) (f k) = some (f N) := by
  intro j
  induction j with
  | zero =>
      intro k hk
      have e : k = N := by omega
      subst e
      rw [whileLoop_succ, hN]
      rfl
  | succ j ih =>
      intro k hk
      rw [whileLoop_succ, hc k (by omega), if_pos rfl, hb k (by omega), Option.some_bind]
      exact ih (k + 1) (by omega)

/-- The comparison `a/1 > tol` of numbers. -/
theorem gt_div_one (a : ℚ) :
    Real_t.gt ((Real_t.num a).div (Real_t.num 1)) (Real_t.num tol) = true ↔ tol < a := by
  have h1 : ¬ ((1 : ℚ) = 0) := by norm_num
  simp only [Real_t.div, if_neg h1, Real_t.gt, Real_t.lt, div_one, decide_eq_true_eq]

theorem standalone_cond (st : OuterState) :
    outerCond plainStandaloneConfig st =
      decide (Real_t.gt (st.r.div st.r0) (Real_t.num tol) = true ∧ st.iter < 100000) := by
  have hts : plainStandaloneConfig.typeSolver = 1 ∨ plainStandaloneConfig.typeSolver = 5 :=
    Or.inr rfl
  unfold outerCond
  rw [if_pos hts]

theorem stall_loop (N : Nat) (hN : N = 99999) :
    whileLoop (outerCond plainStandaloneConfig)
      (outerBody unitEnv contractSolver plainStandaloneConfig [2] 2 [1]) (N + 1) (stallState 0) =
      some (stallState N) := by
  refine whileLoop_chain (outerCond plainStandaloneConfig)
    (outerBody unitEnv contractSolver plainStandaloneConfig [2] 2 [1]) stallState N
    (fun k hk => ?_) (fun k hk => stall_body k (by omega)) ?_ N 0 (Nat.zero_add N)
  · rw [standalone_cond, decide_eq_true_eq]
    refine ⟨?_, ?_⟩
    · show Real_t.gt ((Real_t.num 1).div (Real_t.num 1)) (Real_t.num tol) = true
      rw [gt_div_one]
      unfold tol; norm_num
    · show (1 : Int) + (k : Int) < 100000
      omega
  · rw [standalone_cond, decide_eq_false_iff_not]
    intro h
    have h2 : (1 : Int) + (N : Int) < 100000 := h.2
    omega

theorem stall_init : outerInit unitEnv contractSolver plainStandaloneConfig 2 [0] [1] 0 =
    some ([1], stallState 0) := by decide!

theorem stall_loop_full :
    whileLoop (outerCond plainStandaloneConfig)
      (outerBody unitEnv contractSolver plainStandaloneConfig [2] 2 [1]) 100000 (stallState 0) =
      some (stallState 99999) := stall_loop 99999 rfl

/-- The result of `gsXBraidMultigrid::solve` from the state in which the loop ends. -/
theorem solve_of_loop {B S : Type} (env : Env B S) (s : Solver B S) (cfg : Config)
    (hp : List ℚ) (numLevels : Nat) (x f b : Vec) (iterTot : Int) (st0 st : OuterState)
    (hinit : outerInit env s cfg numLevels x f iterTot = some (b, st0))
    (hloop : whileLoop (outerCond cfg) (outerBody env s cfg hp numLevels b) 100000 st0 = some st) :
    gsXBraidMultigrid.solve env s cfg hp numLevels x f iterTot =
      some { st with
        out := st.out ++ [Report.solverInformation, Report.convergedSeconds,
          Report.convergedIterations (st.iter - 1)] } := by
  simp only [gsXBraidMultigrid.solve, bind, pure, hinit, Option.some_bind, hloop]

/-- The stand-alone solve that cannot make progress (schedule tag 2: every cycle leaves
`x = 0` as it is) stops at the iteration cap with `r / r0 = 1`. -/
theorem stall_solve :
    gsXBraidMultigrid.solve unitEnv contractSolver plainStandaloneConfig [2] 2 [0] [1] 0 =
      some ⟨[0], Real_t.num 1, Real_t.num 1, Real_t.num 1, 100000, 99999,
        [Report.solverInformation, Report.convergedSeconds,
          Report.convergedIterations 99999]⟩ := by
  rw [solve_of_loop _ _ _ _ _ _ _ _ _ _ _ stall_init stall_loop_full, Option.some.injEq]
  show OuterState.mk [0] (Real_t.num 1) (Real_t.num 1) (Real_t.num 1)
    (1 + ((99999 : Nat) : Int)) ((99999 : Nat) : Int)
    ([] ++ [Report.solverInformation, Report.convergedSeconds,
      Report.convergedIterations (1 + ((99999 : Nat) : Int) - 1)]) = _
  simp only [OuterState.mk.injEq, true_and, List.nil_append]
  norm_num

theorem contract_init : outerInit unitEnv contractSolver plainStandaloneConfig 2 [0] [1] 0 =
    some ([1], contractState 0) := by
  have e : contractState 0 = ⟨[0], Real_t.num 1, Real_t.num 1, Real_t.num 1, 1, 0, []⟩ := by
    unfold contractState
    simp only [pow_zero, sub_self, Nat.cast_zero, add_zero]
  rw [e]
  decide!

theorem contract_loop (N : Nat) (hN : N = 99999) :
    whileLoop (outerCond plainStandaloneConfig)
      (outerBody unitEnv contractSolver plainStandaloneConfig [1] 2 [1]) (N + 1)
      (contractState 0) = some (contractState N) := by
  refine whileLoop_chain (outerCond plainStandaloneConfig)
    (outerBody unitEnv contractSolver plainStandaloneConfig [1] 2 [1]) contractState N
    (fun k hk => ?_) (fun k hk => contract_body k (by omega)) ?_ N 0 (Nat.zero_add N)
  · rw [standalone_cond, decide_eq_true_eq]
    refine ⟨?_, ?_⟩
    · show Real_t.gt ((Real_t.num (contractRate ^ k)).div (Real_t.num 1)) (Real_t.num tol) = true
      rw [gt_div_one]
      exact lt_of_lt_of_le contractRate_above
        (pow_le_pow_of_le_one (le_of_lt contractRate_pos) contractRate_le_one (by omega))
    · show (1 : Int) + (k : Int) < 100000
      omega
  · rw [standalone_cond, decide_eq_false_iff_not]
    intro h
    have h2 : (1 : Int) + (N : Int) < 100000 := h.2
    omega

theorem contract_loop_full :
    whileLoop (outerCond plainStandaloneConfig)
      (outerBody unitEnv contractSolver plainStandaloneConfig [1] 2 [1]) 100000
      (contractState 0) = some (contractState 99999) := contract_loop 99999 rfl

/-- The stand-alone solve with `contractSolver` meets the tolerance after exactly 99999
cycles: the relative residual is above `1e-8` after 99998 cycles and not after 99999. -/
theorem contract_solve :
    gsXBraidMultigrid.solve unitEnv contractSolver plainStandaloneConfig [1] 2 [0] [1] 0 =
      some ⟨[1 - contractRate ^ 99999], Real_t.num 1, Real_t.num (contractRate ^ 99999),
        Real_t.num (contractRate ^ 99999), 100000, 99999,
        [Report.solverInformation, Report.convergedSeconds,
          Report.convergedIterations 99999]⟩ := by
  rw [solve_of_loop _ _ _ _ _ _ _ _ _ _ _ contract_init contract_loop_full, Option.some.injEq]
  show OuterState.mk [1 - contractRate ^ 99999] (Real_t.num 1)
    (Real_t.num (contractRate ^ 99999)) (Real_t.num (contractRate ^ 99999))
    (1 + ((99999 : Nat) : Int)) ((99999 : Nat) : Int)
    ([] ++ [Report.solverInformation, Report.convergedSeconds,
      Report.convergedIterations (1 + ((99999 : Nat) : Int) - 1)]) = _
  simp only [OuterState.mk.injEq, true_and, List.nil_append]
  norm_num

/-- The lines the loop itself reports are reports of an increased residual. -/
theorem outerBody_out {B S : Type} (env : Env B S) (s : Solver B S) (cfg : Config)
    (hp : List ℚ) (numLevels : Nat) (b : Vec) (st st2 : OuterState)
    (h : outerBody env s cfg hp numLevels b st = some st2)
    (hst : ∃ n, st.out = List.replicate n Report.residualIncreased) :
    ∃ n, st2.out = List.replicate n Report.residualIncreased := by
  obtain ⟨y, log, A, Ax, d, _, _, _, _, _, e⟩ := outerBody_cases env s cfg hp numLevels b st st2 h
  obtain ⟨n, hn⟩ := hst
  rw [e]
  show ∃ m, st.out ++ (if Real_t.lt st.r_old (env.norm d) = true then [Report.residualIncreased] else []) =
    List.replicate m Report.residualIncreased
  rw [hn]
  split
  · exact ⟨n + 1, by rw [List.replicate_succ']⟩
  · exact ⟨n, by rw [List.append_nil]⟩

/-- C16, the report as it is: in stand-alone mode, on a hierarchy whose cycle returns on
every vector of the problem size, the solve returns; and if in the state returned
`r/r0` is still above `1e-8`, then exactly 99999 cycles were performed, `x` is the
iterate after the last of them, and the lines reported are reports of an increased
residual followed by the same three lines as after every run, with the words
`Solver converged in: 99999 iterations!`. -/
theorem capped_run_reports_convergence {B S : Type} (env : Env B S)
    (s : Solver B S) (cfg : Config) (hp : List ℚ) (numLevels : Nat) (x f : Vec)
    (iterTot : Int) (A : Mat) (b : Vec) (st0 : OuterState) (n : Nat)
    (hts : cfg.typeSolver = 1 ∨ cfg.typeSolver = 5)
    (hA : stdAt s.m_operator ((numLevels : Int) - 1) = some A)
    (hAc : A.cols = n) (hAr : A.val.length = n)
    (hinit : outerInit env s cfg numLevels x f iterTot = some (b, st0))
    (hx0 : st0.x.length = n) (hb : b.length = n)
    (hcycle : ∀ y, y.length = n → ∃ z log,
      gsXBraidMultigridBase.solve env s cfg hp numLevels b y = some (z, log) ∧ z.length = n)
    (hit : iterTot + 99999 ≤ 2147483647) :
    ∃ res : OuterState,
      gsXBraidMultigrid.solve env s cfg hp numLevels x f iterTot = some res ∧
      (Real_t.gt (res.r.div res.r0) (Real_t.num tol) = true →
        res.iter - 1 = 99999 ∧
        (∃ st2, iterM (outerBody env s cfg hp numLevels b) 99999 st0 = some st2 ∧
          res.x = st2.x ∧ res.r = st2.r) ∧
        ∃ k, res.out = List.replicate k Report.residualIncreased ++
          [Report.solverInformation, Report.convergedSeconds,
            Report.convergedIterations 99999]) := by
  obtain ⟨st2, m, hsolve, hm, hk, hf, hI, hiter⟩ := outer_solve_spec env s cfg hp numLevels x f
    iterTot A b st0 n hA hAc hAr hinit hx0 hb hcycle hit
  obtain ⟨A1, Ax0, d0, _, _, _, _, e0⟩ := outerInit_cases env s cfg numLevels x f iterTot b st0 hinit
  have hout0 : ∃ k, st0.out = List.replicate k Report.residualIncreased := ⟨0, by rw [e0]; rfl⟩
  have hout : ∃ k, st2.out = List.replicate k Report.residualIncreased := by
    have := iterM_inv (outerBody env s cfg hp numLevels b)
      (fun _ st => ∃ k, st.out = List.replicate k Report.residualIncreased)
      (fun j a c hJa hac => outerBody_out env s cfg hp numLevels b a c hac hJa)
      m 0 st0 st2 hout0 hm
    exact this
  have hm9 : m ≤ 99999 := by
    cases m with
    | zero => omega
    | succ j =>
        obtain ⟨stj, _, e2, _, e4⟩ := hk j (by omega)
        have := outerCond_iter cfg stj e2
        rw [e4] at this
        omega
  refine ⟨_, hsolve, ?_⟩
  intro habove
  have habove2 : Real_t.gt (st2.r.div st2.r0) (Real_t.num tol) = true := habove
  have hm2 : m = 99999 := by
    unfold outerCond at hf
    rw [if_pos hts, decide_eq_false_iff_not] at hf
    have : ¬ st2.iter < 100000 := fun h => hf ⟨habove2, h⟩
    rw [hiter] at this
    omega
  subst hm2
  obtain ⟨k, hk2⟩ := hout
  refine ⟨?_, ⟨st2, hm, rfl, rfl⟩, k, ?_⟩
  · show st2.iter - 1 = 99999
    rw [hiter]; norm_num
  · show st2.out ++ [Report.solverInformation, Report.convergedSeconds,
      Report.convergedIterations (st2.iter - 1)] = _
    rw [hk2, hiter]
    norm_num

theorem capped_run_reports_convergence_witness :
    (∃ res : OuterState,
      gsXBraidMultigrid.solve unitEnv contractSolver plainStandaloneConfig [2] 2 [0] [1] 0 =
        some res ∧ Real_t.gt (res.r.div res.r0) (Real_t.num tol) = true) ∧
    ∃ res : OuterState,
      gsXBraidMultigrid.solve unitEnv contractSolver plainStandaloneConfig [2] 2 [0] [1] 0 =
        some res ∧
      (Real_t.gt (res.r.div res.r0) (Real_t.num tol) = true →
        res.iter - 1 = 99999 ∧
        (∃ st2, iterM (outerBody unitEnv contractSolver plainStandaloneConfig [2] 2 [1]) 99999
            ⟨[0], Real_t.num 1, Real_t.num 1, Real_t.num 1, 1, 0, []⟩ = some st2 ∧
          res.x = st2.x ∧ res.r = st2.r) ∧
        ∃ k, res.out = List.replicate k Report.residualIncreased ++
          [Report.solverInformation, Report.convergedSeconds,
            Report.convergedIterations 99999]) :=
  ⟨⟨_, stall_solve, (gt_div_one 1).mpr (by unfold tol; norm_num)⟩,
    capped_run_reports_convergence unitEnv contractSolver plainStandaloneConfig [2] 2 [0] [1] 0
      unitMat [1] ⟨[0], Real_t.num 1, Real_t.num 1, Real_t.num 1, 1, 0, []⟩ 1 (by decide)
      (by decide!) rfl rfl (by decide!) rfl rfl
      (fun y hy => ⟨y, [], by
        simp [gsXBraidMultigridBase.solve, hpAt], hy⟩)
      (by decide)⟩

/-- C16, counterexample: two stand-alone runs on the one-unknown hierarchy
`contractSolver` from `x = 0` for `f = 1`. Under the schedule tag 2 the cycle makes no
progress and the loop stops at the cap of 99999 cycles with `r/r0 = 1`; under the tag 1
the relative residual falls below `1e-8` with the 99999th cycle. Both return, and both
report the same three lines, ending with `Solver converged in: 99999 iterations!`. -/
theorem capped_and_converged_run_report_alike :
    ∃ capped converged : OuterState,
      gsXBraidMultigrid.solve unitEnv contractSolver plainStandaloneConfig [2] 2 [0] [1] 0 =
        some capped ∧
      gsXBraidMultigrid.solve unitEnv contractSolver plainStandaloneConfig [1] 2 [0] [1] 0 =
        some converged ∧
      Real_t.gt (capped.r.div capped.r0) (Real_t.num tol) = true ∧ capped.iter - 1 = 99999 ∧
      Real_t.gt (converged.r.div converged.r0) (Real_t.num tol) = false ∧
      (∃ a c, converged.r = Real_t.num a ∧ converged.r0 = Real_t.num c ∧ a / c ≤ tol) ∧
      capped.out = converged.out ∧
      capped.out = [Report.solverInformation, Report.convergedSeconds,
        Report.convergedIterations 99999] := by
  refine ⟨_, _, stall_solve, contract_solve, ?_, ?_, ?_, ?_, rfl, rfl⟩
  · exact (gt_div_one 1).mpr (by unfold tol; norm_num)
  · show (100000 : Int) - 1 = 99999
    norm_num
  · cases h : Real_t.gt ((Real_t.num (contractRate ^ 99999)).div (Real_t.num 1)) (Real_t.num tol) with
    | false => rfl
    | true => exact absurd ((gt_div_one _).mp h) (not_lt.mpr contractRate_below)
  · refine ⟨contractRate ^ 99999, 1, rfl, rfl, ?_⟩
    rw [div_one]
    exact contractRate_below

/-! ## `presmoothing`: the sweeps and the fine residual -/

/-- C21: at a level whose operator `A` fits `x` and `rhs`, `presmoothing` returns `y` and
`fineRes` exactly if `y` is the result of `numSmoothing` sweeps of the selected smoother
started at `x` and `fineRes = A*y - rhs`; with `numSmoothing = 0` it returns `x` itself
and `A*x - rhs`. -/
theorem presmoothing_sweeps_then_residual {B S : Type} (env : Env B S) (s : Solver B S)
    (cfg : Config) (hp : List ℚ) (numLevels : Nat) (A : Mat) (rhs x : Vec)
    (hA : stdAt s.m_operator ((numLevels : Int) - 1) = some A)
    (hAc : A.cols = x.length) (hAr : A.val.length = rhs.length) :
    (∀ y fineRes, presmoothing env s cfg hp numLevels rhs x = some (y, fineRes) ↔
      (iterM (smoothSweep env s cfg hp numLevels false rhs) cfg.numSmoothing.toNat x = some y ∧
        ∃ Ay, A.mulVec y = some Ay ∧ vsub Ay rhs = some fineRes)) ∧
    (cfg.numSmoothing = 0 →
      presmoothing env s cfg hp numLevels rhs x =
        some (x, List.zipWith (· - ·) (A.val.map (fun r => dot r x)) rhs)) := by
  have hAx : A.mulVec x = some (A.val.map (fun r => dot r x)) := by
    unfold Mat.mulVec; rw [if_pos hAc]
  have hd : vsub rhs (A.val.map (fun r => dot r x)) =
      some (List.zipWith (· - ·) rhs (A.val.map (fun r => dot r x))) := by
    unfold vsub; rw [if_pos (by simp [hAr])]
  have hd2 : vsub (A.val.map (fun r => dot r x)) rhs =
      some (List.zipWith (· - ·) (A.val.map (fun r => dot r x)) rhs) := by
    unfold vsub; rw [if_pos (by simp [hAr])]
  constructor
  · intro y fineRes
    simp only [presmoothing, bind, pure, hA, hAx, hd, Option.some_bind, Option.bind_eq_some,
      Option.some.injEq, Prod.mk.injEq]
    constructor
    · rintro ⟨y2, hy, Ay, hAy, fr, hfr, rfl, rfl⟩
      exact ⟨hy, Ay, hAy, hfr⟩
    · rintro ⟨hy, Ay, hAy, hfr⟩
      exact ⟨y, hy, Ay, hAy, fineRes, hfr, rfl, rfl⟩
  · intro h0
    have hk : cfg.numSmoothing.toNat = 0 := by rw [h0]; rfl
    simp only [presmoothing, bind, pure, hA, hAx, hd, hd2, hk, iterM, Option.some_bind]

/-- C21 on the fine level of `twoLevelSolver`: one forward Gauss-Seidel sweep from
`x = 0` for `rhs = (1, 1)` gives `(1/2, 3/4)` with residual `(-3/4, 0)`; without
sweeps `x = (1, 2)` is returned with residual `A*x - rhs = (-1, 2)`. -/
theorem presmoothing_sweeps_then_residual_witness :
    (presmoothing twoLevelEnv twoLevelSolver directConfig [1] 2 [1, 1] [0, 0] =
        some ([1 / 2, 3 / 4], [-3 / 4, 0]) ∧
      presmoothing twoLevelEnv twoLevelSolver noSmoothingConfig [1] 2 [1, 1] [1, 2] =
        some ([1, 2], [-1, 2])) ∧
    ((∀ y fineRes,
      presmoothing twoLevelEnv twoLevelSolver directConfig [1] 2 [1, 1] [0, 0] =
          some (y, fineRes) ↔
        (iterM (smoothSweep twoLevelEnv twoLevelSolver directConfig [1] 2 false [1, 1])
            directConfig.numSmoothing.toNat [0, 0] = some y ∧
          ∃ Ay, Mat.mulVec ⟨2, 2, [[2, -1], [-1, 2]]⟩ y = some Ay ∧
            vsub Ay [1, 1] = some fineRes)) ∧
    (directConfig.numSmoothing = 0 →
      presmoothing twoLevelEnv twoLevelSolver directConfig [1] 2 [1, 1] [0, 0] =
        some ([0, 0], List.zipWith (· - ·)
          ((Mat.val ⟨2, 2, [[2, -1], [-1, 2]]⟩).map (fun r => dot r [0, 0])) [1, 1]))) :=
  ⟨by decide!,
    presmoothing_sweeps_then_residual twoLevelEnv twoLevelSolver directConfig [1] 2
      ⟨2, 2, [[2, -1], [-1, 2]]⟩ [1, 1] [0, 0] (by decide!) rfl rfl⟩

/-! ## Application of the transfer operators -/

/-- The lumped scaling, entry by entry: entry `k` of the result is `temp_k / M_k`. -/
theorem lumpedScale_eq_div (M temp : Vec) (hlen : M.length = temp.length)
    (h0 : (0 : ℚ) ∉ M) :
    lumpedScale M temp = some (List.zipWith (fun a m => a / m) temp M) := by
  unfold lumpedScale
  rw [if_pos ⟨hlen, h0⟩]
  congr 1
  clear hlen h0
  induction M generalizing temp with
  | nil => cases temp <;> rfl
  | cons m M ih =>
      cases temp with
      | nil => rfl
      | cons a temp =>
          simp only [List.zipWith_cons_cons, List.cons.injEq]
          exact ⟨by rw [div_eq_inv_mul], ih temp⟩

/-- C23: the method `prolongation` (and likewise `restriction`) at level `numLevels` with
schedule tag `t = hp(numLevels-2)`. For `t = 1` (H-COARSEN) the result is the product of
the stored h-transfer matrix with the argument. For every other tag, in particular 0
(P-COARSEN), and `typeLumping = 1`, no system is solved: with `temp` the product of the
stored p-transfer matrix with the argument and `M` the stored lumped mass vector of the
same size without a zero entry, the result is the vector with entries `temp_k / M_k`. -/
theorem lumped_transfer_divides_entrywise {B S : Type} (env : Env B S) (s : Solver B S)
    (cfg : Config) (hp : List ℚ) (numLevels : Nat) (Xcoarse Xfine : Vec) (t : ℚ)
    (htag : hpAt hp ((numLevels : Int) - 2) = some t) :
    (t = 1 →
      prolongation env s cfg hp numLevels Xcoarse =
        (stdAt s.m_prolongation_H ((numLevels : Int) - 2)).bind (fun P => P.mulVec Xcoarse) ∧
      restriction env s cfg hp numLevels Xfine =
        (stdAt s.m_restriction_H ((numLevels : Int) - 2)).bind (fun R => R.mulVec Xfine)) ∧
    (t ≠ 1 → cfg.typeLumping = 1 →
      (∀ P M temp, stdAt s.m_prolongation_P ((numLevels : Int) - 2) = some P →
        stdAt s.m_prolongation_M ((numLevels : Int) - 2) = some M →
        P.mulVec Xcoarse = some temp → M.length = temp.length → (0 : ℚ) ∉ M →
        prolongation env s cfg hp numLevels Xcoarse =
          some (List.zipWith (fun a m => a / m) temp M)) ∧
      (∀ R M temp, stdAt s.m_restriction_P ((numLevels : Int) - 2) = some R →
        stdAt s.m_restriction_M ((numLevels : Int) - 2) = some M →
        R.mulVec Xfine = some temp → M.length = temp.length → (0 : ℚ) ∉ M →
        restriction env s cfg hp numLevels Xfine =
          some (List.zipWith (fun a m => a / m) temp M))) := by
  refine ⟨fun h1 => ⟨?_, ?_⟩, fun h1 hl => ⟨?_, ?_⟩⟩
  · simp only [prolongation, bind, htag, Option.some_bind, if_pos h1]
  · simp only [restriction, bind, htag, Option.some_bind, if_pos h1]
  · intro P M temp hP hM htemp hlen h0
    simp only [prolongation, bind, htag, Option.some_bind, if_neg h1, if_pos hl, hP, hM, htemp]
    exact lumpedScale_eq_div M temp hlen h0
  · intro R M temp hR hM htemp hlen h0
    simp only [restriction, bind, htag, Option.some_bind, if_neg h1, if_pos hl, hR, hM, htemp]
    exact lumpedScale_eq_div M temp hlen h0

/-- C23 on `factorSolver` (P-COARSEN, lumped masses `(1/2, 1/2)` and `(1)`) and on
`twoLevelSolver` (H-COARSEN): prolongation of `(3)` and restriction of `(1, 2)`. -/
theorem lumped_transfer_divides_entrywise_witness :
    (prolongation twoLevelEnv factorSolver factorConfig [0] 2 [3] = some [3, 3] ∧
      restriction twoLevelEnv factorSolver factorConfig [0] 2 [1, 2] = some [3 / 2] ∧
      prolongation twoLevelEnv twoLevelSolver factorConfig [1] 2 [3] = some [3, 3] ∧
      restriction twoLevelEnv twoLevelSolver factorConfig [1] 2 [1, 2] = some [3]) ∧
    ((0 : ℚ) = 1 →
      prolongation twoLevelEnv factorSolver factorConfig [0] 2 [3] =
        (stdAt factorSolver.m_prolongation_H (((2 : Nat) : Int) - 2)).bind
          (fun P => P.mulVec [3]) ∧
      restriction twoLevelEnv factorSolver factorConfig [0] 2 [1, 2] =
        (stdAt factorSolver.m_restriction_H (((2 : Nat) : Int) - 2)).bind
          (fun R => R.mulVec [1, 2])) ∧
    ((0 : ℚ) ≠ 1 → factorConfig.typeLumping = 1 →
      (∀ P M temp, stdAt factorSolver.m_prolongation_P (((2 : Nat) : Int) - 2) = some P →
        stdAt factorSolver.m_prolongation_M (((2 : Nat) : Int) - 2) = some M →
        P.mulVec [3] = some temp → M.length = temp.length → (0 : ℚ) ∉ M →
        prolongation twoLevelEnv factorSolver factorConfig [0] 2 [3] =
          some (List.zipWith (fun a m => a / m) temp M)) ∧
      (∀ R M temp, stdAt factorSolver.m_restriction_P (((2 : Nat) : Int) - 2) = some R →
        stdAt factorSolver.m_restriction_M (((2 : Nat) : Int) - 2) = some M →
        R.mulVec [1, 2] = some temp → M.length = temp.length → (0 : ℚ) ∉ M →
        restriction twoLevelEnv factorSolver factorConfig [0] 2 [1, 2] =
          some (List.zipWith (fun a m => a / m) temp M))) :=
  ⟨by decide!,
    lumped_transfer_divides_entrywise twoLevelEnv factorSolver factorConfig [0] 2 [3] [1, 2] 0
      (by decide!)⟩

/-! ## Gauss-Seidel smoothing: the direction of the sweeps -/

/-- C24: with Gauss-Seidel smoothing (`typeSmoother = 2`) on the operator `A` of the
level, every sweep of `presmoothing` is the forward sweep, whatever `typeSolver` is, and
every sweep of `postsmoothing`, which starts from `x - fineCorr`, is the reverse sweep if
`typeSolver = 3` and the forward sweep otherwise. -/
theorem gauss_seidel_sweep_directions {B S : Type} (env : Env B S) (s : Solver B S)
    (cfg : Config) (hp : List ℚ) (numLevels : Nat) (A : Mat) (rhs x fineCorr : Vec)
    (h2 : cfg.typeSmoother = 2)
    (hA : stdAt s.m_operator ((numLevels : Int) - 1) = some A) :
    (∀ y, smoothSweep env s cfg hp numLevels false rhs y = gaussSeidelSweep A y rhs) ∧
    presmoothing env s cfg hp numLevels rhs x =
      (A.mulVec x).bind (fun Ax => (vsub rhs Ax).bind (fun _ =>
        (iterM (fun y => gaussSeidelSweep A y rhs) cfg.numSmoothing.toNat x).bind (fun x2 =>
          (A.mulVec x2).bind (fun Ax2 => (vsub Ax2 rhs).bind (fun fineRes => some (x2, fineRes)))))) ∧
    (∀ y, postSweep env s cfg hp numLevels rhs y =
      (if cfg.typeSolver = 3 then reverseGaussSeidelSweep A y rhs
        else gaussSeidelSweep A y rhs).bind (fun y2 =>
          (A.mulVec y2).bind (fun Ay => (vsub rhs Ay).bind (fun _ => some y2)))) ∧
    postsmoothing env s cfg hp numLevels rhs x fineCorr =
      (vsub x (fineCorr.map (fun c => 1 * c))).bind (fun x1 =>
        (A.mulVec x1).bind (fun Ax => (vsub rhs Ax).bind (fun _ =>
          iterM (fun y =>
            (if cfg.typeSolver = 3 then reverseGaussSeidelSweep A y rhs
              else gaussSeidelSweep A y rhs).bind (fun y2 =>
                (A.mulVec y2).bind (fun Ay => (vsub rhs Ay).bind (fun _ => some y2))))
            cfg.numSmoothing.toNat x1))) := by
  have h1 : ¬ cfg.typeSmoother = 1 := by rw [h2]; decide
  have hsweep : ∀ (reverse : Bool) (y : Vec),
      smoothSweep env s cfg hp numLevels reverse rhs y =
        if reverse then reverseGaussSeidelSweep A y rhs else gaussSeidelSweep A y rhs := by
    intro reverse y
    unfold smoothSweep gsSweep
    rw [if_neg h1, if_pos h2]
    simp only [bind, hA, Option.some_bind]
  have hpre : ∀ y, smoothSweep env s cfg hp numLevels false rhs y = gaussSeidelSweep A y rhs := by
    intro y
    rw [hsweep]
    rfl
  have hpost : ∀ y, postSweep env s cfg hp numLevels rhs y =
      (if cfg.typeSolver = 3 then reverseGaussSeidelSweep A y rhs
        else gaussSeidelSweep A y rhs).bind (fun y2 =>
          (A.mulVec y2).bind (fun Ay => (vsub rhs Ay).bind (fun _ => some y2))) := by
    intro y
    unfold postSweep
    rw [hsweep]
    simp only [bind, pure, hA, Option.some_bind]
    by_cases h3 : cfg.typeSolver = 3
    · simp only [h3, decide_True, if_true]
    · simp only [h3, decide_False, if_false]
      rfl
  refine ⟨hpre, ?_, hpost, ?_⟩
  · have hf : smoothSweep env s cfg hp numLevels false rhs = fun y => gaussSeidelSweep A y rhs :=
      funext hpre
    unfold presmoothing
    rw [hf]
    simp only [bind, pure, hA, Option.some_bind]
  · have hf : postSweep env s cfg hp numLevels rhs = fun y =>
        (if cfg.typeSolver = 3 then reverseGaussSeidelSweep A y rhs
          else gaussSeidelSweep A y rhs).bind (fun y2 =>
            (A.mulVec y2).bind (fun Ay => (vsub rhs Ay).bind (fun _ => some y2))) :=
      funext hpost
    unfold postsmoothing
    rw [hf]
    simp only [bind, pure, hA, Option.some_bind]


/-- C24 on the fine level of `twoLevelSolver` in preconditioner mode (`typeSolver = 3`),
one sweep from `x = 0` for `rhs = (1, 1)`: presmoothing gives the forward result
`(1/2, 3/4)`, postsmoothing the reverse result `(3/4, 1/2)`; in stand-alone mode
postsmoothing gives the forward result. -/
theorem gauss_seidel_sweep_directions_witness :
    ((presmoothing twoLevelEnv twoLevelSolver preconditionerConfig [1] 2 [1, 1] [0, 0]).map
        Prod.fst = some [1 / 2, 3 / 4] ∧
      postsmoothing twoLevelEnv twoLevelSolver preconditionerConfig [1] 2 [1, 1] [0, 0] [0, 0] =
        some [3 / 4, 1 / 2] ∧
      postsmoothing twoLevelEnv twoLevelSolver standaloneConfig [1] 2 [1, 1] [0, 0] [0, 0] =
        some [1 / 2, 3 / 4]) ∧
    ((∀ y, smoothSweep twoLevelEnv twoLevelSolver preconditionerConfig [1] 2 false [1, 1] y =
        gaussSeidelSweep ⟨2, 2, [[2, -1], [-1, 2]]⟩ y [1, 1]) ∧
    presmoothing twoLevelEnv twoLevelSolver preconditionerConfig [1] 2 [1, 1] [0, 0] =
      (Mat.mulVec ⟨2, 2, [[2, -1], [-1, 2]]⟩ [0, 0]).bind (fun Ax =>
        (vsub [1, 1] Ax).bind (fun _ =>
        (iterM (fun y => gaussSeidelSweep ⟨2, 2, [[2, -1], [-1, 2]]⟩ y [1, 1])
            preconditionerConfig.numSmoothing.toNat [0, 0]).bind (fun x2 =>
          (Mat.mulVec ⟨2, 2, [[2, -1], [-1, 2]]⟩ x2).bind (fun Ax2 =>
            (vsub Ax2 [1, 1]).bind (fun fineRes => some (x2, fineRes)))))) ∧
    (∀ y, postSweep twoLevelEnv twoLevelSolver preconditionerConfig [1] 2 [1, 1] y =
      (if preconditionerConfig.typeSolver = 3 then
          reverseGaussSeidelSweep ⟨2, 2, [[2, -1], [-1, 2]]⟩ y [1, 1]
        else gaussSeidelSweep ⟨2, 2, [[2, -1], [-1, 2]]⟩ y [1, 1]).bind (fun y2 =>
          (Mat.mulVec ⟨2, 2, [[2, -1], [-1, 2]]⟩ y2).bind (fun Ay =>
            (vsub [1, 1] Ay).bind (fun _ => some y2)))) ∧
    postsmoothing twoLevelEnv twoLevelSolver preconditionerConfig [1] 2 [1, 1] [0, 0] [0, 0] =
      (vsub [0, 0] (([0, 0] : Vec).map (fun c => 1 * c))).bind (fun x1 =>
        (Mat.mulVec ⟨2, 2, [[2, -1], [-1, 2]]⟩ x1).bind (fun Ax =>
          (vsub [1, 1] Ax).bind (fun _ =>
          iterM (fun y =>
            (if preconditionerConfig.typeSolver = 3 then
                reverseGaussSeidelSweep ⟨2, 2, [[2, -1], [-1, 2]]⟩ y [1, 1]
              else gaussSeidelSweep ⟨2, 2, [[2, -1], [-1, 2]]⟩ y [1, 1]).bind (fun y2 =>
                (Mat.mulVec ⟨2, 2, [[2, -1], [-1, 2]]⟩ y2).bind (fun Ay =>
                  (vsub [1, 1] Ay).bind (fun _ => some y2))))
            preconditionerConfig.numSmoothing.toNat x1)))) :=
  ⟨by decide!,
    gauss_seidel_sweep_directions twoLevelEnv twoLevelSolver preconditionerConfig [1] 2
      ⟨2, 2, [[2, -1], [-1, 2]]⟩ [1, 1] [0, 0] [0, 0] rfl (by decide!)⟩

/-! ## Termination of the recursion -/

theorem repeatCycleFuel_some (f : Vec → Option (Vec × List Event)) :
    ∀ (k : Nat) (c : Vec),
      repeatCycleFuel (fun c => some (f c)) k c = some (repeatCycle f k c) := by
  intro k
  induction k with
  | zero => intro c; rfl
  | succ k ih =>
      intro c
      simp only [repeatCycleFuel, repeatCycle]
      cases hf : f c with
      | none => rfl
      | some r =>
          simp only [ih, Option.some_bind]
          cases repeatCycle f k r.1 with
          | none => rfl
          | some r2 => rfl

theorem cycleBlockFuel_some {B S : Type} (env : Env B S) (s : Solver B S) (cfg : Config)
    (hp : List ℚ) (numLevels mult : Nat) (rec : Vec → Vec → Option (Vec × List Event))
    (rhs x : Vec) :
    cycleBlockFuel env s cfg hp numLevels mult (fun cr c => some (rec cr c)) rhs x =
      some (cycleBlock env s cfg hp numLevels mult rec rhs x) := by
  simp only [cycleBlockFuel, cycleBlock, bind, pure]
  cases presmoothing env s cfg hp numLevels rhs x with
  | none => rfl
  | some pre =>
      simp only [Option.some_bind]
      cases restriction env s cfg hp numLevels pre.2 with
      | none => rfl
      | some coarseRes =>
          simp only [Option.some_bind, repeatCycleFuel_some]
          cases repeatCycle (rec coarseRes) mult (zeros coarseRes.length) with
          | none => rfl
          | some r =>
              simp only [Option.some_bind, Option.some.injEq]
              cases prolongation env s cfg hp numLevels r.1 with
              | none => rfl
              | some fineCorr =>
                  simp only [Option.some_bind]
                  cases postsmoothing env s cfg hp numLevels rhs pre.1 fineCorr with
                  | none => rfl
                  | some y => rfl

/-- With a bound of at least `numLevels` (and at least 1) the recursion does not use up
its bound, and its result is that of `gsXBraidMultigridBase.solve`. -/
theorem solveFuel_eq {B S : Type} (env : Env B S) (s : Solver B S) (cfg : Config)
    (hp : List ℚ) :
    ∀ (numLevels fuel : Nat) (rhs x : Vec), numLevels ≤ fuel → 1 ≤ fuel →
      gsXBraidMultigridBase.solveFuel env s cfg hp fuel numLevels rhs x =
        some (gsXBraidMultigridBase.solve env s cfg hp numLevels rhs x) := by
  intro numLevels
  induction numLevels with
  | zero =>
      intro fuel rhs x _ h1
      obtain ⟨f, rfl⟩ : ∃ f, fuel = f + 1 := ⟨fuel - 1, by omega⟩
      simp only [gsXBraidMultigridBase.solveFuel, gsXBraidMultigridBase.solve]
      have e : max (((0 : Nat) : Int) - 2) 0 = 0 := by decide
      rw [if_neg (by decide), e]
      cases hpAt hp 0 with
      | none => rfl
      | some tag => simp only [if_true, Option.some_bind]
  | succ m ih =>
      intro fuel rhs x hle _
      obtain ⟨f, rfl⟩ : ∃ f, fuel = f + 1 := ⟨fuel - 1, by omega⟩
      cases m with
      | zero =>
          simp only [gsXBraidMultigridBase.solveFuel, gsXBraidMultigridBase.solve, if_true]
      | succ n =>
          have hrec : (fun cr c => gsXBraidMultigridBase.solveFuel env s cfg hp f
              (n + 1 + 1 - 1) cr c) =
              fun cr c => some (gsXBraidMultigridBase.solve env s cfg hp (n + 1) cr c) := by
            funext cr c
            exact ih f cr c (by omega) (by omega)
          rw [solve_add_two]
          simp only [gsXBraidMultigridBase.solveFuel]
          rw [if_neg (by omega), hrec]
          cases hpAt hp (max (((n + 1 + 1 : Nat) : Int) - 2) 0) with
          | none => rfl
          | some tag =>
              simp only [Option.some_bind]
              rw [if_neg (by omega)]
              simp only [cycleBlockFuel_some]
              by_cases h0 : tag = 0
              · have h1 : ¬ tag = 1 := by rw [h0]; norm_num
                simp only [if_pos h0, if_neg h1]
                cases cycleBlock env s cfg hp (n + 1 + 1) (if cfg.typeCycle_p = 2 then 2 else 1)
                    (gsXBraidMultigridBase.solve env s cfg hp (n + 1)) rhs x with
                | none => rfl
                | some r1 => rfl
              · simp only [if_neg h0]
                by_cases h1 : tag = 1
                · simp only [if_pos h1, Option.some_bind]
                  cases cycleBlock env s cfg hp (n + 1 + 1)
                      (if cfg.typeCycle_h = 2 then 2 else 1)
                      (gsXBraidMultigridBase.solve env s cfg hp (n + 1)) rhs x with
                  | none => rfl
                  | some r2 => rfl
                · simp only [if_neg h1]
                  rfl


theorem repeatCycle_coarseCount_le (f : Vec → Option (Vec × List Event)) (N : Nat)
    (hf : ∀ c r, f c = some r → coarseCount r.2 ≤ N) :
    ∀ (k : Nat) (c : Vec) (r : Vec × List Event),
      repeatCycle f k c = some r → coarseCount r.2 ≤ k * N := by
  intro k
  induction k with
  | zero =>
      intro c r h
      simp only [repeatCycle, Option.some.injEq] at h
      subst h
      simp [coarseCount]
  | succ k ih =>
      intro c r h
      simp only [repeatCycle, Option.bind_eq_some, Option.map_eq_some'] at h
      obtain ⟨r1, h1, r2, h2, rfl⟩ := h
      have e1 := hf c r1 h1
      have e2 := ih r1.1 r2 h2
      simp only [coarseCount, List.count_append] at e1 e2 ⊢
      have : (k + 1) * N = N + k * N := by ring
      omega

theorem cycleBlock_coarseCount_le {B S : Type} (env : Env B S) (s : Solver B S) (cfg : Config)
    (hp : List ℚ) (numLevels mult : Nat) (rec : Vec → Vec → Option (Vec × List Event))
    (N : Nat) (hrec : ∀ cr c r, rec cr c = some r → coarseCount r.2 ≤ N)
    (rhs x : Vec) (r : Vec × List Event)
    (h : cycleBlock env s cfg hp numLevels mult rec rhs x = some r) :
    coarseCount r.2 ≤ mult * N := by
  simp only [cycleBlock, bind, Option.bind_eq_some, pure, Option.some.injEq] at h
  obtain ⟨pre, _, coarseRes, _, rc, hrc, fineCorr, _, y, _, rfl⟩ := h
  have e := repeatCycle_coarseCount_le (rec coarseRes) N (hrec coarseRes) mult _ rc hrc
  simp only [coarseCount, List.count_append] at e ⊢
  simp only [List.count_cons, List.count_nil]
  simpa using e

/-- A cycle on `numLevels >= 1` levels makes at most `2^(numLevels-1)` coarse solves. -/
theorem solve_coarseCount_le {B S : Type} (env : Env B S) (s : Solver B S) (cfg : Config)
    (hp : List ℚ) :
    ∀ (n : Nat) (rhs x : Vec) (r : Vec × List Event),
      gsXBraidMultigridBase.solve env s cfg hp (n + 1) rhs x = some r →
      coarseCount r.2 ≤ 2 ^ n := by
  intro n
  induction n with
  | zero =>
      intro rhs x r h
      simp only [gsXBraidMultigridBase.solve, Option.map_eq_some'] at h
      obtain ⟨y, _, rfl⟩ := h
      simp [coarseCount]
  | succ n ih =>
      intro rhs x r h
      have hmult : ∀ (c : Prop) [Decidable c] (cr y : Vec) (r : Vec × List Event),
          cycleBlock env s cfg hp (n + 2) (if c then 2 else 1)
            (gsXBraidMultigridBase.solve env s cfg hp (n + 1)) cr y = some r →
          coarseCount r.2 ≤ 2 ^ (n + 1) := by
        intro c _ cr y r hr
        have e := cycleBlock_coarseCount_le env s cfg hp (n + 2) (if c then 2 else 1)
          (gsXBraidMultigridBase.solve env s cfg hp (n + 1)) (2 ^ n) (fun a b q hq => ih a b q hq)
          cr y r hr
        have h2 : (if c then 2 else 1) * 2 ^ n ≤ 2 ^ (n + 1) := by
          rw [pow_succ]
          split <;> omega
        omega
      rw [solve_add_two] at h
      simp only [hpAt_max_add_two, Option.bind_eq_some, Option.map_eq_some'] at h
      obtain ⟨tag, _, r1, h1, r2, h2, rfl⟩ := h
      have hpos : 1 ≤ 2 ^ (n + 1) := Nat.one_le_two_pow
      by_cases h0 : tag = 0
      · have hne : ¬ tag = 1 := by rw [h0]; norm_num
        rw [if_pos h0] at h1
        rw [if_neg hne] at h2
        simp only [Option.some.injEq] at h2
        subst h2
        have := hmult _ rhs x r1 h1
        simpa [coarseCount, List.count_append] using this
      · rw [if_neg h0] at h1
        simp only [Option.some.injEq] at h1
        subst h1
        by_cases h1 : tag = 1
        · rw [if_pos h1] at h2
          have := hmult _ rhs x r2 h2
          simpa [coarseCount, List.count_append] using this
        · rw [if_neg h1] at h2
          simp only [Option.some.injEq] at h2
          subst h2
          simp [coarseCount]

/-- C26: for every `numLevels >= 1` the recursion of `gsXBraidMultigridBase::solve`
ends: run with any bound `fuel >= numLevels` on the depth of the recursion it does not
use up the bound (each recursive call is made with `numLevels-1`, down to 1) and its
result is that of the cycle; and a cycle that returns has made at most
`2^(numLevels-1)` coarse solves, two recursive calls at most per level. -/
theorem solve_recursion_terminates {B S : Type} (env : Env B S) (s : Solver B S)
    (cfg : Config) (hp : List ℚ) (numLevels : Nat) (rhs x : Vec) (hN : 1 ≤ numLevels) :
    (∀ fuel, numLevels ≤ fuel →
      gsXBraidMultigridBase.solveFuel env s cfg hp fuel numLevels rhs x =
        some (gsXBraidMultigridBase.solve env s cfg hp numLevels rhs x)) ∧
    (∀ r, gsXBraidMultigridBase.solve env s cfg hp numLevels rhs x = some r →
      coarseCount r.2 ≤ 2 ^ (numLevels - 1)) := by
  refine ⟨fun fuel hf => solveFuel_eq env s cfg hp numLevels fuel rhs x hf (by omega), ?_⟩
  intro r hr
  obtain ⟨n, rfl⟩ : ∃ n, numLevels = n + 1 := ⟨numLevels - 1, by omega⟩
  exact solve_coarseCount_le env s cfg hp n rhs x r hr

/-- C26 on a three-level run of the one-unknown model problem: a bound of 3 on the depth
of the recursion is enough and a bound of 2 is not. -/
theorem solve_recursion_terminates_witness :
    (gsXBraidMultigridBase.solveFuel unitEnv unitSolver unitConfig [0, 1] 2 3 [1] [0] = none ∧
      (gsXBraidMultigridBase.solveFuel unitEnv unitSolver unitConfig [0, 1] 3 3 [1] [0]).map
        (fun r => r.map Prod.fst) = some (some [1])) ∧
    ((∀ fuel, 3 ≤ fuel →
      gsXBraidMultigridBase.solveFuel unitEnv unitSolver unitConfig [0, 1] fuel 3 [1] [0] =
        some (gsXBraidMultigridBase.solve unitEnv unitSolver unitConfig [0, 1] 3 [1] [0])) ∧
    (∀ r, gsXBraidMultigridBase.solve unitEnv unitSolver unitConfig [0, 1] 3 [1] [0] = some r →
      coarseCount r.2 ≤ 2 ^ (3 - 1))) :=
  ⟨by decide!,
    solve_recursion_terminates unitEnv unitSolver unitConfig [0, 1] 3 [1] [0] (by decide)⟩

/-! ## Two levels: the W-cycle and the V-cycle -/

/-- At the coarsest level the result of `solve` does not depend on the `x` passed in. -/
theorem solve_one_ignores_x {B S : Type} (env : Env B S) (s : Solver B S) (cfg : Config)
    (hp : List ℚ) (rhs x y : Vec) :
    gsXBraidMultigridBase.solve env s cfg hp 1 rhs x =
      gsXBraidMultigridBase.solve env s cfg hp 1 rhs y := rfl

/-- Repeating a call whose result does not depend on the vector threaded through gives
the vector of a single call. -/
theorem repeatCycle_ignoring (f : Vec → Option (Vec × List Event))
    (hf : ∀ c d, f c = f d) :
    ∀ (k : Nat) (c : Vec),
      (repeatCycle f (k + 1) c).map Prod.fst = (f c).map Prod.fst := by
  intro k
  induction k with
  | zero =>
      intro c
      show ((f c).bind (fun r => (repeatCycle f 0 r.1).map (fun r2 => (r2.1, r.2 ++ r2.2)))).map
        Prod.fst = (f c).map Prod.fst
      cases f c with
      | none => rfl
      | some r => rfl
  | succ k ih =>
      intro c
      show ((f c).bind (fun r =>
        (repeatCycle f (k + 1) r.1).map (fun r2 => (r2.1, r.2 ++ r2.2)))).map Prod.fst =
          (f c).map Prod.fst
      cases hfc : f c with
      | none => rfl
      | some r =>
          have h := ih r.1
          rw [hf r.1 c, hfc] at h
          rw [Option.some_bind, Option.map_map]
          cases hr : repeatCycle f (k + 1) r.1 with
          | none => rw [hr] at h; simp at h
          | some r2 =>
              rw [hr] at h
              simp only [Option.map_some', Option.some.injEq] at h
              simp only [Option.map_some', Function.comp, h]

/-- On two levels the vector returned by the guarded block is the same for every number
`k + 1` of recursive calls. -/
theorem cycleBlock_two_levels {B S : Type} (env : Env B S) (s : Solver B S) (cfg : Config)
    (hp : List ℚ) (k : Nat) (rhs x : Vec) :
    (cycleBlock env s cfg hp 2 (k + 1) (gsXBraidMultigridBase.solve env s cfg hp 1) rhs x).map
        Prod.fst =
      (cycleBlock env s cfg hp 2 1 (gsXBraidMultigridBase.solve env s cfg hp 1) rhs x).map
        Prod.fst := by
  simp only [cycleBlock, bind, pure, Option.bind_eq_bind]
  cases presmoothing env s cfg hp 2 rhs x with
  | none => rfl
  | some pre =>
      simp only [Option.some_bind]
      cases restriction env s cfg hp 2 pre.2 with
      | none => rfl
      | some coarseRes =>
          simp only [Option.some_bind]
          have hk := repeatCycle_ignoring (gsXBraidMultigridBase.solve env s cfg hp 1 coarseRes)
            (fun c d => solve_one_ignores_x env s cfg hp coarseRes c d) k
            (zeros coarseRes.length)
          have h0 := repeatCycle_ignoring (gsXBraidMultigridBase.solve env s cfg hp 1 coarseRes)
            (fun c d => solve_one_ignores_x env s cfg hp coarseRes c d) 0
            (zeros coarseRes.length)
          rw [← h0] at hk
          cases hr : repeatCycle (gsXBraidMultigridBase.solve env s cfg hp 1 coarseRes) (k + 1)
              (zeros coarseRes.length) with
          | none =>
              rw [hr] at hk
              cases hr1 : repeatCycle (gsXBraidMultigridBase.solve env s cfg hp 1 coarseRes)
                  (0 + 1) (zeros coarseRes.length) with
              | none => rfl
              | some r1 => rw [hr1] at hk; simp at hk
          | some r =>
              rw [hr] at hk
              cases hr1 : repeatCycle (gsXBraidMultigridBase.solve env s cfg hp 1 coarseRes)
                  (0 + 1) (zeros coarseRes.length) with
              | none => rw [hr1] at hk; simp at hk
              | some r1 =>
                  rw [hr1] at hk
                  simp only [Option.map_some', Option.some.injEq] at hk
                  simp only [Option.some_bind, hk]
                  cases prolongation env s cfg hp 2 r1.1 with
                  | none => rfl
                  | some fineCorr =>
                      simp only [Option.some_bind]
                      cases postsmoothing env s cfg hp 2 rhs pre.1 fineCorr with
                      | none => rfl
                      | some y => rfl

/-- The guarded block reads the cycle types only through the number of recursive calls
it is given. -/
theorem cycleBlock_withCycleTypes {B S : Type} (env : Env B S) (s : Solver B S) (cfg : Config)
    (hp : List ℚ) (cp ch : Int) (numLevels mult : Nat)
    (rec : Vec → Vec → Option (Vec × List Event)) (rhs x : Vec) :
    cycleBlock env s (withCycleTypes cfg cp ch) hp numLevels mult rec rhs x =
      cycleBlock env s cfg hp numLevels mult rec rhs x := rfl

/-- C27: on a two-level hierarchy the W-cycle (cycle types 2) and the V-cycle (cycle
types 1) return for the same inputs and return the same `x`, whatever the schedule, the
smoother and the transfer operators are: the second coarse solve of the W-cycle has the
same right-hand side as the first and overwrites its result. -/
theorem w_cycle_equals_v_cycle_on_two_levels {B S : Type} (env : Env B S) (s : Solver B S)
    (cfg : Config) (hp : List ℚ) (rhs x : Vec) :
    (gsXBraidMultigridBase.solve env s (withCycleTypes cfg 2 2) hp 2 rhs x).map Prod.fst =
      (gsXBraidMultigridBase.solve env s (withCycleTypes cfg 1 1) hp 2 rhs x).map Prod.fst := by
  have hrec : ∀ cp ch, gsXBraidMultigridBase.solve env s (withCycleTypes cfg cp ch) hp 1 =
      gsXBraidMultigridBase.solve env s cfg hp 1 := fun _ _ => rfl
  have hW : ∀ y, (cycleBlock env s cfg hp 2 2 (gsXBraidMultigridBase.solve env s cfg hp 1)
      rhs y).map Prod.fst = (cycleBlock env s cfg hp 2 1
        (gsXBraidMultigridBase.solve env s cfg hp 1) rhs y).map Prod.fst :=
    fun y => cycleBlock_two_levels env s cfg hp 1 rhs y
  rw [solve_add_two, solve_add_two]
  simp only [hrec, cycleBlock_withCycleTypes]
  have e2 : (withCycleTypes cfg 2 2).typeCycle_p = 2 := rfl
  have e3 : (withCycleTypes cfg 2 2).typeCycle_h = 2 := rfl
  have e4 : (withCycleTypes cfg 1 1).typeCycle_p = 1 := rfl
  have e5 : (withCycleTypes cfg 1 1).typeCycle_h = 1 := rfl
  rw [e2, e3, e4, e5]
  have n12 : ¬ ((1 : Int) = 2) := by decide
  rw [if_pos rfl, if_neg n12]
  cases hpAt hp (max (((0 + 2 : Nat) : Int) - 2) 0) with
  | none => rfl
  | some tag =>
      simp only [Option.some_bind]
      by_cases h0 : tag = 0
      · have h1 : ¬ tag = 1 := by rw [h0]; norm_num
        simp only [if_pos h0, if_neg h1]
        have h := hW x
        cases hw : cycleBlock env s cfg hp 2 2 (gsXBraidMultigridBase.solve env s cfg hp 1) rhs x with
        | none =>
            rw [hw] at h
            cases hv : cycleBlock env s cfg hp 2 1 (gsXBraidMultigridBase.solve env s cfg hp 1)
                rhs x with
            | none => rfl
            | some r => rw [hv] at h; simp at h
        | some r =>
            rw [hw] at h
            cases hv : cycleBlock env s cfg hp 2 1 (gsXBraidMultigridBase.solve env s cfg hp 1)
                rhs x with
            | none => rw [hv] at h; simp at h
            | some r1 =>
                rw [hv] at h
                simp only [Option.map_some', Option.some.injEq] at h
                simp only [Option.some_bind, Option.map_some', h]
      · simp only [if_neg h0, Option.some_bind]
        by_cases h1 : tag = 1
        · simp only [if_pos h1, Option.map_map]
          have h := hW x
          cases hw : cycleBlock env s cfg hp 2 2 (gsXBraidMultigridBase.solve env s cfg hp 1)
              rhs x with
          | none =>
              rw [hw] at h
              cases hv : cycleBlock env s cfg hp 2 1 (gsXBraidMultigridBase.solve env s cfg hp 1)
                  rhs x with
              | none => rfl
              | some r => rw [hv] at h; simp at h
          | some r =>
              rw [hw] at h
              cases hv : cycleBlock env s cfg hp 2 1 (gsXBraidMultigridBase.solve env s cfg hp 1)
                  rhs x with
              | none => rw [hv] at h; simp at h
              | some r1 =>
                  rw [hv] at h
                  simp only [Option.map_some', Option.some.injEq] at h
                  simp only [Option.map_some', Function.comp, h]
        · simp only [if_neg h1]

/-- A two-level W-cycle and V-cycle on the model problem `twoLevelSolver`: the same `x`,
two coarse solves against one. -/
theorem w_cycle_two_levels_example :
    (gsXBraidMultigridBase.solve twoLevelEnv twoLevelSolver (withCycleTypes noSmoothingConfig 2 2)
        [1] 2 [1, 1] [0, 0]).map (fun r => (r.1, coarseCount r.2)) =
      (gsXBraidMultigridBase.solve twoLevelEnv twoLevelSolver (withCycleTypes noSmoothingConfig 1 1)
        [1] 2 [1, 1] [0, 0]).map (fun r => (r.1, coarseCount r.2 + 1)) ∧
    (gsXBraidMultigridBase.solve twoLevelEnv twoLevelSolver (withCycleTypes noSmoothingConfig 1 1)
        [1] 2 [1, 1] [0, 0]).isSome = true := by
  decide!

/-! ## A schedule tag that is neither 0 nor 1 -/

/-- C28: for `numLevels >= 2` and a schedule tag `hp(numLevels-2)` that is neither 0 nor
1, `solve` returns `x` unchanged and calls none of `presmoothing`, `restriction`,
`solvecoarse` (reached only through a recursive call), `prolongation` and
`postsmoothing`: both guarded blocks are skipped. -/
theorem solve_skips_level_with_other_tag {B S : Type} (env : Env B S) (s : Solver B S)
    (cfg : Config) (hp : List ℚ) (numLevels : Nat) (rhs x : Vec) (t : ℚ)
    (hN : 2 ≤ numLevels) (htag : hp[numLevels - 2]? = some t) (h0 : t ≠ 0) (h1 : t ≠ 1) :
    gsXBraidMultigridBase.solve env s cfg hp numLevels rhs x = some (x, []) := by
  obtain ⟨n, rfl⟩ : ∃ n, numLevels = n + 2 := ⟨numLevels - 2, by omega⟩
  have hn : n + 2 - 2 = n := by omega
  rw [hn] at htag
  rw [solve_add_two, hpAt_max_add_two, htag, Option.some_bind, if_neg h0, Option.some_bind,
    if_neg h1]
  rfl

/-- C28 on a hierarchy built by `setup` for the one-row schedule `(2)`: `setup` accepts the
tag as refine-and-elevate, the second basis is the refined and elevated first one, and
the cycle on the two levels returns `x` as it was, with no call made. -/
theorem solve_skips_level_with_other_tag_witness :
    ((gismo.setup gridEnv directConfig [2] 2 (gsXBraidMultigrid (1, 0))).map
        (fun s => s.m_basis)) = some [(1, 0), (2, 1)] ∧
    gsXBraidMultigridBase.solve gridEnv
        ((gismo.setup gridEnv directConfig [2] 2 (gsXBraidMultigrid (1, 0))).get (by decide!))
        directConfig [2] 2 [1, 1, 1, 1] [5, 6, 7, 8] = some ([5, 6, 7, 8], []) :=
  ⟨by decide!,
    solve_skips_level_with_other_tag gridEnv _ directConfig [2] 2 [1, 1, 1, 1] [5, 6, 7, 8] 2
      (by decide) rfl (by norm_num) (by norm_num)⟩

/-! ## Galerkin projection: a product formed for a P-COARSEN transition -/

/-- C29, the second branch of the Galerkin loop (schedules whose last tag is 1): an
iteration `i >= 1` whose guard tag `hp(min(i, rows-1))` is 1 forms the product with index
`i - 1`, whatever the tag `hp(i-1)` of that transition is. When `hp(i-1) = 0` the product
`m_restriction_H[i-1] * m_operator[i] * m_prolongation_H[i-1]` is formed for a P-COARSEN
transition, and the loop body is the assignment with the h-transfer matrices of index
`i - 1`, which `setup` did not populate. -/
theorem galerkin_product_formed_for_p_transition {B S : Type} (hp : List ℚ) (N i : Nat)
    (t : Solver B S)
    (hN : 3 ≤ N) (hlen : hp.length = N - 1) (hlast : hp[N - 2]? = some 1)
    (hi : 1 ≤ i) (hiN : i ≤ N - 1) (htag : hp[min i (N - 2)]? = some 1)
    (hprev : hp[i - 1]? = some 0) :
    galerkinTarget hp i = some (some (i - 1)) ∧ hp[i - 1]? ≠ some 1 ∧
    galerkinStep hp t i = galerkinAssign t (i - 1) := by
  have hl1 : 1 ≤ hp.length := by omega
  have e : hp.length - 1 = N - 2 := by omega
  have hne : ¬ ((1 : ℚ) = 0) := by norm_num
  have ht : galerkinTarget hp i = some (some (i - 1)) := by
    rw [galerkinTarget_eq i hl1 1 1 (by rw [e]; exact hlast) (by rw [e]; exact htag),
      if_neg hne, if_pos ⟨rfl, by omega⟩]
  refine ⟨ht, ?_, ?_⟩
  · rw [hprev]
    intro h
    have := Option.some.inj h
    norm_num at this
  · unfold galerkinStep
    rw [ht]

/-- C29 at `numLevels = 3`, `hp = (0, 1)`, `typeCoarseOperator = 2`: iteration 1 forms the
product with index 0 although `hp(0) = 0`; the products formed are those with index 1 and
0; the h-transfer matrices of index 0 are the empty ones left by `resize`, and `setup`
builds no hierarchy, while with direct assembly it does. -/
theorem galerkin_product_formed_for_p_transition_witness :
    (galerkinTarget [0, 1] 1 = some (some (1 - 1)) ∧ ([0, 1] : List ℚ)[1 - 1]? ≠ some 1 ∧
      galerkinStep [0, 1] (gsXBraidMultigrid (1, 0) : Solver (Nat × Nat) Unit) 1 =
        galerkinAssign (gsXBraidMultigrid (1, 0)) (1 - 1)) ∧
    galerkinPlan [0, 1] 3 = some [1, 0] ∧
    (setup gridEnv directConfig [0, 1] 3 (gsXBraidMultigrid (1, 0))).map
      (fun s => (s.m_restriction_H[0]?, s.m_prolongation_H[0]?)) =
        some (some Mat.empty, some Mat.empty) ∧
    setup gridEnv galerkinConfig [0, 1] 3 (gsXBraidMultigrid (1, 0)) = none :=
  ⟨galerkin_product_formed_for_p_transition [0, 1] 3 1 (gsXBraidMultigrid (1, 0)) (by decide)
      rfl rfl (by decide) (by decide) rfl rfl,
    by decide!, by decide!, by decide!⟩

/-! ## The extents of the subdomains: `global_interior` is read but never filled -/

/-- A `mapM` that returns has a value at every element. -/
theorem mapM_some_of_mem {α β : Type} (f : α → Option β) :
    ∀ (l : List α) (g : List β), l.mapM f = some g → ∀ a, a ∈ l → ∃ b, f a = some b := by
  intro l
  induction l with
  | nil => intro g _ a ha; simp at ha
  | cons c l ih =>
      intro g h a ha
      rw [← List.mapM'_eq_mapM] at h
      simp only [List.mapM'_cons, bind, pure, Option.bind_eq_some] at h
      obtain ⟨b, hb, g2, hg2, _⟩ := h
      rw [List.mapM'_eq_mapM] at hg2
      rcases List.mem_cons.mp ha with rfl | hmem
      · exact ⟨b, hb⟩
      · exact ih g2 hg2 a hmem

/-- The extents recorded for a level: every read of `global_interior` was inside it, there
is one extent per patch and one for the interface, and they sum to the number of rows. -/
theorem blockShift_some (numPatch : Nat) (global_interior : List Nat) (rows : Nat)
    (shift : List Int) (h : blockShift numPatch global_interior rows = some shift) :
    numPatch ≤ global_interior.length ∧ shift.sum = (rows : Int) := by
  unfold blockShift at h
  simp only [Option.map_eq_some'] at h
  obtain ⟨g, hg, rfl⟩ := h
  constructor
  · by_contra hlt
    have hpos : 0 < numPatch := by omega
    obtain ⟨b, hb⟩ := mapM_some_of_mem _ _ g hg (numPatch - 1)
      (List.mem_range.mpr (by omega))
    have : global_interior[numPatch - 1]? = none := List.getElem?_eq_none (by omega)
    rw [this] at hb
    simp at hb
  · simp only [List.sum_append, List.sum_cons, List.sum_nil]
    ring

/-- With at least one patch, the first read `global_interior[0]` of an empty vector has no
value. -/
theorem blockShift_empty (numPatch rows : Nat) (h : 1 ≤ numPatch) :
    blockShift numPatch [] rows = none := by
  cases hs : blockShift numPatch [] rows with
  | none => rfl
  | some shift =>
      have := (blockShift_some numPatch [] rows shift hs).1
      simp at this
      omega

theorem blockStep1_empty {B S : Type} (env : Env B S) (t : Solver B S) (i : Nat)
    (h : 1 ≤ env.nPatches) : blockStep1 env [] t i = none := by
  unfold blockStep1
  split
  · rw [blockShift_empty env.nPatches _ h]
  · rfl

theorem setupBlockPhase_empty {B S : Type} (env : Env B S) (cfg : Config) (numLevels : Nat)
    (s : Solver B S) (h5 : cfg.typeSmoother = 5) (hP : 1 ≤ env.nPatches) (hN : 1 ≤ numLevels) :
    setupBlockPhase env cfg numLevels (fun _ => []) s = none := by
  obtain ⟨n, rfl⟩ : ∃ n, numLevels = n + 1 := ⟨numLevels - 1, by omega⟩
  unfold setupBlockPhase
  rw [if_pos h5, List.range_succ_eq_map, List.foldlM_cons, blockStep1_empty env _ 0 hP]
  rfl

/-- C30: with the domain-decomposition smoother (`typeSmoother = 5`), at least one patch
and at least one level, `setup` reads `global_interior[0]` in its first iteration while
the vector is empty (the call that would fill it, at line 654, is commented out): the read
is outside the vector and `setup` has no defined result. Extents that are recorded from
a filled vector would stem from reads inside it and sum to the rows of the operator. -/
theorem block_setup_reads_outside_global_interior {B S : Type} (env : Env B S) (cfg : Config)
    (hp : List ℚ) (numLevels : Nat) (s : Solver B S)
    (h5 : cfg.typeSmoother = 5) (hP : 1 ≤ env.nPatches) (hN : 1 ≤ numLevels) :
    (∀ rows, blockShift env.nPatches [] rows = none) ∧
    (∀ t i, blockStep1 env [] t i = none) ∧
    gsXBraidMultigrid.setup env cfg hp numLevels s = none ∧
    (∀ global_interior rows shift,
      blockShift env.nPatches global_interior rows = some shift →
      env.nPatches ≤ global_interior.length ∧ shift.sum = (rows : Int)) := by
  refine ⟨fun rows => blockShift_empty _ rows hP, fun t i => blockStep1_empty env t i hP, ?_,
    fun gi rows shift h => blockShift_some _ gi rows shift h⟩
  unfold gsXBraidMultigrid.setup
  cases gismo.setup env cfg hp numLevels s with
  | none => rfl
  | some s1 =>
      rw [Option.some_bind]
      cases setupSCMSPhase env cfg numLevels s1 with
      | none => rfl
      | some s2 =>
          rw [Option.some_bind]
          cases setupILUTPhase env cfg numLevels s2 with
          | none => rfl
          | some s3 =>
              rw [Option.some_bind]
              exact setupBlockPhase_empty env cfg numLevels s3 h5 hP hN

/-- C30 on a one-patch, two-level model problem with an H-COARSEN transition: the hierarchy
itself is built and the phases before the block phase succeed; `setup` fails at the read
of `global_interior`. -/
theorem block_setup_reads_outside_global_interior_witness :
    (((gismo.setup gridEnv blockConfig [1] 2 (gsXBraidMultigrid (1, 0))).bind
        (setupSCMSPhase gridEnv blockConfig 2)).bind
        (setupILUTPhase gridEnv blockConfig 2)).isSome = true ∧
    ((∀ rows, blockShift gridEnv.nPatches [] rows = none) ∧
    (∀ t i, blockStep1 gridEnv [] t i = none) ∧
    gsXBraidMultigrid.setup gridEnv blockConfig [1] 2 (gsXBraidMultigrid (1, 0)) = none ∧
    (∀ global_interior rows shift,
      blockShift gridEnv.nPatches global_interior rows = some shift →
      gridEnv.nPatches ≤ global_interior.length ∧ shift.sum = (rows : Int))) :=
  ⟨by decide!,
    block_setup_reads_outside_global_interior gridEnv blockConfig [1] 2
      (gsXBraidMultigrid (1, 0)) rfl (by decide) (by decide)⟩

/-! ## The interface matrix that `setup` assembles -/

theorem full_setup_block {B S : Type} (env : Env B S) (cfg : Config) (hp : List ℚ)
    (numLevels : Nat) (s0 t : Solver B S) (hsm : cfg.typeSmoother = 5)
    (h : gsXBraidMultigrid.setup env cfg hp numLevels s0 = some t) :
    ∃ s1, setup env cfg hp numLevels s0 = some s1 ∧
      setupBlockPhase env cfg numLevels (fun _ => []) s1 = some t := by
  unfold gsXBraidMultigrid.setup at h
  simp only [Option.bind_eq_some] at h
  obtain ⟨s1, h1, s2, h2, s3, h3, h4⟩ := h
  have e2 : s2 = s1 := by
    unfold setupSCMSPhase at h2
    rw [hsm] at h2
    simpa using h2.symm
  have e3 : s3 = s2 := by
    unfold setupILUTPhase at h3
    rw [hsm] at h3
    simpa using h3.symm
  subst e3 e2
  exact ⟨s3, h1, h4⟩

theorem full_setup_block_none {B S : Type} (env : Env B S) (cfg : Config) (hp : List ℚ)
    (numLevels : Nat) (s : Solver B S) (h5 : cfg.typeSmoother = 5) (hP : 1 ≤ env.nPatches)
    (hN : 1 ≤ numLevels) : gsXBraidMultigrid.setup env cfg hp numLevels s = none := by
  cases h : gsXBraidMultigrid.setup env cfg hp numLevels s with
  | none => rfl
  | some t =>
      obtain ⟨s1, _, hb⟩ := full_setup_block env cfg hp numLevels s t h5 h
      rw [setupBlockPhase_empty env cfg numLevels s1 h5 hP hN] at hb
      simp at hb

/-- C13: on a problem with a single patch, `setup` with the domain-decomposition smoother
(`typeSmoother = 5`) has no defined result: it reads `global_interior[0]` while the
vector is empty. There is then no smoother state on which a sweep of that smoother could
run, so `setup` followed by one sweep yields no iterate, for every level, direction,
right-hand side and `x`. -/
theorem block_sweep_has_no_state_on_single_subdomain {B S : Type} (env : Env B S)
    (cfg : Config) (hp : List ℚ) (numLevels : Nat) (s : Solver B S) (l : Nat) (reverse : Bool)
    (rhs x : Vec) (h5 : cfg.typeSmoother = 5) (hnp : env.nPatches = 1) (hN : 1 ≤ numLevels) :
    (gsXBraidMultigrid.setup env cfg hp numLevels s).bind
      (fun sD => smoothSweep env sD cfg hp l reverse rhs x) = none := by
  rw [full_setup_block_none env cfg hp numLevels s h5 (by omega) hN]
  rfl

/-- C13 on a one-patch, two-level model problem: with `typeSmoother = 1` and otherwise the
same options, `setup` followed by one sweep at the finest level from `x = 0` gives the
iterate `(1/2, 1/2, 1/2)`; with `typeSmoother = 5` there is no iterate. -/
theorem block_sweep_has_no_state_on_single_subdomain_witness :
    gridEnv.nPatches = 1 ∧
    (gsXBraidMultigrid.setup gridEnv { blockConfig with typeSmoother := 1 } [0] 2
        (gsXBraidMultigrid (1, 0))).bind
      (fun sI => smoothSweep gridEnv sI { blockConfig with typeSmoother := 1 } [0] 2 false
        [1, 1, 1] [0, 0, 0]) = some [1 / 2, 1 / 2, 1 / 2] ∧
    (gsXBraidMultigrid.setup gridEnv blockConfig [0] 2 (gsXBraidMultigrid (1, 0))).bind
      (fun sD => smoothSweep gridEnv sD blockConfig [0] 2 false [1, 1, 1] [0, 0, 0]) = none :=
  ⟨rfl, by decide!,
    block_sweep_has_no_state_on_single_subdomain gridEnv blockConfig [0] 2
      (gsXBraidMultigrid (1, 0)) 2 false [1, 1, 1] [0, 0, 0] rfl rfl (by decide)⟩

/-! ## One sweep of the incomplete-factorization smoother -/

/-- The inner product as a sum over indices; entries beyond a list count as zero. -/
theorem dot_eq_sum (a b : Vec) :
    ∀ (n : Nat), min a.length b.length ≤ n →
      dot a b = ∑ j in Finset.range n, a.getD j 0 * b.getD j 0 := by
  induction a generalizing b with
  | nil =>
      intro n _
      simp [dot]
  | cons x a ih =>
      intro n hn
      cases b with
      | nil => simp [dot]
      | cons y b =>
          obtain ⟨m, rfl⟩ : ∃ m, n = m + 1 := ⟨n - 1, by simp at hn; omega⟩
          rw [dot_cons, Finset.sum_range_succ', ih b m (by simp at hn ⊢; omega)]
          simp only [List.getD_cons_succ, List.getD_cons_zero]
          ring

theorem getD_append_left (a t : Vec) (j : Nat) (h : j < a.length) :
    (a ++ t).getD j 0 = a.getD j 0 := by
  simp only [List.getD_eq_getElem?_getD, List.getElem?_append_left h]

theorem getD_append_right (a t : Vec) (j : Nat) :
    (a ++ t).getD (a.length + j) 0 = t.getD j 0 := by
  simp only [List.getD_eq_getElem?_getD]
  rw [List.getElem?_append_right (by omega)]
  simp

theorem getD_take (row : Vec) (k j : Nat) (h : j < k) : (row.take k).getD j 0 = row.getD j 0 := by
  simp only [List.getD_eq_getElem?_getD, List.getElem?_take_of_lt h]

theorem getD_drop (row : Vec) (k j : Nat) : (row.drop k).getD j 0 = row.getD (k + j) 0 := by
  simp only [List.getD_eq_getElem?_getD, List.getElem?_drop]

/-- Forward substitution: what `unitLowerRows` appends to the entries already computed
satisfies the rows consumed. -/
theorem unitLowerRows_spec :
    ∀ (rows : List (List ℚ)) (bs acc : Vec), rows.length = bs.length →
      ∃ t, unitLowerRows rows bs acc = acc ++ t ∧ t.length = bs.length ∧
        ∀ i, i < bs.length →
          (unitLowerRows rows bs acc).getD (acc.length + i) 0 +
            ∑ j in Finset.range (acc.length + i),
              (rows.getD i []).getD j 0 * (unitLowerRows rows bs acc).getD j 0 = bs.getD i 0 := by
  intro rows
  induction rows with
  | nil =>
      intro bs acc h
      cases bs with
      | nil => exact ⟨[], by simp [unitLowerRows], rfl, fun i hi => by simp at hi⟩
      | cons b bs => simp at h
  | cons row rows ih =>
      intro bs acc h
      cases bs with
      | nil => simp at h
      | cons b bs =>
          have hlen : rows.length = bs.length := by simpa using h
          obtain ⟨t, ht, htl, hrow⟩ := ih bs (acc ++ [b - dot (row.take acc.length) acc]) hlen
          have hy : unitLowerRows (row :: rows) (b :: bs) acc =
              unitLowerRows rows bs (acc ++ [b - dot (row.take acc.length) acc]) := rfl
          rw [hy]
          refine ⟨(b - dot (row.take acc.length) acc) :: t, ?_, by simp [htl], ?_⟩
          · rw [ht]; simp
          · intro i hi
            cases i with
            | zero =>
                rw [ht]
                have e1 : ((acc ++ [b - dot (row.take acc.length) acc]) ++ t).getD
                    (acc.length + 0) 0 = b - dot (row.take acc.length) acc := by
                  rw [List.append_assoc, getD_append_right]
                  rfl
                have e2 : ∑ j in Finset.range (acc.length + 0),
                    ((row :: rows).getD 0 []).getD j 0 *
                      ((acc ++ [b - dot (row.take acc.length) acc]) ++ t).getD j 0 =
                    dot (row.take acc.length) acc := by
                  rw [dot_eq_sum (row.take acc.length) acc acc.length (by simp)]
                  apply Finset.sum_congr rfl
                  intro j hj
                  have hj2 : j < acc.length := by simpa using hj
                  rw [List.append_assoc, getD_append_left acc _ j hj2, getD_take row _ j hj2]
                  rfl
                rw [e1, e2]
                simp
            | succ i =>
                have hi2 : i < bs.length := by simpa using hi
                have := hrow i hi2
                simp only [List.length_append, List.length_singleton] at this
                have e : acc.length + (i + 1) = acc.length + 1 + i := by omega
                rw [e]
                simpa using this

theorem solveUnitLower_spec (M : Mat) (b y : Vec) (h : solveUnitLower M b = some y) :
    LowerSolution M b y := by
  unfold solveUnitLower at h
  split at h
  · rename_i hc
    simp only [Option.some.injEq] at h
    obtain ⟨t, ht, htl, hrow⟩ := unitLowerRows_spec M.val b [] hc.2.2
    rw [h] at ht hrow
    refine ⟨by rw [ht]; simpa using htl, ?_⟩
    intro i hi
    have := hrow i hi
    simpa [Mat.entry] using this
  · simp at h

/-- Back substitution: with nonzero pivots `upperRows` returns, and what it puts in front
of the entries already computed satisfies the rows consumed. Row `k` of the reversed list
is row `i - k` of the matrix. -/
theorem upperRows_spec :
    ∀ (rrows : List (List ℚ)) (rbs : Vec) (i : Nat) (acc : Vec),
      rrows.length = rbs.length → (rrows.length = i + 1 ∨ rrows = []) →
      (∀ k, k < rrows.length → (rrows.getD k []).getD (i - k) 0 ≠ 0) →
      ∃ z t, upperRows rrows rbs i acc = some z ∧ z = t ++ acc ∧ t.length = rrows.length ∧
        ∀ k, k < rrows.length →
          ∑ j in Finset.range (acc.length + k + 1),
            (rrows.getD k []).getD (i - k + j) 0 * z.getD (i - k + j) 0 = rbs.getD k 0 := by
  intro rrows
  induction rrows with
  | nil =>
      intro rbs i acc h _ _
      cases rbs with
      | nil => exact ⟨acc, [], rfl, rfl, rfl, fun k hk => by simp at hk⟩
      | cons b bs => simp at h
  | cons row rows ih =>
      intro rbs i acc h hi hpiv
      cases rbs with
      | nil => simp at h
      | cons b bs =>
          have hlen : rows.length = bs.length := by simpa using h
          have hri : rows.length = i := by
            rcases hi with h1 | h1
            · simpa using h1
            · simp at h1
          have hp0 : row.getD i 0 ≠ 0 := by
            have := hpiv 0 (by simp)
            simpa using this
          have hstep : upperRows (row :: rows) (b :: bs) i acc =
              upperRows rows bs (i - 1) (((b - dot (row.drop (i + 1)) acc) / row.getD i 0) :: acc) := by
            show (if row.getD i 0 = 0 then none else _) = _
            rw [if_neg hp0]
          obtain ⟨z, t, hz, hzt, htl, hrow⟩ := ih bs (i - 1)
            (((b - dot (row.drop (i + 1)) acc) / row.getD i 0) :: acc) hlen
            (by
              cases i with
              | zero => right; exact List.length_eq_zero.mp hri
              | succ i => left; simpa using hri)
            (by
              intro k hk
              have := hpiv (k + 1) (by simpa using hk)
              have e : i - (k + 1) = i - 1 - k := by omega
              rw [e] at this
              simpa using this)
          refine ⟨z, t ++ [(b - dot (row.drop (i + 1)) acc) / row.getD i 0], by rw [hstep, hz],
            by rw [hzt]; simp, by simp [htl], ?_⟩
          intro k hk
          cases k with
          | zero =>
              have hti : t.length = i := by rw [htl, hri]
              rw [Finset.sum_range_succ']
              have e0 : z.getD (i - 0 + 0) 0 = (b - dot (row.drop (i + 1)) acc) / row.getD i 0 := by
                rw [hzt]
                have := getD_append_right t
                  (((b - dot (row.drop (i + 1)) acc) / row.getD i 0) :: acc) 0
                rw [hti] at this
                simpa using this
              have e1 : ∑ j in Finset.range acc.length,
                  ((row :: rows).getD 0 []).getD (i - 0 + (j + 1)) 0 * z.getD (i - 0 + (j + 1)) 0 =
                  dot (row.drop (i + 1)) acc := by
                rw [dot_eq_sum (row.drop (i + 1)) acc acc.length (by simp)]
                apply Finset.sum_congr rfl
                intro j _
                rw [getD_drop, hzt]
                have := getD_append_right t
                  (((b - dot (row.drop (i + 1)) acc) / row.getD i 0) :: acc) (j + 1)
                rw [hti] at this
                have e : i - 0 + (j + 1) = i + (j + 1) := by omega
                rw [e, this]
                have e2 : i + 1 + j = i + (j + 1) := by omega
                rw [e2]
                rfl
              rw [e1, e0]
              show dot (row.drop (i + 1)) acc +
                row.getD i 0 * ((b - dot (row.drop (i + 1)) acc) / row.getD i 0) = b
              rw [mul_div_cancel₀ _ hp0]
              ring
          | succ k =>
              have hk2 : k < rows.length := by simpa using hk
              have := hrow k hk2
              have e : i - (k + 1) = i - 1 - k := by omega
              rw [e]
              simpa [Nat.add_assoc, Nat.add_comm 1 k] using this

theorem getD_reverse_rows (l : List (List ℚ)) (k : Nat) (h : k < l.length) :
    l.reverse.getD k [] = l.getD (l.length - 1 - k) [] := by
  simp only [List.getD_eq_getElem?_getD]
  rw [List.getElem?_reverse h]

theorem getD_reverse_vec (l : Vec) (k : Nat) (h : k < l.length) :
    l.reverse.getD k 0 = l.getD (l.length - 1 - k) 0 := by
  simp only [List.getD_eq_getElem?_getD]
  rw [List.getElem?_reverse h]

/-- Back substitution with a square factor with nonzero pivots returns the solution of
`U z = b`. -/
theorem solveUpper_spec (M : Mat) (b : Vec) (n : Nat) (hsq : M.SquareOf n)
    (hd : M.DiagNonzero) (hb : b.length = n) :
    ∃ z, solveUpper M b = some z ∧ UpperSolution M b z := by
  obtain ⟨hr, hc, hv⟩ := hsq
  have hpiv : ∀ k, k < M.val.reverse.length →
      (M.val.reverse.getD k []).getD (b.length - 1 - k) 0 ≠ 0 := by
    intro k hk
    have hk2 : k < M.val.length := by simpa using hk
    rw [getD_reverse_rows M.val k hk2, hv, hb]
    have hlt : n - 1 - k < M.val.length := by omega
    have := hd (n - 1 - k) hlt
    have e : M.val.getD (n - 1 - k) [] = M.val[n - 1 - k] := by
      rw [List.getD_eq_getElem?_getD, List.getElem?_eq_getElem hlt]
      rfl
    rw [e]
    exact this
  obtain ⟨z, t, hz, hzt, htl, hrow⟩ := upperRows_spec M.val.reverse b.reverse (b.length - 1) []
    (by simp [hv, hb])
    (by
      by_cases h0 : n = 0
      · right
        rw [List.reverse_eq_nil_iff]
        exact List.length_eq_zero.mp (by omega)
      · left
        simp only [List.length_reverse]
        omega)
    hpiv
  refine ⟨z, ?_, ?_, ?_⟩
  · unfold solveUpper
    rw [if_pos ⟨by omega, by omega, by omega⟩]
    exact hz
  · rw [hzt]
    simp only [List.append_nil, htl, List.length_reverse]
    omega
  · intro i hi
    have hk : b.length - 1 - i < M.val.reverse.length := by
      simp only [List.length_reverse]; omega
    have := hrow (b.length - 1 - i) hk
    have e1 : b.length - 1 - (b.length - 1 - i) = i := by omega
    have hk2 : b.length - 1 - i < M.val.length := by omega
    have hk3 : b.length - 1 - i < b.length := by omega
    rw [getD_reverse_rows M.val _ hk2, getD_reverse_vec b _ hk3, e1] at this
    have e2 : M.val.length - 1 - (b.length - 1 - i) = i := by omega
    rw [e2] at this
    rw [Finset.sum_Ico_eq_sum_range, ← this]
    have e3 : ([] : Vec).length + (b.length - 1 - i) + 1 = b.length - i := by
      simp only [List.length_nil]; omega
    rw [e3]
    rfl

theorem vec_ext_getD (y z : Vec) (hl : y.length = z.length)
    (h : ∀ i, i < y.length → y.getD i 0 = z.getD i 0) : y = z := by
  apply List.ext_getElem hl
  intro i h1 h2
  have := h i h1
  rw [List.getD_eq_getElem _ _ h1, List.getD_eq_getElem _ _ h2] at this
  exact this

/-- The system `L y = b` has one solution only. -/
theorem LowerSolution_unique (M : Mat) (b y z : Vec) (hy : LowerSolution M b y)
    (hz : LowerSolution M b z) : y = z := by
  have key : ∀ i, i < b.length → y.getD i 0 = z.getD i 0 := by
    intro i
    induction i using Nat.strong_induction_on with
    | _ i ih =>
        intro hi
        have e1 := hy.2 i hi
        have e2 := hz.2 i hi
        have hs : ∑ j in Finset.range i, M.entry i j * y.getD j 0 =
            ∑ j in Finset.range i, M.entry i j * z.getD j 0 :=
          Finset.sum_congr rfl (fun j hj => by
            have hj2 := Finset.mem_range.mp hj
            rw [ih j hj2 (by omega)])
        linarith
  exact vec_ext_getD y z (by rw [hy.1, hz.1]) (fun i hi => key i (by rw [← hy.1]; exact hi))

/-- With nonzero pivots the system `U z = b` has one solution only. -/
theorem UpperSolution_unique (M : Mat) (b y z : Vec) (hd : M.DiagNonzero)
    (hv : M.val.length = b.length) (hy : UpperSolution M b y) (hz : UpperSolution M b z) :
    y = z := by
  have key : ∀ k i, i < b.length → b.length - i ≤ k → y.getD i 0 = z.getD i 0 := by
    intro k
    induction k with
    | zero => intro i hi hk; omega
    | succ k ih =>
        intro i hi hk
        have e1 := hy.2 i hi
        have e2 := hz.2 i hi
        rw [Finset.sum_eq_sum_Ico_succ_bot hi] at e1 e2
        have hs : ∑ j in Finset.Ico (i + 1) b.length, M.entry i j * y.getD j 0 =
            ∑ j in Finset.Ico (i + 1) b.length, M.entry i j * z.getD j 0 :=
          Finset.sum_congr rfl (fun j hj => by
            have hj2 := Finset.mem_Ico.mp hj
            rw [ih j hj2.2 (by omega)])
        have hpiv : M.entry i i ≠ 0 := by
          have hlt : i < M.val.length := by omega
          have := hd i hlt
          unfold Mat.entry
          have e : M.val.getD i [] = M.val[i] := by
            rw [List.getD_eq_getElem?_getD, List.getElem?_eq_getElem hlt]
            rfl
          rw [e]
          exact this
        have : M.entry i i * (y.getD i 0 - z.getD i 0) = 0 := by linarith
        rcases mul_eq_zero.mp this with h0 | h0
        · exact absurd h0 hpiv
        · linarith
  exact vec_ext_getD y z (by rw [hy.1, hz.1])
    (fun i hi => key b.length i (by rw [← hy.1]; exact hi) (by omega))

theorem foldl_set_length (l : List (Nat × ℚ)) :
    ∀ (acc : Vec), (l.foldl (fun acc kv => acc.set kv.1 kv.2) acc).length = acc.length := by
  induction l with
  | nil => intro acc; rfl
  | cons a l ih =>
      intro acc
      rw [List.foldl_cons, ih]
      simp

/-- The product with a permutation matrix of the size of the vector is defined and has
the size of the vector. -/
theorem permApply_some (p : List Nat) (v : Vec) (n : Nat) (hp : PermOn p n)
    (hv : v.length = n) : ∃ w, permApply p v = some w ∧ w.length = n := by
  unfold permApply
  rw [if_pos ⟨by rw [hp.1, hv], fun k hk => by rw [hv]; exact hp.2 k hk⟩]
  exact ⟨_, rfl, by rw [foldl_set_length]; simp [zeros, hv]⟩

/-- C22: one sweep of the global incomplete-factorization smoother at a level whose
operator `A`, factor `lu = m_ILUT[l][0]` and permutations `p = m_P[l][0]`,
`pinv = m_Pinv[l][0]` have the size `n` of `x` and `rhs`, with nonzero pivots. The sweep
returns `x + e4`, where `e1 = Pinv (rhs - A x)`, `e2` is the one solution of `L e2 = e1`
with `L` the unit lower triangle of `lu`, `e3` is the one solution of `U e3 = e2` with `U`
the upper triangle of `lu`, and `e4 = P e3`. The sweep of `presmoothing` and the sweep of
`postsmoothing` (which passes the direction flag `typeSolver == 3`) both are this
update. -/
theorem ilut_sweep_is_permuted_triangular_solve {B S : Type} (env : Env B S) (s : Solver B S)
    (cfg : Config) (hp : List ℚ) (numLevels : Nat) (A lu : Mat) (p pinv : List Nat)
    (rhs x : Vec) (n : Nat)
    (hA : stdAt s.m_operator ((numLevels : Int) - 1) = some A) (hsq : A.SquareOf n)
    (hlu : (stdAt s.m_ILUT ((numLevels : Int) - 1)).bind (fun l => stdAt l 0) = some lu)
    (hP : (stdAt s.m_P ((numLevels : Int) - 1)).bind (fun l => stdAt l 0) = some p)
    (hPinv : (stdAt s.m_Pinv ((numLevels : Int) - 1)).bind (fun l => stdAt l 0) = some pinv)
    (hlusq : lu.SquareOf n) (hlud : lu.DiagNonzero) (hpp : PermOn p n) (hpi : PermOn pinv n)
    (hx : x.length = n) (hr : rhs.length = n) :
    ∃ Ax d e1 e2 e3 e4 x2,
      A.mulVec x = some Ax ∧ vsub rhs Ax = some d ∧ permApply pinv d = some e1 ∧
      LowerSolution lu e1 e2 ∧ (∀ y, LowerSolution lu e1 y → y = e2) ∧
      UpperSolution lu e2 e3 ∧ (∀ z, UpperSolution lu e2 z → z = e3) ∧
      permApply p e3 = some e4 ∧ vadd x e4 = some x2 ∧
      ilutSweep s numLevels rhs x = some x2 ∧
      (cfg.typeSmoother = 1 → gsInsteadOfFactor hp numLevels = some false →
        smoothSweep env s cfg hp numLevels false rhs x = some x2 ∧
        smoothSweep env s cfg hp numLevels (decide (cfg.typeSolver = 3)) rhs x = some x2) := by
  obtain ⟨hAr, hAc, hAv⟩ := hsq
  have hAx : A.mulVec x = some (A.val.map (fun r => dot r x)) := by
    unfold Mat.mulVec; rw [if_pos (by rw [hAc, hx])]
  have hd : vsub rhs (A.val.map (fun r => dot r x)) =
      some (List.zipWith (· - ·) rhs (A.val.map (fun r => dot r x))) := by
    unfold vsub; rw [if_pos (by simp [hAv, hr])]
  have hdl : (List.zipWith (· - ·) rhs (A.val.map (fun r => dot r x))).length = n := by
    simp [hAv, hr]
  obtain ⟨e1, he1, he1l⟩ := permApply_some pinv _ n hpi hdl
  have he2 : solveUnitLower lu e1 = some (unitLowerRows lu.val e1 []) := by
    unfold solveUnitLower
    rw [if_pos ⟨by rw [hlusq.1, hlusq.2.1], by rw [hlusq.2.1, he1l], by rw [hlusq.2.2, he1l]⟩]
  have hL := solveUnitLower_spec lu e1 _ he2
  have he2l : (unitLowerRows lu.val e1 []).length = n := by rw [hL.1, he1l]
  obtain ⟨e3, he3, hU⟩ := solveUpper_spec lu (unitLowerRows lu.val e1 []) n hlusq hlud he2l
  have he3l : e3.length = n := by rw [hU.1, he2l]
  obtain ⟨e4, he4, he4l⟩ := permApply_some p e3 n hpp he3l
  have hx2 : vadd x e4 = some (List.zipWith (· + ·) x e4) := by
    unfold vadd; rw [if_pos (by rw [hx, he4l])]
  have hsweep : ilutSweep s numLevels rhs x = some (List.zipWith (· + ·) x e4) := by
    simp only [ilutSweep, bind, hA, hAx, hd, hPinv, he1, hlu, he2, he3, hP, he4, hx2,
      Option.some_bind]
  refine ⟨_, _, e1, _, e3, e4, _, hAx, hd, he1, hL,
    fun y hy => LowerSolution_unique lu e1 y _ hy hL, hU,
    fun z hz => UpperSolution_unique lu _ z e3 hlud (by rw [hlusq.2.2, he2l]) hz hU,
    he4, hx2, hsweep, ?_⟩
  intro h1 hg
  have hs : ∀ reverse, smoothSweep env s cfg hp numLevels reverse rhs x =
      some (List.zipWith (· + ·) x e4) := by
    intro reverse
    unfold smoothSweep
    rw [if_pos h1]
    simp only [bind, hg, Option.some_bind]
    exact hsweep
  exact ⟨hs false, hs _⟩

/-- C22 on the fine level of `factorSolver`, whose factor is the exact LU factorization of
`tridiag(-1,2,-1)` with identity permutations: one sweep from `x = 0` for
`rhs = (1, 1)` gives the solution `(1, 1)`, through `L e2 = (1, 1)`, `e2 = (1, 3/2)` and
`U e3 = e2`, `e3 = (1, 1)`. -/
theorem ilut_sweep_is_permuted_triangular_solve_witness :
    ilutSweep factorSolver 2 [1, 1] [0, 0] = some [1, 1] ∧
    solveUnitLower ⟨2, 2, [[2, -1], [-1 / 2, 3 / 2]]⟩ [1, 1] = some [1, 3 / 2] ∧
    solveUpper ⟨2, 2, [[2, -1], [-1 / 2, 3 / 2]]⟩ [1, 3 / 2] = some [1, 1] ∧
    ∃ Ax d e1 e2 e3 e4 x2,
      Mat.mulVec ⟨2, 2, [[2, -1], [-1, 2]]⟩ [0, 0] = some Ax ∧ vsub [1, 1] Ax = some d ∧
      permApply [0, 1] d = some e1 ∧
      LowerSolution ⟨2, 2, [[2, -1], [-1 / 2, 3 / 2]]⟩ e1 e2 ∧
      (∀ y, LowerSolution ⟨2, 2, [[2, -1], [-1 / 2, 3 / 2]]⟩ e1 y → y = e2) ∧
      UpperSolution ⟨2, 2, [[2, -1], [-1 / 2, 3 / 2]]⟩ e2 e3 ∧
      (∀ z, UpperSolution ⟨2, 2, [[2, -1], [-1 / 2, 3 / 2]]⟩ e2 z → z = e3) ∧
      permApply [0, 1] e3 = some e4 ∧ vadd [0, 0] e4 = some x2 ∧
      ilutSweep factorSolver 2 [1, 1] [0, 0] = some x2 ∧
      (factorConfig.typeSmoother = 1 → gsInsteadOfFactor [0] 2 = some false →
        smoothSweep twoLevelEnv factorSolver factorConfig [0] 2 false [1, 1] [0, 0] = some x2 ∧
        smoothSweep twoLevelEnv factorSolver factorConfig [0] 2
          (decide (factorConfig.typeSolver = 3)) [1, 1] [0, 0] = some x2) :=
  ⟨by decide!, by decide!, by decide!,
    ilut_sweep_is_permuted_triangular_solve twoLevelEnv factorSolver factorConfig [0] 2
      ⟨2, 2, [[2, -1], [-1, 2]]⟩ ⟨2, 2, [[2, -1], [-1 / 2, 3 / 2]]⟩ [0, 1] [0, 1] [1, 1] [0, 0] 2
      (by decide!) ⟨rfl, rfl, rfl⟩ (by decide!) (by decide!) (by decide!) ⟨rfl, rfl, rfl⟩
      (by unfold Mat.DiagNonzero; decide!) ⟨rfl, by decide⟩ ⟨rfl, by decide⟩ rfl rfl⟩

/-! ## An exact solution is a fixed point of the cycle -/

theorem mulVec_zeros (A : Mat) (m : Nat) (h : A.cols = m) :
    A.mulVec (zeros m) = some (zeros A.val.length) := by
  unfold Mat.mulVec
  rw [if_pos (by rw [h, zeros_length])]
  congr 1
  have e : (fun r : List ℚ => dot r (zeros m)) = fun _ => 0 := funext (fun r => dot_zeros_right r m)
  rw [e]
  exact List.map_const' A.val 0

theorem lumpedScale_zeros (M : Vec) (h0 : (0 : ℚ) ∉ M) :
    lumpedScale M (zeros M.length) = some (zeros M.length) := by
  unfold lumpedScale
  rw [if_pos ⟨(zeros_length _).symm, h0⟩]
  congr 1
  clear h0
  induction M with
  | nil => rfl
  | cons m M ih =>
      simp only [List.length_cons, zeros_succ, List.zipWith_cons_cons, ih, mul_zero]

/-- The restriction of a zero fine vector is the zero coarse vector. -/
theorem restriction_zeros {B S : Type} (env : Env B S) (s : Solver B S) (cfg : Config)
    (hp : List ℚ) (l nFine nCoarse : Nat)
    (h : TransferReady env s cfg hp l nFine nCoarse) :
    restriction env s cfg hp l (zeros nFine) = some (zeros nCoarse) := by
  obtain ⟨t, ht, h01, hH, hP⟩ := h
  rcases h01 with h0 | h1
  · have hne : ¬ t = 1 := by rw [h0]; norm_num
    obtain ⟨R, P, hR, hRc, hRv, _, _, _, hlump, hmass⟩ := hP h0
    have hz := mulVec_zeros R nFine hRc
    rw [hRv] at hz
    by_cases hl : cfg.typeLumping = 1
    · obtain ⟨MR, MP, hMR, hMRl, hMR0, _, _, _⟩ := hlump hl
      simp only [restriction, bind, ht, Option.some_bind, if_neg hne, if_pos hl, hR, hz, hMR]
      have := lumpedScale_zeros MR hMR0
      rw [hMRl] at this
      exact this
    · obtain ⟨bL, bH, hbL, hbH, hmL, _⟩ := hmass hl
      simp only [restriction, bind, ht, Option.some_bind, if_neg hne, if_neg hl, hR, hz, hbL,
        hbH, hmL]
  · obtain ⟨R, P, hR, hRc, hRv, _, _, _⟩ := hH h1
    have hz := mulVec_zeros R nFine hRc
    rw [hRv] at hz
    simp only [restriction, bind, ht, Option.some_bind, if_pos h1, hR, hz]

/-- The prolongation of a zero coarse vector is the zero fine vector. -/
theorem prolongation_zeros {B S : Type} (env : Env B S) (s : Solver B S) (cfg : Config)
    (hp : List ℚ) (l nFine nCoarse : Nat)
    (h : TransferReady env s cfg hp l nFine nCoarse) :
    prolongation env s cfg hp l (zeros nCoarse) = some (zeros nFine) := by
  obtain ⟨t, ht, h01, hH, hP⟩ := h
  rcases h01 with h0 | h1
  · have hne : ¬ t = 1 := by rw [h0]; norm_num
    obtain ⟨R, P, _, _, _, hPr, hPc, hPv, hlump, hmass⟩ := hP h0
    have hz := mulVec_zeros P nCoarse hPc
    rw [hPv] at hz
    by_cases hl : cfg.typeLumping = 1
    · obtain ⟨MR, MP, _, _, _, hMP, hMPl, hMP0⟩ := hlump hl
      simp only [prolongation, bind, ht, Option.some_bind, if_neg hne, if_pos hl, hPr, hz, hMP]
      have := lumpedScale_zeros MP hMP0
      rw [hMPl] at this
      exact this
    · obtain ⟨bL, bH, hbL, hbH, _, hmH⟩ := hmass hl
      simp only [prolongation, bind, ht, Option.some_bind, if_neg hne, if_neg hl, hPr, hz, hbL,
        hbH, hmH]
  · obtain ⟨R, P, _, _, _, hPr, hPc, hPv⟩ := hH h1
    have hz := mulVec_zeros P nCoarse hPc
    rw [hPv] at hz
    simp only [prolongation, bind, ht, Option.some_bind, if_pos h1, hPr, hz]

/-- Repeating a call that returns the vector it is given returns that vector. -/
theorem repeatCycle_fixed (f : Vec → Option (Vec × List Event)) (c : Vec)
    (hf : ∃ l, f c = some (c, l)) :
    ∀ (k : Nat), ∃ log, repeatCycle f k c = some (c, log) := by
  obtain ⟨l, hl⟩ := hf
  intro k
  induction k with
  | zero => exact ⟨[], rfl⟩
  | succ k ih =>
      obtain ⟨log, hlog⟩ := ih
      refine ⟨l ++ log, ?_⟩
      show (f c).bind (fun r => (repeatCycle f k r.1).map (fun r2 => (r2.1, r.2 ++ r2.2))) = _
      rw [hl, Option.some_bind, hlog]
      rfl

/-- On an exact solution the smoothing methods change nothing: `presmoothing` returns `x`
with a zero residual and `postsmoothing` with a zero correction returns `x`. -/
theorem smoothing_fixed {B S : Type} (env : Env B S) (s : Solver B S)
    (cfg : Config) (hp : List ℚ) (numLevels : Nat) (A : Mat) (rhs x : Vec) (n : Nat)
    (hA : stdAt s.m_operator ((numLevels : Int) - 1) = some A)
    (hsol : A.mulVec x = some rhs)
    (hts : cfg.typeSmoother = 1 ∨ cfg.typeSmoother = 2 ∨ cfg.typeSmoother = 5)
    (hready : SmootherReady s cfg hp numLevels A n) :
    presmoothing env s cfg hp numLevels rhs x = some (x, zeros rhs.length)
    ∧ postsmoothing env s cfg hp numLevels rhs x (zeros x.length) = some x := by
  have hsw : ∀ reverse, smoothSweep env s cfg hp numLevels reverse rhs x = some x :=
    fun reverse => smoothSweep_fixed env s cfg hp numLevels reverse A rhs x n hA hsol hts hready
  have hpost : postSweep env s cfg hp numLevels rhs x = some x := by
    simp only [postSweep, hsw, hA, hsol, vsub_self, Option.bind_eq_bind, Option.some_bind,
      Option.pure_def]
  constructor
  · simp only [presmoothing, hA, hsol, vsub_self, Option.bind_eq_bind, Option.some_bind,
      iterM_fixed _ x (hsw false), Option.pure_def]
  · simp only [postsmoothing, vsub_one_mul_zeros, hA, hsol, vsub_self, Option.bind_eq_bind,
      Option.some_bind, iterM_fixed _ x hpost]

/-- The guarded block of a level on an exact solution, given that the level below returns
the zero vector for a zero right-hand side. -/
theorem cycleBlock_fixed {B S : Type} (env : Env B S) (s : Solver B S) (cfg : Config)
    (hp : List ℚ) (l mult nFine nCoarse : Nat) (rec : Vec → Vec → Option (Vec × List Event))
    (A : Mat) (rhs x : Vec)
    (hA : stdAt s.m_operator ((l : Int) - 1) = some A)
    (hsol : A.mulVec x = some rhs)
    (hts : cfg.typeSmoother = 1 ∨ cfg.typeSmoother = 2 ∨ cfg.typeSmoother = 5)
    (hsm : SmootherReady s cfg hp l A nFine)
    (htr : TransferReady env s cfg hp l nFine nCoarse)
    (hrec : ∃ log, rec (zeros nCoarse) (zeros nCoarse) = some (zeros nCoarse, log)) :
    ∃ log, cycleBlock env s cfg hp l mult rec rhs x = some (x, log) := by
  obtain ⟨hpre, hpost⟩ := smoothing_fixed env s cfg hp l A rhs x nFine hA hsol hts hsm
  have hrl : rhs.length = nFine := by rw [mulVec_length hsol]; exact hsm.1.2.2
  have hxl : x.length = nFine := by rw [← mulVec_cols hsol]; exact hsm.1.2.1
  rw [hrl] at hpre
  rw [hxl] at hpost
  have hres := restriction_zeros env s cfg hp l nFine nCoarse htr
  have hpro := prolongation_zeros env s cfg hp l nFine nCoarse htr
  obtain ⟨lg, hlg⟩ := repeatCycle_fixed (rec (zeros nCoarse)) (zeros nCoarse) hrec mult
  refine ⟨[Event.presmoothing l, Event.restriction l] ++ lg ++
    [Event.prolongation l, Event.postsmoothing l], ?_⟩
  simp only [cycleBlock, bind, pure, hpre, hres, zeros_length, hlg, hpro, hpost,
    Option.some_bind]

theorem solve_fixed {B S : Type} (env : Env B S) (s : Solver B S) (cfg : Config)
    (hp : List ℚ) (sizes : Nat → Nat)
    (hts : cfg.typeSmoother = 1 ∨ cfg.typeSmoother = 2 ∨ cfg.typeSmoother = 5) :
    ∀ (n : Nat), CycleReady env s cfg hp sizes (n + 1) →
      ∀ (A : Mat) (rhs x : Vec), stdAt s.m_operator (((n + 1 : Nat) : Int) - 1) = some A →
        A.mulVec x = some rhs →
        ∃ log, gsXBraidMultigridBase.solve env s cfg hp (n + 1) rhs x = some (x, log) := by
  intro n
  induction n with
  | zero =>
      intro hready A rhs x hA hsol
      obtain ⟨⟨A0, hA0, _, _, hexact⟩, _⟩ := hready
      have e : stdAt s.m_operator (((0 + 1 : Nat) : Int) - 1) = stdAt s.m_operator 0 := rfl
      rw [e, hA0] at hA
      have hAA : A0 = A := Option.some.inj hA
      subst hAA
      refine ⟨[Event.solvecoarse], ?_⟩
      show (solvecoarse env s rhs).map (fun y => (y, [Event.solvecoarse])) = _
      unfold solvecoarse
      rw [hA0, Option.some_bind, hexact x rhs hsol]
      rfl
  | succ n ih =>
      intro hready A rhs x hA hsol
      have hlow : CycleReady env s cfg hp sizes (n + 1) :=
        ⟨hready.1, fun l h2 hl => hready.2 l h2 (by omega)⟩
      obtain ⟨⟨A2, hA2, hsm⟩, htr⟩ := hready.2 (n + 2) (by omega) (by omega)
      rw [hA] at hA2
      have hAA : A = A2 := Option.some.inj hA2
      subst hAA
      have hsz : n + 2 - 1 = n + 1 := by omega
      rw [hsz] at htr
      -- the level below maps a zero right-hand side and a zero start to zero
      have hrec : ∃ log, gsXBraidMultigridBase.solve env s cfg hp (n + 1)
          (zeros (sizes (n + 1))) (zeros (sizes (n + 1))) = some (zeros (sizes (n + 1)), log) := by
        have hop : ∃ A1, stdAt s.m_operator (((n + 1 : Nat) : Int) - 1) = some A1 ∧
            A1.cols = sizes (n + 1) ∧ A1.val.length = sizes (n + 1) := by
          cases n with
          | zero =>
              obtain ⟨A0, hA0, hc, hv, _⟩ := hready.1
              exact ⟨A0, hA0, hc, hv⟩
          | succ m =>
              obtain ⟨⟨A1, hA1, hsm1⟩, _⟩ := hlow.2 (m + 2) (by omega) (by omega)
              exact ⟨A1, hA1, hsm1.1.2.1, hsm1.1.2.2⟩
        obtain ⟨A1, hA1, hc1, hv1⟩ := hop
        have hz := mulVec_zeros A1 (sizes (n + 1)) hc1
        rw [hv1] at hz
        exact ih hlow A1 _ _ hA1 hz
      obtain ⟨t, ht, h01, _, _⟩ := id htr
      have ht2 : hp[n]? = some t := by rw [← hpAt_add_two_sub_two]; exact ht
      have hblock : ∀ mult, ∃ log, cycleBlock env s cfg hp (n + 2) mult
          (gsXBraidMultigridBase.solve env s cfg hp (n + 1)) rhs x = some (x, log) :=
        fun mult => cycleBlock_fixed env s cfg hp (n + 2) mult (sizes (n + 2)) (sizes (n + 1))
          _ A rhs x hA hsol hts hsm htr hrec
      show ∃ log, gsXBraidMultigridBase.solve env s cfg hp (n + 2) rhs x = some (x, log)
      rw [solve_add_two, hpAt_max_add_two, ht2, Option.some_bind]
      rcases h01 with h0 | h1
      · have hne : ¬ t = 1 := by rw [h0]; norm_num
        obtain ⟨log, hlog⟩ := hblock (if cfg.typeCycle_p = 2 then 2 else 1)
        rw [if_pos h0, hlog, Option.some_bind, if_neg hne]
        exact ⟨log ++ [], rfl⟩
      · have hne : ¬ t = 0 := by rw [h1]; norm_num
        obtain ⟨log, hlog⟩ := hblock (if cfg.typeCycle_h = 2 then 2 else 1)
        rw [if_neg hne, Option.some_bind, if_pos h1, hlog]
        exact ⟨[] ++ log, rfl⟩

/-- C25: an exact solution is a fixed point of the whole cycle. For every
`numLevels >= 1`, every schedule of tags 0 and 1, every cycle type, every `numSmoothing`
and `typeSmoother` 1, 2 or 5, on a hierarchy whose levels carry the state the cycle reads
and whose coarse solver returns the solution of its system: if
`m_operator[numLevels-1] * x = rhs`, then `gsXBraidMultigridBase::solve` returns `x`. -/
theorem exact_solution_is_fixed_point_of_cycle {B S : Type} (env : Env B S) (s : Solver B S)
    (cfg : Config) (hp : List ℚ) (sizes : Nat → Nat) (numLevels : Nat) (A : Mat)
    (rhs x : Vec)
    (hN : 1 ≤ numLevels)
    (hts : cfg.typeSmoother = 1 ∨ cfg.typeSmoother = 2 ∨ cfg.typeSmoother = 5)
    (hready : CycleReady env s cfg hp sizes numLevels)
    (hA : stdAt s.m_operator ((numLevels : Int) - 1) = some A)
    (hsol : A.mulVec x = some rhs) :
    ∃ log, gsXBraidMultigridBase.solve env s cfg hp numLevels rhs x = some (x, log) := by
  obtain ⟨n, rfl⟩ : ∃ n, numLevels = n + 1 := ⟨numLevels - 1, by omega⟩
  exact solve_fixed env s cfg hp sizes hts n hready A rhs x hA hsol

/-- C25 on the three-level one-unknown model problem with a P-COARSEN transition below an
H-COARSEN transition, Gauss-Seidel smoothing and a W-cycle in p: from the exact solution
`x = 7` of `x = rhs = 7` the cycle returns 7. -/
theorem exact_solution_is_fixed_point_of_cycle_witness :
    (gsXBraidMultigridBase.solve unitEnv unitSolver unitConfig [0, 1] 3 [7] [7]).map Prod.fst =
      some [7] ∧
    ∃ log, gsXBraidMultigridBase.solve unitEnv unitSolver unitConfig [0, 1] 3 [7] [7] =
      some ([7], log) :=
  ⟨by decide!,
    exact_solution_is_fixed_point_of_cycle unitEnv unitSolver unitConfig [0, 1] (fun _ => 1) 3
      unitMat [7] [7] (by decide) (Or.inr (Or.inl rfl))
      ⟨⟨unitMat, by decide!, rfl, rfl, by
          intro y b h
          unfold Mat.mulVec at h
          split at h
          · rename_i hc
            simp only [Option.some.injEq] at h
            subst h
            match y, hc with
            | [y0], _ => simp [unitEnv, unitMat, dot]
          · simp at h⟩,
        by
          intro l h2 h3
          have hl : l = 2 ∨ l = 3 := by omega
          rcases hl with rfl | rfl
          · exact ⟨⟨unitMat, by decide!, ⟨rfl, rfl, rfl⟩,
                fun _ => by unfold Mat.DiagNonzero; decide!,
                fun h => absurd h (by decide), fun h => absurd h (by decide)⟩,
              ⟨0, by decide!, Or.inl rfl, fun h => absurd h (by norm_num),
                fun _ => ⟨unitMat, unitMat, by decide!, rfl, rfl, by decide!, rfl, rfl,
                  fun _ => ⟨[1], [1], by decide!, rfl, by decide!, by decide!, rfl, by decide!⟩,
                  fun h => absurd rfl h⟩⟩⟩
          · exact ⟨⟨unitMat, by decide!, ⟨rfl, rfl, rfl⟩,
                fun _ => by unfold Mat.DiagNonzero; decide!,
                fun h => absurd h (by decide), fun h => absurd h (by decide)⟩,
              ⟨1, by decide!, Or.inr rfl,
                fun _ => ⟨unitMat, unitMat, by decide!, rfl, rfl, by decide!, rfl, rfl⟩,
                fun h => absurd h (by norm_num)⟩⟩⟩
      (by decide!) (by decide!)⟩

end gismo
